import Mathlib

/-!
# SmartYoga mini-program: retry executor and upload manager

A shallow embedding of `utils/retry.js`, of `utils/upload-manager.js`, of
`processFrameScores` in `utils/yoga-api.js` and of the pose transitions
`nextPose` and `previousPose` in `utils/sequence-service.js`.

* JavaScript numbers that hold delays, scores, progress and the limits
  `maxConcurrent` and `concurrency` are rationals (`ℚ`); counters are `Nat` or
  `Int`.  The sum and the quotient of `processFrameScores` are binary64
  operations (`binary64`: round to nearest, ties to even); the other arithmetic
  is exact.
* An `async` function is a state transformer over the world it runs in; the
  settlement of the promise it returns is a `Settled` value.  A thrown value is
  an error object, of which the fields the code reads are kept.
* An `UploadManager` is a state; its methods, and the callbacks of the uploads
  and timers it starts, are steps on that state.  Listeners are recorded as
  notifications; they do not call back into the manager.
* `Array.prototype.sort` is a stable sort (ECMAScript 2019).
* In a batch the frames are submitted in one synchronous pass; afterwards the
  uploads that are running end one at a time, in an order the environment
  chooses.  Progress events and cleanup timers are left out of a batch: its
  listener ignores the events they raise.
* In `batchRetry` every function is an operation of its own, given by how its
  invocations settle; the functions of a chunk end in an order the environment
  chooses.
* A call that may throw returns a `Completion`: the value, or the name of the
  error thrown.
* Console output and wall-clock reads (`Date.now()`) are not part of the model.
-/

namespace SmartYoga

/-! ## utils/retry.js -/

/-- The fields of a thrown error object that the retry layer reads
(`error.type`, `error.code`, `error.wasAborted`, `error.retryable`). -/
structure AttemptError where
  type : Option String := none
  code : Option String := none
  wasAborted : Bool := false
  retryable : Option Bool := none
  message : String := ""
  deriving DecidableEq, Repr

/-- How an awaited promise settles: `await` either yields a value or throws. -/
inductive Settled (α : Type) where
  | resolved (value : α)
  | rejected (error : AttemptError)
  deriving DecidableEq, Repr

namespace ErrorTypes

def NETWORK : String := "NETWORK"
def SERVER : String := "SERVER"
def TIMEOUT : String := "TIMEOUT"
def USER_ABORT : String := "USER_ABORT"
def QUOTA_EXCEEDED : String := "QUOTA_EXCEEDED"
def INVALID_PARAMS : String := "INVALID_PARAMS"

end ErrorTypes

/-- The options object of `retryWithBackoff` after destructuring: a field left
out takes the default written in the source (`maxRetries = 3`, `baseDelay = 1000`,
`maxDelay = 10000`, `backoffFactor = 2`, `retryCondition = () => true`,
`onRetry = null`, `jitter = true`).  The callbacks run in a world of type `σ`. -/
structure RetryOptions (σ : Type) where
  maxRetries : Nat := 3
  baseDelay : ℚ := 1000
  maxDelay : ℚ := 10000
  backoffFactor : ℚ := 2
  retryCondition : σ → AttemptError → Bool := fun _ _ => true
  onRetry : Option (Nat → AttemptError → ℚ → σ → σ) := none
  jitter : Bool := true

/-- JavaScript `Array.prototype.includes` on an optional string field. -/
def includesField (xs : List String) (field : Option String) : Bool :=
  match field with
  | some c => xs.contains c
  | none => false

namespace RetryStrategies

/-- The `retryCondition` of `RetryStrategies.NETWORK`. -/
def networkCondition (error : AttemptError) : Bool :=
  includesField [ErrorTypes.NETWORK, ErrorTypes.TIMEOUT, ErrorTypes.SERVER] error.type ||
    includesField ["NETWORK_ERROR", "TIMEOUT", "HTTP_ERROR"] error.code

/-- The `retryCondition` of `RetryStrategies.UPLOAD`. -/
def uploadCondition (error : AttemptError) : Bool :=
  if error.wasAborted || error.code == some "USER_ABORT" then false
  else includesField ["UPLOAD_FAILED", "HTTP_ERROR", "NETWORK_ERROR"] error.code

/-- The `retryCondition` of `RetryStrategies.FAST`: `error.retryable !== false`. -/
def fastCondition (error : AttemptError) : Bool :=
  error.retryable != some false

/-- The preset `RetryStrategies.NETWORK`. -/
def NETWORK {σ : Type} : RetryOptions σ where
  maxRetries := 3
  baseDelay := 1000
  maxDelay := 10000
  backoffFactor := 2
  retryCondition := fun _ error => networkCondition error

/-- The preset `RetryStrategies.UPLOAD`. -/
def UPLOAD {σ : Type} : RetryOptions σ where
  maxRetries := 2
  baseDelay := 2000
  maxDelay := 15000
  backoffFactor := 5 / 2
  retryCondition := fun _ error => uploadCondition error

/-- The preset `RetryStrategies.FAST`. -/
def FAST {σ : Type} : RetryOptions σ where
  maxRetries := 2
  baseDelay := 500
  maxDelay := 2000
  backoffFactor := 2
  retryCondition := fun _ error => fastCondition error

/-- Lookup `RetryStrategies[name]`: `none` is JavaScript `undefined`. -/
def get? {σ : Type} (name : String) : Option (RetryOptions σ) :=
  if name = "NETWORK" then some NETWORK
  else if name = "UPLOAD" then some UPLOAD
  else if name = "FAST" then some FAST
  else none

end RetryStrategies

/-- The first lines of `retryWithBackoff`: a string names a preset, with
`RetryStrategies.NETWORK` as the fallback. -/
def resolveOptions {σ : Type} (options : String ⊕ RetryOptions σ) : RetryOptions σ :=
  match options with
  | .inl name => (RetryStrategies.get? name.toUpper).getD RetryStrategies.NETWORK
  | .inr o => o

/-- What `retryWithBackoff` does, in order: it awaits `fn()`, calls `onRetry`
and awaits `sleep(delay)`. -/
inductive RetryEvent (α : Type) where
  | invoked (attempt : Nat) (outcome : Settled α)
  | onRetry (attemptNo : Nat) (error : AttemptError) (delay : ℚ)
  | slept (delay : ℚ)
  deriving DecidableEq, Repr

/-- The event is an invocation of the operation. -/
def RetryEvent.isInvoked {α : Type} : RetryEvent α → Bool
  | .invoked _ _ => true
  | _ => false

/-- The arguments of a call of `onRetry`. -/
def RetryEvent.retryCall? {α : Type} : RetryEvent α → Option (Nat × AttemptError × ℚ)
  | .onRetry n e d => some (n, e, d)
  | _ => none

/-- The delay of a wait. -/
def RetryEvent.delay? {α : Type} : RetryEvent α → Option ℚ
  | .slept d => some d
  | _ => none

/-- The settlement of the promise returned by `retryWithBackoff`, what it did on
the way, and the world it leaves. -/
structure Run (σ α : Type) where
  result : Settled α
  trace : List (RetryEvent α)
  world : σ

/-- Lines 107-117: the delay after failed attempt `attempt`; `r` is the value
`Math.random()` returns, drawn only when `jitter` is on. -/
def computeDelay {σ : Type} (o : RetryOptions σ) (attempt : Nat) (r : ℚ) : ℚ :=
  let delay := min (o.baseDelay * o.backoffFactor ^ attempt) o.maxDelay
  if o.jitter then
    let jitterAmount := delay * (1 / 4)
    max (delay + (r - 1 / 2) * 2 * jitterAmount) (o.baseDelay * (1 / 2))
  else delay

/-- The guarded call `if (onRetry) onRetry(attempt + 1, error, delay)` as a
change of the world. -/
def RetryOptions.callOnRetry {σ : Type} (o : RetryOptions σ) (attemptNo : Nat)
    (error : AttemptError) (delay : ℚ) (w : σ) : σ :=
  match o.onRetry with
  | some cb => cb attemptNo error delay w
  | none => w

/-- One pass through the body of the `for` loop. -/
structure Iteration (σ α : Type) where
  outcome : Settled α
  events : List (RetryEvent α)
  world : σ
  /-- True when the body reached `await sleep(delay)`, so that the loop goes
  on to `attempt++`; false when it left by `return result` or `throw error`. -/
  again : Bool

/-- The body of the `for` loop of `retryWithBackoff` at index `attempt`. -/
def retryBody {σ α : Type} (o : RetryOptions σ) (fn : σ → Settled α × σ)
    (sleep : ℚ → σ → σ) (rnd : Nat → ℚ) (attempt : Nat) (w : σ) : Iteration σ α :=
  match fn w with
  | (.resolved v, w1) => ⟨.resolved v, [.invoked attempt (.resolved v)], w1, false⟩
  | (.rejected error, w1) =>
    if attempt = o.maxRetries || !o.retryCondition w1 error then
      ⟨.rejected error, [.invoked attempt (.rejected error)], w1, false⟩
    else
      let delay := computeDelay o attempt (rnd attempt)
      match o.onRetry with
      | some cb =>
        ⟨.rejected error,
          [.invoked attempt (.rejected error), .onRetry (attempt + 1) error delay, .slept delay],
          sleep delay (cb (attempt + 1) error delay w1), true⟩
      | none =>
        ⟨.rejected error, [.invoked attempt (.rejected error), .slept delay],
          sleep delay w1, true⟩

/-- The loop `for (attempt = 0; attempt <= maxRetries; attempt++)` with
`remaining = maxRetries - attempt` passes left after this one.  When the loop
condition fails after a pass that asked for another, the function ends in
`throw lastError`, the error of that pass. -/
def retryLoop {σ α : Type} (o : RetryOptions σ) (fn : σ → Settled α × σ)
    (sleep : ℚ → σ → σ) (rnd : Nat → ℚ) : Nat → Nat → σ → Run σ α
  | 0, attempt, w =>
    let it := retryBody o fn sleep rnd attempt w
    ⟨it.outcome, it.events, it.world⟩
  | remaining + 1, attempt, w =>
    let it := retryBody o fn sleep rnd attempt w
    if it.again then
      let r := retryLoop o fn sleep rnd remaining (attempt + 1) it.world
      ⟨r.result, it.events ++ r.trace, r.world⟩
    else ⟨it.outcome, it.events, it.world⟩

/-- The function `retryWithBackoff(fn, options)`.  The operation `fn` maps the
world at its call to its settlement and the world at that settlement; `sleep d`
is what happens to the world while the executor waits `d` milliseconds; `rnd i`
is the random draw of pass `i`. -/
def retryWithBackoff {σ α : Type} (fn : σ → Settled α × σ) (o : RetryOptions σ)
    (sleep : ℚ → σ → σ) (rnd : Nat → ℚ) (w : σ) : Run σ α :=
  retryLoop o fn sleep rnd o.maxRetries 0 w

namespace Run

variable {σ α : Type}

/-- Number of times the operation was invoked. -/
def calls (r : Run σ α) : Nat :=
  r.trace.countP RetryEvent.isInvoked

/-- The calls of `onRetry`, in order. -/
def onRetryCalls (r : Run σ α) : List (Nat × AttemptError × ℚ) :=
  r.trace.filterMap RetryEvent.retryCall?

/-- The delays waited, in order. -/
def sleeps (r : Run σ α) : List ℚ :=
  r.trace.filterMap RetryEvent.delay?

end Run

/-- Options whose callbacks neither read nor change the world, placed in a
world of type `σ`. -/
def liftOptions {σ : Type} (options : RetryOptions Unit) : RetryOptions σ where
  maxRetries := options.maxRetries
  baseDelay := options.baseDelay
  maxDelay := options.maxDelay
  backoffFactor := options.backoffFactor
  retryCondition := fun _ error => options.retryCondition () error
  onRetry := options.onRetry.map fun _ => fun _ _ _ w => w
  jitter := options.jitter

/-- An operation whose `n`-th invocation (from 0) settles as `script n`; the
world counts the invocations. -/
def scriptedFn {α : Type} (script : Nat → Settled α) : Nat → Settled α × Nat :=
  fun n => (script n, n + 1)

/-- The run of `retryWithBackoff` on a scripted operation, nothing else
touching the world. -/
def retryScript {α : Type} (script : Nat → Settled α) (options : RetryOptions Unit)
    (rnd : Nat → ℚ) : Run Nat α :=
  retryWithBackoff (scriptedFn script) (liftOptions options) (fun _ w => w) rnd 0

/-- The events of a pass that ends in a wait. -/
def passEvents {α : Type} (o : RetryOptions Unit) (rnd : Nat → ℚ) (a : Nat) (e : AttemptError) :
    List (RetryEvent α) :=
  match o.onRetry with
  | some _ =>
    [.invoked a (.rejected e),
      .onRetry (a + 1) e (computeDelay (liftOptions (σ := Nat) o) a (rnd a)),
      .slept (computeDelay (liftOptions (σ := Nat) o) a (rnd a))]
  | none =>
    [.invoked a (.rejected e), .slept (computeDelay (liftOptions (σ := Nat) o) a (rnd a))]

/-! ### cancellableRetry -/

/-- The variables a call of `cancellableRetry` closes over, with two counters
that record what has happened. -/
structure CancelState where
  cancelled : Bool := false
  /-- Whether `currentController` holds the object whose `abort` is `cancel`. -/
  currentController : Bool := false
  /-- Times the wrapper handed to `retryWithBackoff` has been entered. -/
  attempts : Nat := 0
  /-- Invocations of the wrapped operation `fn`. -/
  fnCalls : Nat := 0
  deriving DecidableEq, Repr

/-- The closure `cancel`: it sets `cancelled` and, when `currentController` is
set, calls `currentController.abort`, which is `cancel` itself.  `depth` is the
number of stack frames left; the flag tells whether the call returned (false:
the stack ran out and the call threw). -/
def cancel : Nat → CancelState → CancelState × Bool
  | 0, s => (s, false)
  | depth + 1, s =>
    let s1 := { s with cancelled := true }
    if s1.currentController then cancel depth s1 else (s1, true)

/-- The error the wrapper throws once `cancelled` is set. -/
def abortError : AttemptError where
  type := some ErrorTypes.USER_ABORT
  code := some "USER_ABORT"
  wasAborted := true
  message := "Cancelled"

/-- When the holder of the handle invokes `cancel`: while invocation `i` of the
operation is in flight, or during the wait that follows failed attempt `i`. -/
structure CancelSchedule where
  duringAttempt : Nat → Bool := fun _ => false
  duringWait : Nat → Bool := fun _ => false
  /-- Stack frames available to an invocation of `cancel`. -/
  stack : Nat := 1000

/-- The async wrapper `cancellableRetry` hands to `retryWithBackoff`; `fn i`
is how invocation `i` of the operation settles and `fnLength` is `fn.length`. -/
def cancellableFn {α : Type} (fn : Nat → Settled α) (fnLength : Nat) (sched : CancelSchedule)
    (w : CancelState) : Settled α × CancelState :=
  let w0 := { w with attempts := w.attempts + 1 }
  if w.cancelled then (.rejected abortError, w0)
  else
    let w1 := if 0 < fnLength then { w0 with currentController := true } else w0
    let w2 := { w1 with fnCalls := w1.fnCalls + 1 }
    (fn w.fnCalls, if sched.duringAttempt w.attempts then (cancel sched.stack w2).1 else w2)

/-- The world during `sleep(delay)` inside `cancellableRetry`: the handle may
be invoked. -/
def cancellableSleep (sched : CancelSchedule) (_delay : ℚ) (w : CancelState) : CancelState :=
  if sched.duringWait (w.attempts - 1) then (cancel sched.stack w).1 else w

/-- The options `cancellableRetry` passes on: the caller's, with
`retryCondition` replaced by one that first checks `cancelled` and
`error.wasAborted`. -/
def cancellableOptions (options : RetryOptions Unit) : RetryOptions CancelState :=
  { liftOptions options with
    retryCondition := fun w error =>
      if w.cancelled || error.wasAborted then false else options.retryCondition () error }

/-- The promise of `cancellableRetry(fn, options)`, with the handle invoked as
`sched` says. -/
def cancellableRetry {α : Type} (fn : Nat → Settled α) (fnLength : Nat)
    (options : RetryOptions Unit) (sched : CancelSchedule) (rnd : Nat → ℚ) : Run CancelState α :=
  retryWithBackoff (cancellableFn fn fnLength sched) (cancellableOptions options)
    (cancellableSleep sched) rnd {}

/-! ## utils/upload-manager.js -/

/-- The enumeration `TaskStatus`. -/
inductive TaskStatus where
  | PENDING
  | UPLOADING
  | PROCESSING
  | COMPLETED
  | FAILED
  | CANCELLED
  deriving DecidableEq, Repr

/-- The statuses `_scheduleCleanup` treats as final. -/
def TaskStatus.isTerminal : TaskStatus → Bool
  | .COMPLETED => true
  | .FAILED => true
  | .CANCELLED => true
  | _ => false

/-- A task id, as supplied by the caller of `addTask`. -/
abbrev TaskId := String

/-- The value the promise of `uploadAndScore` resolves with. -/
structure UploadOutcome where
  score : ℚ := 0
  code : String := "SUCCESS"
  wasAborted : Bool := false
  deriving DecidableEq, Repr

/-- The record `addTask` creates; `wxTask` and `cancelFn` tell whether the
field has been set, and `seq` is the number of `addTask` calls made before the
one that created the record (the record itself carries `startTime`). -/
structure UploadTaskInfo where
  taskId : TaskId
  filePath : String
  poseId : String
  status : TaskStatus
  progress : ℚ
  priority : Int
  skipRetry : Bool
  result : Option UploadOutcome
  error : Option AttemptError
  wxTask : Bool
  cancelFn : Bool
  seq : Nat
  deriving DecidableEq, Repr

/-- The `updates` argument of `updateTaskStatus`. -/
structure Updates where
  progress : Option ℚ := none
  result : Option UploadOutcome := none
  error : Option AttemptError := none
  deriving DecidableEq, Repr

/-- The call `Object.assign(taskInfo, updates)`. -/
def Updates.assign (u : Updates) (info : UploadTaskInfo) : UploadTaskInfo :=
  { info with
    progress := u.progress.getD info.progress
    result := match u.result with
      | some r => some r
      | none => info.result
    error := match u.error with
      | some e => some e
      | none => info.error }

/-- One call of every registered listener. -/
structure Notification where
  taskId : TaskId
  taskInfo : Option UploadTaskInfo
  eventType : String
  oldStatus : Option TaskStatus := none
  retryAttempt : Option Nat := none
  deriving DecidableEq, Repr

/-- A JavaScript `Map` keyed by task id, in insertion order. -/
abbrev TaskMap := List (TaskId × UploadTaskInfo)

namespace TaskMap

/-- The call `tasks.get(id)`; `none` is `undefined`. -/
def get : TaskMap → TaskId → Option UploadTaskInfo
  | [], _ => none
  | (k, v) :: rest, id => if k = id then some v else get rest id

/-- The call `tasks.set(id, v)`: a key already present keeps its place. -/
def set : TaskMap → TaskId → UploadTaskInfo → TaskMap
  | [], id, v => [(id, v)]
  | (k, x) :: rest, id, v => if k = id then (k, v) :: rest else (k, x) :: set rest id v

/-- The call `tasks.delete(id)`. -/
def delete (m : TaskMap) (id : TaskId) : TaskMap :=
  m.filter fun entry => entry.1 ≠ id

/-- The call `Array.from(tasks.keys())`. -/
def keys (m : TaskMap) : List TaskId :=
  m.map Prod.fst

end TaskMap

/-- An `UploadManager` instance: its configuration, its fields `tasks`,
`activeCount` and `queue` (an item of the queue is named by its `taskId`; its
`execute` is `_executeTask(taskId)` and its `resolve`/`reject` settle the promise
`addTask` returned), and a record of what it has set going. -/
structure UploadManager where
  maxConcurrent : ℚ := 3
  autoCleanMs : ℚ := 10000
  enableRetry : Bool := true
  retryStrategy : String := "UPLOAD"
  tasks : TaskMap := []
  activeCount : Int := 0
  queue : List TaskId := []
  /-- Calls of `_executeTask` suspended at their `await`. -/
  running : List TaskId := []
  /-- Calls of `notifyListeners`, oldest first. -/
  notifications : List Notification := []
  /-- Timers set by `_scheduleCleanup` that have not fired. -/
  cleanupTimers : List TaskId := []
  /-- Promises returned by `addTask` that have settled, with their settlement
  (`none` is `null`). -/
  settled : List (TaskId × Settled (Option UploadOutcome)) := []
  /-- Tasks whose `wxTask.abort()` or `cancelFn()` has been called. -/
  aborted : List TaskId := []
  /-- Number of `addTask` calls so far. -/
  submitted : Nat := 0
  deriving DecidableEq, Repr

namespace UploadManager

/-- The method `notifyListeners`: every listener is called with `n`; what a
listener throws is caught. -/
def notifyListeners (m : UploadManager) (n : Notification) : UploadManager :=
  { m with notifications := m.notifications ++ [n] }

/-- The method `updateTaskStatus`: nothing for a task that is not in the map;
otherwise the status is set, the updates are merged and the listeners hear
`updated` with the old status. -/
def updateTaskStatus (m : UploadManager) (taskId : TaskId) (status : TaskStatus)
    (updates : Updates) : UploadManager :=
  match m.tasks.get taskId with
  | none => m
  | some taskInfo =>
    let updated := updates.assign { taskInfo with status := status }
    notifyListeners { m with tasks := m.tasks.set taskId updated }
      { taskId := taskId, taskInfo := some updated, eventType := "updated",
        oldStatus := some taskInfo.status }

/-- The priority the comparator of `addTask` reads: `task?.priority || 0`. -/
def priorityOf (tasks : TaskMap) (taskId : TaskId) : Int :=
  match tasks.get taskId with
  | some t => t.priority
  | none => 0

/-- The call `this.queue.sort(...)`: a stable sort by descending priority. -/
def sortQueue (tasks : TaskMap) (queue : List TaskId) : List TaskId :=
  queue.insertionSort fun a b => priorityOf tasks b ≤ priorityOf tasks a

/-- The assignments `taskInfo.wxTask = task` and `taskInfo.cancelFn = cancel`. -/
def storeHandles (m : UploadManager) (taskId : TaskId) (wxTask cancelFn : Bool) :
    UploadManager :=
  match m.tasks.get taskId with
  | some t =>
    { m with tasks := m.tasks.set taskId { t with wxTask := wxTask, cancelFn := cancelFn } }
  | none => m

/-- The guard at the top of `_executeTask`: the task is in the map and is not
`CANCELLED`. -/
def startable (m : UploadManager) (taskId : TaskId) : Bool :=
  match m.tasks.get taskId with
  | some taskInfo => taskInfo.status ≠ .CANCELLED
  | none => false

/-- The method `_executeTask` up to its `await`: either it returns `null` at
once, or it counts the task as active, marks it `UPLOADING`, starts the upload
(`_doUpload` stores `wxTask`; with retries on, `cancelFn` is stored) and
suspends. -/
def _executeTask (m : UploadManager) (taskId : TaskId) : UploadManager :=
  match m.tasks.get taskId with
  | none => { m with settled := m.settled ++ [(taskId, .resolved none)] }
  | some taskInfo =>
    if taskInfo.status = .CANCELLED then
      { m with settled := m.settled ++ [(taskId, .resolved none)] }
    else
      let m1 :=
        updateTaskStatus { m with activeCount := m.activeCount + 1 } taskId .UPLOADING {}
      let m2 := storeHandles m1 taskId true (m.enableRetry && !taskInfo.skipRetry)
      { m2 with running := m2.running ++ [taskId] }

/-- The loop of `_processQueue` over the items of the queue. -/
def processQueueLoop : List TaskId → UploadManager → UploadManager
  | [], m => m
  | taskId :: rest, m =>
    if m.activeCount < m.maxConcurrent then
      processQueueLoop rest (_executeTask { m with queue := rest } taskId)
    else m

/-- The method `_processQueue`: while an item waits and capacity is free, the
head of the queue is shifted out and executed. -/
def _processQueue (m : UploadManager) : UploadManager :=
  processQueueLoop m.queue m

/-- The method `_scheduleCleanup`: a timer of `autoCleanMs` is set. -/
def _scheduleCleanup (m : UploadManager) (taskId : TaskId) : UploadManager :=
  { m with cleanupTimers := m.cleanupTimers ++ [taskId] }

/-- The callback of a timer set by `_scheduleCleanup`. -/
def cleanupFired (m : UploadManager) (taskId : TaskId) : UploadManager :=
  if taskId ∈ m.cleanupTimers then
    let m1 := { m with cleanupTimers := m.cleanupTimers.erase taskId }
    match m1.tasks.get taskId with
    | some taskInfo =>
      if taskInfo.status.isTerminal then
        notifyListeners { m1 with tasks := m1.tasks.delete taskId }
          { taskId := taskId, taskInfo := some taskInfo, eventType := "cleaned" }
      else m1
    | none => m1
  else m

/-- The rest of `_executeTask`, run when the promise it awaits settles:
the status update of the `try` or `catch` branch, then the `finally` block, then
the settlement of its own promise. -/
def _executeTaskResume (m : UploadManager) (taskId : TaskId) (outcome : Settled UploadOutcome) :
    UploadManager :=
  if taskId ∈ m.running then
    let m0 := { m with running := m.running.erase taskId }
    let m1 := match outcome with
      | .resolved result => updateTaskStatus m0 taskId .COMPLETED { result := some result }
      | .rejected error => updateTaskStatus m0 taskId .FAILED { error := some error }
    let m2 := _processQueue { m1 with activeCount := m1.activeCount - 1 }
    let m3 := _scheduleCleanup m2 taskId
    let settlement : Settled (Option UploadOutcome) := match outcome with
      | .resolved result => .resolved (some result)
      | .rejected error => .rejected error
    { m3 with settled := m3.settled ++ [(taskId, settlement)] }
  else m

/-- The progress listener `_doUpload` registers, called by a running upload. -/
def progressUpdate (m : UploadManager) (taskId : TaskId) (progress : ℚ) : UploadManager :=
  if taskId ∈ m.running then updateTaskStatus m taskId .UPLOADING { progress := some progress }
  else m

/-- The `onRetry` callback `_executeTask` passes to `cancellableRetry`. -/
def onRetry (m : UploadManager) (taskId : TaskId) (attempt : Nat) : UploadManager :=
  if taskId ∈ m.running then
    notifyListeners m
      { taskId := taskId, taskInfo := m.tasks.get taskId, eventType := "retry",
        retryAttempt := some attempt }
  else m

/-- The method `addTask` up to its return: the record is stored (`seq` counts
the submissions), the listeners hear `added`, and the task is queued when the
manager is at its limit, started otherwise. -/
def addTask (m : UploadManager) (taskId : TaskId) (filePath poseId : String)
    (priority : Int) (skipRetry : Bool) : UploadManager :=
  let taskInfo : UploadTaskInfo :=
    { taskId := taskId, filePath := filePath, poseId := poseId, status := .PENDING,
      progress := 0, priority := priority, skipRetry := skipRetry, result := none,
      error := none, wxTask := false, cancelFn := false, seq := m.submitted }
  let m1 := notifyListeners
    { m with tasks := m.tasks.set taskId taskInfo, submitted := m.submitted + 1 }
    { taskId := taskId, taskInfo := some taskInfo, eventType := "added" }
  if m1.activeCount ≥ m1.maxConcurrent then
    { m1 with queue := sortQueue m1.tasks (m1.queue ++ [taskId]) }
  else _executeTask m1 taskId

/-- The method `cancelTask`, with the boolean it returns. -/
def cancelTask (m : UploadManager) (taskId : TaskId) : UploadManager × Bool :=
  match m.tasks.get taskId with
  | none => (m, false)
  | some taskInfo =>
    let m1 := { m with
      aborted :=
        if taskInfo.wxTask || taskInfo.cancelFn then m.aborted ++ [taskId] else m.aborted
      queue := m.queue.filter fun item => item ≠ taskId }
    (updateTaskStatus m1 taskId .CANCELLED {}, true)

/-- The method `cancelAllTasks`. -/
def cancelAllTasks (m : UploadManager) : UploadManager :=
  let taskIds := m.tasks.keys
  let m1 := taskIds.foldl (fun acc taskId => (cancelTask acc taskId).1) m
  { m1 with queue := [], activeCount := 0 }

/-- The options `_executeTask` hands to `cancellableRetry`: the spread of
`RetryStrategies[this.config.retryStrategy]` (nothing when the name is
unknown) with its own `onRetry`. -/
def retryOptions (m : UploadManager) : RetryOptions Unit :=
  { (RetryStrategies.get? m.retryStrategy).getD {} with
    onRetry := some fun _ _ _ w => w }

/-- The promise `_executeTask` awaits: `cancellableRetry` over `_doUpload` when
retries are on, a single `_doUpload` otherwise.  `uploads i` is how the `i`-th
call of `_doUpload` settles. -/
def uploadRun (m : UploadManager) (taskInfo : UploadTaskInfo)
    (uploads : Nat → Settled UploadOutcome) (sched : CancelSchedule) (rnd : Nat → ℚ) :
    Run CancelState UploadOutcome :=
  if m.enableRetry && !taskInfo.skipRetry then
    cancellableRetry uploads 0 m.retryOptions sched rnd
  else
    ⟨uploads 0, [.invoked 0 (uploads 0)], { attempts := 1, fnCalls := 1 }⟩

/-- A started `_executeTask` carried to its end with nothing in between: its
`onRetry` notifications in order, then the settlement of the awaited promise. -/
def executeToEnd (m : UploadManager) (taskId : TaskId) (r : Run CancelState UploadOutcome) :
    UploadManager :=
  _executeTaskResume (r.onRetryCalls.foldl (fun acc call => acc.onRetry taskId call.1) m)
    taskId r.result

/-- The notification is a `retry` event of the task. -/
def isRetryFor (taskId : TaskId) (n : Notification) : Bool :=
  n.taskId = taskId && n.eventType = "retry"

/-- Number of `retry` notifications sent for a task. -/
def retryNotifications (m : UploadManager) (taskId : TaskId) : Nat :=
  m.notifications.countP (isRetryFor taskId)

end UploadManager

/-- What can happen to an `UploadManager`: the calls of its methods and the
callbacks of the uploads and timers it has started. -/
inductive Op where
  | addTask (taskId : TaskId) (filePath poseId : String) (priority : Int) (skipRetry : Bool)
  | progress (taskId : TaskId) (progress : ℚ)
  | retry (taskId : TaskId) (attempt : Nat)
  | settle (taskId : TaskId) (outcome : Settled UploadOutcome)
  | cancelTask (taskId : TaskId)
  | cancelAllTasks
  | cleanup (taskId : TaskId)
  deriving DecidableEq, Repr

/-- The task id an operation submits, if it is an `addTask`. -/
def Op.addedId : Op → Option TaskId
  | .addTask taskId _ _ _ _ => some taskId
  | _ => none

namespace UploadManager

/-- One operation applied to the manager. -/
def step (m : UploadManager) : Op → UploadManager
  | .addTask taskId filePath poseId priority skipRetry =>
    m.addTask taskId filePath poseId priority skipRetry
  | .progress taskId p => m.progressUpdate taskId p
  | .retry taskId attempt => m.onRetry taskId attempt
  | .settle taskId outcome => m._executeTaskResume taskId outcome
  | .cancelTask taskId => (m.cancelTask taskId).1
  | .cancelAllTasks => m.cancelAllTasks
  | .cleanup taskId => m.cleanupFired taskId

/-- A sequence of operations applied in order. -/
def run (m : UploadManager) (ops : List Op) : UploadManager :=
  ops.foldl step m

/-- The status of a task in the live map, if it is there. -/
def statusOf (m : UploadManager) (taskId : TaskId) : Option TaskStatus :=
  (m.tasks.get taskId).map fun t => t.status

/-- The submission number of a task in the live map (0 when absent). -/
def seqOf (tasks : TaskMap) (taskId : TaskId) : Nat :=
  match tasks.get taskId with
  | some t => t.seq
  | none => 0

/-- Queue order: `a` is served before `b` when its priority is higher, or
equal and `a` was submitted first. -/
def servedBefore (tasks : TaskMap) (a b : TaskId) : Prop :=
  priorityOf tasks b < priorityOf tasks a ∨
    (priorityOf tasks a = priorityOf tasks b ∧ seqOf tasks a < seqOf tasks b)

/-- Book-keeping that holds in every state reached when no task id is
submitted twice; `used` holds the ids submitted so far. -/
structure Consistent (m : UploadManager) (used : List TaskId) : Prop where
  queue_used : ∀ id ∈ m.queue, id ∈ used
  running_used : ∀ id ∈ m.running, id ∈ used
  timers_used : ∀ id ∈ m.cleanupTimers, id ∈ used
  queue_nodup : m.queue.Nodup
  queue_pending : ∀ id ∈ m.queue, m.statusOf id = some .PENDING
  queue_waiting : ∀ id ∈ m.queue, id ∉ m.running ∧ id ∉ m.cleanupTimers
  seq_lt : ∀ id t, m.tasks.get id = some t → t.seq < m.submitted
  queue_sorted : m.queue.Pairwise (servedBefore m.tasks)

/-- A task cancelled while it waited: it is in no queue, no upload of it is
running, no cleanup is scheduled for it, and its status is `CANCELLED`. -/
def Withdrawn (m : UploadManager) (taskId : TaskId) : Prop :=
  taskId ∉ m.queue ∧ taskId ∉ m.running ∧ taskId ∉ m.cleanupTimers ∧
    m.statusOf taskId = some .CANCELLED

/-- The constructor `new UploadManager(options)` after destructuring. -/
def create (maxConcurrent : ℚ) (autoCleanMs : ℚ) (enableRetry : Bool)
    (retryStrategy : String) : UploadManager where
  maxConcurrent := maxConcurrent
  autoCleanMs := autoCleanMs
  enableRetry := enableRetry
  retryStrategy := retryStrategy

end UploadManager

/-! ## utils/yoga-api.js -/

/-- JavaScript `Math.round`: the nearest integer, a half rounded up. -/
def mathRound (x : ℚ) : Int :=
  ⌊x + 1 / 2⌋

/-- Rounding to the nearest integer, a tie going to the even neighbour. -/
def roundHalfEven (x : ℚ) : Int :=
  if x - ⌊x⌋ < 1 / 2 then ⌊x⌋
  else if 1 / 2 < x - ⌊x⌋ then ⌊x⌋ + 1
  else if ⌊x⌋ % 2 = 0 then ⌊x⌋ else ⌊x⌋ + 1

/-- The binary64 number nearest to `x`, a tie going to the even significand:
the value an arithmetic operation on Numbers returns when its exact result is
`x`.  With `2 ^ e <= |x| < 2 ^ (e + 1)` the binary64 numbers around `x` are the
multiples of `2 ^ (e - 52)`; below `2 ^ -1022` (subnormal numbers) they are the
multiples of `2 ^ -1074`.  Results of magnitude `2 ^ 1024` and more, which
JavaScript turns into `Infinity`, are outside the model. -/
def binary64 (x : ℚ) : ℚ :=
  if x = 0 then 0
  else
    let e := max (Int.log 2 |x|) (-1022)
    roundHalfEven (x / 2 ^ (e - 52)) * 2 ^ (e - 52)

/-- The object `stats` of `processFrameScores`. -/
structure FrameStats where
  total : Nat
  valid : Nat
  failed : Nat
  noKeypoint : Nat
  deriving DecidableEq, Repr

/-- The object `processFrameScores` returns (its `message` text is left out);
`validScores` is absent from the object of the early return. -/
structure ProcessedScores where
  averageScore : Int
  validFrames : Nat
  totalFrames : Nat
  stats : FrameStats
  validScores : Option (List UploadOutcome)
  deriving DecidableEq, Repr

/-- The filter of `processFrameScores`: `result.code === "SUCCESS" && result.score > 0`. -/
def isValidScore (result : UploadOutcome) : Bool :=
  result.code = "SUCCESS" && decide (result.score > 0)

/-- The function `processFrameScores(scoreResults)`.  The sum of `reduce` and
the quotient are binary64 operations; `Math.round` is exact on the quotient. -/
def processFrameScores (scoreResults : List UploadOutcome) : ProcessedScores :=
  let validScores := scoreResults.filter isValidScore
  let stats : FrameStats :=
    { total := scoreResults.length
      valid := validScores.length
      failed := scoreResults.length - validScores.length
      noKeypoint := (scoreResults.filter fun r => r.code = "NO_KEYPOINT").length }
  if validScores.length = 0 then
    { averageScore := 0, validFrames := 0, totalFrames := scoreResults.length, stats := stats,
      validScores := none }
  else
    let totalScore := validScores.foldl (fun sum result => binary64 (sum + result.score)) 0
    let averageScore := mathRound (binary64 (totalScore / validScores.length))
    { averageScore := averageScore, validFrames := validScores.length,
      totalFrames := scoreResults.length, stats := stats, validScores := some validScores }

/-! ### uploadWithRetry (utils/upload-manager.js) -/

/-- An options object given to `uploadWithRetry`: a field may be left out. -/
structure RetryOverrides where
  maxRetries : Option Nat := none
  baseDelay : Option ℚ := none
  maxDelay : Option ℚ := none
  backoffFactor : Option ℚ := none
  retryCondition : Option (AttemptError → Bool) := none
  onRetry : Option (Nat → AttemptError → ℚ → Unit → Unit) := none
  jitter : Option Bool := none

/-- The object spread `{ ...base, ...overrides }`, destructured by
`retryWithBackoff`. -/
def RetryOverrides.spread (base : RetryOptions Unit) (overrides : RetryOverrides) :
    RetryOptions Unit where
  maxRetries := overrides.maxRetries.getD base.maxRetries
  baseDelay := overrides.baseDelay.getD base.baseDelay
  maxDelay := overrides.maxDelay.getD base.maxDelay
  backoffFactor := overrides.backoffFactor.getD base.backoffFactor
  retryCondition := match overrides.retryCondition with
    | some rc => fun _ error => rc error
    | none => base.retryCondition
  onRetry := match overrides.onRetry with
    | some cb => some cb
    | none => base.onRetry
  jitter := overrides.jitter.getD base.jitter

/-- The function `uploadWithRetry(filePath, poseId, retryOptions)`:
`retryWithBackoff` over `uploadAndScore(filePath, poseId).promise` with the
`UPLOAD` preset under the caller's options; `uploads i` is how the promise of
the `i`-th upload settles. -/
def uploadWithRetry (uploads : Nat → Settled UploadOutcome) (retryOptions : RetryOverrides)
    (rnd : Nat → ℚ) : Run Nat UploadOutcome :=
  retryScript uploads (RetryOverrides.spread RetryStrategies.UPLOAD retryOptions) rnd

/-! ### Listeners, one by one -/

/-- A registered listener: the call `listener(taskId, taskInfo, eventType, extra)`
leaves a world and, when it throws, the thrown value. -/
structure Listener (ω : Type) where
  call : Notification → ω → ω × Option AttemptError

/-- The world of a notification: the state the listeners act on, the calls
made so far (position of the listener in the set, and its arguments) and what
`console.error` has been handed. -/
structure Heard (ω : Type) where
  state : ω
  calls : List (Nat × Notification) := []
  logged : List AttemptError := []

/-- A statement that may throw: the world it leaves and the thrown value. -/
abbrev Stmt (ω : Type) := Heard ω → Heard ω × Option AttemptError

/-- The statement `try { body } catch (e) { handler(e) }`. -/
def tryCatch {ω : Type} (body : Stmt ω) (handler : AttemptError → Stmt ω) : Stmt ω :=
  fun w =>
    match body w with
    | (w1, none) => (w1, none)
    | (w1, some e) => handler e w1

/-- `Set.prototype.forEach` over the elements from position `i` on: the
callback runs on each element in insertion order; an exception that leaves the
callback ends the loop and leaves `forEach`. -/
def forEachFrom {ω β : Type} (callback : Nat → β → Stmt ω) : Nat → List β → Stmt ω
  | _, [] => fun w => (w, none)
  | i, x :: rest => fun w =>
    match callback i x w with
    | (w1, none) => forEachFrom callback (i + 1) rest w1
    | (w1, some e) => (w1, some e)

/-- The call `listener(taskId, taskInfo, eventType, extra)` of the listener at
position `i`, recorded. -/
def callListener {ω : Type} (n : Notification) (i : Nat) (listener : Listener ω) : Stmt ω :=
  fun w =>
    let res := listener.call n w.state
    ({ w with state := res.1, calls := w.calls ++ [(i, n)] }, res.2)

/-- The statement `console.error('[UploadManager] Listener error:', e)`. -/
def logListenerError {ω : Type} (e : AttemptError) : Stmt ω :=
  fun w => ({ w with logged := w.logged ++ [e] }, none)

/-- The body of `notifyListeners` (lines 261-269) over the registered
listeners, in the order they were added. -/
def notifyEach {ω : Type} (listeners : List (Listener ω)) (n : Notification) : Stmt ω :=
  forEachFrom (fun i listener => tryCatch (callListener n i listener) logListenerError) 0
    listeners

namespace UploadManager

/-- The statuses the listeners have been told of for a task by `added` and
`updated` events, oldest first. -/
def statusHistory (m : UploadManager) (taskId : TaskId) : List TaskStatus :=
  m.notifications.filterMap fun n =>
    if n.taskId = taskId ∧ (n.eventType = "added" ∨ n.eventType = "updated") then
      n.taskInfo.map fun t => t.status
    else none

/-- The promise `addTask` returned for the task has not settled. -/
def Unsettled (m : UploadManager) (taskId : TaskId) : Prop :=
  ∀ p ∈ m.settled, p.1 ≠ taskId

/-- Only promises of submitted tasks have settled, none of a task that waits in
the queue. -/
def SettledApart (m : UploadManager) (used : List TaskId) : Prop :=
  ∀ p ∈ m.settled, p.1 ∈ used ∧ p.1 ∉ m.queue

end UploadManager

/-! ### batchProcessFrames -/

/-- The task id of frame `index`, the template `frame_${index}`. -/
def frameId (index : Nat) : TaskId :=
  "frame_" ++ toString index

/-- JavaScript `parseInt` on text that starts with decimal digits: the number
those digits write.  (Text with no leading digit gives `NaN` in JavaScript and 0
here; the ids a batch hands out all carry their index.) -/
def parseInt (text : List Char) : Nat :=
  (text.takeWhile Char.isDigit).foldl (fun n c => 10 * n + (c.toNat - '0'.toNat)) 0

/-- The expression `parseInt(taskId.split('_')[1])`: the text between the first
underscore and the next one, read as a number. -/
def frameIndex (taskId : TaskId) : Nat :=
  parseInt (((taskId.data.dropWhile fun c => c ≠ '_').drop 1).takeWhile fun c => c ≠ '_')

/-- An element of the array `results` of `batchProcessFrames`. -/
structure FrameResult where
  index : Nat
  result : Option UploadOutcome
  framePath : String
  deriving DecidableEq, Repr

/-- An element of the array `errors` of `batchProcessFrames`. -/
structure FrameError where
  index : Nat
  error : Option AttemptError
  framePath : String
  deriving DecidableEq, Repr

/-- The options of `batchProcessFrames` after destructuring; the callbacks
`onProgress` and `onFrameComplete` are left at their default `null`. -/
structure BatchOptions where
  concurrency : ℚ := 3
  enableRetry : Bool := true
  maxRetries : Nat := 2
  skipFailedFrames : Bool := true
  deriving DecidableEq, Repr

/-- The variables the listener of `batchProcessFrames` closes over. -/
structure BatchProgress where
  results : List FrameResult := []
  errors : List FrameError := []
  completed : Nat := 0
  deriving DecidableEq, Repr

/-- The listener `batchProcessFrames` registers (lines 370-399), as a change of
the variables it closes over. -/
def batchListener (s : BatchProgress) (n : Notification) : BatchProgress :=
  match n.taskInfo with
  | some taskInfo =>
    if n.eventType = "updated" ∧ taskInfo.status = .COMPLETED then
      { s with
        completed := s.completed + 1
        results := s.results ++
          [{ index := frameIndex n.taskId, result := taskInfo.result,
             framePath := taskInfo.filePath }] }
    else if n.eventType = "updated" ∧ taskInfo.status = .FAILED then
      { s with
        completed := s.completed + 1
        errors := s.errors ++
          [{ index := frameIndex n.taskId, error := taskInfo.error,
             framePath := taskInfo.filePath }] }
    else s
  | none => s

/-- What a listener registered on a new manager has collected. -/
def heardBy (m : UploadManager) : BatchProgress :=
  m.notifications.foldl batchListener {}

/-- The call `sort((a, b) => a.index - b.index)` on frame results. -/
def sortByIndex (rs : List FrameResult) : List FrameResult :=
  rs.insertionSort fun a b => a.index ≤ b.index

/-- The object `batchProcessFrames` returns: the fields of `processFrameScores`
(its `totalFrames` overwritten) and those of the batch. -/
structure BatchSummary where
  averageScore : Int
  validFrames : Nat
  stats : FrameStats
  validScores : Option (List UploadOutcome)
  totalFrames : Nat
  processedFrames : Nat
  failedFrames : Nat
  errors : List FrameError
  rawResults : List FrameResult
  deriving DecidableEq, Repr

/-- The record `addTask` creates for frame `index` of a batch. -/
def frameTask (framePaths : List String) (poseId : String) (options : BatchOptions)
    (index : Nat) : UploadTaskInfo :=
  { taskId := frameId index, filePath := framePaths.getD index "", poseId := poseId,
    status := .PENDING, progress := 0, priority := (framePaths.length : Int) - index,
    skipRetry := !options.enableRetry, result := none, error := none, wxTask := false,
    cancelFn := false, seq := index }

/-- The callback of `framePaths.map` (lines 403-415) over the frames from
position `index` on: `addTask` for each, with priority `framePaths.length - index`. -/
def submitFrames (poseId : String) (options : BatchOptions) (total : Nat) :
    Nat → List String → UploadManager → UploadManager
  | _, [], m => m
  | index, framePath :: rest, m =>
    submitFrames poseId options total (index + 1) rest
      (m.addTask (frameId index) framePath poseId ((total : Int) - index)
        (!options.enableRetry))

/-- The wait at `await Promise.all(taskPromises)`.  The running uploads end one
at a time: `pick k` says which of them is the `k`-th to end, `uploads i` how
the uploads of frame `i` settle.  The `taskInfo` that `_executeTask` holds is
the record `addTask` made for the frame; of it the awaited promise reads
`skipRetry` only.  The wait is over when nothing runs any more, or at the first
rejection that is rethrown (`skipFailedFrames` off), which is returned. -/
def awaitUploads (framePaths : List String) (poseId : String) (options : BatchOptions)
    (uploads : Nat → Nat → Settled UploadOutcome) (rnd : Nat → Nat → ℚ) (pick : Nat → Nat) :
    Nat → Nat → UploadManager → UploadManager × Option AttemptError
  | 0, _, m => (m, none)
  | fuel + 1, k, m =>
    match m.running with
    | [] => (m, none)
    | first :: rest =>
      let taskId := (first :: rest).getD (pick k % (rest.length + 1)) first
      let index := frameIndex taskId
      let r := m.uploadRun (frameTask framePaths poseId options index) (uploads index) {}
        (rnd index)
      let m1 := m.executeToEnd taskId r
      match r.result with
      | .resolved _ => awaitUploads framePaths poseId options uploads rnd pick fuel (k + 1) m1
      | .rejected error =>
        if options.skipFailedFrames then
          awaitUploads framePaths poseId options uploads rnd pick fuel (k + 1) m1
        else (m1, some error)

/-- A call of `batchProcessFrames`: how its promise settles (`none`: it never
does), the dedicated manager as the call leaves it, and what the listener
collected. -/
structure BatchRun where
  outcome : Option (Settled BatchSummary)
  manager : UploadManager
  heard : BatchProgress

/-- The function `batchProcessFrames(framePaths, poseId, options)`.  Every
upload ends at most once, so `framePaths.length` rounds of the wait are
enough.  `Promise.all` resolves once the promise of every frame has settled;
when some never does, neither does the promise of the batch.  An outcome of
the model always carries a score, so the test `r.result.score !== undefined`
is the test that there is a result.  The `finally` block (`unsubscribe`, then
`cancelAllTasks`) runs when the wait is over. -/
def batchProcessFrames (framePaths : List String) (poseId : String) (options : BatchOptions)
    (uploads : Nat → Nat → Settled UploadOutcome) (rnd : Nat → Nat → ℚ) (pick : Nat → Nat) :
    BatchRun :=
  let manager := UploadManager.create options.concurrency 10000 options.enableRetry "UPLOAD"
  let submitted := submitFrames poseId options framePaths.length 0 framePaths manager
  let waited := awaitUploads framePaths poseId options uploads rnd pick framePaths.length 0
    submitted
  let heard := heardBy waited.1
  match waited.2 with
  | some error => ⟨some (.rejected error), waited.1.cancelAllTasks, heard⟩
  | none =>
    if (List.range framePaths.length).all fun i =>
        waited.1.settled.any fun p => p.1 = frameId i then
      let validResults := (sortByIndex (heard.results.filter fun r => r.result.isSome)).filterMap
        fun r => r.result
      let processedScores := processFrameScores validResults
      ⟨some (.resolved
        { averageScore := processedScores.averageScore
          validFrames := processedScores.validFrames
          stats := processedScores.stats
          validScores := processedScores.validScores
          totalFrames := framePaths.length
          processedFrames := heard.results.length
          failedFrames := heard.errors.length
          errors := heard.errors
          rawResults := sortByIndex heard.results }),
        waited.1.cancelAllTasks, heard⟩
    else ⟨none, waited.1, heard⟩

namespace UploadManager

/-- Counting that holds while nobody calls `cancelAllTasks`: `activeCount` is
the number of running uploads, and a task waits only while the manager is at
its limit. -/
structure Balanced (m : UploadManager) : Prop where
  active_running : m.activeCount = m.running.length
  queue_full : m.queue ≠ [] → m.maxConcurrent ≤ m.activeCount

end UploadManager

section batchstate
variable (framePaths : List String) (poseId : String) (options : BatchOptions)
  (uploads : Nat → Nat → Settled UploadOutcome) (rnd : Nat → Nat → ℚ)

/-- How the promise `_executeTask` awaits for frame `index` of a batch settles. -/
def frameOutcome (index : Nat) : Settled UploadOutcome :=
  ((UploadManager.create options.concurrency 10000 options.enableRetry "UPLOAD").uploadRun
    (frameTask framePaths poseId options index) (uploads index) {} (rnd index)).result

/-- The element the listener pushes on `results` when frame `index` completes. -/
def resultOfFrame (index : Nat) : Option FrameResult :=
  match frameOutcome framePaths poseId options uploads rnd index with
  | .resolved v => some { index := index, result := some v, framePath := framePaths.getD index "" }
  | .rejected _ => none

/-- The element the listener pushes on `errors` when frame `index` fails. -/
def errorOfFrame (index : Nat) : Option FrameError :=
  match frameOutcome framePaths poseId options uploads rnd index with
  | .resolved _ => none
  | .rejected e => some { index := index, error := some e, framePath := framePaths.getD index "" }

/-- The dedicated manager of a batch after the first `submitted` frames have
been handed to `addTask` and the uploads of the frames `done` have ended, in
that order. -/
structure BatchState (submitted : Nat) (done : List Nat) (m : UploadManager) : Prop where
  consistent : m.Consistent ((List.range submitted).map frameId)
  balanced : m.Balanced
  limit : m.maxConcurrent = options.concurrency
  retries : m.enableRetry = options.enableRetry
  strategy : m.retryStrategy = "UPLOAD"
  accounted : (done.map frameId ++ m.running ++ m.queue).Perm
    ((List.range submitted).map frameId)
  heard : heardBy m =
    { results := done.filterMap (resultOfFrame framePaths poseId options uploads rnd)
      errors := done.filterMap (errorOfFrame framePaths poseId options uploads rnd)
      completed := done.length }
  settled : m.settled.map Prod.fst = done.map frameId
  present : ∀ i, i < submitted →
    (m.tasks.get (frameId i)).map (fun t => t.filePath) = some (framePaths.getD i "")

end batchstate

/-! ## utils/sequence-service.js -/

/-- A `Pose`; of its fields the transitions read `duration`. -/
structure Pose where
  id : String := ""
  duration : ℚ := 0
  deriving DecidableEq, Repr

/-- A `Sequence`; `poses` is `none` when the property is missing or `null`. -/
structure Sequence where
  id : String := ""
  poses : Option (List Pose) := none
  deriving DecidableEq, Repr

/-- The object `nextPose` and `previousPose` return. -/
structure PoseStep where
  currentPoseIndex_new : Int
  timeRemaining_new : ℚ
  deriving DecidableEq, Repr

/-- What a call does: it returns a value or throws. -/
inductive Completion (α : Type) where
  | returned (value : α)
  | thrown (name : String)
  deriving DecidableEq, Repr

/-- The array access `poses[index]` at an integer index: `none` is `undefined`,
the value outside `0 .. length - 1`. -/
def elementAt (poses : List Pose) (index : Int) : Option Pose :=
  if 0 ≤ index then poses[index.toNat]? else none

/-- The expression `poses[index].duration`: reading a property of `undefined`
throws a `TypeError`. -/
def durationAt (poses : List Pose) (index : Int) : Completion ℚ :=
  match elementAt poses index with
  | some pose => .returned pose.duration
  | none => .thrown "TypeError"

/-- The function `nextPose(currentSequence, currentPoseIndex)`; `none` as the
sequence is `null`, `none` as the value returned is `null`. -/
def nextPose (currentSequence : Option Sequence) (currentPoseIndex : Int) :
    Completion (Option PoseStep) :=
  match currentSequence with
  | none => .returned none
  | some sequence =>
    match sequence.poses with
    | none => .returned none
    | some poses =>
      if currentPoseIndex < (poses.length : Int) - 1 then
        let nextIndex := currentPoseIndex + 1
        match durationAt poses nextIndex with
        | .returned duration =>
          .returned (some { currentPoseIndex_new := nextIndex, timeRemaining_new := duration })
        | .thrown name => .thrown name
      else .returned none

/-- The function `previousPose(currentSequence, currentPoseIndex)`. -/
def previousPose (currentSequence : Option Sequence) (currentPoseIndex : Int) :
    Completion (Option PoseStep) :=
  match currentSequence with
  | none => .returned none
  | some sequence =>
    match sequence.poses with
    | none => .returned none
    | some poses =>
      if currentPoseIndex > 0 then
        let prevIndex := currentPoseIndex - 1
        match durationAt poses prevIndex with
        | .returned duration =>
          .returned (some { currentPoseIndex_new := prevIndex, timeRemaining_new := duration })
        | .thrown name => .thrown name
      else .returned none

/-! ### batchRetry (utils/retry.js) -/

/-- What an awaited promise yields when it resolves. -/
def Settled.value? {α : Type} : Settled α → Option α
  | .resolved v => some v
  | .rejected _ => none

/-- What an awaited promise throws when it rejects. -/
def Settled.error? {α : Type} : Settled α → Option AttemptError
  | .resolved _ => none
  | .rejected e => some e

/-- The operation `ToIntegerOrInfinity` on a finite number: truncation towards
zero. -/
def toIntegerOrInfinity (x : ℚ) : Int :=
  if 0 ≤ x then ⌊x⌋ else ⌈x⌉

/-- A relative index of `Array.prototype.slice` on an array of length `len`: a
negative one counts from the end, and the result is kept within `0 .. len`. -/
def sliceIndex (len : Nat) (x : ℚ) : Nat :=
  let relative := toIntegerOrInfinity x
  if relative < 0 then (max (len + relative) 0).toNat else (min relative len).toNat

/-- The call `array.slice(start, final)`. -/
def slice {α : Type} (l : List α) (start final : ℚ) : List α :=
  let k := sliceIndex l.length start
  (l.drop k).take (sliceIndex l.length final - k)

/-- The options of `batchRetry` after destructuring: `concurrency` (any number;
it is not validated), `failFast`, and the rest, which is handed to
`retryWithBackoff`. -/
structure BatchRetryOptions where
  concurrency : ℚ := 3
  failFast : Bool := false
  retryOptions : RetryOptions Unit := {}

/-- The object the callback of `batch.map` makes for a function: either
`{ success: true, result, index }` or `{ success: false, error, index }`, with
`index` the number `i + index`. -/
inductive BatchEntry (α : Type) where
  | success (result : α) (index : ℚ)
  | failure (error : AttemptError) (index : ℚ)
  deriving DecidableEq, Repr

namespace BatchEntry

variable {α : Type}

/-- The field `success`. -/
def isSuccess : BatchEntry α → Bool
  | .success _ _ => true
  | .failure _ _ => false

/-- The field `index`. -/
def index : BatchEntry α → ℚ
  | .success _ i => i
  | .failure _ i => i

/-- The field `result` of an entry with `success: true`. -/
def result? : BatchEntry α → Option α
  | .success v _ => some v
  | .failure _ _ => none

/-- The field `error` of an entry with `success: false`. -/
def error? : BatchEntry α → Option AttemptError
  | .success _ _ => none
  | .failure e _ => some e

/-- How the promise of `retryWithBackoff` behind the entry settled. -/
def settled : BatchEntry α → Settled α
  | .success v _ => .resolved v
  | .failure e _ => .rejected e

end BatchEntry

/-- The async callback of `batch.map` (lines 162-176) with `failFast` off:
`retryWithBackoff(fn, retryOptions)` awaited inside `try`; `fn i` is how the
`i`-th invocation of the function settles, and `index` is the value of
`i + index`. -/
def batchEntry {α : Type} (fn : Nat → Settled α) (retryOptions : RetryOptions Unit)
    (rnd : Nat → ℚ) (index : ℚ) : BatchEntry α :=
  match (retryScript fn retryOptions rnd).result with
  | .resolved result => .success result index
  | .rejected error => .failure error index

/-- The call `batch.map(async (fn, index) => ...)` of the chunk of loop variable
`i`, whose first function stands at position `start` of `functions`, over the
functions from position `index` of the chunk on.  The random draws `rnd` are
those of the function at that position. -/
def mapBatch {α : Type} (retryOptions : RetryOptions Unit) (rnd : Nat → Nat → ℚ) (i : ℚ)
    (start : Nat) : Nat → List (Nat → Settled α) → List (BatchEntry α)
  | _, [] => []
  | index, fn :: rest =>
    batchEntry fn retryOptions (rnd (start + index)) (i + index) ::
      mapBatch retryOptions rnd i start (index + 1) rest

/-- The arrays `results` and `errors` of `batchRetry`, and the positions in
`functions` of the functions each chunk has started. -/
structure BatchRetryState (α : Type) where
  results : List (BatchEntry α) := []
  errors : List (BatchEntry α) := []
  launched : List (List Nat) := []

/-- The object `batchRetry` returns. -/
structure BatchRetryResult (α : Type) where
  results : List α
  errors : List (BatchEntry α)
  totalCount : Nat
  successCount : Nat
  errorCount : Nat

/-- The loop `for (let i = 0; i < functions.length; i += concurrency)` from
loop variable `i` on, at most `fuel` chunks.  The functions of a chunk run side
by side: `endsAt x` is the moment the run of the function with entry index `x`
ends, and a failing function pushes its entry on `errors` at that moment.
`Promise.all` gives the entries in the order of the chunk; with `failFast` on it
rejects with the error of the failing function that ends first, and so does
`batchRetry`.  The value is `none` when the chunks allowed are used up before
the loop ends. -/
def batchRetryLoop {α : Type} (functions : List (Nat → Settled α)) (options : BatchRetryOptions)
    (rnd : Nat → Nat → ℚ) (endsAt : ℚ → Nat) :
    Nat → ℚ → BatchRetryState α → Option (BatchRetryState α × Option AttemptError)
  | 0, i, s => if i < functions.length then none else some (s, none)
  | fuel + 1, i, s =>
    if i < functions.length then
      let batch := slice functions i (i + options.concurrency)
      let start := sliceIndex functions.length i
      let batchResults := mapBatch options.retryOptions rnd i start 0 batch
      let failed := (batchResults.filter fun r => !r.isSuccess).insertionSort
        fun a b => endsAt a.index ≤ endsAt b.index
      let s1 : BatchRetryState α :=
        { s with
          errors := s.errors ++ failed
          launched := s.launched ++ [List.range' start batch.length] }
      match failed with
      | .failure error _ :: _ =>
        if options.failFast then some (s1, some error)
        else
          batchRetryLoop functions options rnd endsAt fuel (i + options.concurrency)
            { s1 with results := s1.results ++ batchResults }
      | _ =>
        batchRetryLoop functions options rnd endsAt fuel (i + options.concurrency)
          { s1 with results := s1.results ++ batchResults }
    else some (s, none)

/-- A call of `batchRetry`: how its promise settles (`none`: it never does) and
the chunks it has started. -/
structure BatchRetryRun (α : Type) where
  outcome : Option (Settled (BatchRetryResult α))
  launched : List (List Nat)

/-- The chunks after which the loop of `batchRetry` has ended when
`concurrency > 0`: the least `k` with `k * concurrency >= length`.  With
`concurrency <= 0` every chunk after the first is empty and the loop variable
never reaches `functions.length`: one chunk is run. -/
def batchChunks (length : Nat) (concurrency : ℚ) : Nat :=
  if 0 < concurrency then ⌈(length : ℚ) / concurrency⌉.toNat else 1

/-- The function `batchRetry(functions, options)`.  With `concurrency > 0` the
loop ends; with `concurrency <= 0` and a function to run it never does, unless
`failFast` ends it in the first chunk. -/
def batchRetry {α : Type} (functions : List (Nat → Settled α)) (options : BatchRetryOptions)
    (rnd : Nat → Nat → ℚ) (endsAt : ℚ → Nat) : BatchRetryRun α :=
  match batchRetryLoop functions options rnd endsAt
      (batchChunks functions.length options.concurrency) 0 {} with
  | none => ⟨none, []⟩
  | some (s, some error) => ⟨some (.rejected error), s.launched⟩
  | some (s, none) =>
    ⟨some (.resolved
      { results := (s.results.filter fun r => r.isSuccess).filterMap BatchEntry.result?
        errors := s.errors
        totalCount := functions.length
        successCount := (s.results.filter fun r => r.isSuccess).length
        errorCount := s.errors.length }),
      s.launched⟩

/-! ### The order in which uploads begin -/

namespace UploadManager

/-- The notification `_executeTask` sends when it starts a task: an `updated`
event that takes the task from `PENDING` to `UPLOADING`. -/
def isStart (n : Notification) : Bool :=
  decide (n.eventType = "updated" ∧ n.oldStatus = some .PENDING ∧
    (n.taskInfo.map fun t => t.status) = some .UPLOADING)

/-- The tasks that have begun to upload, in the order in which they began. -/
def uploadStarts (m : UploadManager) : List TaskId :=
  (m.notifications.filter isStart).map fun n => n.taskId

end UploadManager

/-- The dedicated manager of a batch of `total` frames after the first
`submitted` frames have been handed to `addTask`: the frames that have begun to
upload, followed by those that wait, are the frames in index order, and frame
`i` carries priority `total - i`. -/
structure BatchOrder (total submitted : Nat) (m : UploadManager) : Prop where
  starts : m.uploadStarts ++ m.queue = (List.range submitted).map frameId
  priorities : ∀ i, i < submitted →
    (m.tasks.get (frameId i)).map (fun t => t.priority) = some ((total : Int) - i)

/-! ## Theorems -/

/-! ### The retry loop, pass by pass -/

section
variable {σ α : Type}

theorem retryBody_calls (o : RetryOptions σ) (fn : σ → Settled α × σ) (sleep : ℚ → σ → σ)
    (rnd : Nat → ℚ) (a : Nat) (w : σ) :
    (retryBody o fn sleep rnd a w).events.countP RetryEvent.isInvoked = 1 := by
  unfold retryBody
  split
  · simp [RetryEvent.isInvoked]
  · split
    · simp [RetryEvent.isInvoked]
    · split <;> simp [RetryEvent.isInvoked]

theorem retryBody_index (o : RetryOptions σ) (fn : σ → Settled α × σ) (sleep : ℚ → σ → σ)
    (rnd : Nat → ℚ) (a : Nat) (w : σ) (i : Nat) (out : Settled α)
    (h : RetryEvent.invoked i out ∈ (retryBody o fn sleep rnd a w).events) : i = a := by
  unfold retryBody at h
  split at h
  · simp at h; exact h.1
  · split at h
    · simp at h; exact h.1
    · split at h <;> simp at h <;> exact h.1

theorem retryLoop_calls_le (o : RetryOptions σ) (fn : σ → Settled α × σ) (sleep : ℚ → σ → σ)
    (rnd : Nat → ℚ) (rem a : Nat) (w : σ) :
    (retryLoop o fn sleep rnd rem a w).calls ≤ rem + 1 := by
  induction rem generalizing a w with
  | zero =>
    simp [retryLoop, Run.calls, retryBody_calls]
  | succ n ih =>
    simp only [retryLoop]
    split
    · have := ih (a + 1) (retryBody o fn sleep rnd a w).world
      simp only [Run.calls, List.countP_append, retryBody_calls] at this ⊢
      omega
    · simp [Run.calls, retryBody_calls]

theorem retryLoop_index (o : RetryOptions σ) (fn : σ → Settled α × σ) (sleep : ℚ → σ → σ)
    (rnd : Nat → ℚ) (rem a : Nat) (w : σ) (i : Nat) (out : Settled α)
    (h : RetryEvent.invoked i out ∈ (retryLoop o fn sleep rnd rem a w).trace) :
    a ≤ i ∧ i ≤ a + rem := by
  induction rem generalizing a w with
  | zero =>
    simp only [retryLoop] at h
    have := retryBody_index o fn sleep rnd a w i out h
    omega
  | succ n ih =>
    simp only [retryLoop] at h
    split at h
    · simp only [List.mem_append] at h
      rcases h with h | h
      · have := retryBody_index o fn sleep rnd a w i out h
        omega
      · have := ih (a + 1) _ h
        omega
    · have := retryBody_index o fn sleep rnd a w i out h
      omega
end

section generic
variable {σ α : Type}

theorem retryBody_sleeps (o : RetryOptions σ) (fn : σ → Settled α × σ) (sleep : ℚ → σ → σ)
    (rnd : Nat → ℚ) (a : Nat) (w : σ) :
    (retryBody o fn sleep rnd a w).events.filterMap RetryEvent.delay? =
      if (retryBody o fn sleep rnd a w).again then [computeDelay o a (rnd a)] else [] := by
  unfold retryBody
  split
  · simp [RetryEvent.delay?]
  · split
    · simp [RetryEvent.delay?]
    · split <;> simp [RetryEvent.delay?]

theorem retryBody_retryCalls (o : RetryOptions σ) (fn : σ → Settled α × σ) (sleep : ℚ → σ → σ)
    (rnd : Nat → ℚ) (a : Nat) (w : σ) :
    ∀ c ∈ (retryBody o fn sleep rnd a w).events.filterMap RetryEvent.retryCall?,
      c.1 = a + 1 ∧ c.2.2 = computeDelay o a (rnd a) := by
  unfold retryBody
  split
  · simp [RetryEvent.retryCall?]
  · split
    · simp [RetryEvent.retryCall?]
    · split <;> simp [RetryEvent.retryCall?]

theorem retryBody_again_ne (o : RetryOptions σ) (fn : σ → Settled α × σ) (sleep : ℚ → σ → σ)
    (rnd : Nat → ℚ) (a : Nat) (w : σ) (h : (retryBody o fn sleep rnd a w).again = true) :
    a ≠ o.maxRetries := by
  unfold retryBody at h
  split at h
  · simp at h
  · split at h
    · simp at h
    · rename_i hc
      simp at hc
      exact hc.1

theorem retryLoop_sleeps (o : RetryOptions σ) (fn : σ → Settled α × σ) (sleep : ℚ → σ → σ)
    (rnd : Nat → ℚ) (rem : Nat) : ∀ (a : Nat) (w : σ),
    (retryLoop o fn sleep rnd rem a w).sleeps =
      (List.range' a (retryLoop o fn sleep rnd rem a w).sleeps.length).map
        fun i => computeDelay o i (rnd i) := by
  induction rem with
  | zero =>
    intro a w
    simp only [retryLoop, Run.sleeps, retryBody_sleeps]
    split <;> simp
  | succ n ih =>
    intro a w
    simp only [retryLoop]
    split
    · rename_i hagain
      have := ih (a + 1) (retryBody o fn sleep rnd a w).world
      simp only [Run.sleeps] at this ⊢
      simp only [List.filterMap_append, retryBody_sleeps, hagain, if_true, List.length_append,
        List.length_singleton]
      rw [this, Nat.add_comm 1, List.range'_succ]
      simp
    · rename_i hagain
      simp [Run.sleeps, retryBody_sleeps, hagain]

theorem retryLoop_sleeps_length (o : RetryOptions σ) (fn : σ → Settled α × σ)
    (sleep : ℚ → σ → σ) (rnd : Nat → ℚ) (rem : Nat) : ∀ (a : Nat) (w : σ),
    a + rem = o.maxRetries → (retryLoop o fn sleep rnd rem a w).sleeps.length ≤ rem := by
  induction rem with
  | zero =>
    intro a w h
    simp only [retryLoop, Run.sleeps, retryBody_sleeps]
    split
    · rename_i hagain
      exact absurd (by omega) (retryBody_again_ne o fn sleep rnd a w hagain)
    · simp
  | succ n ih =>
    intro a w h
    simp only [retryLoop]
    split
    · rename_i hagain
      have := ih (a + 1) (retryBody o fn sleep rnd a w).world (by omega)
      simp only [Run.sleeps] at this ⊢
      simp only [List.filterMap_append, retryBody_sleeps, hagain, if_true, List.length_append,
        List.length_singleton]
      omega
    · rename_i hagain
      simp [Run.sleeps, retryBody_sleeps, hagain]

theorem retryLoop_retryCalls (o : RetryOptions σ) (fn : σ → Settled α × σ) (sleep : ℚ → σ → σ)
    (rnd : Nat → ℚ) (rem : Nat) : ∀ (a : Nat) (w : σ),
    ∀ c ∈ (retryLoop o fn sleep rnd rem a w).onRetryCalls,
      1 ≤ c.1 ∧ c.2.2 = computeDelay o (c.1 - 1) (rnd (c.1 - 1)) := by
  induction rem with
  | zero =>
    intro a w c hc
    simp only [retryLoop, Run.onRetryCalls] at hc
    obtain ⟨h1, h2⟩ := retryBody_retryCalls o fn sleep rnd a w c hc
    rw [h1]
    exact ⟨by omega, by simpa using h2⟩
  | succ n ih =>
    intro a w c hc
    simp only [retryLoop] at hc
    split at hc
    · simp only [Run.onRetryCalls, List.filterMap_append, List.mem_append] at hc
      rcases hc with hc | hc
      · obtain ⟨h1, h2⟩ := retryBody_retryCalls o fn sleep rnd a w c hc
        rw [h1]
        exact ⟨by omega, by simpa using h2⟩
      · exact ih (a + 1) _ c hc
    · simp only [Run.onRetryCalls] at hc
      obtain ⟨h1, h2⟩ := retryBody_retryCalls o fn sleep rnd a w c hc
      rw [h1]
      exact ⟨by omega, by simpa using h2⟩

theorem computeDelay_no_jitter (o : RetryOptions σ) (h : o.jitter = false) (i : Nat) (r : ℚ) :
    computeDelay o i r = min (o.baseDelay * o.backoffFactor ^ i) o.maxDelay := by
  simp [computeDelay, h]

end generic

section bodyfacts
variable {σ α : Type} (o : RetryOptions σ) (fn : σ → Settled α × σ) (sleep : ℚ → σ → σ)
  (rnd : Nat → ℚ) (a : Nat) (w : σ)

/-- A pass that asks for another one: the operation failed, the index is not
the last, the condition accepted the error, and the world is the one after
`onRetry` and the wait. -/
theorem retryBody_again (h : (retryBody o fn sleep rnd a w).again = true) :
    ∃ e, (fn w).1 = .rejected e ∧ a ≠ o.maxRetries ∧ o.retryCondition (fn w).2 e = true ∧
      (retryBody o fn sleep rnd a w).world = sleep (computeDelay o a (rnd a))
        (o.callOnRetry (a + 1) e (computeDelay o a (rnd a)) (fn w).2) := by
  unfold retryBody at h ⊢
  split at h
  · simp at h
  · rename_i e w1 heq
    split at h
    · simp at h
    · rename_i hc
      simp only [Bool.or_eq_true, decide_eq_true_eq, Bool.not_eq_true', not_or,
        Bool.not_eq_false] at hc
      refine ⟨e, by rw [heq], hc.1, by rw [heq]; exact hc.2, ?_⟩
      rw [heq]
      simp only [hc.1, hc.2, decide_False, Bool.not_true, Bool.or_self, Bool.false_eq_true,
        if_false, RetryOptions.callOnRetry]
      cases o.onRetry <;> rfl

/-- A pass that ends the loop leaves the world as the operation left it. -/
theorem retryBody_done (h : (retryBody o fn sleep rnd a w).again = false) :
    (retryBody o fn sleep rnd a w).world = (fn w).2 ∧
    (retryBody o fn sleep rnd a w).outcome = (fn w).1 ∧
    (retryBody o fn sleep rnd a w).events = [.invoked a (fn w).1] := by
  unfold retryBody at h ⊢
  split
  · rename_i v w1 heq
    simp [heq]
  · rename_i e w1 heq
    split
    · simp [heq]
    · rename_i hc
      simp only [heq, hc, if_false] at h
      cases hcb : o.onRetry <;> simp [hcb] at h

/-- A failure at the last index, or one the condition rejects, ends the loop. -/
theorem retryBody_stop (e : AttemptError) (he : (fn w).1 = .rejected e)
    (hstop : a = o.maxRetries ∨ o.retryCondition (fn w).2 e = false) :
    (retryBody o fn sleep rnd a w).again = false := by
  cases hb : (retryBody o fn sleep rnd a w).again with
  | false => rfl
  | true =>
    obtain ⟨e', he', hne, hrc, _⟩ := retryBody_again o fn sleep rnd a w hb
    rw [he] at he'
    cases he'
    rcases hstop with h | h
    · exact absurd h hne
    · rw [h] at hrc; cases hrc

/-- A success ends the loop. -/
theorem retryBody_success (v : α) (hv : (fn w).1 = .resolved v) :
    (retryBody o fn sleep rnd a w).again = false := by
  cases hb : (retryBody o fn sleep rnd a w).again with
  | false => rfl
  | true =>
    obtain ⟨e', he', _⟩ := retryBody_again o fn sleep rnd a w hb
    rw [hv] at he'
    cases he'

/-- A failure before the last index that the condition accepts asks for
another pass. -/
theorem retryBody_retry (e : AttemptError) (he : (fn w).1 = .rejected e)
    (hne : a ≠ o.maxRetries) (hrc : o.retryCondition (fn w).2 e = true) :
    (retryBody o fn sleep rnd a w).again = true ∧
    (retryBody o fn sleep rnd a w).events.countP RetryEvent.isInvoked = 1 := by
  refine ⟨?_, retryBody_calls o fn sleep rnd a w⟩
  unfold retryBody
  split
  · rename_i v w1 heq
    rw [heq] at he
    cases he
  · rename_i e' w1 heq
    rw [heq] at he hrc
    cases he
    simp only [hne, hrc, decide_False, Bool.not_true, Bool.or_self, Bool.false_eq_true, if_false]
    cases o.onRetry <;> rfl

end bodyfacts

section scripted
variable {α : Type}

theorem scripted_body_resolved (script : Nat → Settled α) (o : RetryOptions Unit) (rnd : Nat → ℚ)
    (a : Nat) (v : α) (h : script a = .resolved v) :
    retryBody (liftOptions o) (scriptedFn script) (fun _ w => w) rnd a a =
      ⟨.resolved v, [.invoked a (.resolved v)], a + 1, false⟩ := by
  simp [retryBody, scriptedFn, h]

theorem scripted_body_final (script : Nat → Settled α) (o : RetryOptions Unit) (rnd : Nat → ℚ)
    (a : Nat) (e : AttemptError) (h : script a = .rejected e)
    (hstop : a = o.maxRetries ∨ o.retryCondition () e = false) :
    retryBody (liftOptions o) (scriptedFn script) (fun _ w => w) rnd a a =
      ⟨.rejected e, [.invoked a (.rejected e)], a + 1, false⟩ := by
  rcases hstop with hstop | hstop
  · simp [retryBody, scriptedFn, h, liftOptions, ← hstop]
  · simp [retryBody, scriptedFn, h, liftOptions, hstop]

theorem scripted_body_again (script : Nat → Settled α) (o : RetryOptions Unit) (rnd : Nat → ℚ)
    (a : Nat) (e : AttemptError) (h : script a = .rejected e)
    (hne : a ≠ o.maxRetries) (hrc : o.retryCondition () e = true) :
    retryBody (liftOptions o) (scriptedFn script) (fun _ w => w) rnd a a =
      ⟨.rejected e, passEvents o rnd a e, a + 1, true⟩ := by
  cases hcb : o.onRetry <;>
    simp [retryBody, scriptedFn, h, liftOptions, hne, hrc, hcb, passEvents]

end scripted

section scripted
variable {α : Type}

theorem passEvents_calls (o : RetryOptions Unit) (rnd : Nat → ℚ) (a : Nat) (e : AttemptError) :
    (passEvents (α := α) o rnd a e).countP RetryEvent.isInvoked = 1 := by
  unfold passEvents
  split <;> simp [RetryEvent.isInvoked]

theorem passEvents_sleeps (o : RetryOptions Unit) (rnd : Nat → ℚ) (a : Nat) (e : AttemptError) :
    (passEvents (α := α) o rnd a e).filterMap RetryEvent.delay? =
      [computeDelay (liftOptions (σ := Nat) o) a (rnd a)] := by
  unfold passEvents
  split <;> simp [RetryEvent.delay?]

theorem passEvents_retryCalls (o : RetryOptions Unit) (rnd : Nat → ℚ) (a : Nat)
    (e : AttemptError) :
    (passEvents (α := α) o rnd a e).filterMap RetryEvent.retryCall? =
      if o.onRetry.isSome then [(a + 1, e, computeDelay (liftOptions (σ := Nat) o) a (rnd a))]
      else [] := by
  unfold passEvents
  split <;> simp [RetryEvent.retryCall?, *]

/-- A scripted run whose attempts `a .. a+n-1` fail with errors the condition
accepts goes through `n` full passes and continues at attempt `a + n`. -/
theorem scripted_split (script : Nat → Settled α) (o : RetryOptions Unit) (rnd : Nat → ℚ)
    (n : Nat) : ∀ (a rem : Nat), a + rem = o.maxRetries → n ≤ rem →
    (∀ j, a ≤ j → j < a + n → ∃ e, script j = .rejected e ∧ o.retryCondition () e = true) →
    ∃ pre : List (RetryEvent α),
      (retryLoop (liftOptions o) (scriptedFn script) (fun _ w => w) rnd rem a a).trace =
        pre ++ (retryLoop (liftOptions o) (scriptedFn script) (fun _ w => w) rnd
          (rem - n) (a + n) (a + n)).trace ∧
      (retryLoop (liftOptions o) (scriptedFn script) (fun _ w => w) rnd rem a a).result =
        (retryLoop (liftOptions o) (scriptedFn script) (fun _ w => w) rnd
          (rem - n) (a + n) (a + n)).result ∧
      pre.countP RetryEvent.isInvoked = n ∧
      (pre.filterMap RetryEvent.delay?).length = n ∧
      (pre.filterMap RetryEvent.retryCall?).map Prod.fst =
        (if o.onRetry.isSome then List.range' (a + 1) n else []) := by
  induction n with
  | zero =>
    intro a rem _ _ _
    exact ⟨[], by simp, by simp, by simp, by simp, by simp⟩
  | succ n ih =>
    intro a rem hsum hle hfail
    obtain ⟨rem', rfl⟩ : ∃ r, rem = r + 1 := ⟨rem - 1, by omega⟩
    obtain ⟨e, he, hrc⟩ := hfail a (Nat.le_refl a) (by omega)
    have hne : a ≠ o.maxRetries := by omega
    obtain ⟨pre, h1, h2, h3, h4, h5⟩ := ih (a + 1) rem' (by omega) (by omega)
      (fun j hj1 hj2 => hfail j (by omega) (by omega))
    have hidx : a + 1 + n = a + (n + 1) := by omega
    rw [hidx] at h1 h2
    refine ⟨passEvents o rnd a e ++ pre, ?_, ?_, ?_, ?_, ?_⟩
    · simp [retryLoop, scripted_body_again script o rnd a e he hne hrc, h1]
    · simp [retryLoop, scripted_body_again script o rnd a e he hne hrc, h2]
    · simp [List.countP_append, passEvents_calls, h3]; omega
    · simp [List.filterMap_append, passEvents_sleeps, h4]
    · simp only [List.filterMap_append, passEvents_retryCalls, List.map_append, h5]
      cases o.onRetry <;> simp [List.range'_succ]

end scripted

/-! ### Claims on `retryWithBackoff` -/

section scripted
variable {α : Type}

/-- A scripted run whose first `k` attempts fail with accepted errors and whose
attempt `k` ends the loop: what the run returns and what it did. -/
theorem scripted_ends_at (script : Nat → Settled α) (o : RetryOptions Unit) (rnd : Nat → ℚ)
    (k : Nat) (out : Settled α) (hk : k ≤ o.maxRetries)
    (hprev : ∀ j, j < k → ∃ e, script j = .rejected e ∧ o.retryCondition () e = true)
    (hbody : retryBody (liftOptions o) (scriptedFn script) (fun _ w => w) rnd k k =
      ⟨out, [.invoked k out], k + 1, false⟩) :
    (retryScript script o rnd).result = out ∧
    (retryScript script o rnd).calls = k + 1 ∧
    (retryScript script o rnd).sleeps.length = k ∧
    (retryScript script o rnd).onRetryCalls.map Prod.fst =
      (if o.onRetry.isSome then List.range' 1 k else []) ∧
    (retryScript script o rnd).trace.getLast? = some (.invoked k out) := by
  obtain ⟨pre, h1, h2, h3, h4, h5⟩ := scripted_split script o rnd k 0 o.maxRetries
    (by simp [liftOptions]) hk (fun j _ hj => hprev j (by omega))
  have hloop : retryLoop (liftOptions o) (scriptedFn script) (fun _ w => w) rnd
      (o.maxRetries - k) (0 + k) (0 + k) = ⟨out, [.invoked k out], k + 1⟩ := by
    rw [Nat.zero_add]
    cases hrem : o.maxRetries - k <;> simp [retryLoop, hbody]
  rw [hloop] at h1 h2
  have ht : (retryScript script o rnd).trace = pre ++ [.invoked k out] := h1
  have hr : (retryScript script o rnd).result = out := h2
  refine ⟨hr, ?_, ?_, ?_, ?_⟩
  · simp [Run.calls, ht, List.countP_append, h3, RetryEvent.isInvoked]
  · simp [Run.sleeps, ht, List.filterMap_append, h4, RetryEvent.delay?]
  · simp only [Run.onRetryCalls, ht, List.filterMap_append, List.map_append, h5]
    simp [RetryEvent.retryCall?]
  · simp [ht]

end scripted

/-- C3: `retryWithBackoff` invokes the operation at most `maxRetries + 1` times, at
attempt indices `0..maxRetries`; when every attempt fails with an error the
`retryCondition` accepts it invokes it exactly `maxRetries + 1` times, the
invocation with index `maxRetries` is the last thing it does (no retry after
it), and it fails with the error of that attempt. -/
theorem retryWithBackoff_attempts {σ α : Type} (fn : σ → Settled α × σ) (o : RetryOptions σ)
    (sleep : ℚ → σ → σ) (rnd : Nat → ℚ) (w : σ) :
    (retryWithBackoff fn o sleep rnd w).calls ≤ o.maxRetries + 1 ∧
    (∀ i out, RetryEvent.invoked i out ∈ (retryWithBackoff fn o sleep rnd w).trace →
      i ≤ o.maxRetries) ∧
    ∀ (script : Nat → Settled α) (p : RetryOptions Unit),
      (∀ j, ∃ e, script j = .rejected e ∧ p.retryCondition () e = true) →
      (retryScript script p rnd).calls = p.maxRetries + 1 ∧
      ∃ e, script p.maxRetries = .rejected e ∧
        (retryScript script p rnd).result = .rejected e ∧
        (retryScript script p rnd).trace.getLast? =
          some (.invoked p.maxRetries (.rejected e)) := by
  refine ⟨retryLoop_calls_le o fn sleep rnd o.maxRetries 0 w, ?_, ?_⟩
  · intro i out h
    have := retryLoop_index o fn sleep rnd o.maxRetries 0 w i out h
    omega
  · intro script p hall
    obtain ⟨e, he, _⟩ := hall p.maxRetries
    have := scripted_ends_at script p rnd p.maxRetries (.rejected e) (Nat.le_refl _)
      (fun j _ => hall j) (scripted_body_final script p rnd p.maxRetries e he (Or.inl rfl))
    exact ⟨this.2.1, e, he, this.1, this.2.2.2.2⟩

/-- Witness for C3: under the default options an operation that always fails is
invoked four times. -/
theorem retryWithBackoff_attempts_witness :
    (retryScript (fun _ => (Settled.rejected abortError : Settled Unit)) {} fun _ => 0).calls
      = 3 + 1 :=
  ((retryWithBackoff_attempts (scriptedFn fun _ => (Settled.rejected abortError : Settled Unit))
    {} (fun _ w => w) (fun _ => 0) 0).2.2 (fun _ => .rejected abortError) {}
    (fun _ => ⟨abortError, rfl, rfl⟩)).1

/-- C5: with `jitter = false` the delay after failed attempt `i` is
`min(baseDelay * backoffFactor^i, maxDelay)`: the `i`-th wait of a run has that
length, and every call of `onRetry`, made with attempt number `i + 1`, is handed
that delay; at most `maxRetries` delays are computed. -/
theorem retryWithBackoff_delay_no_jitter {σ α : Type} (fn : σ → Settled α × σ)
    (o : RetryOptions σ) (sleep : ℚ → σ → σ) (rnd : Nat → ℚ) (w : σ) (hj : o.jitter = false) :
    (retryWithBackoff fn o sleep rnd w).sleeps =
      (List.range (retryWithBackoff fn o sleep rnd w).sleeps.length).map
        (fun i => min (o.baseDelay * o.backoffFactor ^ i) o.maxDelay) ∧
    (retryWithBackoff fn o sleep rnd w).sleeps.length ≤ o.maxRetries ∧
    ∀ c ∈ (retryWithBackoff fn o sleep rnd w).onRetryCalls,
      1 ≤ c.1 ∧ c.2.2 = min (o.baseDelay * o.backoffFactor ^ (c.1 - 1)) o.maxDelay := by
  refine ⟨?_, ?_, ?_⟩
  · have := retryLoop_sleeps o fn sleep rnd o.maxRetries 0 w
    simp only [computeDelay_no_jitter o hj] at this
    rw [List.range_eq_range']
    exact this
  · exact retryLoop_sleeps_length o fn sleep rnd o.maxRetries 0 w (by simp)
  · intro c hc
    have := retryLoop_retryCalls o fn sleep rnd o.maxRetries 0 w c hc
    rw [computeDelay_no_jitter o hj] at this
    exact this

/-- C7: when attempt `i` fails with an error the `retryCondition` rejects,
`retryWithBackoff` fails with exactly that error; the operation has been invoked
`i + 1` times, and only the `i` earlier failures were followed by a wait and a
call of `onRetry`: the failed invocation is the last thing the run does. -/
theorem retryWithBackoff_rejected_is_final {α : Type} (script : Nat → Settled α)
    (o : RetryOptions Unit) (rnd : Nat → ℚ) (i : Nat) (e : AttemptError)
    (hi : i ≤ o.maxRetries)
    (hprev : ∀ j, j < i → ∃ e', script j = .rejected e' ∧ o.retryCondition () e' = true)
    (hfail : script i = .rejected e) (hrc : o.retryCondition () e = false) :
    (retryScript script o rnd).result = .rejected e ∧
    (retryScript script o rnd).calls = i + 1 ∧
    (retryScript script o rnd).sleeps.length = i ∧
    (retryScript script o rnd).onRetryCalls.map Prod.fst =
      (if o.onRetry.isSome then List.range' 1 i else []) ∧
    (retryScript script o rnd).trace.getLast? = some (.invoked i (.rejected e)) :=
  scripted_ends_at script o rnd i (.rejected e) hi hprev
    (scripted_body_final script o rnd i e hfail (Or.inr hrc))

/-- Witness for C5: the `UPLOAD` preset with `jitter` off, two failures then a
success. -/
theorem retryWithBackoff_delay_no_jitter_witness :
    (retryScript (fun n => if n < 2 then Settled.rejected { code := some "UPLOAD_FAILED" }
        else Settled.resolved (7 : Nat))
      { RetryStrategies.UPLOAD with jitter := false } fun _ => 0).sleeps.length ≤ 2 :=
  (retryWithBackoff_delay_no_jitter
    (scriptedFn fun n => if n < 2 then Settled.rejected { code := some "UPLOAD_FAILED" }
      else Settled.resolved (7 : Nat))
    (liftOptions { RetryStrategies.UPLOAD with jitter := false }) (fun _ w => w) (fun _ => 0) 0
    rfl).2.1

/-- Witness for C7: under `UPLOAD` a retryable failure followed by a `TIMEOUT`
rejection ends after two invocations. -/
theorem retryWithBackoff_rejected_is_final_witness :
    (retryScript (fun n => if n < 1 then Settled.rejected { code := some "UPLOAD_FAILED" }
        else (Settled.rejected { code := some "TIMEOUT" } : Settled Nat))
      RetryStrategies.UPLOAD fun _ => 0).calls = 1 + 1 :=
  (retryWithBackoff_rejected_is_final
    (fun n => if n < 1 then Settled.rejected { code := some "UPLOAD_FAILED" }
      else (Settled.rejected { code := some "TIMEOUT" } : Settled Nat))
    RetryStrategies.UPLOAD (fun _ => 0) 1 { code := some "TIMEOUT" } (by decide)
    (fun j hj => ⟨{ code := some "UPLOAD_FAILED" }, by
      have : j = 0 := by omega
      subst this
      exact ⟨rfl, by decide⟩⟩)
    rfl (by decide)).2.1

/-- C4, counterexample: under the default options and under the `FAST` preset an
operation that always fails with the `USER_ABORT` error is invoked again after
each failure, `maxRetries + 1` times in all. -/
theorem user_abort_is_retried :
    (retryScript (fun _ => (Settled.rejected abortError : Settled Unit)) {} fun _ => 0).calls
      = 4 ∧
    (retryScript (fun _ => (Settled.rejected abortError : Settled Unit)) RetryStrategies.FAST
      fun _ => 0).calls = 3 ∧
    abortError.type = some ErrorTypes.USER_ABORT := by
  decide

/-- C4, amended: under a strategy whose `retryCondition` is that of the `NETWORK` or
of the `UPLOAD` preset, at every attempt index an attempt that fails with a
`USER_ABORT` error (type and code `USER_ABORT`) is not retried: the operation
is not invoked again and that error is the final failure. -/
theorem user_abort_final_under_network_upload {α : Type} (script : Nat → Settled α)
    (o : RetryOptions Unit) (rnd : Nat → ℚ) (i : Nat) (e : AttemptError)
    (ho : o.retryCondition = (RetryStrategies.NETWORK (σ := Unit)).retryCondition ∨
      o.retryCondition = (RetryStrategies.UPLOAD (σ := Unit)).retryCondition)
    (hi : i ≤ o.maxRetries)
    (hprev : ∀ j, j < i → ∃ e', script j = .rejected e' ∧ o.retryCondition () e' = true)
    (hfail : script i = .rejected e)
    (htype : e.type = some ErrorTypes.USER_ABORT) (hcode : e.code = some "USER_ABORT") :
    (retryScript script o rnd).result = .rejected e ∧
    (retryScript script o rnd).calls = i + 1 ∧
    (retryScript script o rnd).trace.getLast? = some (.invoked i (.rejected e)) := by
  have hrc : o.retryCondition () e = false := by
    rcases ho with ho | ho <;> rw [ho]
    · simp [RetryStrategies.NETWORK, RetryStrategies.networkCondition, includesField, htype,
        hcode, ErrorTypes.USER_ABORT, ErrorTypes.NETWORK, ErrorTypes.TIMEOUT, ErrorTypes.SERVER]
    · simp [RetryStrategies.UPLOAD, RetryStrategies.uploadCondition, hcode]
  have := scripted_ends_at script o rnd i (.rejected e) hi hprev
    (scripted_body_final script o rnd i e hfail (Or.inr hrc))
  exact ⟨this.1, this.2.1, this.2.2.2.2⟩

/-- Witness for C4 as amended: under `UPLOAD` the abort error ends the run at
the first attempt. -/
theorem user_abort_final_under_network_upload_witness :
    (retryScript (fun _ => (Settled.rejected abortError : Settled Unit)) RetryStrategies.UPLOAD
      fun _ => 0).calls = 0 + 1 :=
  (user_abort_final_under_network_upload
    (fun _ => (Settled.rejected abortError : Settled Unit)) RetryStrategies.UPLOAD (fun _ => 0)
    0 abortError (Or.inr rfl) (by decide) (fun j hj => absurd hj (Nat.not_lt_zero j)) rfl rfl
    rfl).2.1

/-! ### Claims on `cancellableRetry` -/

section cancellable
variable {α : Type}

theorem cancel_spec (depth : Nat) : ∀ s : CancelState,
    (cancel depth s).1.fnCalls = s.fnCalls ∧ (cancel depth s).1.attempts = s.attempts ∧
    (s.cancelled = true → (cancel depth s).1.cancelled = true) ∧
    (0 < depth → (cancel depth s).1.cancelled = true) := by
  induction depth with
  | zero => intro s; simp [cancel]
  | succ d ih =>
    intro s
    simp only [cancel]
    split
    · obtain ⟨h1, h2, h3, _⟩ := ih { s with cancelled := true }
      exact ⟨h1, h2, fun _ => h3 rfl, fun _ => h3 rfl⟩
    · simp

variable (fn : Nat → Settled α) (len : Nat) (o : RetryOptions Unit) (sched : CancelSchedule)
  (rnd : Nat → ℚ)

/-- Once `cancelled` is set, the next pass throws the abort error without
calling the operation and the loop ends there. -/
theorem cancelled_loop (rem a : Nat) (w : CancelState) (h : w.cancelled = true) :
    retryLoop (cancellableOptions o) (cancellableFn fn len sched) (cancellableSleep sched) rnd
      rem a w =
      ⟨.rejected abortError, [.invoked a (.rejected abortError)],
        { w with attempts := w.attempts + 1 }⟩ := by
  cases rem <;> simp [retryLoop, retryBody, cancellableFn, cancellableOptions, h]

theorem cancellableFn_live (w : CancelState) (h : w.cancelled = false) :
    (cancellableFn fn len sched w).1 = fn w.fnCalls ∧
    (cancellableFn fn len sched w).2.fnCalls = w.fnCalls + 1 ∧
    (cancellableFn fn len sched w).2.attempts = w.attempts + 1 ∧
    (sched.duringAttempt w.attempts = true → 0 < sched.stack →
      (cancellableFn fn len sched w).2.cancelled = true) ∧
    (sched.duringAttempt w.attempts = false →
      (cancellableFn fn len sched w).2.cancelled = false) := by
  have hc := fun s => cancel_spec sched.stack s
  refine ⟨by simp [cancellableFn, h], ?_, ?_, ?_, ?_⟩
  · by_cases hl : 0 < len <;> by_cases hd : sched.duringAttempt w.attempts = true <;>
      simp [cancellableFn, h, hl, hd, hc]
  · by_cases hl : 0 < len <;> by_cases hd : sched.duringAttempt w.attempts = true <;>
      simp [cancellableFn, h, hl, hd, hc]
  · intro hd hs
    by_cases hl : 0 < len <;> simp [cancellableFn, h, hl, hd, hc, hs]
  · intro hd
    by_cases hl : 0 < len <;> simp [cancellableFn, h, hl, hd]

theorem cancellableSleep_spec (d : ℚ) (s : CancelState) :
    (cancellableSleep sched d s).fnCalls = s.fnCalls ∧
    (cancellableSleep sched d s).attempts = s.attempts ∧
    (sched.duringWait (s.attempts - 1) = true → 0 < sched.stack →
      (cancellableSleep sched d s).cancelled = true) ∧
    (sched.duringWait (s.attempts - 1) = false → cancellableSleep sched d s = s) := by
  have hc := cancel_spec sched.stack s
  unfold cancellableSleep
  refine ⟨?_, ?_, ?_, ?_⟩
  · split
    · exact hc.1
    · rfl
  · split
    · exact hc.2.1
    · rfl
  · intro hw hs
    rw [if_pos hw]
    exact hc.2.2.2 hs
  · intro hw
    simp [hw]

theorem cancellable_callback (n : Nat) (e : AttemptError) (d : ℚ) (w : CancelState) :
    (cancellableOptions o).callOnRetry n e d w = w := by
  cases h : o.onRetry <;> simp [RetryOptions.callOnRetry, cancellableOptions, liftOptions, h]

theorem cancellable_condition (w : CancelState) (e : AttemptError) :
    (cancellableOptions o).retryCondition w e =
      (!w.cancelled && !e.wasAborted && o.retryCondition () e) := by
  simp only [cancellableOptions]
  cases w.cancelled <;> cases e.wasAborted <;> simp

/-- Once `cancelled` is set the operation is not invoked again. -/
theorem cancellable_fnCalls_frozen (rem a : Nat) (w : CancelState) (h : w.cancelled = true) :
    (retryLoop (cancellableOptions o) (cancellableFn fn len sched) (cancellableSleep sched) rnd
      rem a w).world.fnCalls = w.fnCalls := by
  rw [cancelled_loop fn len o sched rnd rem a w h]

/-- When the handle is invoked at attempt `i` (while it is in flight, or
during the wait after it), the operation is invoked at most up to attempt `i`. -/
theorem cancellable_fnCalls_le (i : Nat)
    (hcancel : sched.duringAttempt i = true ∨ sched.duringWait i = true)
    (hstack : 0 < sched.stack) (rem : Nat) : ∀ (a : Nat) (w : CancelState),
    w.cancelled = false → w.attempts ≤ i →
    (retryLoop (cancellableOptions o) (cancellableFn fn len sched) (cancellableSleep sched) rnd
      rem a w).world.fnCalls ≤ w.fnCalls + (i - w.attempts) + 1 := by
  induction rem with
  | zero =>
    intro a w hw hi
    obtain ⟨_, hf, _, _, _⟩ := cancellableFn_live fn len sched w hw
    simp only [retryLoop]
    cases hb : (retryBody (cancellableOptions o) (cancellableFn fn len sched)
        (cancellableSleep sched) rnd a w).again with
    | false =>
      rw [(retryBody_done _ _ _ _ _ _ hb).1, hf]
      omega
    | true =>
      obtain ⟨e, _, _, _, hworld⟩ := retryBody_again _ _ _ _ _ _ hb
      rw [hworld, cancellable_callback, (cancellableSleep_spec sched _ _).1, hf]
      omega
  | succ n ih =>
    intro a w hw hi
    obtain ⟨_, hf, hat, hduring, _⟩ := cancellableFn_live fn len sched w hw
    simp only [retryLoop]
    cases hb : (retryBody (cancellableOptions o) (cancellableFn fn len sched)
        (cancellableSleep sched) rnd a w).again with
    | false =>
      simp only [Bool.false_eq_true, if_false]
      rw [(retryBody_done _ _ _ _ _ _ hb).1, hf]
      omega
    | true =>
      simp only [if_true]
      obtain ⟨e, _, _, hrc, hworld⟩ := retryBody_again _ _ _ _ _ _ hb
      rw [cancellable_callback] at hworld
      obtain ⟨hsf, hsa, hswait, _⟩ := cancellableSleep_spec sched
        (computeDelay (cancellableOptions o) a (rnd a)) (cancellableFn fn len sched w).2
      rw [hworld]
      cases hcw : (cancellableSleep sched (computeDelay (cancellableOptions o) a (rnd a))
          (cancellableFn fn len sched w).2).cancelled with
      | true =>
        rw [cancellable_fnCalls_frozen fn len o sched rnd n (a + 1) _ hcw, hsf, hf]
        omega
      | false =>
        have hlt : w.attempts ≠ i := by
          intro heq
          rw [cancellable_condition] at hrc
          rcases hcancel with hd | hwt
          · rw [hduring (heq ▸ hd) hstack] at hrc
            simp at hrc
          · have := hswait (by rw [hat, Nat.add_sub_cancel, heq]; exact hwt) hstack
            rw [this] at hcw
            cases hcw
        have := ih (a + 1) _ hcw (by rw [hsa, hat]; omega)
        rw [hsf, hsa, hf, hat] at this
        omega

end cancellable

section cancellable
variable {α : Type} (fn : Nat → Settled α) (len : Nat) (o : RetryOptions Unit)
  (sched : CancelSchedule) (rnd : Nat → ℚ)

/-- The handle is invoked during the wait that follows failed attempt `i`, all
attempts up to `i` having failed retryably with nobody cancelling before: the
next pass throws the abort error and the run ends with it. -/
theorem cancellable_cancel_in_wait (i : Nat) (hi : i < o.maxRetries)
    (hfail : ∀ j, j ≤ i →
      ∃ e, fn j = .rejected e ∧ o.retryCondition () e = true ∧ e.wasAborted = false)
    (hd : ∀ j, j ≤ i → sched.duringAttempt j = false)
    (hw : ∀ j, j < i → sched.duringWait j = false)
    (hcw : sched.duringWait i = true) (hstack : 0 < sched.stack) (n : Nat) :
    ∀ (a rem : Nat) (w : CancelState), a + n = i → a + rem = o.maxRetries →
      w.cancelled = false → w.attempts = a → w.fnCalls = a →
      (retryLoop (cancellableOptions o) (cancellableFn fn len sched) (cancellableSleep sched)
        rnd rem a w).result = .rejected abortError ∧
      (retryLoop (cancellableOptions o) (cancellableFn fn len sched) (cancellableSleep sched)
        rnd rem a w).world.fnCalls = i + 1 ∧
      (retryLoop (cancellableOptions o) (cancellableFn fn len sched) (cancellableSleep sched)
        rnd rem a w).calls = n + 2 ∧
      (retryLoop (cancellableOptions o) (cancellableFn fn len sched) (cancellableSleep sched)
        rnd rem a w).trace.getLast? = some (.invoked (i + 1) (.rejected abortError)) := by
  induction n with
  | zero =>
    intro a rem w hai hrem hwc hwa hwf
    have hai' : a = i := by omega
    obtain ⟨rem', rfl⟩ : ∃ r, rem = r + 1 := ⟨rem - 1, by omega⟩
    obtain ⟨e, he, hrc, hab⟩ := hfail a (by omega)
    obtain ⟨h1, hf, hat, _, hlive⟩ := cancellableFn_live fn len sched w hwc
    have hlive' := hlive (by rw [hwa]; exact hd a (by omega))
    have hmax : a ≠ (cancellableOptions o).maxRetries := by
      show a ≠ o.maxRetries
      omega
    have hcond : (cancellableOptions o).retryCondition (cancellableFn fn len sched w).2 e
        = true := by
      rw [cancellable_condition, hlive', hab, hrc]; rfl
    obtain ⟨hagain, hcalls⟩ := retryBody_retry (cancellableOptions o)
      (cancellableFn fn len sched) (cancellableSleep sched) rnd a w e (by rw [h1, hwf]; exact he)
      hmax hcond
    obtain ⟨e', _, _, _, hworld⟩ := retryBody_again _ _ _ _ _ _ hagain
    rw [cancellable_callback] at hworld
    obtain ⟨hsf, hsa, hswait, _⟩ := cancellableSleep_spec sched
      (computeDelay (cancellableOptions o) a (rnd a)) (cancellableFn fn len sched w).2
    have hcancelled := hswait (by rw [hat, hwa, Nat.add_sub_cancel, hai']; exact hcw) hstack
    simp only [retryLoop, hagain, if_true, hworld]
    rw [cancelled_loop fn len o sched rnd rem' (a + 1) _ hcancelled]
    refine ⟨rfl, ?_, ?_, ?_⟩
    · show (cancellableSleep sched _ _).fnCalls = _
      rw [hsf, hf, hwf, hai']
    · simp [Run.calls, List.countP_append, hcalls, RetryEvent.isInvoked]
    · simp [hai']
  | succ n ih =>
    intro a rem w hai hrem hwc hwa hwf
    obtain ⟨rem', rfl⟩ : ∃ r, rem = r + 1 := ⟨rem - 1, by omega⟩
    obtain ⟨e, he, hrc, hab⟩ := hfail a (by omega)
    obtain ⟨h1, hf, hat, _, hlive⟩ := cancellableFn_live fn len sched w hwc
    have hlive' := hlive (by rw [hwa]; exact hd a (by omega))
    have hmax : a ≠ (cancellableOptions o).maxRetries := by
      show a ≠ o.maxRetries
      omega
    have hcond : (cancellableOptions o).retryCondition (cancellableFn fn len sched w).2 e
        = true := by
      rw [cancellable_condition, hlive', hab, hrc]; rfl
    obtain ⟨hagain, hcalls⟩ := retryBody_retry (cancellableOptions o)
      (cancellableFn fn len sched) (cancellableSleep sched) rnd a w e (by rw [h1, hwf]; exact he)
      hmax hcond
    obtain ⟨e', _, _, _, hworld⟩ := retryBody_again _ _ _ _ _ _ hagain
    rw [cancellable_callback] at hworld
    obtain ⟨_, _, _, hsame⟩ := cancellableSleep_spec sched
      (computeDelay (cancellableOptions o) a (rnd a)) (cancellableFn fn len sched w).2
    have hsame' := hsame (by rw [hat, hwa, Nat.add_sub_cancel]; exact hw a (by omega))
    rw [hsame'] at hworld
    obtain ⟨r1, r2, r3, r4⟩ := ih (a + 1) rem' (cancellableFn fn len sched w).2 (by omega)
      (by omega) hlive' (by rw [hat, hwa]) (by rw [hf, hwf])
    simp only [retryLoop, hagain, if_true, hworld]
    refine ⟨r1, r2, ?_, ?_⟩
    · simp only [Run.calls, List.countP_append, hcalls] at r3 ⊢
      omega
    · simp [List.getLast?_append, r4]

end cancellable

/-- C9: once the handle returned by `cancellableRetry` has been invoked, the wrapped
operation is not invoked again: a cancel at attempt `i` (while it is in flight
or during the wait after it) leaves the operation invoked at most `i + 1` times;
and when the cancel comes during the wait after a retryable failure at index
`i < maxRetries`, the next pass fails with the `USER_ABORT` error without
calling the operation, that error is not retried whatever the caller's
`retryCondition`, and the promise fails with it. -/
theorem cancellableRetry_cancel_stops {α : Type} (fn : Nat → Settled α) (len : Nat)
    (o : RetryOptions Unit) (sched : CancelSchedule) (rnd : Nat → ℚ)
    (hstack : 0 < sched.stack) :
    (∀ i, sched.duringAttempt i = true ∨ sched.duringWait i = true →
      (cancellableRetry fn len o sched rnd).world.fnCalls ≤ i + 1) ∧
    (∀ i, i < o.maxRetries →
      (∀ j, j ≤ i →
        ∃ e, fn j = .rejected e ∧ o.retryCondition () e = true ∧ e.wasAborted = false) →
      (∀ j, j ≤ i → sched.duringAttempt j = false) →
      (∀ j, j < i → sched.duringWait j = false) →
      sched.duringWait i = true →
      (cancellableRetry fn len o sched rnd).result = .rejected abortError ∧
      (cancellableRetry fn len o sched rnd).world.fnCalls = i + 1 ∧
      (cancellableRetry fn len o sched rnd).calls = i + 2 ∧
      (cancellableRetry fn len o sched rnd).trace.getLast? =
        some (.invoked (i + 1) (.rejected abortError))) ∧
    abortError.type = some ErrorTypes.USER_ABORT := by
  refine ⟨?_, ?_, rfl⟩
  · intro i hi
    have := cancellable_fnCalls_le fn len o sched rnd i hi hstack o.maxRetries 0 {} rfl
      (Nat.zero_le _)
    simpa [cancellableRetry, retryWithBackoff, cancellableOptions, liftOptions] using this
  · intro i hi hfail hd hw hcw
    have := cancellable_cancel_in_wait fn len o sched rnd i hi hfail hd hw hcw hstack i 0
      o.maxRetries {} (by omega) (by omega) rfl rfl rfl
    simpa [cancellableRetry, retryWithBackoff, cancellableOptions, liftOptions] using this

/-- Witness for C9: default options (every error accepted), the handle invoked
during the first wait: the operation has been invoked once and the promise
fails with the abort error. -/
theorem cancellableRetry_cancel_stops_witness :
    (cancellableRetry (fun _ => (Settled.rejected { code := some "NETWORK_ERROR" } : Settled Unit))
      0 {} { duringWait := fun i => i == 0 } fun _ => 0).world.fnCalls ≤ 0 + 1 ∧
    (cancellableRetry (fun _ => (Settled.rejected { code := some "NETWORK_ERROR" } : Settled Unit))
      0 {} { duringWait := fun i => i == 0 } fun _ => 0).result = .rejected abortError :=
  ⟨(cancellableRetry_cancel_stops
    (fun _ => (Settled.rejected { code := some "NETWORK_ERROR" } : Settled Unit))
    0 {} { duringWait := fun i => i == 0 } (fun _ => 0) (by decide)).1 0 (Or.inr rfl),
   ((cancellableRetry_cancel_stops
    (fun _ => (Settled.rejected { code := some "NETWORK_ERROR" } : Settled Unit))
    0 {} { duringWait := fun i => i == 0 } (fun _ => 0) (by decide)).2.1 0 (by decide)
    (fun _ _ => ⟨_, rfl, rfl, rfl⟩) (fun _ _ => rfl) (fun j hj => absurd hj (Nat.not_lt_zero j))
    rfl).1⟩

/-! ### The upload manager, operation by operation -/

namespace TaskMap

theorem get_set (m : TaskMap) (id id' : TaskId) (v : UploadTaskInfo) :
    (m.set id v).get id' = if id = id' then some v else m.get id' := by
  induction m with
  | nil =>
    simp [set, get]
  | cons hd tl ih =>
    obtain ⟨k, x⟩ := hd
    by_cases hk : k = id
    · subst hk
      by_cases h2 : k = id' <;> simp [set, get, h2]
    · by_cases h2 : k = id'
      · subst h2
        have hk' : ¬ id = k := fun h => hk h.symm
        simp [set, get, hk, hk']
      · simp [set, get, hk, h2, ih]

theorem get_delete (m : TaskMap) (id id' : TaskId) :
    (m.delete id).get id' = if id = id' then none else m.get id' := by
  induction m with
  | nil => simp [delete, get]
  | cons hd tl ih =>
    obtain ⟨k, x⟩ := hd
    simp only [delete] at ih
    by_cases hk : k = id
    · subst hk
      by_cases h2 : k = id'
      · simp [delete, get, h2, List.filter_cons] at ih ⊢
        simpa [h2] using ih
      · simp [delete, get, h2, List.filter_cons] at ih ⊢
        simpa [h2] using ih
    · by_cases h2 : k = id'
      · subst h2
        simp [delete, get, hk, List.filter_cons]
        intro h; exact absurd h.symm hk
      · simp [delete, get, hk, h2, List.filter_cons] at ih ⊢
        exact ih

end TaskMap

namespace UploadManager

section fields
variable (m : UploadManager) (id id' : TaskId) (st : TaskStatus) (u : Updates)

@[simp] theorem updateTaskStatus_maxConcurrent :
    (m.updateTaskStatus id st u).maxConcurrent = m.maxConcurrent := by
  unfold updateTaskStatus; split <;> simp [notifyListeners]

@[simp] theorem updateTaskStatus_activeCount :
    (m.updateTaskStatus id st u).activeCount = m.activeCount := by
  unfold updateTaskStatus; split <;> simp [notifyListeners]

@[simp] theorem updateTaskStatus_queue :
    (m.updateTaskStatus id st u).queue = m.queue := by
  unfold updateTaskStatus; split <;> simp [notifyListeners]

@[simp] theorem updateTaskStatus_running :
    (m.updateTaskStatus id st u).running = m.running := by
  unfold updateTaskStatus; split <;> simp [notifyListeners]

@[simp] theorem updateTaskStatus_cleanupTimers :
    (m.updateTaskStatus id st u).cleanupTimers = m.cleanupTimers := by
  unfold updateTaskStatus; split <;> simp [notifyListeners]

@[simp] theorem updateTaskStatus_submitted :
    (m.updateTaskStatus id st u).submitted = m.submitted := by
  unfold updateTaskStatus; split <;> simp [notifyListeners]

@[simp] theorem updateTaskStatus_enableRetry :
    (m.updateTaskStatus id st u).enableRetry = m.enableRetry := by
  unfold updateTaskStatus; split <;> simp [notifyListeners]

theorem updateTaskStatus_get :
    (m.updateTaskStatus id st u).tasks.get id' =
      if id = id' then (m.tasks.get id).map fun t => u.assign { t with status := st }
      else m.tasks.get id' := by
  unfold updateTaskStatus
  cases h : m.tasks.get id with
  | none =>
    by_cases hid : id = id'
    · subst hid; simp [h]
    · simp [hid]
  | some t =>
    simp [notifyListeners, TaskMap.get_set]

variable (wx cf : Bool)

@[simp] theorem storeHandles_maxConcurrent :
    (m.storeHandles id wx cf).maxConcurrent = m.maxConcurrent := by
  unfold storeHandles; split <;> rfl

@[simp] theorem storeHandles_activeCount :
    (m.storeHandles id wx cf).activeCount = m.activeCount := by
  unfold storeHandles; split <;> rfl

@[simp] theorem storeHandles_queue :
    (m.storeHandles id wx cf).queue = m.queue := by
  unfold storeHandles; split <;> rfl

@[simp] theorem storeHandles_running :
    (m.storeHandles id wx cf).running = m.running := by
  unfold storeHandles; split <;> rfl

@[simp] theorem storeHandles_cleanupTimers :
    (m.storeHandles id wx cf).cleanupTimers = m.cleanupTimers := by
  unfold storeHandles; split <;> rfl

@[simp] theorem storeHandles_submitted :
    (m.storeHandles id wx cf).submitted = m.submitted := by
  unfold storeHandles; split <;> rfl

@[simp] theorem storeHandles_enableRetry :
    (m.storeHandles id wx cf).enableRetry = m.enableRetry := by
  unfold storeHandles; split <;> rfl

theorem storeHandles_get :
    (m.storeHandles id wx cf).tasks.get id' =
      if id = id' then (m.tasks.get id).map fun t => { t with wxTask := wx, cancelFn := cf }
      else m.tasks.get id' := by
  unfold storeHandles
  cases h : m.tasks.get id with
  | none =>
    by_cases hid : id = id'
    · subst hid; simp [h]
    · simp [hid]
  | some t =>
    simp [TaskMap.get_set]

@[simp] theorem executeTask_maxConcurrent :
    (m._executeTask id).maxConcurrent = m.maxConcurrent := by
  unfold _executeTask
  split
  · rfl
  · split <;> simp

@[simp] theorem executeTask_queue :
    (m._executeTask id).queue = m.queue := by
  unfold _executeTask
  split
  · rfl
  · split <;> simp

@[simp] theorem executeTask_cleanupTimers :
    (m._executeTask id).cleanupTimers = m.cleanupTimers := by
  unfold _executeTask
  split
  · rfl
  · split <;> simp

@[simp] theorem executeTask_submitted :
    (m._executeTask id).submitted = m.submitted := by
  unfold _executeTask
  split
  · rfl
  · split <;> simp

@[simp] theorem executeTask_enableRetry :
    (m._executeTask id).enableRetry = m.enableRetry := by
  unfold _executeTask
  split
  · rfl
  · split <;> simp

theorem executeTask_activeCount :
    (m._executeTask id).activeCount =
      if m.startable id then m.activeCount + 1 else m.activeCount := by
  cases h : m.tasks.get id with
  | none => simp [_executeTask, startable, h]
  | some t =>
    by_cases hc : t.status = .CANCELLED <;> simp [_executeTask, startable, h, hc]

theorem executeTask_running :
    (m._executeTask id).running =
      if m.startable id then m.running ++ [id] else m.running := by
  cases h : m.tasks.get id with
  | none => simp [_executeTask, startable, h]
  | some t =>
    by_cases hc : t.status = .CANCELLED <;> simp [_executeTask, startable, h, hc]

theorem executeTask_get :
    (m._executeTask id).tasks.get id' =
      if m.startable id = true ∧ id = id' then
        (m.tasks.get id).map fun t =>
          { t with status := .UPLOADING, wxTask := true, cancelFn := m.enableRetry && !t.skipRetry }
      else m.tasks.get id' := by
  cases h : m.tasks.get id with
  | none => simp [_executeTask, startable, h]
  | some t =>
    by_cases hc : t.status = .CANCELLED
    · simp [_executeTask, startable, h, hc]
    · by_cases hid : id = id'
      · subst hid
        simp [_executeTask, startable, h, hc, storeHandles_get, updateTaskStatus_get, Updates.assign]
      · simp [_executeTask, startable, h, hc, storeHandles_get, updateTaskStatus_get, hid]

theorem processQueueLoop_maxConcurrent (q : List TaskId) (m : UploadManager) :
    (processQueueLoop q m).maxConcurrent = m.maxConcurrent := by
  induction q generalizing m with
  | nil => rfl
  | cons hd tl ih =>
    simp only [processQueueLoop]
    split
    · rw [ih]; simp
    · rfl

theorem processQueueLoop_activeCount_lt (q : List TaskId) (m : UploadManager)
    (h : (m.activeCount : ℚ) < m.maxConcurrent + 1) :
    ((processQueueLoop q m).activeCount : ℚ) < m.maxConcurrent + 1 := by
  induction q generalizing m with
  | nil => exact h
  | cons hd tl ih =>
    simp only [processQueueLoop]
    split
    · rename_i hlt
      have := ih (_executeTask { m with queue := tl } hd) (by
        rw [executeTask_activeCount, executeTask_maxConcurrent]
        split
        · push_cast
          linarith
        · exact h)
      simpa using this
    · exact h

end fields

section more
variable (m : UploadManager) (id id' : TaskId) (st : TaskStatus) (u : Updates)

theorem updateTaskStatus_retryNotifications :
    (m.updateTaskStatus id st u).notifications.countP (isRetryFor id') =
      m.notifications.countP (isRetryFor id') := by
  unfold updateTaskStatus
  split
  · rfl
  · simp [notifyListeners, isRetryFor, List.countP_append]

@[simp] theorem storeHandles_notifications (wx cf : Bool) :
    (m.storeHandles id wx cf).notifications = m.notifications := by
  unfold storeHandles; split <;> rfl

theorem executeTask_retryNotifications :
    (m._executeTask id).notifications.countP (isRetryFor id') =
      m.notifications.countP (isRetryFor id') := by
  unfold _executeTask
  split
  · rfl
  · split
    · rfl
    · simp [updateTaskStatus_retryNotifications]

theorem processQueueLoop_retryNotifications (q : List TaskId) :
    ∀ m : UploadManager, (processQueueLoop q m).notifications.countP (isRetryFor id') =
      m.notifications.countP (isRetryFor id') := by
  induction q with
  | nil => intro m; rfl
  | cons hd tl ih =>
    intro m
    simp only [processQueueLoop]
    split
    · rw [ih, executeTask_retryNotifications]
    · rfl

theorem processQueueLoop_get (q : List TaskId) (hq : id ∉ q) :
    ∀ m : UploadManager, (processQueueLoop q m).tasks.get id = m.tasks.get id := by
  induction q with
  | nil => intro m; rfl
  | cons hd tl ih =>
    intro m
    simp only [List.mem_cons, not_or] at hq
    simp only [processQueueLoop]
    split
    · rw [ih hq.2, executeTask_get]
      have : ¬ hd = id := fun h => hq.1 h.symm
      simp [this]
    · rfl

theorem onRetry_retryNotifications (n : Nat) (h : id ∈ m.running) :
    (m.onRetry id n).notifications.countP (isRetryFor id) =
      m.notifications.countP (isRetryFor id) + 1 := by
  simp [onRetry, h, notifyListeners, isRetryFor, List.countP_append]

@[simp] theorem onRetry_running (n : Nat) : (m.onRetry id n).running = m.running := by
  unfold onRetry; split <;> rfl

@[simp] theorem onRetry_queue (n : Nat) : (m.onRetry id n).queue = m.queue := by
  unfold onRetry; split <;> rfl

@[simp] theorem onRetry_tasks (n : Nat) : (m.onRetry id n).tasks = m.tasks := by
  unfold onRetry; split <;> rfl

/-- A running task that is not also waiting in the queue ends `COMPLETED`,
holding the result, when the promise it awaits resolves. -/
theorem executeTaskResume_resolved (t : UploadTaskInfo) (v : UploadOutcome)
    (hrun : id ∈ m.running) (hq : id ∉ m.queue) (hget : m.tasks.get id = some t) :
    (m._executeTaskResume id (.resolved v)).tasks.get id =
      some { t with status := .COMPLETED, result := some v } ∧
    (m._executeTaskResume id (.resolved v)).retryNotifications id = m.retryNotifications id ∧
    (id, Settled.resolved (some v)) ∈ (m._executeTaskResume id (.resolved v)).settled := by
  refine ⟨?_, ?_, ?_⟩
  · simp only [_executeTaskResume, hrun, if_true, _scheduleCleanup, _processQueue]
    rw [processQueueLoop_get _ _ (by simpa using hq)]
    simp [updateTaskStatus_get, hget, Updates.assign]
  · simp only [_executeTaskResume, hrun, if_true, _scheduleCleanup, _processQueue,
      retryNotifications]
    rw [processQueueLoop_retryNotifications]
    exact updateTaskStatus_retryNotifications _ id id _ _
  · simp [_executeTaskResume, hrun, _scheduleCleanup]

end more

section cancel
variable (m : UploadManager) (id id' : TaskId)

@[simp] theorem cancelTask_maxConcurrent : (m.cancelTask id).1.maxConcurrent = m.maxConcurrent := by
  unfold cancelTask
  split <;> simp

@[simp] theorem cancelTask_activeCount : (m.cancelTask id).1.activeCount = m.activeCount := by
  unfold cancelTask
  split <;> simp

@[simp] theorem cancelTask_running : (m.cancelTask id).1.running = m.running := by
  unfold cancelTask
  split <;> simp

@[simp] theorem cancelTask_cleanupTimers :
    (m.cancelTask id).1.cleanupTimers = m.cleanupTimers := by
  unfold cancelTask
  split <;> simp

@[simp] theorem cancelTask_submitted : (m.cancelTask id).1.submitted = m.submitted := by
  unfold cancelTask
  split <;> simp

theorem cancelTask_queue :
    (m.cancelTask id).1.queue =
      if (m.tasks.get id).isSome then m.queue.filter (fun item => item ≠ id) else m.queue := by
  unfold cancelTask
  cases h : m.tasks.get id <;> simp

theorem cancelTask_get :
    (m.cancelTask id).1.tasks.get id' =
      if id = id' then (m.tasks.get id).map fun t => { t with status := .CANCELLED }
      else m.tasks.get id' := by
  unfold cancelTask
  cases h : m.tasks.get id with
  | none =>
    by_cases hid : id = id'
    · subst hid; simp [h]
    · simp [hid]
  | some t =>
    simp only [updateTaskStatus_get]
    by_cases hid : id = id'
    · subst hid
      simp [h, Updates.assign]
    · simp [hid]

theorem cancelAll_fold_maxConcurrent (ids : List TaskId) : ∀ m : UploadManager,
    (ids.foldl (fun acc taskId => (cancelTask acc taskId).1) m).maxConcurrent
      = m.maxConcurrent := by
  induction ids with
  | nil => intro m; rfl
  | cons hd tl ih => intro m; simp [List.foldl_cons, ih]

@[simp] theorem cancelAllTasks_maxConcurrent : m.cancelAllTasks.maxConcurrent = m.maxConcurrent := by
  simp [cancelAllTasks, cancelAll_fold_maxConcurrent]

@[simp] theorem cleanupFired_maxConcurrent :
    (m.cleanupFired id).maxConcurrent = m.maxConcurrent := by
  unfold cleanupFired
  split
  · simp only []
    split
    · split <;> simp [notifyListeners]
    · rfl
  · rfl

@[simp] theorem cleanupFired_activeCount :
    (m.cleanupFired id).activeCount = m.activeCount := by
  unfold cleanupFired
  split
  · simp only []
    split
    · split <;> simp [notifyListeners]
    · rfl
  · rfl

theorem step_maxConcurrent (op : Op) : (m.step op).maxConcurrent = m.maxConcurrent := by
  cases op with
  | addTask taskId filePath poseId priority skipRetry =>
    simp only [step, addTask]
    split <;> simp [notifyListeners]
  | progress taskId p =>
    simp only [step, progressUpdate]
    split <;> simp
  | retry taskId attempt =>
    simp only [step, onRetry]
    split <;> simp [notifyListeners]
  | settle taskId outcome =>
    simp only [step, _executeTaskResume]
    split
    · cases outcome <;> simp [_scheduleCleanup, _processQueue, processQueueLoop_maxConcurrent]
    · rfl
  | cancelTask taskId => simp [step]
  | cancelAllTasks => simp [step]
  | cleanup taskId => simp [step]

theorem step_activeCount_lt (op : Op) (h0 : 0 < m.maxConcurrent + 1)
    (h : (m.activeCount : ℚ) < m.maxConcurrent + 1) :
    ((m.step op).activeCount : ℚ) < m.maxConcurrent + 1 := by
  cases op with
  | addTask taskId filePath poseId priority skipRetry =>
    simp only [step, addTask]
    split
    · simpa [notifyListeners] using h
    · rename_i hlt
      rw [executeTask_activeCount]
      simp only [notifyListeners, ge_iff_le, not_le] at hlt ⊢
      split
      · push_cast
        linarith
      · exact h
  | progress taskId p =>
    simp only [step, progressUpdate]
    split <;> simpa using h
  | retry taskId attempt =>
    simp only [step, onRetry]
    split <;> simpa [notifyListeners] using h
  | settle taskId outcome =>
    simp only [step, _executeTaskResume]
    split
    · simp only [_scheduleCleanup, _processQueue]
      have key : ∀ m1 : UploadManager, m1.maxConcurrent = m.maxConcurrent →
          m1.activeCount = m.activeCount →
          ((processQueueLoop m1.queue
            { m1 with activeCount := m1.activeCount - 1 }).activeCount : ℚ)
            < m.maxConcurrent + 1 := by
        intro m1 hm ha
        have := processQueueLoop_activeCount_lt m1.queue
          { m1 with activeCount := m1.activeCount - 1 } (by
            simp only [ha, hm]
            push_cast
            linarith)
        simpa [hm] using this
      cases outcome with
      | resolved v => exact key _ (by simp) (by simp)
      | rejected e => exact key _ (by simp) (by simp)
    · exact h
  | cancelTask taskId => simpa [step] using h
  | cancelAllTasks => simpa [step, cancelAllTasks] using h0
  | cleanup taskId => simpa [step] using h

theorem run_maxConcurrent (ops : List Op) : ∀ m : UploadManager,
    (m.run ops).maxConcurrent = m.maxConcurrent := by
  induction ops with
  | nil => intro m; rfl
  | cons op tl ih =>
    intro m
    simp only [run, List.foldl_cons] at ih ⊢
    rw [ih, step_maxConcurrent]

theorem run_activeCount_lt (ops : List Op) : ∀ m : UploadManager, 0 < m.maxConcurrent + 1 →
    (m.activeCount : ℚ) < m.maxConcurrent + 1 →
    ((m.run ops).activeCount : ℚ) < m.maxConcurrent + 1 := by
  induction ops with
  | nil => intro m _ h; exact h
  | cons op tl ih =>
    intro m h0 h
    simp only [run, List.foldl_cons] at ih ⊢
    have := ih (m.step op) (by rw [step_maxConcurrent]; exact h0)
      (by rw [step_maxConcurrent]; exact step_activeCount_lt m op h0 h)
    rw [step_maxConcurrent] at this
    exact this

end cancel
end UploadManager

namespace UploadManager

/-- With a free slot `addTask` starts the task: the counter goes up by one. -/
theorem addTask_activeCount_free (m : UploadManager) (id : TaskId) (filePath poseId : String)
    (priority : Int) (skipRetry : Bool) (hfree : (m.activeCount : ℚ) < m.maxConcurrent) :
    (m.addTask id filePath poseId priority skipRetry).activeCount = m.activeCount + 1 := by
  unfold addTask
  simp only []
  rw [if_neg (by simpa [notifyListeners] using hfree), executeTask_activeCount]
  simp [startable, notifyListeners, TaskMap.get_set]

theorem addTask_running_free (m : UploadManager) (id : TaskId) (filePath poseId : String)
    (priority : Int) (skipRetry : Bool) (hfree : (m.activeCount : ℚ) < m.maxConcurrent) :
    (m.addTask id filePath poseId priority skipRetry).running = m.running ++ [id] := by
  unfold addTask
  simp only []
  rw [if_neg (by simpa [notifyListeners] using hfree), executeTask_running]
  simp [startable, notifyListeners, TaskMap.get_set]

end UploadManager

/-! ### Concurrency bound and task status -/

/-- C1, counterexample: the constructor stores any number as `maxConcurrent`.
With `maxConcurrent: 1.5` the second of two submitted tasks still finds
`activeCount >= maxConcurrent` false (1 < 1.5) and starts: `activeCount` is 2,
above the limit. -/
theorem fractional_limit_exceeded :
    ((UploadManager.create (3 / 2) 10000 true "UPLOAD").run
      [.addTask "a" "a.jpg" "tree" 0 false,
        .addTask "b" "b.jpg" "tree" 0 false]).activeCount = 2 ∧
    ((UploadManager.create (3 / 2) 10000 true "UPLOAD").run
      [.addTask "a" "a.jpg" "tree" 0 false,
        .addTask "b" "b.jpg" "tree" 0 false]).running = ["a", "b"] ∧
    ((UploadManager.create (3 / 2) 10000 true "UPLOAD").run
      [.addTask "a" "a.jpg" "tree" 0 false,
        .addTask "b" "b.jpg" "tree" 0 false]).maxConcurrent < 2 := by
  have h1 : ((UploadManager.create (3 / 2) 10000 true "UPLOAD").addTask "a" "a.jpg" "tree" 0
      false).activeCount = 1 ∧
      ((UploadManager.create (3 / 2) 10000 true "UPLOAD").addTask "a" "a.jpg" "tree" 0
      false).running = ["a"] ∧
      ((UploadManager.create (3 / 2) 10000 true "UPLOAD").addTask "a" "a.jpg" "tree" 0
      false).maxConcurrent = 3 / 2 := by
    refine ⟨?_, ?_, ?_⟩
    · rw [UploadManager.addTask_activeCount_free _ _ _ _ _ _ (by
        norm_num [UploadManager.create])]
      rfl
    · rw [UploadManager.addTask_running_free _ _ _ _ _ _ (by norm_num [UploadManager.create])]
      rfl
    · show ((UploadManager.create (3 / 2) 10000 true "UPLOAD").step
        (.addTask "a" "a.jpg" "tree" 0 false)).maxConcurrent = 3 / 2
      rw [UploadManager.step_maxConcurrent]
      rfl
  obtain ⟨ha, hr, hm⟩ := h1
  simp only [UploadManager.run, List.foldl_cons, List.foldl_nil, UploadManager.step]
  generalize (UploadManager.create (3 / 2) 10000 true "UPLOAD").addTask "a" "a.jpg" "tree" 0
    false = m at ha hr hm
  refine ⟨?_, ?_, ?_⟩
  · rw [UploadManager.addTask_activeCount_free _ _ _ _ _ _ (by rw [ha, hm]; norm_num), ha]
    rfl
  · rw [UploadManager.addTask_running_free _ _ _ _ _ _ (by rw [ha, hm]; norm_num), hr]
    rfl
  · show (m.step (.addTask "b" "b.jpg" "tree" 0 false)).maxConcurrent < 2
    rw [UploadManager.step_maxConcurrent, hm]
    norm_num

/-- C1, amended: for an `UploadManager` built with any number `maxConcurrent >= 1`,
after every sequence of `addTask` calls, progress and retry callbacks,
settlements of running uploads, `cancelTask` and `cancelAllTasks` calls and
cleanup timers, `activeCount < maxConcurrent + 1`; when `maxConcurrent` is a
whole number this is `activeCount <= maxConcurrent`.  A task is started only
when `activeCount < maxConcurrent`: at the limit `addTask` starts nothing and
`_processQueue` does nothing. -/
theorem activeCount_lt_maxConcurrent_add_one (maxConcurrent : ℚ) (autoCleanMs : ℚ)
    (enableRetry : Bool) (retryStrategy : String) (h : 1 ≤ maxConcurrent) (ops : List Op) :
    (((UploadManager.create maxConcurrent autoCleanMs enableRetry retryStrategy).run
      ops).activeCount : ℚ) < maxConcurrent + 1 ∧
    (∀ limit : Int, maxConcurrent = limit →
      ((UploadManager.create maxConcurrent autoCleanMs enableRetry retryStrategy).run
        ops).activeCount ≤ limit) ∧
    (∀ (m : UploadManager) (taskId : TaskId) (filePath poseId : String) (priority : Int)
      (skipRetry : Bool), m.maxConcurrent ≤ m.activeCount →
      (m.addTask taskId filePath poseId priority skipRetry).running = m.running ∧
      (m.addTask taskId filePath poseId priority skipRetry).activeCount = m.activeCount) ∧
    (∀ m : UploadManager, m.maxConcurrent ≤ m.activeCount → m._processQueue = m) := by
  have hlt : (((UploadManager.create maxConcurrent autoCleanMs enableRetry retryStrategy).run
      ops).activeCount : ℚ) < maxConcurrent + 1 :=
    UploadManager.run_activeCount_lt ops
      (UploadManager.create maxConcurrent autoCleanMs enableRetry retryStrategy)
      (by simp only [UploadManager.create]; linarith)
      (by simp only [UploadManager.create]; push_cast; linarith)
  refine ⟨hlt, ?_, ?_, ?_⟩
  · intro limit hlimit
    subst hlimit
    have : ((UploadManager.create (limit : ℚ) autoCleanMs enableRetry retryStrategy).run
        ops).activeCount < limit + 1 := by exact_mod_cast hlt
    omega
  · intro m taskId filePath poseId priority skipRetry hfull
    simp [UploadManager.addTask, UploadManager.notifyListeners, hfull]
  · intro m hfull
    unfold UploadManager._processQueue
    cases hq : m.queue with
    | nil => rfl
    | cons hd tl =>
      simp only [UploadManager.processQueueLoop]
      rw [if_neg (by linarith)]

/-- Witness for C1: two tasks on a manager of capacity one, the first
settling; and at the limit a submitted task is not started. -/
theorem activeCount_lt_maxConcurrent_add_one_witness :
    ((UploadManager.create 1 10000 true "UPLOAD").run
      [.addTask "a" "a.jpg" "tree" 0 false, .addTask "b" "b.jpg" "tree" 0 false,
        .settle "a" (.resolved { score := 80 })]).activeCount ≤ 1 ∧
    (((UploadManager.create 1 10000 true "UPLOAD").run
      [.addTask "a" "a.jpg" "tree" 0 false]).addTask "b" "b.jpg" "tree" 0 false).running =
      ((UploadManager.create 1 10000 true "UPLOAD").run
        [.addTask "a" "a.jpg" "tree" 0 false]).running :=
  ⟨(activeCount_lt_maxConcurrent_add_one 1 10000 true "UPLOAD" (by decide)
    [.addTask "a" "a.jpg" "tree" 0 false, .addTask "b" "b.jpg" "tree" 0 false,
      .settle "a" (.resolved { score := 80 })]).2.1 1 (by norm_num),
   ((activeCount_lt_maxConcurrent_add_one 1 10000 true "UPLOAD" (by decide) []).2.2.1
    ((UploadManager.create 1 10000 true "UPLOAD").run [.addTask "a" "a.jpg" "tree" 0 false])
    "b" "b.jpg" "tree" 0 false (by decide)).1⟩

/-- C2, counterexample: a `COMPLETED` task becomes `CANCELLED` under `cancelTask` and
`UPLOADING` under a plain `updateTaskStatus`; a task cancelled while its upload
is in flight is `CANCELLED`, then `COMPLETED` once the upload settles, or
`UPLOADING` on a late progress callback. -/
theorem terminal_status_overwritten :
    ((UploadManager.create 3 10000 true "UPLOAD").run
      [.addTask "a" "a.jpg" "tree" 0 false,
        .settle "a" (.resolved { score := 80 })]).statusOf "a" = some .COMPLETED ∧
    ((UploadManager.create 3 10000 true "UPLOAD").run
      [.addTask "a" "a.jpg" "tree" 0 false, .settle "a" (.resolved { score := 80 }),
        .cancelTask "a"]).statusOf "a" = some .CANCELLED ∧
    (((UploadManager.create 3 10000 true "UPLOAD").run
      [.addTask "a" "a.jpg" "tree" 0 false,
        .settle "a" (.resolved { score := 80 })]).updateTaskStatus "a" .UPLOADING
          {}).statusOf "a" = some .UPLOADING ∧
    ((UploadManager.create 3 10000 true "UPLOAD").run
      [.addTask "a" "a.jpg" "tree" 0 false, .cancelTask "a"]).statusOf "a" = some .CANCELLED ∧
    ((UploadManager.create 3 10000 true "UPLOAD").run
      [.addTask "a" "a.jpg" "tree" 0 false, .cancelTask "a",
        .settle "a" (.resolved { score := 80 })]).statusOf "a" = some .COMPLETED ∧
    ((UploadManager.create 3 10000 true "UPLOAD").run
      [.addTask "a" "a.jpg" "tree" 0 false, .cancelTask "a",
        .progress "a" 50]).statusOf "a" = some .UPLOADING := by
  decide

/-- C2, amended: `updateTaskStatus` is a no-op only on a task that is absent from the
live map; on a present task it sets the requested status whatever the current
one, terminal or not, and leaves the status of every other task alone.  The
one status guard is in `_executeTask`: a task whose status is `CANCELLED` is
not started (it is not counted active, no upload begins and the status stays
`CANCELLED`). -/
theorem updateTaskStatus_overwrites (m : UploadManager) (taskId : TaskId) (status : TaskStatus)
    (updates : Updates) :
    (m.tasks.get taskId = none → m.updateTaskStatus taskId status updates = m) ∧
    (m.updateTaskStatus taskId status updates).statusOf taskId =
      (m.statusOf taskId).map (fun _ => status) ∧
    (∀ other, other ≠ taskId →
      (m.updateTaskStatus taskId status updates).statusOf other = m.statusOf other) ∧
    (m.statusOf taskId = some .CANCELLED →
      (m._executeTask taskId).statusOf taskId = some .CANCELLED ∧
      (m._executeTask taskId).activeCount = m.activeCount ∧
      (m._executeTask taskId).running = m.running) := by
  refine ⟨?_, ?_, ?_, ?_⟩
  · intro h
    simp [UploadManager.updateTaskStatus, h]
  · simp only [UploadManager.statusOf, UploadManager.updateTaskStatus_get, if_true]
    cases m.tasks.get taskId <;> simp [Updates.assign]
  · intro other hne
    have : ¬ taskId = other := fun h => hne h.symm
    simp [UploadManager.statusOf, UploadManager.updateTaskStatus_get, this]
  · intro h
    have hs : m.startable taskId = false := by
      simp only [UploadManager.statusOf] at h
      cases hg : m.tasks.get taskId with
      | none => simp [hg] at h
      | some t =>
        simp only [hg, Option.map_some', Option.some.injEq] at h
        simp [UploadManager.startable, hg, h]
    refine ⟨?_, ?_, ?_⟩
    · simp only [UploadManager.statusOf] at h ⊢
      rw [UploadManager.executeTask_get]
      simpa [hs] using h
    · simp [UploadManager.executeTask_activeCount, hs]
    · simp [UploadManager.executeTask_running, hs]

/-- Witness for C2 as amended: an update of a task a new manager does not hold
changes nothing, and a task cancelled while it waits is not started by
`_executeTask`. -/
theorem updateTaskStatus_overwrites_witness :
    (UploadManager.create 3 10000 true "UPLOAD").updateTaskStatus "a" .COMPLETED {} =
      UploadManager.create 3 10000 true "UPLOAD" ∧
    (((UploadManager.create 1 10000 true "UPLOAD").run
      [.addTask "a" "a.jpg" "tree" 0 false, .addTask "b" "b.jpg" "tree" 0 false,
        .cancelTask "b"])._executeTask "b").statusOf "b" = some .CANCELLED :=
  ⟨(updateTaskStatus_overwrites (UploadManager.create 3 10000 true "UPLOAD") "a" .COMPLETED
    {}).1 rfl,
   ((updateTaskStatus_overwrites ((UploadManager.create 1 10000 true "UPLOAD").run
      [.addTask "a" "a.jpg" "tree" 0 false, .addTask "b" "b.jpg" "tree" 0 false,
        .cancelTask "b"]) "b" .COMPLETED {}).2.2.2 (by decide)).1⟩

/-! ### Retries inside a task -/

theorem uploadCondition_not_aborted (e : AttemptError)
    (h : RetryStrategies.uploadCondition e = true) : e.wasAborted = false := by
  unfold RetryStrategies.uploadCondition at h
  split at h
  · simp at h
  · rename_i hc
    simp at hc
    cases hw : e.wasAborted
    · rfl
    · exact absurd hw (by simp [hc.1])

namespace UploadManager

/-- The awaited promise of a task whose upload fails twice with errors the
`UPLOAD` condition accepts and then succeeds, nobody cancelling. -/
theorem uploadRun_third_succeeds (m : UploadManager) (t : UploadTaskInfo)
    (uploads : Nat → Settled UploadOutcome) (sched : CancelSchedule) (rnd : Nat → ℚ)
    (e0 e1 : AttemptError) (v : UploadOutcome)
    (hretry : m.enableRetry = true) (hskip : t.skipRetry = false)
    (hstrat : m.retryStrategy = "UPLOAD")
    (h0 : uploads 0 = .rejected e0) (h1 : uploads 1 = .rejected e1) (h2 : uploads 2 = .resolved v)
    (hc0 : RetryStrategies.uploadCondition e0 = true)
    (hc1 : RetryStrategies.uploadCondition e1 = true)
    (hd : ∀ i, sched.duringAttempt i = false) (hw : ∀ i, sched.duringWait i = false) :
    (m.uploadRun t uploads sched rnd).result = .resolved v ∧
    (m.uploadRun t uploads sched rnd).onRetryCalls.map Prod.fst = [1, 2] ∧
    (m.uploadRun t uploads sched rnd).calls = 3 := by
  have ha0 := uploadCondition_not_aborted e0 hc0
  have ha1 := uploadCondition_not_aborted e1 hc1
  simp [uploadRun, hretry, hskip, retryOptions, hstrat, RetryStrategies.get?, cancellableRetry,
    retryWithBackoff, cancellableOptions, liftOptions, RetryStrategies.UPLOAD, retryLoop,
    retryBody, cancellableFn, cancellableSleep, hd, hw, h0, h1, h2, hc0, hc1, ha0, ha1,
    Run.onRetryCalls, Run.calls, RetryEvent.retryCall?, RetryEvent.isInvoked]

/-- A started task whose upload fails twice retryably and then succeeds,
carried to its end. -/
theorem executeToEnd_third_succeeds (m : UploadManager) (taskId : TaskId) (t : UploadTaskInfo)
    (uploads : Nat → Settled UploadOutcome) (sched : CancelSchedule) (rnd : Nat → ℚ)
    (e0 e1 : AttemptError) (v : UploadOutcome)
    (hget : m.tasks.get taskId = some t) (hrun : taskId ∈ m.running)
    (hq : taskId ∉ m.queue)
    (hretry : m.enableRetry = true) (hskip : t.skipRetry = false)
    (hstrat : m.retryStrategy = "UPLOAD")
    (h0 : uploads 0 = .rejected e0) (h1 : uploads 1 = .rejected e1) (h2 : uploads 2 = .resolved v)
    (hc0 : RetryStrategies.uploadCondition e0 = true)
    (hc1 : RetryStrategies.uploadCondition e1 = true)
    (hd : ∀ i, sched.duringAttempt i = false) (hw : ∀ i, sched.duringWait i = false) :
    (m.uploadRun t uploads sched rnd).result = .resolved v ∧
    (m.uploadRun t uploads sched rnd).calls = 3 ∧
    (m.uploadRun t uploads sched rnd).onRetryCalls.map Prod.fst = [1, 2] ∧
    (m.executeToEnd taskId (m.uploadRun t uploads sched rnd)).statusOf taskId
      = some .COMPLETED ∧
    ((m.executeToEnd taskId (m.uploadRun t uploads sched rnd)).tasks.get taskId).bind
      (fun info => info.result) = some v ∧
    (m.executeToEnd taskId (m.uploadRun t uploads sched rnd)).retryNotifications taskId
      = m.retryNotifications taskId + 2 := by
  obtain ⟨r1, r2, r3⟩ := uploadRun_third_succeeds m t uploads sched rnd e0 e1 v hretry hskip
    hstrat h0 h1 h2 hc0 hc1 hd hw
  have hfold : m.executeToEnd taskId (m.uploadRun t uploads sched rnd) =
      ((m.onRetry taskId 1).onRetry taskId 2)._executeTaskResume taskId (.resolved v) := by
    have hf : ∀ (l : List (Nat × AttemptError × ℚ)) (m0 : UploadManager),
        l.foldl (fun acc call => acc.onRetry taskId call.1) m0 =
          (l.map Prod.fst).foldl (fun acc n => acc.onRetry taskId n) m0 := by
      intro l
      induction l with
      | nil => intro m0; rfl
      | cons hd tl ih => intro m0; simp [ih]
    unfold executeToEnd
    rw [r1, hf, r2]
    rfl
  obtain ⟨g1, g2, _⟩ := executeTaskResume_resolved ((m.onRetry taskId 1).onRetry taskId 2)
    taskId t v (by simpa using hrun) (by simpa using hq) (by simpa using hget)
  refine ⟨r1, r3, r2, ?_, ?_, ?_⟩
  · rw [hfold, statusOf, g1]; rfl
  · rw [hfold, g1]; rfl
  · rw [hfold, g2]
    simp only [retryNotifications]
    rw [onRetry_retryNotifications _ _ _ (by simpa using hrun),
      onRetry_retryNotifications _ _ _ hrun]

end UploadManager

/-- C6: when the operation fails `k <= maxRetries` times with errors the
`retryCondition` accepts and then succeeds, `retryWithBackoff` returns the
successful value, has invoked the operation `k + 1` times and has called
`onRetry` (when one is given) `k` times, with attempt numbers `1..k`; and in
the `UploadManager` (strategy `UPLOAD`, retries on) a started task whose upload
fails twice retryably and succeeds on the third attempt ends `COMPLETED` with
the successful result, `onRetry` having been called for retries 1 and 2 and
two `retry` notifications sent. -/
theorem retry_until_success :
    (∀ (α : Type) (script : Nat → Settled α) (o : RetryOptions Unit) (rnd : Nat → ℚ) (k : Nat)
      (v : α), k ≤ o.maxRetries →
      (∀ j, j < k → ∃ e, script j = .rejected e ∧ o.retryCondition () e = true) →
      script k = .resolved v →
      (retryScript script o rnd).result = .resolved v ∧
      (retryScript script o rnd).calls = k + 1 ∧
      (retryScript script o rnd).onRetryCalls.map Prod.fst =
        (if o.onRetry.isSome then List.range' 1 k else [])) ∧
    (∀ (m : UploadManager) (taskId : TaskId) (t : UploadTaskInfo)
      (uploads : Nat → Settled UploadOutcome) (sched : CancelSchedule) (rnd : Nat → ℚ)
      (e0 e1 : AttemptError) (v : UploadOutcome),
      m.tasks.get taskId = some t → taskId ∈ m.running → taskId ∉ m.queue →
      m.enableRetry = true → t.skipRetry = false → m.retryStrategy = "UPLOAD" →
      uploads 0 = .rejected e0 → uploads 1 = .rejected e1 → uploads 2 = .resolved v →
      RetryStrategies.uploadCondition e0 = true → RetryStrategies.uploadCondition e1 = true →
      (∀ i, sched.duringAttempt i = false) → (∀ i, sched.duringWait i = false) →
      (m.uploadRun t uploads sched rnd).result = .resolved v ∧
      (m.uploadRun t uploads sched rnd).calls = 3 ∧
      (m.uploadRun t uploads sched rnd).onRetryCalls.map Prod.fst = [1, 2] ∧
      (m.executeToEnd taskId (m.uploadRun t uploads sched rnd)).statusOf taskId
        = some .COMPLETED ∧
      ((m.executeToEnd taskId (m.uploadRun t uploads sched rnd)).tasks.get taskId).bind
        (fun info => info.result) = some v ∧
      (m.executeToEnd taskId (m.uploadRun t uploads sched rnd)).retryNotifications taskId
        = m.retryNotifications taskId + 2) := by
  constructor
  · intro α script o rnd k v hk hprev hok
    have := scripted_ends_at script o rnd k (.resolved v) hk hprev
      (scripted_body_resolved script o rnd k v hok)
    exact ⟨this.1, this.2.1, this.2.2.2.1⟩
  · intro m taskId t uploads sched rnd e0 e1 v hget hrun hq hretry hskip hstrat h0 h1 h2 hc0 hc1
      hd hw
    exact UploadManager.executeToEnd_third_succeeds m taskId t uploads sched rnd e0 e1 v hget hrun
      hq hretry hskip hstrat h0 h1 h2 hc0 hc1 hd hw

/-- Witness for C6: under `UPLOAD` an operation that fails once with
`UPLOAD_FAILED` and then succeeds is invoked twice; and a task of a new
manager whose upload fails twice with `UPLOAD_FAILED` and then succeeds ends
`COMPLETED`. -/
theorem retry_until_success_witness :
    (retryScript (fun n => if n < 1 then Settled.rejected { code := some "UPLOAD_FAILED" }
        else Settled.resolved (7 : Nat)) RetryStrategies.UPLOAD fun _ => 0).calls = 1 + 1 ∧
    (((UploadManager.create 3 10000 true "UPLOAD").addTask "frame_0" "f.jpg" "tree" 0
        false).executeToEnd "frame_0"
      (((UploadManager.create 3 10000 true "UPLOAD").addTask "frame_0" "f.jpg" "tree" 0
        false).uploadRun
        { taskId := "frame_0", filePath := "f.jpg", poseId := "tree", status := .UPLOADING,
          progress := 0, priority := 0, skipRetry := false, result := none, error := none,
          wxTask := true, cancelFn := true, seq := 0 }
        (fun n => if n < 2 then .rejected { code := some "UPLOAD_FAILED" }
          else .resolved { score := 80 })
        {} fun _ => 0)).statusOf "frame_0" = some .COMPLETED :=
  ⟨(retry_until_success.1 Nat
    (fun n => if n < 1 then Settled.rejected { code := some "UPLOAD_FAILED" }
      else Settled.resolved (7 : Nat)) RetryStrategies.UPLOAD (fun _ => 0) 1 7 (by decide)
    (fun j hj => ⟨{ code := some "UPLOAD_FAILED" }, by
      have : j = 0 := by omega
      subst this
      exact ⟨rfl, by decide⟩⟩)
    rfl).2.1,
   (retry_until_success.2
    ((UploadManager.create 3 10000 true "UPLOAD").addTask "frame_0" "f.jpg" "tree" 0 false)
    "frame_0"
    { taskId := "frame_0", filePath := "f.jpg", poseId := "tree", status := .UPLOADING,
      progress := 0, priority := 0, skipRetry := false, result := none, error := none,
      wxTask := true, cancelFn := true, seq := 0 }
    (fun n => if n < 2 then .rejected { code := some "UPLOAD_FAILED" }
      else .resolved { score := 80 })
    {} (fun _ => 0) { code := some "UPLOAD_FAILED" } { code := some "UPLOAD_FAILED" }
    { score := 80 } (by rfl) (by decide) (by decide) rfl rfl rfl rfl rfl rfl (by decide)
    (by decide) (fun _ => rfl) (fun _ => rfl)).2.2.2.1⟩

/-! ### Queue order -/

section sorting
variable {α : Type} (p : α → Int)

theorem orderedInsert_front (a : α) (l : List α) (h : ∀ b ∈ l, p b ≤ p a) :
    l.orderedInsert (fun a b => p b ≤ p a) a = a :: l := by
  cases l with
  | nil => rfl
  | cons b l' => exact List.orderedInsert_of_le _ l' (h b (List.mem_cons_self _ _))

/-- Sorting a descending list with a strictly larger element appended moves
that element to the front. -/
theorem insertionSort_append_larger (x : α) (l : List α)
    (hs : l.Pairwise fun a b => p b ≤ p a) (hlt : ∀ b ∈ l, p b < p x) :
    (l ++ [x]).insertionSort (fun a b => p b ≤ p a) = x :: l := by
  induction l with
  | nil => rfl
  | cons a l ih =>
    rw [List.pairwise_cons] at hs
    have hax : ¬ p x ≤ p a := by
      have := hlt a (List.mem_cons_self _ _)
      omega
    rw [List.cons_append, List.insertionSort,
      ih hs.2 (fun b hb => hlt b (List.mem_cons_of_mem _ hb))]
    simp only [List.orderedInsert, hax, if_false]
    rw [orderedInsert_front p a l hs.1]

/-- Stable sort of a descending list with one element appended: the new
element goes after every element whose priority is at least its own. -/
theorem insertionSort_append_singleton (x : α) (l : List α)
    (hs : l.Pairwise fun a b => p b ≤ p a) :
    (l ++ [x]).insertionSort (fun a b => p b ≤ p a) =
      l.takeWhile (fun a => decide (p x ≤ p a)) ++
        x :: l.dropWhile (fun a => decide (p x ≤ p a)) := by
  induction l with
  | nil => rfl
  | cons a l ih =>
    have hs' := hs
    rw [List.pairwise_cons] at hs'
    by_cases hax : p x ≤ p a
    · rw [List.cons_append, List.insertionSort_cons, ih hs'.2]
      · simp [List.takeWhile_cons, List.dropWhile_cons, hax]
      · intro b hb
        rcases List.mem_append.1 hb with hb | hb
        · exact hs'.1 b hb
        · rw [List.mem_singleton.1 hb]; exact hax
    · have hall : ∀ b ∈ a :: l, p b < p x := by
        intro b hb
        rcases List.mem_cons.1 hb with hb | hb
        · rw [hb]; omega
        · have := hs'.1 b hb
          omega
      rw [insertionSort_append_larger p x (a :: l) hs hall]
      simp [List.takeWhile_cons, List.dropWhile_cons, hax]

theorem dropWhile_lt (x : α) (l : List α) (hs : l.Pairwise fun a b => p b ≤ p a) :
    ∀ b ∈ l.dropWhile (fun a => decide (p x ≤ p a)), p b < p x := by
  induction l with
  | nil => simp
  | cons a l ih =>
    rw [List.pairwise_cons] at hs
    by_cases hax : p x ≤ p a
    · simpa [List.dropWhile_cons, hax] using ih hs.2
    · intro b hb
      simp only [List.dropWhile_cons, hax, decide_False, Bool.false_eq_true, if_false] at hb
      rcases List.mem_cons.1 hb with hb | hb
      · rw [hb]; omega
      · have := hs.1 b hb
        omega

end sorting

namespace UploadManager

theorem servedBefore_congr {t t' : TaskMap} {q : List TaskId}
    (h : ∀ id ∈ q, t'.get id = t.get id) (hp : q.Pairwise (servedBefore t)) :
    q.Pairwise (servedBefore t') := by
  refine hp.imp_of_mem ?_
  intro a b ha hb hab
  simpa [servedBefore, priorityOf, seqOf, h a ha, h b hb] using hab

theorem Consistent.frame {m m' : UploadManager} {used used' : List TaskId}
    (h : Consistent m used) (hu : ∀ id ∈ used, id ∈ used')
    (hq : m'.queue.Sublist m.queue)
    (hr : ∀ id ∈ m'.running, id ∈ m.running ∨ (id ∈ used' ∧ id ∉ m'.queue))
    (ht : ∀ id ∈ m'.cleanupTimers, id ∈ m.cleanupTimers ∨ (id ∈ used' ∧ id ∉ m'.queue))
    (hg : ∀ id ∈ m'.queue, m'.tasks.get id = m.tasks.get id)
    (hseq : ∀ id t, m'.tasks.get id = some t → t.seq < m'.submitted) :
    Consistent m' used' where
  queue_used := fun id hid => hu id (h.queue_used id (hq.subset hid))
  running_used := fun id hid => by
    rcases hr id hid with h1 | h1
    · exact hu id (h.running_used id h1)
    · exact h1.1
  timers_used := fun id hid => by
    rcases ht id hid with h1 | h1
    · exact hu id (h.timers_used id h1)
    · exact h1.1
  queue_nodup := h.queue_nodup.sublist hq
  queue_pending := fun id hid => by
    have := h.queue_pending id (hq.subset hid)
    simpa [statusOf, hg id hid] using this
  queue_waiting := fun id hid => by
    have hw := h.queue_waiting id (hq.subset hid)
    constructor
    · intro hrun
      rcases hr id hrun with h1 | h1
      · exact hw.1 h1
      · exact h1.2 hid
    · intro htim
      rcases ht id htim with h1 | h1
      · exact hw.2 h1
      · exact h1.2 hid
  seq_lt := hseq
  queue_sorted := servedBefore_congr hg (h.queue_sorted.sublist hq)

theorem updateTaskStatus_seq_lt (m : UploadManager) (x : TaskId) (st : TaskStatus) (u : Updates)
    (h : ∀ id t, m.tasks.get id = some t → t.seq < m.submitted) :
    ∀ id t, (m.updateTaskStatus x st u).tasks.get id = some t →
      t.seq < (m.updateTaskStatus x st u).submitted := by
  intro id t ht
  rw [updateTaskStatus_get] at ht
  rw [updateTaskStatus_submitted]
  split at ht
  · cases hx : m.tasks.get x with
    | none => simp [hx] at ht
    | some t0 =>
      simp only [hx, Option.map_some', Option.some.injEq] at ht
      rw [← ht]
      exact h x t0 hx
  · exact h id t ht

theorem executeTask_seq_lt (m : UploadManager) (x : TaskId)
    (h : ∀ id t, m.tasks.get id = some t → t.seq < m.submitted) :
    ∀ id t, (m._executeTask x).tasks.get id = some t → t.seq < (m._executeTask x).submitted := by
  intro id t ht
  rw [executeTask_get] at ht
  rw [executeTask_submitted]
  split at ht
  · cases hx : m.tasks.get x with
    | none => simp [hx] at ht
    | some t0 =>
      simp only [hx, Option.map_some', Option.some.injEq] at ht
      rw [← ht]
      exact h x t0 hx
  · exact h id t ht

/-- Starting the head of the queue keeps the book-keeping. -/
theorem Consistent.start_head {m : UploadManager} {used : List TaskId} {hd : TaskId}
    {tl : List TaskId} (h : Consistent m used) (hq : m.queue = hd :: tl) :
    Consistent (_executeTask { m with queue := tl } hd) used := by
  have hnd := h.queue_nodup
  rw [hq, List.nodup_cons] at hnd
  refine h.frame (fun _ hid => hid) ?_ ?_ ?_ ?_ ?_
  · rw [executeTask_queue, hq]
    exact List.sublist_cons_self hd tl
  · intro id hid
    rw [executeTask_running] at hid
    rw [executeTask_queue]
    split at hid
    · rcases List.mem_append.1 hid with h1 | h1
      · exact Or.inl h1
      · rw [List.mem_singleton.1 h1]
        exact Or.inr ⟨h.queue_used hd (by rw [hq]; exact List.mem_cons_self _ _), hnd.1⟩
    · exact Or.inl hid
  · intro id hid
    rw [executeTask_cleanupTimers] at hid
    exact Or.inl hid
  · intro id hid
    rw [executeTask_queue] at hid
    rw [executeTask_get]
    have : ¬ hd = id := fun heq => hnd.1 (heq ▸ hid)
    simp [this]
  · exact executeTask_seq_lt _ hd h.seq_lt

theorem Consistent.keeps_processQueueLoop {used : List TaskId} (q : List TaskId) :
    ∀ m : UploadManager, m.queue = q → Consistent m used →
      Consistent (processQueueLoop q m) used := by
  induction q with
  | nil => intro m _ h; exact h
  | cons hd tl ih =>
    intro m hq h
    simp only [UploadManager.processQueueLoop]
    split
    · exact ih _ (by simp) (h.start_head hq)
    · exact h

theorem processQueueLoop_queue_subset (q : List TaskId) :
    ∀ m : UploadManager, ∀ x ∈ (processQueueLoop q m).queue, x ∈ q ∨ x ∈ m.queue := by
  induction q with
  | nil => intro m x hx; exact Or.inr hx
  | cons hd tl ih =>
    intro m x hx
    simp only [processQueueLoop] at hx
    split at hx
    · rcases ih _ x hx with h1 | h1
      · exact Or.inl (List.mem_cons_of_mem _ h1)
      · rw [executeTask_queue] at h1
        exact Or.inl (List.mem_cons_of_mem _ h1)
    · exact Or.inr hx

theorem processQueueLoop_running_subset (q : List TaskId) :
    ∀ m : UploadManager, ∀ x ∈ (processQueueLoop q m).running, x ∈ m.running ∨ x ∈ q := by
  induction q with
  | nil => intro m x hx; exact Or.inl hx
  | cons hd tl ih =>
    intro m x hx
    simp only [processQueueLoop] at hx
    split at hx
    · rcases ih _ x hx with h1 | h1
      · rw [executeTask_running] at h1
        split at h1
        · rcases List.mem_append.1 h1 with h2 | h2
          · exact Or.inl h2
          · rw [List.mem_singleton.1 h2]
            exact Or.inr (List.mem_cons_self _ _)
        · exact Or.inl h1
      · exact Or.inr (List.mem_cons_of_mem _ h1)
    · exact Or.inl hx

@[simp] theorem processQueueLoop_cleanupTimers (q : List TaskId) :
    ∀ m : UploadManager, (processQueueLoop q m).cleanupTimers = m.cleanupTimers := by
  induction q with
  | nil => intro m; rfl
  | cons hd tl ih =>
    intro m
    simp only [processQueueLoop]
    split
    · rw [ih]; simp
    · rfl

theorem Consistent.congr {m m' : UploadManager} {used : List TaskId} (h : Consistent m used)
    (hq : m'.queue = m.queue) (hr : m'.running = m.running)
    (ht : m'.cleanupTimers = m.cleanupTimers) (hk : m'.tasks = m.tasks)
    (hs : m'.submitted = m.submitted) : Consistent m' used :=
  h.frame (fun _ hid => hid) (by rw [hq]) (fun id hid => Or.inl (hr ▸ hid))
    (fun id hid => Or.inl (ht ▸ hid)) (fun id _ => by rw [hk])
    (fun id t hget => by rw [hs]; exact h.seq_lt id t (hk ▸ hget))

/-- A status update of a task that is not waiting keeps the book-keeping. -/
theorem Consistent.keeps_updateTaskStatus {m : UploadManager} {used : List TaskId}
    (h : Consistent m used) (x : TaskId) (st : TaskStatus) (u : Updates) (hx : x ∉ m.queue) :
    Consistent (m.updateTaskStatus x st u) used := by
  refine h.frame (fun _ hid => hid) (by simp) (fun id hid => Or.inl (by simpa using hid))
    (fun id hid => Or.inl (by simpa using hid)) ?_ (updateTaskStatus_seq_lt m x st u h.seq_lt)
  intro id hid
  rw [updateTaskStatus_queue] at hid
  rw [updateTaskStatus_get]
  have : ¬ x = id := fun heq => hx (heq ▸ hid)
  simp [this]

theorem Consistent.keeps_onRetry {m : UploadManager} {used : List TaskId} (h : Consistent m used)
    (x : TaskId) (n : Nat) : Consistent (m.onRetry x n) used := by
  refine h.congr (by simp) (by simp) ?_ (by simp) ?_
  · unfold UploadManager.onRetry; split <;> rfl
  · unfold UploadManager.onRetry; split <;> rfl

theorem Consistent.keeps_progressUpdate {m : UploadManager} {used : List TaskId}
    (h : Consistent m used) (x : TaskId) (p : ℚ) : Consistent (m.progressUpdate x p) used := by
  unfold UploadManager.progressUpdate
  split
  · rename_i hrun
    exact h.keeps_updateTaskStatus x _ _ (fun hq => (h.queue_waiting x hq).1 hrun)
  · exact h

theorem Consistent.keeps_cancelTask {m : UploadManager} {used : List TaskId} (h : Consistent m used)
    (x : TaskId) : Consistent (m.cancelTask x).1 used := by
  refine h.frame (fun _ hid => hid) ?_ (fun id hid => Or.inl (by simpa using hid))
    (fun id hid => Or.inl (by simpa using hid)) ?_ ?_
  · rw [cancelTask_queue]
    split
    · exact List.filter_sublist _
    · exact List.Sublist.refl _
  · intro id hid
    rw [cancelTask_get]
    by_cases hx : x = id
    · subst hx
      rw [cancelTask_queue] at hid
      cases hg : m.tasks.get x with
      | none => simp
      | some t => simp [hg] at hid
    · simp [hx]
  · intro id t ht
    rw [cancelTask_get] at ht
    rw [cancelTask_submitted]
    split at ht
    · cases hx : m.tasks.get x with
      | none => simp [hx] at ht
      | some t0 =>
        simp only [hx, Option.map_some', Option.some.injEq] at ht
        rw [← ht]
        exact h.seq_lt x t0 hx
    · exact h.seq_lt id t ht

theorem Consistent.keeps_cancelAll_fold {used : List TaskId} (ids : List TaskId) :
    ∀ m : UploadManager, Consistent m used →
      Consistent (ids.foldl (fun acc taskId => (UploadManager.cancelTask acc taskId).1) m)
        used := by
  induction ids with
  | nil => intro m h; exact h
  | cons hd tl ih => intro m h; exact ih _ (h.keeps_cancelTask hd)

theorem Consistent.keeps_cancelAllTasks {m : UploadManager} {used : List TaskId}
    (h : Consistent m used) : Consistent m.cancelAllTasks used := by
  have h1 := Consistent.keeps_cancelAll_fold m.tasks.keys m h
  unfold UploadManager.cancelAllTasks
  exact h1.frame (fun _ hid => hid) (List.nil_sublist _) (fun id hid => Or.inl hid)
    (fun id hid => Or.inl hid) (fun id hid => by simp at hid) h1.seq_lt

theorem Consistent.keeps_cleanupFired {m : UploadManager} {used : List TaskId}
    (h : Consistent m used) (x : TaskId) : Consistent (m.cleanupFired x) used := by
  unfold UploadManager.cleanupFired
  split
  · have h0 : Consistent { m with cleanupTimers := m.cleanupTimers.erase x } used :=
      h.frame (fun _ hid => hid) (List.Sublist.refl _) (fun id hid => Or.inl hid)
        (fun id hid => Or.inl (List.mem_of_mem_erase hid)) (fun _ _ => rfl) h.seq_lt
    simp only []
    split
    · rename_i t hget
      split
      · rename_i hterm
        have hxq : x ∉ m.queue := by
          intro hq
          have := h.queue_pending x hq
          simp only [statusOf] at this
          rw [show m.tasks.get x = some t from hget] at this
          simp only [Option.map_some', Option.some.injEq] at this
          rw [this] at hterm
          simp [TaskStatus.isTerminal] at hterm
        refine h0.frame (fun _ hid => hid) (List.Sublist.refl _) (fun id hid => Or.inl hid)
          (fun id hid => Or.inl hid) ?_ ?_
        · intro id hid
          have : ¬ x = id := fun heq => hxq (heq ▸ hid)
          simp [notifyListeners, TaskMap.get_delete, this]
        · intro id t' ht'
          simp only [notifyListeners, TaskMap.get_delete] at ht'
          split at ht'
          · cases ht'
          · exact h.seq_lt id t' ht'
      · exact h0
    · exact h0
  · exact h

theorem Consistent.keeps_executeTaskResume {m : UploadManager} {used : List TaskId}
    (h : Consistent m used) (x : TaskId) (outcome : Settled UploadOutcome) :
    Consistent (m._executeTaskResume x outcome) used := by
  unfold UploadManager._executeTaskResume
  split
  · rename_i hrun
    have hxq : x ∉ m.queue := fun hq => (h.queue_waiting x hq).1 hrun
    have h0 : Consistent { m with running := m.running.erase x } used :=
      h.frame (fun _ hid => hid) (List.Sublist.refl _)
        (fun id hid => Or.inl (List.mem_of_mem_erase hid)) (fun id hid => Or.inl hid)
        (fun _ _ => rfl) h.seq_lt
    have key : ∀ m1 : UploadManager, Consistent m1 used → m1.queue = m.queue →
        ∀ s, Consistent { _scheduleCleanup (_processQueue { m1 with activeCount :=
          m1.activeCount - 1 }) x with settled := s } used := by
      intro m1 h1 hq1 s
      have h2 : Consistent { m1 with activeCount := m1.activeCount - 1 } used :=
        h1.congr rfl rfl rfl rfl rfl
      have h3 := Consistent.keeps_processQueueLoop m1.queue
        { m1 with activeCount := m1.activeCount - 1 } rfl h2
      have hxq3 : x ∉ (UploadManager.processQueueLoop m1.queue
          { m1 with activeCount := m1.activeCount - 1 }).queue := by
        intro hmem
        rcases processQueueLoop_queue_subset _ _ x hmem with h4 | h4
        · exact hxq (hq1 ▸ h4)
        · exact hxq (hq1 ▸ h4)
      refine h3.frame (fun _ hid => hid) (List.Sublist.refl _) (fun id hid => Or.inl hid) ?_
        (fun _ _ => rfl) h3.seq_lt
      intro id hid
      simp only [_scheduleCleanup, _processQueue, List.mem_append, List.mem_singleton] at hid
      rcases hid with h5 | h5
      · exact Or.inl h5
      · rw [h5]
        exact Or.inr ⟨h.running_used x hrun, hxq3⟩
    cases outcome with
    | resolved v => exact key _ (h0.keeps_updateTaskStatus x _ _ hxq) (by simp) _
    | rejected e => exact key _ (h0.keeps_updateTaskStatus x _ _ hxq) (by simp) _
  · exact h

theorem Consistent.keeps_addTask {m : UploadManager} {used : List TaskId} (h : Consistent m used)
    (x : TaskId) (filePath poseId : String) (priority : Int) (skipRetry : Bool)
    (hfresh : x ∉ used) :
    Consistent (m.addTask x filePath poseId priority skipRetry) (x :: used) := by
  have hxq : x ∉ m.queue := fun hq => hfresh (h.queue_used x hq)
  have hxr : x ∉ m.running := fun hr => hfresh (h.running_used x hr)
  have hxt : x ∉ m.cleanupTimers := fun ht => hfresh (h.timers_used x ht)
  unfold UploadManager.addTask
  simp only []
  -- the state after `tasks.set` and the `added` notification
  have h1 : Consistent (notifyListeners
      { m with
        tasks := m.tasks.set x
          { taskId := x, filePath := filePath, poseId := poseId, status := .PENDING,
            progress := 0, priority := priority, skipRetry := skipRetry, result := none,
            error := none, wxTask := false, cancelFn := false, seq := m.submitted }
        submitted := m.submitted + 1 }
      { taskId := x
        taskInfo := some
          { taskId := x, filePath := filePath, poseId := poseId, status := .PENDING,
            progress := 0, priority := priority, skipRetry := skipRetry, result := none,
            error := none, wxTask := false, cancelFn := false, seq := m.submitted }
        eventType := "added" }) (x :: used) := by
    refine h.frame (fun _ hid => List.mem_cons_of_mem _ hid) (List.Sublist.refl _)
      (fun id hid => Or.inl hid) (fun id hid => Or.inl hid) ?_ ?_
    · intro id hid
      have : ¬ x = id := fun heq => hxq (heq ▸ hid)
      simp [notifyListeners, TaskMap.get_set, this]
    · intro id t ht
      simp only [notifyListeners, TaskMap.get_set] at ht ⊢
      split at ht
      · cases ht
        exact Nat.lt_succ_self _
      · exact Nat.lt_succ_of_lt (h.seq_lt id t ht)
  split
  · -- the queue branch
    generalize hm1 : notifyListeners _ _ = m1 at h1
    have hq1 : m1.queue = m.queue := by rw [← hm1]; rfl
    have hr1 : m1.running = m.running := by rw [← hm1]; rfl
    have ht1 : m1.cleanupTimers = m.cleanupTimers := by rw [← hm1]; rfl
    have hgx : m1.tasks.get x = some
        { taskId := x, filePath := filePath, poseId := poseId, status := .PENDING,
          progress := 0, priority := priority, skipRetry := skipRetry, result := none,
          error := none, wxTask := false, cancelFn := false, seq := m.submitted } := by
      rw [← hm1]; simp [notifyListeners, TaskMap.get_set]
    have hsub : m1.submitted = m.submitted + 1 := by rw [← hm1]; rfl
    have hgo : ∀ id, id ≠ x → m1.tasks.get id = m.tasks.get id := by
      intro id hne
      rw [← hm1]
      have : ¬ x = id := fun heq => hne heq.symm
      simp [notifyListeners, TaskMap.get_set, this]
    have hperm : (sortQueue m1.tasks (m1.queue ++ [x])).Perm (m1.queue ++ [x]) :=
      List.perm_insertionSort _ _
    have hmem : ∀ id, id ∈ sortQueue m1.tasks (m1.queue ++ [x]) ↔ id ∈ m.queue ∨ id = x := by
      intro id
      rw [hperm.mem_iff, hq1]
      simp
    have hdesc : m1.queue.Pairwise fun a b => priorityOf m1.tasks b ≤ priorityOf m1.tasks a := by
      refine h1.queue_sorted.imp ?_
      intro a b hab
      rcases hab with hlt | ⟨heq, _⟩
      · exact Int.le_of_lt hlt
      · rw [heq]
    exact
      { queue_used := fun id hid => by
          rcases (hmem id).1 hid with h2 | h2
          · exact List.mem_cons_of_mem _ (h.queue_used id h2)
          · rw [h2]; exact List.mem_cons_self _ _
        running_used := fun id hid => h1.running_used id hid
        timers_used := fun id hid => h1.timers_used id hid
        queue_nodup := by
          refine hperm.nodup_iff.2 ?_
          rw [hq1]
          exact List.Nodup.append h.queue_nodup (List.nodup_singleton x)
            (by
              intro a ha hax
              rw [List.mem_singleton] at hax
              exact hxq (hax ▸ ha))
        queue_pending := fun id hid => by
          rcases (hmem id).1 hid with h2 | h2
          · exact h1.queue_pending id (hq1 ▸ h2)
          · rw [h2]
            simp [statusOf, hgx]
        queue_waiting := fun id hid => by
          rcases (hmem id).1 hid with h2 | h2
          · exact h1.queue_waiting id (hq1 ▸ h2)
          · rw [h2]
            exact ⟨by simpa [hr1] using hxr, by simpa [ht1] using hxt⟩
        seq_lt := h1.seq_lt
        queue_sorted := by
          show (sortQueue m1.tasks (m1.queue ++ [x])).Pairwise (servedBefore m1.tasks)
          unfold sortQueue
          rw [insertionSort_append_singleton (priorityOf m1.tasks) x m1.queue hdesc]
          have hsplit := List.takeWhile_append_dropWhile
            (fun a => decide (priorityOf m1.tasks x ≤ priorityOf m1.tasks a)) m1.queue
          have hsorted := h1.queue_sorted
          rw [← hsplit, List.pairwise_append] at hsorted
          rw [List.pairwise_append]
          refine ⟨hsorted.1, ?_, ?_⟩
          · rw [List.pairwise_cons]
            refine ⟨?_, hsorted.2.1⟩
            intro b hb
            exact Or.inl (dropWhile_lt (priorityOf m1.tasks) x m1.queue hdesc b hb)
          · intro a ha b hb
            rcases List.mem_cons.1 hb with hb | hb
            · rw [hb]
              have hpa := List.mem_takeWhile_imp ha
              simp only [decide_eq_true_eq] at hpa
              have haq : a ∈ m.queue := hq1 ▸ (List.takeWhile_sublist _).subset ha
              have hax : a ≠ x := fun heq => hxq (heq ▸ haq)
              have hpend := h.queue_pending a haq
              rcases lt_or_eq_of_le hpa with hlt | heq
              · exact Or.inl hlt
              · refine Or.inr ⟨heq.symm, ?_⟩
                cases hga : m.tasks.get a with
                | none => simp [statusOf, hga] at hpend
                | some t =>
                  have := h.seq_lt a t hga
                  simpa [seqOf, hgo a hax, hga, hgx] using this
            · exact hsorted.2.2 a ha b hb }
  · -- the task starts at once
    refine h1.frame (fun _ hid => hid) (by simp) ?_ ?_ ?_ (executeTask_seq_lt _ x h1.seq_lt)
    · intro id hid
      rw [executeTask_running] at hid
      rw [executeTask_queue]
      split at hid
      · rcases List.mem_append.1 hid with h2 | h2
        · exact Or.inl h2
        · rw [List.mem_singleton.1 h2]
          exact Or.inr ⟨List.mem_cons_self _ _, hxq⟩
      · exact Or.inl hid
    · intro id hid
      rw [executeTask_cleanupTimers] at hid
      exact Or.inl hid
    · intro id hid
      rw [executeTask_queue] at hid
      rw [executeTask_get]
      have : ¬ x = id := fun heq => hxq (heq ▸ hid)
      simp [this]

theorem Consistent.keeps_step {m : UploadManager} {used : List TaskId} (h : Consistent m used)
    (op : Op) (hfresh : ∀ id, op.addedId = some id → id ∉ used) :
    Consistent (m.step op) (op.addedId.toList ++ used) := by
  cases op with
  | addTask taskId filePath poseId priority skipRetry =>
    exact h.keeps_addTask taskId filePath poseId priority skipRetry (hfresh taskId rfl)
  | progress taskId p => exact h.keeps_progressUpdate taskId p
  | retry taskId attempt => exact h.keeps_onRetry taskId attempt
  | settle taskId outcome => exact h.keeps_executeTaskResume taskId outcome
  | cancelTask taskId => exact h.keeps_cancelTask taskId
  | cancelAllTasks => exact h.keeps_cancelAllTasks
  | cleanup taskId => exact h.keeps_cleanupFired taskId

theorem Consistent.keeps_run (ops : List Op) : ∀ (m : UploadManager) (used : List TaskId),
    Consistent m used → (ops.filterMap Op.addedId).Nodup →
    (∀ id ∈ ops.filterMap Op.addedId, id ∉ used) → ∃ used', Consistent (m.run ops) used' := by
  induction ops with
  | nil => intro m used h _ _; exact ⟨used, h⟩
  | cons op tl ih =>
    intro m used h hnd hfresh
    simp only [UploadManager.run, List.foldl_cons]
    cases hop : op.addedId with
    | none =>
      simp only [List.filterMap_cons, hop] at hnd hfresh
      have := h.keeps_step op (fun id hid => by rw [hop] at hid; cases hid)
      rw [hop] at this
      exact ih _ _ this hnd hfresh
    | some x =>
      simp only [List.filterMap_cons, hop, List.nodup_cons, List.mem_cons] at hnd hfresh
      have := h.keeps_step op (fun id hid => by
        rw [hop] at hid
        cases hid
        exact hfresh x (Or.inl rfl))
      rw [hop] at this
      refine ih _ _ this hnd.2 ?_
      intro id hid
      simp only [Option.toList, List.singleton_append, List.mem_cons, not_or]
      exact ⟨fun heq => hnd.1 (heq ▸ hid), hfresh id (Or.inr hid)⟩

theorem Consistent.keeps_create (maxConcurrent : ℚ) (autoCleanMs : ℚ) (enableRetry : Bool)
    (retryStrategy : String) :
    Consistent (UploadManager.create maxConcurrent autoCleanMs enableRetry retryStrategy) [] where
  queue_used := fun id hid => by simp [UploadManager.create] at hid
  running_used := fun id hid => by simp [UploadManager.create] at hid
  timers_used := fun id hid => by simp [UploadManager.create] at hid
  queue_nodup := by simp [UploadManager.create]
  queue_pending := fun id hid => by simp [UploadManager.create] at hid
  queue_waiting := fun id hid => by simp [UploadManager.create] at hid
  seq_lt := fun id t ht => by simp [UploadManager.create, TaskMap.get] at ht
  queue_sorted := by simp [UploadManager.create]

/-- Every state reached from a new manager with no task id submitted twice
keeps the book-keeping. -/
theorem reachable_consistent (maxConcurrent : ℚ) (autoCleanMs : ℚ) (enableRetry : Bool)
    (retryStrategy : String) (ops : List Op) (hunique : (ops.filterMap Op.addedId).Nodup) :
    ∃ used, Consistent
      ((UploadManager.create maxConcurrent autoCleanMs enableRetry retryStrategy).run ops)
      used :=
  Consistent.keeps_run ops _ [] (Consistent.keeps_create _ _ _ _) hunique (fun _ _ => List.not_mem_nil _)

theorem processQueueLoop_running_grows (q : List TaskId) :
    ∀ m : UploadManager, m.running <+: (processQueueLoop q m).running := by
  induction q with
  | nil => intro m; exact List.prefix_refl _
  | cons hd tl ih =>
    intro m
    simp only [processQueueLoop]
    split
    · refine List.IsPrefix.trans ?_ (ih _)
      rw [executeTask_running]
      split
      · exact List.prefix_append _ _
      · exact List.prefix_refl _
    · exact List.prefix_refl _

/-- With capacity free, `_processQueue` starts the head of the queue first. -/
theorem Consistent.promote_head {m : UploadManager} {used : List TaskId} {hd : TaskId}
    {tl : List TaskId} (h : Consistent m used) (hq : m.queue = hd :: tl)
    (hcap : m.activeCount < m.maxConcurrent) :
    (m.running ++ [hd]) <+: m._processQueue.running ∧
    m._processQueue.statusOf hd = some .UPLOADING := by
  have hnd := h.queue_nodup
  rw [hq, List.nodup_cons] at hnd
  have hpend := h.queue_pending hd (by rw [hq]; exact List.mem_cons_self _ _)
  have hstart : UploadManager.startable { m with queue := tl } hd = true := by
    simp only [statusOf] at hpend
    cases hg : m.tasks.get hd with
    | none => simp [hg] at hpend
    | some t =>
      simp only [hg, Option.map_some', Option.some.injEq] at hpend
      simp [UploadManager.startable, hg, hpend]
  simp only [UploadManager._processQueue, hq, UploadManager.processQueueLoop, hcap, if_true]
  constructor
  · refine List.IsPrefix.trans ?_ (processQueueLoop_running_grows tl _)
    rw [executeTask_running, hstart]
    exact List.prefix_refl _
  · simp only [statusOf]
    rw [processQueueLoop_get _ _ hnd.1, executeTask_get, hstart]
    cases hg : m.tasks.get hd with
    | none => simp [statusOf, hg] at hpend
    | some t => simp [hg]

end UploadManager

/-- C8: with no task id submitted twice, after every operation (so after every
`addTask`) the wait queue is sorted by descending priority with entries of
equal priority in submission order; the head is served before every other
entry, and (for `maxConcurrent >= 1`) when a running upload settles
`_processQueue` starts that head first. -/
theorem queue_served_in_priority_order (maxConcurrent : ℚ) (autoCleanMs : ℚ)
    (enableRetry : Bool) (retryStrategy : String) (ops : List Op)
    (hunique : (ops.filterMap Op.addedId).Nodup) :
    ((UploadManager.create maxConcurrent autoCleanMs enableRetry retryStrategy).run
        ops).queue.Pairwise
      (UploadManager.servedBefore
        ((UploadManager.create maxConcurrent autoCleanMs enableRetry retryStrategy).run
          ops).tasks) ∧
    ∀ (hd : TaskId) (tl : List TaskId),
      ((UploadManager.create maxConcurrent autoCleanMs enableRetry retryStrategy).run
        ops).queue = hd :: tl →
      (∀ x ∈ tl, UploadManager.servedBefore
        ((UploadManager.create maxConcurrent autoCleanMs enableRetry retryStrategy).run
          ops).tasks hd x) ∧
      ∀ (taskId : TaskId) (outcome : Settled UploadOutcome), 1 ≤ maxConcurrent →
        taskId ∈ ((UploadManager.create maxConcurrent autoCleanMs enableRetry
          retryStrategy).run ops).running →
        (((UploadManager.create maxConcurrent autoCleanMs enableRetry retryStrategy).run
          ops).running.erase taskId ++ [hd]) <+:
          (((UploadManager.create maxConcurrent autoCleanMs enableRetry retryStrategy).run
            ops).step (.settle taskId outcome)).running ∧
        (((UploadManager.create maxConcurrent autoCleanMs enableRetry retryStrategy).run
          ops).step (.settle taskId outcome)).statusOf hd = some .UPLOADING := by
  obtain ⟨used, h⟩ := UploadManager.reachable_consistent maxConcurrent autoCleanMs enableRetry
    retryStrategy ops hunique
  have hact : 1 ≤ maxConcurrent →
      (((UploadManager.create maxConcurrent autoCleanMs enableRetry retryStrategy).run
        ops).activeCount : ℚ) < maxConcurrent + 1 := fun hmax =>
    UploadManager.run_activeCount_lt ops
      (UploadManager.create maxConcurrent autoCleanMs enableRetry retryStrategy)
      (by simp only [UploadManager.create]; linarith)
      (by simp only [UploadManager.create]; push_cast; linarith)
  have hmaxeq : ((UploadManager.create maxConcurrent autoCleanMs enableRetry
      retryStrategy).run ops).maxConcurrent = maxConcurrent :=
    UploadManager.run_maxConcurrent ops
      (UploadManager.create maxConcurrent autoCleanMs enableRetry retryStrategy)
  generalize (UploadManager.create maxConcurrent autoCleanMs enableRetry retryStrategy).run ops
    = m at h hact hmaxeq
  refine ⟨h.queue_sorted, ?_⟩
  intro hd tl hq
  have hsorted := h.queue_sorted
  rw [hq, List.pairwise_cons] at hsorted
  refine ⟨hsorted.1, ?_⟩
  intro taskId outcome hmax hrun
  have hact := hact hmax
  have hxq : taskId ∉ m.queue := fun hmem => (h.queue_waiting taskId hmem).1 hrun
  have h0 : UploadManager.Consistent { m with running := m.running.erase taskId } used :=
    h.frame (fun _ hid => hid) (List.Sublist.refl _)
      (fun id hid => Or.inl (List.mem_of_mem_erase hid)) (fun id hid => Or.inl hid)
      (fun _ _ => rfl) h.seq_lt
  have key : ∀ m1 : UploadManager, UploadManager.Consistent m1 used → m1.queue = hd :: tl →
      m1.activeCount = m.activeCount → m1.maxConcurrent = m.maxConcurrent →
      m1.running = m.running.erase taskId →
        (m.running.erase taskId ++ [hd]) <+:
          (UploadManager._processQueue { m1 with activeCount := m1.activeCount - 1 }).running ∧
        (UploadManager._processQueue
          { m1 with activeCount := m1.activeCount - 1 }).statusOf hd = some .UPLOADING := by
    intro m1 h1 hq1 ha1 hm1 hr1
    have h2 : UploadManager.Consistent { m1 with activeCount := m1.activeCount - 1 } used :=
      h1.congr rfl rfl rfl rfl rfl
    have := UploadManager.Consistent.promote_head h2 hq1 (by
      show ((m1.activeCount - 1 : Int) : ℚ) < m1.maxConcurrent
      rw [ha1, hm1, hmaxeq]
      push_cast
      linarith)
    rw [← hr1]
    exact this
  simp only [UploadManager.step, UploadManager._executeTaskResume, hrun, if_true,
    UploadManager._scheduleCleanup, UploadManager.statusOf]
  cases outcome with
  | resolved v =>
    exact key _ (h0.keeps_updateTaskStatus taskId _ _ hxq) (by simp [hq]) (by simp) (by simp)
      (by simp)
  | rejected e =>
    exact key _ (h0.keeps_updateTaskStatus taskId _ _ hxq) (by simp [hq]) (by simp) (by simp)
      (by simp)

/-- Witness for C8: four tasks on a manager of capacity one; the queue is
`c, b, d`, and when `a` settles `c` is started. -/
theorem queue_served_in_priority_order_witness :
    ((UploadManager.create 1 10000 true "UPLOAD").run
      [.addTask "a" "a.jpg" "tree" 0 false, .addTask "b" "b.jpg" "tree" 1 false,
        .addTask "c" "c.jpg" "tree" 5 false, .addTask "d" "d.jpg" "tree" 1 false]).queue.Pairwise
      (UploadManager.servedBefore
        ((UploadManager.create 1 10000 true "UPLOAD").run
          [.addTask "a" "a.jpg" "tree" 0 false, .addTask "b" "b.jpg" "tree" 1 false,
            .addTask "c" "c.jpg" "tree" 5 false, .addTask "d" "d.jpg" "tree" 1 false]).tasks) ∧
    (((UploadManager.create 1 10000 true "UPLOAD").run
      [.addTask "a" "a.jpg" "tree" 0 false, .addTask "b" "b.jpg" "tree" 1 false,
        .addTask "c" "c.jpg" "tree" 5 false, .addTask "d" "d.jpg" "tree" 1 false]).step
      (.settle "a" (.resolved { score := 80 }))).statusOf "c" = some .UPLOADING :=
  ⟨(queue_served_in_priority_order 1 10000 true "UPLOAD"
    [.addTask "a" "a.jpg" "tree" 0 false, .addTask "b" "b.jpg" "tree" 1 false,
      .addTask "c" "c.jpg" "tree" 5 false, .addTask "d" "d.jpg" "tree" 1 false]
    (by decide)).1,
   (((queue_served_in_priority_order 1 10000 true "UPLOAD"
    [.addTask "a" "a.jpg" "tree" 0 false, .addTask "b" "b.jpg" "tree" 1 false,
      .addTask "c" "c.jpg" "tree" 5 false, .addTask "d" "d.jpg" "tree" 1 false]
    (by decide)).2 "c" ["b", "d"] (by decide)).2 "a" (.resolved { score := 80 }) (by decide)
    (by decide)).2⟩

namespace UploadManager

theorem Withdrawn.stays_cancelTask {m : UploadManager} {id : TaskId} (h : Withdrawn m id)
    (x : TaskId) : Withdrawn (m.cancelTask x).1 id := by
  obtain ⟨hq, hr, ht, hs⟩ := h
  refine ⟨?_, by simpa using hr, by simpa using ht, ?_⟩
  · rw [cancelTask_queue]
    split
    · exact fun hmem => hq (List.mem_of_mem_filter hmem)
    · exact hq
  · simp only [statusOf] at hs ⊢
    rw [cancelTask_get]
    by_cases hx : x = id
    · subst hx
      cases hg : m.tasks.get x with
      | none => simp [hg] at hs
      | some t => simp
    · simpa [hx] using hs

theorem Withdrawn.stays_cancelAll_fold {id : TaskId} (ids : List TaskId) :
    ∀ m : UploadManager, Withdrawn m id →
      Withdrawn (ids.foldl (fun acc taskId => (UploadManager.cancelTask acc taskId).1) m) id := by
  induction ids with
  | nil => intro m h; exact h
  | cons hd tl ih => intro m h; exact ih _ (h.stays_cancelTask hd)

theorem Withdrawn.stays_step {m : UploadManager} {id : TaskId} (h : Withdrawn m id) (op : Op)
    (hop : op.addedId ≠ some id) : Withdrawn (m.step op) id := by
  obtain ⟨hq, hr, ht, hs⟩ := h
  cases op with
  | addTask x filePath poseId priority skipRetry =>
    have hx : ¬ x = id := fun heq => hop (by rw [Op.addedId, heq])
    simp only [UploadManager.step, UploadManager.addTask]
    split
    · refine ⟨?_, hr, ht, ?_⟩
      · show id ∉ sortQueue _ _
        unfold sortQueue
        rw [(List.perm_insertionSort _ _).mem_iff]
        simp only [notifyListeners, List.mem_append, List.mem_singleton, not_or]
        exact ⟨hq, fun heq => hx heq.symm⟩
      · simpa [statusOf, notifyListeners, TaskMap.get_set, hx] using hs
    · refine ⟨by simpa [notifyListeners] using hq, ?_, by simpa [notifyListeners] using ht, ?_⟩
      · rw [executeTask_running]
        split
        · simp only [notifyListeners, List.mem_append, List.mem_singleton, not_or]
          exact ⟨hr, fun heq => hx heq.symm⟩
        · exact hr
      · simp only [statusOf] at hs ⊢
        rw [executeTask_get]
        simpa [hx, notifyListeners, TaskMap.get_set] using hs
  | progress x p =>
    simp only [UploadManager.step, UploadManager.progressUpdate]
    split
    · rename_i hrun
      have hx : ¬ x = id := fun heq => hr (heq ▸ hrun)
      refine ⟨by simpa using hq, by simpa using hr, by simpa using ht, ?_⟩
      simp only [statusOf] at hs ⊢
      rw [updateTaskStatus_get]
      simpa [hx] using hs
    · exact ⟨hq, hr, ht, hs⟩
  | retry x attempt =>
    simp only [UploadManager.step, UploadManager.onRetry]
    split
    · exact ⟨hq, hr, ht, hs⟩
    · exact ⟨hq, hr, ht, hs⟩
  | settle x outcome =>
    simp only [UploadManager.step, UploadManager._executeTaskResume]
    split
    · rename_i hrun
      have hx : ¬ x = id := fun heq => hr (heq ▸ hrun)
      have key : ∀ m1 : UploadManager, m1.queue = m.queue → m1.running = m.running.erase x →
          m1.cleanupTimers = m.cleanupTimers → m1.statusOf id = some .CANCELLED →
          ∀ s, Withdrawn { _scheduleCleanup (_processQueue { m1 with activeCount :=
            m1.activeCount - 1 }) x with settled := s } id := by
        intro m1 hq1 hr1 ht1 hs1 s
        refine ⟨?_, ?_, ?_, ?_⟩
        · intro hmem
          rcases processQueueLoop_queue_subset _ _ id hmem with h1 | h1
          · exact hq (hq1 ▸ h1)
          · exact hq (hq1 ▸ h1)
        · intro hmem
          rcases processQueueLoop_running_subset _ _ id hmem with h1 | h1
          · exact hr (List.mem_of_mem_erase (hr1 ▸ h1))
          · exact hq (hq1 ▸ h1)
        · simp only [_scheduleCleanup, _processQueue, processQueueLoop_cleanupTimers,
            List.mem_append, List.mem_singleton, not_or]
          exact ⟨by rw [ht1]; exact ht, fun heq => hx heq.symm⟩
        · simp only [statusOf, _scheduleCleanup, _processQueue] at hs1 ⊢
          rw [processQueueLoop_get _ _ (by rw [hq1]; exact hq)]
          exact hs1
      have hupd : ∀ st u, (updateTaskStatus { m with running := m.running.erase x } x st
          u).statusOf id = some .CANCELLED := by
        intro st u
        simp only [statusOf] at hs ⊢
        rw [updateTaskStatus_get]
        simpa [hx] using hs
      cases outcome with
      | resolved v => exact key _ (by simp) (by simp) (by simp) (hupd _ _) _
      | rejected e => exact key _ (by simp) (by simp) (by simp) (hupd _ _) _
    · exact ⟨hq, hr, ht, hs⟩
  | cancelTask x => exact Withdrawn.stays_cancelTask ⟨hq, hr, ht, hs⟩ x
  | cancelAllTasks =>
    obtain ⟨_, h2, h3, h4⟩ := Withdrawn.stays_cancelAll_fold m.tasks.keys m ⟨hq, hr, ht, hs⟩
    exact ⟨by simp [UploadManager.step, UploadManager.cancelAllTasks], h2, h3, h4⟩
  | cleanup x =>
    simp only [UploadManager.step, UploadManager.cleanupFired]
    split
    · rename_i htim
      have hx : ¬ x = id := fun heq => ht (heq ▸ htim)
      have ht' : id ∉ m.cleanupTimers.erase x := fun hmem => ht (List.mem_of_mem_erase hmem)
      split
      · split
        · refine ⟨hq, hr, ht', ?_⟩
          simpa [statusOf, notifyListeners, TaskMap.get_delete, hx] using hs
        · exact ⟨hq, hr, ht', hs⟩
      · exact ⟨hq, hr, ht', hs⟩
    · exact ⟨hq, hr, ht, hs⟩

theorem Withdrawn.stays_run {id : TaskId} (ops : List Op) : ∀ m : UploadManager, Withdrawn m id →
    (∀ op ∈ ops, op.addedId ≠ some id) → Withdrawn (m.run ops) id := by
  induction ops with
  | nil => intro m h _; exact h
  | cons op tl ih =>
    intro m h hops
    simp only [UploadManager.run, List.foldl_cons]
    exact ih _ (h.stays_step op (hops op (List.mem_cons_self _ _)))
      (fun op' hop' => hops op' (List.mem_cons_of_mem _ hop'))

/-- Cancelling a task that waits in the queue withdraws it. -/
theorem Consistent.cancel_queued {m : UploadManager} {used : List TaskId} {id : TaskId}
    (h : Consistent m used) (hq : id ∈ m.queue) :
    (m.cancelTask id).2 = true ∧ Withdrawn (m.cancelTask id).1 id := by
  have hpend := h.queue_pending id hq
  have hw := h.queue_waiting id hq
  simp only [statusOf] at hpend
  cases hg : m.tasks.get id with
  | none => simp [hg] at hpend
  | some t =>
    refine ⟨by simp [UploadManager.cancelTask, hg], ?_, by simpa using hw.1,
      by simpa using hw.2, ?_⟩
    · rw [cancelTask_queue]
      simp [hg]
    · simp [statusOf, cancelTask_get, hg]

end UploadManager

/-- C10: with no task id submitted twice, a task that waits in the queue has
status `PENDING`; `cancelTask` on it returns true and removes it from the
queue, and after any further operations that do not submit that id again
(settlements of other tasks, `addTask` of other tasks, cancels, timers) it is
neither queued nor running and its status is still `CANCELLED`, so it never
becomes `UPLOADING`. -/
theorem cancelled_while_queued_never_starts (maxConcurrent : ℚ) (autoCleanMs : ℚ)
    (enableRetry : Bool) (retryStrategy : String) (ops later : List Op) (taskId : TaskId)
    (hunique : (ops.filterMap Op.addedId).Nodup)
    (hqueued : taskId ∈
      ((UploadManager.create maxConcurrent autoCleanMs enableRetry retryStrategy).run ops).queue)
    (hlater : ∀ op ∈ later, op.addedId ≠ some taskId) :
    ((UploadManager.create maxConcurrent autoCleanMs enableRetry retryStrategy).run
      ops).statusOf taskId = some .PENDING ∧
    (((UploadManager.create maxConcurrent autoCleanMs enableRetry retryStrategy).run
      ops).cancelTask taskId).2 = true ∧
    taskId ∉ (((UploadManager.create maxConcurrent autoCleanMs enableRetry retryStrategy).run
      ops).cancelTask taskId).1.queue ∧
    taskId ∉ ((((UploadManager.create maxConcurrent autoCleanMs enableRetry retryStrategy).run
      ops).cancelTask taskId).1.run later).queue ∧
    taskId ∉ ((((UploadManager.create maxConcurrent autoCleanMs enableRetry retryStrategy).run
      ops).cancelTask taskId).1.run later).running ∧
    ((((UploadManager.create maxConcurrent autoCleanMs enableRetry retryStrategy).run
      ops).cancelTask taskId).1.run later).statusOf taskId = some .CANCELLED := by
  obtain ⟨used, h⟩ := UploadManager.reachable_consistent maxConcurrent autoCleanMs enableRetry
    retryStrategy ops hunique
  obtain ⟨hret, hwd⟩ := h.cancel_queued hqueued
  have hfin := UploadManager.Withdrawn.stays_run later _ hwd hlater
  exact ⟨h.queue_pending taskId hqueued, hret, hwd.1, hfin.1, hfin.2.1, hfin.2.2.2⟩

/-- Witness for C10: task `b` is cancelled while it waits behind `a`; `a`
settles and `c` is submitted. -/
theorem cancelled_while_queued_never_starts_witness :
    ((((UploadManager.create 1 10000 true "UPLOAD").run
      [.addTask "a" "a.jpg" "tree" 0 false, .addTask "b" "b.jpg" "tree" 0 false]).cancelTask
        "b").1.run [.settle "a" (.resolved { score := 80 }),
          .addTask "c" "c.jpg" "tree" 0 false]).statusOf "b" = some .CANCELLED :=
  (cancelled_while_queued_never_starts 1 10000 true "UPLOAD"
    [.addTask "a" "a.jpg" "tree" 0 false, .addTask "b" "b.jpg" "tree" 0 false]
    [.settle "a" (.resolved { score := 80 }), .addTask "c" "c.jpg" "tree" 0 false] "b"
    (by decide) (by decide) (by decide)).2.2.2.2.2

/-! ### Frame scores and retry delays -/

theorem mathRound_near (x : ℚ) : x - 1 / 2 < mathRound x ∧ (mathRound x : ℚ) ≤ x + 1 / 2 := by
  unfold mathRound
  constructor
  · have := Int.lt_floor_add_one (x + 1 / 2)
    linarith
  · exact Int.floor_le _

/-- C15: with `jitter` on, the delays `retryWithBackoff` waits are `computeDelay` at
the attempt index with the draw of that pass; for every draw in [0,1) and every
attempt index `i` that delay lies between 0.75 d and 1.25 d, where
`d = min(baseDelay * backoffFactor^i, maxDelay)`, and is at least
`0.5 * baseDelay`, for options with `baseDelay > 0`, `maxDelay >= baseDelay` and
`backoffFactor > 1`. -/
theorem jitter_delay_bounds {σ α : Type} (fn : σ → Settled α × σ) (o : RetryOptions σ)
    (sleep : ℚ → σ → σ) (rnd : Nat → ℚ) (w : σ) (hjitter : o.jitter = true)
    (hrnd : ∀ i, 0 ≤ rnd i ∧ rnd i < 1) (hbase : 0 < o.baseDelay)
    (hmax : o.baseDelay ≤ o.maxDelay) (hfactor : 1 < o.backoffFactor) :
    (retryWithBackoff fn o sleep rnd w).sleeps =
      (List.range (retryWithBackoff fn o sleep rnd w).sleeps.length).map
        (fun i => computeDelay o i (rnd i)) ∧
    ∀ i : Nat,
      3 / 4 * min (o.baseDelay * o.backoffFactor ^ i) o.maxDelay ≤ computeDelay o i (rnd i) ∧
      computeDelay o i (rnd i) ≤ 5 / 4 * min (o.baseDelay * o.backoffFactor ^ i) o.maxDelay ∧
      1 / 2 * o.baseDelay ≤ computeDelay o i (rnd i) := by
  constructor
  · have := retryLoop_sleeps o fn sleep rnd o.maxRetries 0 w
    rw [List.range_eq_range']
    exact this
  · intro i
    obtain ⟨h0, h1⟩ := hrnd i
    have hpow : 1 ≤ o.backoffFactor ^ i := one_le_pow₀ (le_of_lt hfactor)
    have hd : o.baseDelay ≤ min (o.baseDelay * o.backoffFactor ^ i) o.maxDelay := by
      apply le_min _ hmax
      nlinarith
    simp only [computeDelay, hjitter, if_true]
    generalize min (o.baseDelay * o.backoffFactor ^ i) o.maxDelay = d at hd ⊢
    have hdpos : 0 < d := lt_of_lt_of_le hbase hd
    have hrd : 0 ≤ rnd i * d := mul_nonneg h0 (le_of_lt hdpos)
    have hrd1 : 0 ≤ (1 - rnd i) * d := mul_nonneg (by linarith) (le_of_lt hdpos)
    refine ⟨le_max_of_le_left (by nlinarith), max_le (by nlinarith) (by nlinarith),
      le_max_of_le_right (by linarith)⟩

/-- Witness for C15: the `UPLOAD` preset, the wait after attempt 1, draw 1/3. -/
theorem jitter_delay_bounds_witness :
    (3 : ℚ) / 4 * min ((liftOptions (σ := Nat) RetryStrategies.UPLOAD).baseDelay *
        (liftOptions (σ := Nat) RetryStrategies.UPLOAD).backoffFactor ^ 1)
        (liftOptions (σ := Nat) RetryStrategies.UPLOAD).maxDelay ≤
      computeDelay (liftOptions (σ := Nat) RetryStrategies.UPLOAD) 1 (1 / 3) ∧
    computeDelay (liftOptions (σ := Nat) RetryStrategies.UPLOAD) 1 (1 / 3) ≤
      5 / 4 * min ((liftOptions (σ := Nat) RetryStrategies.UPLOAD).baseDelay *
        (liftOptions (σ := Nat) RetryStrategies.UPLOAD).backoffFactor ^ 1)
        (liftOptions (σ := Nat) RetryStrategies.UPLOAD).maxDelay ∧
    1 / 2 * (liftOptions (σ := Nat) RetryStrategies.UPLOAD).baseDelay ≤
      computeDelay (liftOptions (σ := Nat) RetryStrategies.UPLOAD) 1 (1 / 3) :=
  (jitter_delay_bounds
    (scriptedFn fun _ => (Settled.rejected { code := some "UPLOAD_FAILED" } : Settled Nat))
    (liftOptions RetryStrategies.UPLOAD) (fun _ w => w) (fun _ => 1 / 3) 0 rfl
    (fun _ => by norm_num) (by norm_num [liftOptions, RetryStrategies.UPLOAD])
    (by norm_num [liftOptions, RetryStrategies.UPLOAD])
    (by norm_num [liftOptions, RetryStrategies.UPLOAD])).2 1

/-- C16, what the code does: an upload whose promise resolves, whatever the code
of the outcome (`UPLOAD_FAILED`, `HTTP_ERROR` and `NETWORK_ERROR` included),
ends `uploadWithRetry` at its first attempt: the outcome is the result, the
upload has been invoked once and nothing has been waited for.  The
`retryCondition` is consulted for rejections only. -/
theorem uploadWithRetry_resolved_not_retried (uploads : Nat → Settled UploadOutcome)
    (retryOptions : RetryOverrides) (rnd : Nat → ℚ) (out : UploadOutcome)
    (h : uploads 0 = .resolved out) :
    (uploadWithRetry uploads retryOptions rnd).result = .resolved out ∧
    (uploadWithRetry uploads retryOptions rnd).trace = [.invoked 0 (.resolved out)] ∧
    (uploadWithRetry uploads retryOptions rnd).calls = 1 ∧
    (uploadWithRetry uploads retryOptions rnd).sleeps = [] := by
  have hloop : ∀ rem, retryLoop (liftOptions (RetryOverrides.spread RetryStrategies.UPLOAD
      retryOptions)) (scriptedFn uploads) (fun _ w => w) rnd rem 0 0 =
      ⟨.resolved out, [.invoked 0 (.resolved out)], 1⟩ := by
    intro rem
    cases rem <;> simp [retryLoop, scripted_body_resolved uploads _ rnd 0 out h]
  simp [uploadWithRetry, retryScript, retryWithBackoff, hloop, Run.calls, Run.sleeps,
    RetryEvent.isInvoked, RetryEvent.delay?]

/-- Witness for C16: the `UPLOAD` condition accepts the code `UPLOAD_FAILED` on an
error object, yet an upload that resolves with that code is invoked once and
its outcome returned. -/
theorem uploadWithRetry_resolved_not_retried_witness :
    RetryStrategies.uploadCondition { code := some "UPLOAD_FAILED" } = true ∧
    (uploadWithRetry
      (fun n => if n = 0 then .resolved { code := "UPLOAD_FAILED" } else .resolved { score := 90 })
      {} fun _ => 0).result = .resolved { code := "UPLOAD_FAILED" } ∧
    (uploadWithRetry
      (fun n => if n = 0 then .resolved { code := "UPLOAD_FAILED" } else .resolved { score := 90 })
      {} fun _ => 0).calls = 1 :=
  ⟨by decide,
   (uploadWithRetry_resolved_not_retried
    (fun n => if n = 0 then .resolved { code := "UPLOAD_FAILED" } else .resolved { score := 90 })
    {} (fun _ => 0) { code := "UPLOAD_FAILED" } rfl).1,
   (uploadWithRetry_resolved_not_retried
    (fun n => if n = 0 then .resolved { code := "UPLOAD_FAILED" } else .resolved { score := 90 })
    {} (fun _ => 0) { code := "UPLOAD_FAILED" } rfl).2.2.1⟩

/-! ### Listeners -/

section listeners
variable {ω : Type}

theorem forEachFrom_notify (n : Notification) (listeners : List (Listener ω)) :
    ∀ (i : Nat) (w : Heard ω),
      (forEachFrom (fun i listener => tryCatch (callListener n i listener) logListenerError) i
        listeners w).2 = none ∧
      (forEachFrom (fun i listener => tryCatch (callListener n i listener) logListenerError) i
        listeners w).1.calls =
        w.calls ++ (List.range' i listeners.length).map (fun j => (j, n)) := by
  induction listeners with
  | nil => intro i w; simp [forEachFrom]
  | cons l rest ih =>
    intro i w
    have hbody : ∃ w1 : Heard ω,
        tryCatch (callListener n i l) logListenerError w = (w1, none) ∧
        w1.calls = w.calls ++ [(i, n)] := by
      cases hc : (l.call n w.state).2 with
      | none =>
        exact ⟨Heard.mk (l.call n w.state).1 (w.calls ++ [(i, n)]) w.logged,
          by simp [tryCatch, callListener, hc], rfl⟩
      | some e =>
        exact ⟨Heard.mk (l.call n w.state).1 (w.calls ++ [(i, n)]) (w.logged ++ [e]),
          by simp [tryCatch, callListener, hc, logListenerError], rfl⟩
    obtain ⟨w1, h1, h2⟩ := hbody
    simp only [forEachFrom, h1]
    obtain ⟨r1, r2⟩ := ih (i + 1) w1
    refine ⟨r1, ?_⟩
    rw [r2, h2]
    simp [List.range'_succ]

end listeners

theorem countP_listener_calls (n : Notification) (j k : Nat) : ∀ i : Nat,
    ((List.range' i k).map (fun a => (a, n))).countP (fun c => decide (c.1 = j)) =
      if i ≤ j ∧ j < i + k then 1 else 0 := by
  induction k with
  | zero =>
    intro i
    have : ¬ (i ≤ j ∧ j < i + 0) := by omega
    rw [if_neg this]
    rfl
  | succ k ih =>
    intro i
    rw [List.range'_succ, List.map_cons, List.countP_cons, ih (i + 1)]
    by_cases hij : i = j
    · subst hij
      simp
    · simp only [hij, decide_False, Bool.false_eq_true, if_false, Nat.add_zero]
      congr 1
      apply propext
      constructor <;> intro h <;> omega

/-- C20: for every list of registered listeners, every event and every world,
`notifyListeners` returns normally (no exception leaves it), and the calls it
makes are one call of each listener, in order of registration, with the
arguments of the event, whether or not listeners throw; each listener is called
exactly once. -/
theorem notifyListeners_calls_each_once {ω : Type} (listeners : List (Listener ω))
    (n : Notification) (w : Heard ω) :
    (notifyEach listeners n w).2 = none ∧
    (notifyEach listeners n w).1.calls =
      w.calls ++ (List.range listeners.length).map (fun j => (j, n)) ∧
    ∀ j, j < listeners.length →
      ((notifyEach listeners n w).1.calls.drop w.calls.length).countP
        (fun c => decide (c.1 = j)) = 1 := by
  obtain ⟨h1, h2⟩ := forEachFrom_notify n listeners 0 w
  refine ⟨h1, ?_, ?_⟩
  · rw [List.range_eq_range']
    exact h2
  · intro j hj
    unfold notifyEach
    rw [h2, List.drop_left, countP_listener_calls]
    simp [hj]

/-- Witness for C20: two listeners, the first of which throws; both are called
once with the event, the second after the first (the state they share ends at
11), the thrown value is logged and nothing leaves `notifyListeners`. -/
theorem notifyListeners_calls_each_once_witness :
    (notifyEach
      [⟨fun _ w => (w + 1, some { message := "boom" })⟩, ⟨fun _ w => (w + 10, none)⟩]
      { taskId := "a", taskInfo := none, eventType := "added" } ⟨(0 : Nat), [], []⟩).2 = none ∧
    (notifyEach
      [⟨fun _ w => (w + 1, some { message := "boom" })⟩, ⟨fun _ w => (w + 10, none)⟩]
      { taskId := "a", taskInfo := none, eventType := "added" } ⟨(0 : Nat), [], []⟩).1.calls =
      [(0, { taskId := "a", taskInfo := none, eventType := "added" }),
       (1, { taskId := "a", taskInfo := none, eventType := "added" })] ∧
    (notifyEach
      [⟨fun _ w => (w + 1, some { message := "boom" })⟩, ⟨fun _ w => (w + 10, none)⟩]
      { taskId := "a", taskInfo := none, eventType := "added" } ⟨(0 : Nat), [], []⟩).1.state =
      11 ∧
    (notifyEach
      [⟨fun _ w => (w + 1, some { message := "boom" })⟩, ⟨fun _ w => (w + 10, none)⟩]
      { taskId := "a", taskInfo := none, eventType := "added" } ⟨(0 : Nat), [], []⟩).1.logged =
      [{ message := "boom" }] :=
  ⟨(notifyListeners_calls_each_once
      [⟨fun _ w => (w + 1, some { message := "boom" })⟩, ⟨fun _ w => (w + 10, none)⟩]
      { taskId := "a", taskInfo := none, eventType := "added" } ⟨(0 : Nat), [], []⟩).1,
   (notifyListeners_calls_each_once
      [⟨fun _ w => (w + 1, some { message := "boom" })⟩, ⟨fun _ w => (w + 10, none)⟩]
      { taskId := "a", taskInfo := none, eventType := "added" } ⟨(0 : Nat), [], []⟩).2.1.trans
      (by decide),
   by decide, by decide⟩

/-! ### Cancelling twice, submitting twice -/

/-- C18, counterexample: a task is started and cancelled; a second `cancelTask` on
it, its status being `CANCELLED`, returns true and notifies the listeners once
more. -/
theorem second_cancel_returns_true :
    ((((UploadManager.create 3 10000 true "UPLOAD").addTask "a" "a.jpg" "tree" 0
        false).cancelTask "a").1.statusOf "a" = some .CANCELLED) ∧
    ((((UploadManager.create 3 10000 true "UPLOAD").addTask "a" "a.jpg" "tree" 0
        false).cancelTask "a").1.cancelTask "a").2 = true ∧
    ((((UploadManager.create 3 10000 true "UPLOAD").addTask "a" "a.jpg" "tree" 0
        false).cancelTask "a").1.cancelTask "a").1.notifications.length =
      (((UploadManager.create 3 10000 true "UPLOAD").addTask "a" "a.jpg" "tree" 0
        false).cancelTask "a").1.notifications.length + 1 := by
  decide

/-- C18, amended: `cancelTask` on a task that is in the map with status `CANCELLED`
returns true again and notifies the listeners again (`updated`, old status
`CANCELLED`); the record keeps its fields, `activeCount` and the running
uploads are unchanged, and the queue is unchanged when the task is not in it.
`cancelTask` returns false, changing nothing, only for an id that is not in
the map. -/
theorem cancelTask_again (m : UploadManager) (taskId : TaskId) :
    (∀ t, m.tasks.get taskId = some t → t.status = .CANCELLED →
      (m.cancelTask taskId).2 = true ∧
      (m.cancelTask taskId).1.tasks.get taskId = some t ∧
      (m.cancelTask taskId).1.notifications = m.notifications ++
        [{ taskId := taskId, taskInfo := some t, eventType := "updated",
           oldStatus := some .CANCELLED }] ∧
      (m.cancelTask taskId).1.activeCount = m.activeCount ∧
      (m.cancelTask taskId).1.running = m.running ∧
      (m.cancelTask taskId).1.queue = m.queue.filter (fun item => item ≠ taskId) ∧
      (taskId ∉ m.queue → (m.cancelTask taskId).1.queue = m.queue)) ∧
    (m.tasks.get taskId = none → m.cancelTask taskId = (m, false)) := by
  constructor
  · intro t hget hst
    have ht : ({ t with status := TaskStatus.CANCELLED } : UploadTaskInfo) = t := by
      cases t
      simp only at hst
      simp [hst]
    refine ⟨by simp [UploadManager.cancelTask, hget], ?_, ?_, by simp, by simp, ?_, ?_⟩
    · rw [UploadManager.cancelTask_get]
      simp [hget, Updates.assign, ht]
    · simp [UploadManager.cancelTask, hget, UploadManager.updateTaskStatus,
        UploadManager.notifyListeners, Updates.assign, ht, hst]
    · rw [UploadManager.cancelTask_queue]
      simp [hget]
    · intro hq
      rw [UploadManager.cancelTask_queue]
      simp only [hget, Option.isSome_some, if_true]
      exact List.filter_eq_self.2 (fun x hx => by
        simp only [ne_eq, decide_not, Bool.not_eq_eq_eq_not, Bool.not_true, decide_eq_false_iff_not]
        exact fun heq => hq (heq ▸ hx))
  · intro hget
    simp [UploadManager.cancelTask, hget]

/-- Witness for C18 as amended: `b` was cancelled while it waited behind `a`; the
second cancel returns true and `activeCount` stays 1. -/
theorem cancelTask_again_witness :
    ((((UploadManager.create 1 10000 true "UPLOAD").run
        [.addTask "a" "a.jpg" "tree" 0 false, .addTask "b" "b.jpg" "tree" 0 false,
          .cancelTask "b"]).cancelTask "b").2 = true) ∧
    (((UploadManager.create 1 10000 true "UPLOAD").run
        [.addTask "a" "a.jpg" "tree" 0 false, .addTask "b" "b.jpg" "tree" 0 false,
          .cancelTask "b"]).cancelTask "b").1.activeCount = 1 :=
  ⟨((cancelTask_again ((UploadManager.create 1 10000 true "UPLOAD").run
        [.addTask "a" "a.jpg" "tree" 0 false, .addTask "b" "b.jpg" "tree" 0 false,
          .cancelTask "b"]) "b").1
      { taskId := "b", filePath := "b.jpg", poseId := "tree", status := .CANCELLED,
        progress := 0, priority := 0, skipRetry := false, result := none, error := none,
        wxTask := false, cancelFn := false, seq := 1 } (by decide) rfl).1,
   (((cancelTask_again ((UploadManager.create 1 10000 true "UPLOAD").run
        [.addTask "a" "a.jpg" "tree" 0 false, .addTask "b" "b.jpg" "tree" 0 false,
          .cancelTask "b"]) "b").1
      { taskId := "b", filePath := "b.jpg", poseId := "tree", status := .CANCELLED,
        progress := 0, priority := 0, skipRetry := false, result := none, error := none,
        wxTask := false, cancelFn := false, seq := 1 } (by decide) rfl).2.2.2.1).trans
      (by decide)⟩

/-- C19, counterexample: task `a` is uploading; `addTask` with the same id and
another file replaces its record, counts a second active task and starts a
second upload under the same id. -/
theorem duplicate_id_overwrites :
    (((UploadManager.create 3 10000 true "UPLOAD").addTask "a" "a.jpg" "tree" 0
        false).statusOf "a" = some .UPLOADING) ∧
    ((((UploadManager.create 3 10000 true "UPLOAD").addTask "a" "a.jpg" "tree" 0
        false).addTask "a" "other.jpg" "tree" 0 false).tasks.get "a").map
      (fun t => t.filePath) = some "other.jpg" ∧
    (((UploadManager.create 3 10000 true "UPLOAD").addTask "a" "a.jpg" "tree" 0
        false).addTask "a" "other.jpg" "tree" 0 false).activeCount = 2 ∧
    (((UploadManager.create 3 10000 true "UPLOAD").addTask "a" "a.jpg" "tree" 0
        false).addTask "a" "other.jpg" "tree" 0 false).running = ["a", "a"] := by
  decide

/-- C19, amended: `addTask` never fails on the id, live or not.  It stores a new
record under the id in place of any record there (status `PENDING`, progress
0, no result, no error), tells the listeners `added`, and then queues the task
when the manager is at its limit and starts it otherwise (status `UPLOADING`,
`activeCount` one more, one more running upload). -/
theorem addTask_replaces_record (m : UploadManager) (taskId : TaskId) (filePath poseId : String)
    (priority : Int) (skipRetry : Bool) :
    (m.addTask taskId filePath poseId priority skipRetry).tasks.get taskId =
      some (if m.activeCount ≥ m.maxConcurrent then
        { taskId := taskId, filePath := filePath, poseId := poseId, status := .PENDING,
          progress := 0, priority := priority, skipRetry := skipRetry, result := none,
          error := none, wxTask := false, cancelFn := false, seq := m.submitted }
      else
        { taskId := taskId, filePath := filePath, poseId := poseId, status := .UPLOADING,
          progress := 0, priority := priority, skipRetry := skipRetry, result := none,
          error := none, wxTask := true, cancelFn := m.enableRetry && !skipRetry,
          seq := m.submitted }) ∧
    (m.addTask taskId filePath poseId priority skipRetry).activeCount =
      (if m.activeCount ≥ m.maxConcurrent then m.activeCount else m.activeCount + 1) ∧
    (m.addTask taskId filePath poseId priority skipRetry).running =
      (if m.activeCount ≥ m.maxConcurrent then m.running else m.running ++ [taskId]) ∧
    (∀ x, x ∈ (m.addTask taskId filePath poseId priority skipRetry).queue ↔
      x ∈ m.queue ∨ (m.activeCount ≥ m.maxConcurrent ∧ x = taskId)) ∧
    (m.addTask taskId filePath poseId priority skipRetry).notifications.take
        (m.notifications.length + 1) = m.notifications ++
      [{ taskId := taskId,
         taskInfo := some
          { taskId := taskId, filePath := filePath, poseId := poseId, status := .PENDING,
            progress := 0, priority := priority, skipRetry := skipRetry, result := none,
            error := none, wxTask := false, cancelFn := false, seq := m.submitted },
         eventType := "added" }] := by
  by_cases hcap : m.activeCount ≥ m.maxConcurrent
  · have hcap' : m.maxConcurrent ≤ m.activeCount := hcap
    simp only [UploadManager.addTask, UploadManager.notifyListeners, hcap, hcap', if_true]
    refine ⟨by simp [TaskMap.get_set], trivial, trivial, ?_, by simp⟩
    intro x
    unfold UploadManager.sortQueue
    rw [(List.perm_insertionSort _ _).mem_iff]
    simp
  · have hcap' : ¬ m.maxConcurrent ≤ m.activeCount := hcap
    simp only [UploadManager.addTask, UploadManager.notifyListeners, hcap, hcap', if_false]
    refine ⟨?_, ?_, ?_, ?_, ?_⟩
    · rw [UploadManager.executeTask_get]
      simp [UploadManager.startable, TaskMap.get_set]
    · rw [UploadManager.executeTask_activeCount]
      simp [UploadManager.startable, TaskMap.get_set]
    · rw [UploadManager.executeTask_running]
      simp [UploadManager.startable, TaskMap.get_set]
    · intro x
      simp
    · simp [UploadManager._executeTask, TaskMap.get_set, UploadManager.updateTaskStatus,
        UploadManager.notifyListeners, UploadManager.storeHandles]
      rw [List.take_append_eq_append_take]
      simp

/-! ### The promise of a task cancelled in the queue -/

namespace UploadManager

section settledfields
variable (m : UploadManager) (id : TaskId) (st : TaskStatus) (u : Updates) (wx cf : Bool)

@[simp] theorem updateTaskStatus_settled :
    (m.updateTaskStatus id st u).settled = m.settled := by
  unfold updateTaskStatus; split <;> simp [notifyListeners]

@[simp] theorem storeHandles_settled :
    (m.storeHandles id wx cf).settled = m.settled := by
  unfold storeHandles; split <;> rfl

theorem executeTask_settled :
    (m._executeTask id).settled =
      if m.startable id then m.settled else m.settled ++ [(id, .resolved none)] := by
  cases h : m.tasks.get id with
  | none => simp [_executeTask, startable, h]
  | some t =>
    by_cases hc : t.status = .CANCELLED <;> simp [_executeTask, startable, h, hc]

@[simp] theorem cancelTask_settled : (m.cancelTask id).1.settled = m.settled := by
  unfold cancelTask
  split <;> simp

@[simp] theorem cleanupFired_settled : (m.cleanupFired id).settled = m.settled := by
  unfold cleanupFired
  split
  · simp only []
    split
    · split <;> simp [notifyListeners]
    · rfl
  · rfl

@[simp] theorem onRetry_settled (n : Nat) : (m.onRetry id n).settled = m.settled := by
  unfold onRetry
  split <;> simp [notifyListeners]

@[simp] theorem progressUpdate_settled (p : ℚ) : (m.progressUpdate id p).settled = m.settled := by
  unfold progressUpdate
  split <;> simp

end settledfields

theorem cancelAll_fold_settled (ids : List TaskId) : ∀ m : UploadManager,
    (ids.foldl (fun acc taskId => (UploadManager.cancelTask acc taskId).1) m).settled =
      m.settled := by
  induction ids with
  | nil => intro m; rfl
  | cons hd tl ih => intro m; simp [ih]

@[simp] theorem cancelAllTasks_settled (m : UploadManager) :
    m.cancelAllTasks.settled = m.settled := by
  simp [cancelAllTasks, cancelAll_fold_settled]

/-- A promise settled by `_processQueue` belongs to a task taken from the queue. -/
theorem processQueueLoop_settled_mem (q : List TaskId) : ∀ (m : UploadManager)
    (p : TaskId × Settled (Option UploadOutcome)),
    p ∈ (processQueueLoop q m).settled → p ∈ m.settled ∨ p.1 ∈ q := by
  induction q with
  | nil => intro m p hp; exact Or.inl hp
  | cons hd tl ih =>
    intro m p hp
    simp only [processQueueLoop] at hp
    split at hp
    · rcases ih _ p hp with h1 | h1
      · rw [executeTask_settled] at h1
        split at h1
        · exact Or.inl h1
        · rcases List.mem_append.1 h1 with h2 | h2
          · exact Or.inl h2
          · rw [List.mem_singleton.1 h2]
            exact Or.inr (List.mem_cons_self _ _)
      · exact Or.inr (List.mem_cons_of_mem _ h1)
    · exact Or.inl hp

/-- A waiting task is there to be started. -/
theorem Consistent.startable_head {m : UploadManager} {used : List TaskId} {hd : TaskId}
    {tl : List TaskId} (h : Consistent m used) (hq : m.queue = hd :: tl) :
    UploadManager.startable { m with queue := tl } hd = true := by
  have hpend := h.queue_pending hd (by rw [hq]; exact List.mem_cons_self _ _)
  simp only [statusOf] at hpend
  cases hg : m.tasks.get hd with
  | none => simp [hg] at hpend
  | some t =>
    simp only [hg, Option.map_some', Option.some.injEq] at hpend
    simp [UploadManager.startable, hg, hpend]

/-- With no id submitted twice `_processQueue` settles no promise. -/
theorem Consistent.processQueueLoop_settled {used : List TaskId} (q : List TaskId) :
    ∀ m : UploadManager, m.queue = q → Consistent m used →
      (processQueueLoop q m).settled = m.settled := by
  induction q with
  | nil => intro m _ _; rfl
  | cons hd tl ih =>
    intro m hq h
    simp only [UploadManager.processQueueLoop]
    split
    · rw [ih _ (by simp) (h.start_head hq), executeTask_settled, h.startable_head hq]
      rfl
    · rfl

theorem SettledApart.along_step {m : UploadManager} {used : List TaskId} (h : Consistent m used)
    (hs : SettledApart m used) (op : Op) (hfresh : ∀ id, op.addedId = some id → id ∉ used) :
    SettledApart (m.step op) (op.addedId.toList ++ used) := by
  cases op with
  | addTask x filePath poseId priority skipRetry =>
    have hx : x ∉ used := hfresh x rfl
    intro p hp
    simp only [UploadManager.step, UploadManager.addTask] at hp ⊢
    simp only [Op.addedId, Option.toList, List.singleton_append, List.mem_cons]
    split at hp
    · rename_i hcap
      rw [if_pos hcap]
      have hp' : p ∈ m.settled := by simpa [notifyListeners] using hp
      refine ⟨Or.inr (hs p hp').1, ?_⟩
      show p.1 ∉ sortQueue _ _
      unfold sortQueue
      rw [(List.perm_insertionSort _ _).mem_iff]
      simp only [notifyListeners, List.mem_append, List.mem_singleton, not_or]
      exact ⟨(hs p hp').2, fun heq => hx (heq ▸ (hs p hp').1)⟩
    · rename_i hcap
      rw [if_neg hcap]
      rw [executeTask_settled] at hp
      have hstart : (notifyListeners
          { m with
            tasks := m.tasks.set x
              { taskId := x, filePath := filePath, poseId := poseId, status := .PENDING,
                progress := 0, priority := priority, skipRetry := skipRetry, result := none,
                error := none, wxTask := false, cancelFn := false, seq := m.submitted },
            submitted := m.submitted + 1 }
          { taskId := x,
            taskInfo := some
              { taskId := x, filePath := filePath, poseId := poseId, status := .PENDING,
                progress := 0, priority := priority, skipRetry := skipRetry, result := none,
                error := none, wxTask := false, cancelFn := false, seq := m.submitted },
            eventType := "added" }).startable x = true := by
        simp [startable, notifyListeners, TaskMap.get_set]
      rw [hstart] at hp
      have hp' : p ∈ m.settled := by simpa [notifyListeners] using hp
      exact ⟨Or.inr (hs p hp').1, by simpa [notifyListeners] using (hs p hp').2⟩
  | progress x pr =>
    intro p hp
    have hp' : p ∈ m.settled := by simpa [UploadManager.step] using hp
    refine ⟨by simpa [Op.addedId] using (hs p hp').1, ?_⟩
    simp only [UploadManager.step, UploadManager.progressUpdate]
    split
    · simpa using (hs p hp').2
    · exact (hs p hp').2
  | retry x attempt =>
    intro p hp
    have hp' : p ∈ m.settled := by simpa [UploadManager.step] using hp
    refine ⟨by simpa [Op.addedId] using (hs p hp').1, ?_⟩
    simp only [UploadManager.step, UploadManager.onRetry]
    split
    · exact (hs p hp').2
    · exact (hs p hp').2
  | settle x outcome =>
    intro p hp
    simp only [Op.addedId, Option.toList, List.nil_append]
    simp only [UploadManager.step, UploadManager._executeTaskResume] at hp ⊢
    split at hp
    · rename_i hrun
      rw [if_pos hrun]
      have hxq : x ∉ m.queue := fun hq => (h.queue_waiting x hq).1 hrun
      have h0 : Consistent { m with running := m.running.erase x } used :=
        h.frame (fun _ hid => hid) (List.Sublist.refl _)
          (fun id hid => Or.inl (List.mem_of_mem_erase hid)) (fun id hid => Or.inl hid)
          (fun _ _ => rfl) h.seq_lt
      have key : ∀ m1 : UploadManager, Consistent m1 used → m1.queue = m.queue →
          m1.settled = m.settled → ∀ s,
          p ∈ (_scheduleCleanup (_processQueue { m1 with activeCount :=
            m1.activeCount - 1 }) x).settled ++ [(x, s)] →
          p.1 ∈ used ∧ p.1 ∉ (_scheduleCleanup (_processQueue { m1 with activeCount :=
            m1.activeCount - 1 }) x).queue := by
        intro m1 h1 hq1 hs1 s hp1
        have h2 : Consistent { m1 with activeCount := m1.activeCount - 1 } used :=
          h1.congr rfl rfl rfl rfl rfl
        have hset := Consistent.processQueueLoop_settled m1.queue
          { m1 with activeCount := m1.activeCount - 1 } rfl h2
        simp only [_scheduleCleanup, _processQueue] at hp1 ⊢
        rw [hset] at hp1
        have hsub : ∀ y, y ∈ (UploadManager.processQueueLoop m1.queue
            { m1 with activeCount := m1.activeCount - 1 }).queue → y ∈ m.queue := by
          intro y hy
          rcases processQueueLoop_queue_subset _ _ y hy with h4 | h4
          · exact hq1 ▸ h4
          · exact hq1 ▸ h4
        rcases List.mem_append.1 hp1 with h5 | h5
        · have h6 : p ∈ m.settled := hs1 ▸ h5
          exact ⟨(hs p h6).1, fun hmem => (hs p h6).2 (hsub _ hmem)⟩
        · rw [List.mem_singleton.1 h5]
          exact ⟨h.running_used x hrun, fun hmem => hxq (hsub _ hmem)⟩
      cases outcome with
      | resolved v =>
        exact key _ (h0.keeps_updateTaskStatus x _ _ hxq) (by simp) (by simp) _ hp
      | rejected e =>
        exact key _ (h0.keeps_updateTaskStatus x _ _ hxq) (by simp) (by simp) _ hp
    · rename_i hrun
      rw [if_neg hrun]
      exact hs p hp
  | cancelTask x =>
    intro p hp
    have hp' : p ∈ m.settled := by simpa [UploadManager.step] using hp
    refine ⟨by simpa [Op.addedId] using (hs p hp').1, ?_⟩
    simp only [UploadManager.step]
    rw [cancelTask_queue]
    split
    · exact fun hmem => (hs p hp').2 (List.mem_of_mem_filter hmem)
    · exact (hs p hp').2
  | cancelAllTasks =>
    intro p hp
    have hp' : p ∈ m.settled := by simpa [UploadManager.step] using hp
    exact ⟨by simpa [Op.addedId] using (hs p hp').1,
      by simp [UploadManager.step, UploadManager.cancelAllTasks]⟩
  | cleanup x =>
    intro p hp
    have hp' : p ∈ m.settled := by simpa [UploadManager.step] using hp
    refine ⟨by simpa [Op.addedId] using (hs p hp').1, ?_⟩
    have hq : (m.cleanupFired x).queue = m.queue := by
      unfold cleanupFired
      split
      · simp only []
        split
        · split <;> simp [notifyListeners]
        · rfl
      · rfl
    simp only [UploadManager.step, hq]
    exact (hs p hp').2

end UploadManager

namespace UploadManager

theorem SettledApart.along_run (ops : List Op) : ∀ (m : UploadManager) (used : List TaskId),
    Consistent m used → SettledApart m used → (ops.filterMap Op.addedId).Nodup →
    (∀ id ∈ ops.filterMap Op.addedId, id ∉ used) →
    ∃ used', Consistent (m.run ops) used' ∧ SettledApart (m.run ops) used' := by
  induction ops with
  | nil => intro m used h hs _ _; exact ⟨used, h, hs⟩
  | cons op tl ih =>
    intro m used h hs hnd hfresh
    simp only [UploadManager.run, List.foldl_cons]
    cases hop : op.addedId with
    | none =>
      simp only [List.filterMap_cons, hop] at hnd hfresh
      have hf : ∀ id, op.addedId = some id → id ∉ used := fun id hid => by
        rw [hop] at hid; cases hid
      have h1 := h.keeps_step op hf
      have h2 := SettledApart.along_step h hs op hf
      rw [hop] at h1 h2
      exact ih _ _ h1 h2 hnd hfresh
    | some x =>
      simp only [List.filterMap_cons, hop, List.nodup_cons, List.mem_cons] at hnd hfresh
      have hf : ∀ id, op.addedId = some id → id ∉ used := fun id hid => by
        rw [hop] at hid
        cases hid
        exact hfresh x (Or.inl rfl)
      have h1 := h.keeps_step op hf
      have h2 := SettledApart.along_step h hs op hf
      rw [hop] at h1 h2
      refine ih _ _ h1 h2 hnd.2 ?_
      intro id hid
      simp only [Option.toList, List.singleton_append, List.mem_cons, not_or]
      exact ⟨fun heq => hnd.1 (heq ▸ hid), hfresh id (Or.inr hid)⟩

/-- In every state reached from a new manager with no task id submitted twice,
the promise of a task that waits in the queue is pending. -/
theorem reachable_queued_unsettled (maxConcurrent : ℚ) (autoCleanMs : ℚ) (enableRetry : Bool)
    (retryStrategy : String) (ops : List Op) (hunique : (ops.filterMap Op.addedId).Nodup)
    (taskId : TaskId)
    (hq : taskId ∈
      ((UploadManager.create maxConcurrent autoCleanMs enableRetry retryStrategy).run ops).queue) :
    Unsettled ((UploadManager.create maxConcurrent autoCleanMs enableRetry retryStrategy).run ops)
      taskId := by
  obtain ⟨used, _, hs⟩ := SettledApart.along_run ops _ []
    (Consistent.keeps_create maxConcurrent autoCleanMs enableRetry retryStrategy)
    (fun p hp => by simp [UploadManager.create] at hp) hunique (fun _ _ => List.not_mem_nil _)
  intro p hp heq
  exact (hs p hp).2 (heq ▸ hq)

theorem Withdrawn.unsettled_step {m : UploadManager} {id : TaskId} (h : Withdrawn m id)
    (hu : Unsettled m id) (op : Op) (hop : op.addedId ≠ some id) : Unsettled (m.step op) id := by
  obtain ⟨hq, hr, _, _⟩ := h
  cases op with
  | addTask x filePath poseId priority skipRetry =>
    have hx : ¬ x = id := fun heq => hop (by rw [Op.addedId, heq])
    intro p hp
    simp only [UploadManager.step, UploadManager.addTask] at hp
    split at hp
    · exact hu p (by simpa [notifyListeners] using hp)
    · rw [executeTask_settled] at hp
      split at hp
      · exact hu p (by simpa [notifyListeners] using hp)
      · rcases List.mem_append.1 hp with h1 | h1
        · exact hu p (by simpa [notifyListeners] using h1)
        · rw [List.mem_singleton.1 h1]
          exact hx
  | progress x pr => intro p hp; exact hu p (by simpa [UploadManager.step] using hp)
  | retry x attempt => intro p hp; exact hu p (by simpa [UploadManager.step] using hp)
  | settle x outcome =>
    intro p hp
    simp only [UploadManager.step, UploadManager._executeTaskResume] at hp
    split at hp
    · rename_i hrun
      have hx : ¬ x = id := fun heq => hr (heq ▸ hrun)
      have key : ∀ m1 : UploadManager, m1.queue = m.queue → m1.settled = m.settled → ∀ s,
          p ∈ (_scheduleCleanup (_processQueue { m1 with activeCount :=
            m1.activeCount - 1 }) x).settled ++ [(x, s)] → p.1 ≠ id := by
        intro m1 hq1 hs1 s hp1
        simp only [_scheduleCleanup, _processQueue] at hp1
        rcases List.mem_append.1 hp1 with h1 | h1
        · rcases processQueueLoop_settled_mem _ _ p h1 with h2 | h2
          · exact hu p (hs1 ▸ h2)
          · exact fun heq => hq (hq1 ▸ heq ▸ h2)
        · rw [List.mem_singleton.1 h1]
          exact hx
      cases outcome with
      | resolved v => exact key _ (by simp) (by simp) _ hp
      | rejected e => exact key _ (by simp) (by simp) _ hp
    · exact hu p hp
  | cancelTask x => intro p hp; exact hu p (by simpa [UploadManager.step] using hp)
  | cancelAllTasks => intro p hp; exact hu p (by simpa [UploadManager.step] using hp)
  | cleanup x => intro p hp; exact hu p (by simpa [UploadManager.step] using hp)

theorem Withdrawn.unsettled_run {id : TaskId} (ops : List Op) : ∀ m : UploadManager,
    Withdrawn m id → Unsettled m id → (∀ op ∈ ops, op.addedId ≠ some id) →
    Unsettled (m.run ops) id := by
  induction ops with
  | nil => intro m _ hu _; exact hu
  | cons op tl ih =>
    intro m h hu hops
    simp only [UploadManager.run, List.foldl_cons]
    exact ih _ (h.stays_step op (hops op (List.mem_cons_self _ _)))
      (h.unsettled_step hu op (hops op (List.mem_cons_self _ _)))
      (fun op' hop' => hops op' (List.mem_cons_of_mem _ hop'))

end UploadManager

/-- C11, what the code does: with no task id submitted twice, `cancelTask` on a
task that waits in the queue returns true and settles no promise, and whatever
happens afterwards (the id not being submitted again) the promise `addTask`
returned for that task never settles: it is neither resolved nor rejected. -/
theorem cancelled_queued_promise_never_settles (maxConcurrent : ℚ) (autoCleanMs : ℚ)
    (enableRetry : Bool) (retryStrategy : String) (ops later : List Op) (taskId : TaskId)
    (hunique : (ops.filterMap Op.addedId).Nodup)
    (hqueued : taskId ∈
      ((UploadManager.create maxConcurrent autoCleanMs enableRetry retryStrategy).run ops).queue)
    (hlater : ∀ op ∈ later, op.addedId ≠ some taskId) :
    (((UploadManager.create maxConcurrent autoCleanMs enableRetry retryStrategy).run
      ops).cancelTask taskId).2 = true ∧
    (((UploadManager.create maxConcurrent autoCleanMs enableRetry retryStrategy).run
      ops).cancelTask taskId).1.settled =
      ((UploadManager.create maxConcurrent autoCleanMs enableRetry retryStrategy).run
        ops).settled ∧
    ∀ settlement, (taskId, settlement) ∉
      ((((UploadManager.create maxConcurrent autoCleanMs enableRetry retryStrategy).run
        ops).cancelTask taskId).1.run later).settled := by
  obtain ⟨used, h⟩ := UploadManager.reachable_consistent maxConcurrent autoCleanMs enableRetry
    retryStrategy ops hunique
  have hu := UploadManager.reachable_queued_unsettled maxConcurrent autoCleanMs enableRetry
    retryStrategy ops hunique taskId hqueued
  obtain ⟨hret, hwd⟩ := h.cancel_queued hqueued
  have hu1 : UploadManager.Unsettled
      (((UploadManager.create maxConcurrent autoCleanMs enableRetry retryStrategy).run
        ops).cancelTask taskId).1 taskId := by
    intro p hp
    exact hu p (by simpa using hp)
  have hfin := UploadManager.Withdrawn.unsettled_run later _ hwd hu1 hlater
  exact ⟨hret, by simp, fun s hmem => hfin _ hmem rfl⟩

/-- Witness for C11: `b` is cancelled while it waits behind `a`; after `a` has
settled and the timers have fired, the only settled promise is that of `a`. -/
theorem cancelled_queued_promise_never_settles_witness :
    (((UploadManager.create 1 10000 true "UPLOAD").run
      [.addTask "a" "a.jpg" "tree" 0 false, .addTask "b" "b.jpg" "tree" 0 false]).cancelTask
        "b").2 = true ∧
    ((((UploadManager.create 1 10000 true "UPLOAD").run
      [.addTask "a" "a.jpg" "tree" 0 false, .addTask "b" "b.jpg" "tree" 0 false]).cancelTask
        "b").1.run [.settle "a" (.resolved { score := 80 }), .cleanup "a", .cleanup "b"]).settled =
      [("a", .resolved (some { score := 80 }))] ∧
    ∀ settlement, ("b", settlement) ∉
      ((((UploadManager.create 1 10000 true "UPLOAD").run
        [.addTask "a" "a.jpg" "tree" 0 false, .addTask "b" "b.jpg" "tree" 0 false]).cancelTask
          "b").1.run
        [.settle "a" (.resolved { score := 80 }), .cleanup "a", .cleanup "b"]).settled :=
  ⟨(cancelled_queued_promise_never_settles 1 10000 true "UPLOAD"
      [.addTask "a" "a.jpg" "tree" 0 false, .addTask "b" "b.jpg" "tree" 0 false]
      [.settle "a" (.resolved { score := 80 }), .cleanup "a", .cleanup "b"] "b"
      (by decide) (by decide) (by decide)).1,
   by decide,
   (cancelled_queued_promise_never_settles 1 10000 true "UPLOAD"
      [.addTask "a" "a.jpg" "tree" 0 false, .addTask "b" "b.jpg" "tree" 0 false]
      [.settle "a" (.resolved { score := 80 }), .cleanup "a", .cleanup "b"] "b"
      (by decide) (by decide) (by decide)).2.2⟩

/-! ### The life of a task -/

section quiet
variable {α : Type} (fn : Nat → Settled α) (len : Nat) (o : RetryOptions Unit)
  (sched : CancelSchedule) (rnd : Nat → ℚ)

/-- With the handle never invoked: when the attempts before index `k` fail with
errors that are retried and attempt `k` ends the loop, the promise of
`cancellableRetry` settles as attempt `k` did, after `k + 1` invocations. -/
theorem cancellable_quiet_ends_at (hd : ∀ i, sched.duringAttempt i = false)
    (hw : ∀ i, sched.duringWait i = false) (k : Nat) (hk : k ≤ o.maxRetries)
    (hend : (∃ v, fn k = .resolved v) ∨
      ∃ e, fn k = .rejected e ∧
        (k = o.maxRetries ∨ o.retryCondition () e = false ∨ e.wasAborted = true))
    (n : Nat) : ∀ (a rem : Nat) (w : CancelState), a + n = k → a + rem = o.maxRetries →
      w.cancelled = false → w.fnCalls = a →
      (∀ j, a ≤ j → j < k →
        ∃ e, fn j = .rejected e ∧ o.retryCondition () e = true ∧ e.wasAborted = false) →
      (retryLoop (cancellableOptions o) (cancellableFn fn len sched) (cancellableSleep sched)
        rnd rem a w).result = fn k ∧
      (retryLoop (cancellableOptions o) (cancellableFn fn len sched) (cancellableSleep sched)
        rnd rem a w).world.fnCalls = k + 1 := by
  induction n with
  | zero =>
    intro a rem w hak hrem hwc hwf _
    have hak' : a = k := by omega
    obtain ⟨h1, hf, _, _, _⟩ := cancellableFn_live fn len sched w hwc
    rw [hwf, hak'] at h1
    have hagain : (retryBody (cancellableOptions o) (cancellableFn fn len sched)
        (cancellableSleep sched) rnd a w).again = false := by
      rcases hend with ⟨v, hv⟩ | ⟨e, he, hstop⟩
      · exact retryBody_success _ _ _ _ _ _ v (by rw [h1]; exact hv)
      · refine retryBody_stop _ _ _ _ _ _ e (by rw [h1]; exact he) ?_
        rcases hstop with h | h | h
        · exact Or.inl (by rw [hak']; exact h)
        · exact Or.inr (by rw [cancellable_condition, h]; simp)
        · exact Or.inr (by rw [cancellable_condition, h]; simp)
    obtain ⟨d1, d2, _⟩ := retryBody_done _ _ _ _ _ _ hagain
    cases rem with
    | zero =>
      simp only [retryLoop]
      exact ⟨by rw [d2, h1], by rw [d1, hf, hwf, hak']⟩
    | succ r =>
      simp only [retryLoop, hagain, Bool.false_eq_true, if_false]
      exact ⟨by rw [d2, h1], by rw [d1, hf, hwf, hak']⟩
  | succ n ih =>
    intro a rem w hak hrem hwc hwf hprev
    obtain ⟨e, he, hrc, hab⟩ := hprev a (Nat.le_refl a) (by omega)
    obtain ⟨rem', rfl⟩ : ∃ r, rem = r + 1 := ⟨rem - 1, by omega⟩
    obtain ⟨h1, hf, _, _, hlive⟩ := cancellableFn_live fn len sched w hwc
    have hlive' := hlive (hd _)
    have hmax : a ≠ (cancellableOptions o).maxRetries := by
      show a ≠ o.maxRetries
      omega
    have hcond : (cancellableOptions o).retryCondition (cancellableFn fn len sched w).2 e
        = true := by
      rw [cancellable_condition, hlive', hab, hrc]; rfl
    obtain ⟨hagain, _⟩ := retryBody_retry (cancellableOptions o)
      (cancellableFn fn len sched) (cancellableSleep sched) rnd a w e (by rw [h1, hwf]; exact he)
      hmax hcond
    obtain ⟨e', _, _, _, hworld⟩ := retryBody_again _ _ _ _ _ _ hagain
    rw [cancellable_callback] at hworld
    obtain ⟨_, _, _, hsame⟩ := cancellableSleep_spec sched
      (computeDelay (cancellableOptions o) a (rnd a)) (cancellableFn fn len sched w).2
    rw [hsame (hw _)] at hworld
    obtain ⟨r1, r2⟩ := ih (a + 1) rem' (cancellableFn fn len sched w).2 (by omega)
      (by omega) hlive' (by rw [hf, hwf]) (fun j hj1 hj2 => hprev j (by omega) hj2)
    simp only [retryLoop, hagain, if_true, hworld]
    exact ⟨r1, r2⟩

end quiet

namespace UploadManager

section history
variable (m : UploadManager) (id x : TaskId)

theorem notifyListeners_statusHistory (n : Notification) :
    (m.notifyListeners n).statusHistory id = m.statusHistory id ++
      (if n.taskId = id ∧ (n.eventType = "added" ∨ n.eventType = "updated") then
        (n.taskInfo.map fun t => t.status).toList else []) := by
  simp only [statusHistory, notifyListeners, List.filterMap_append]
  congr 1
  by_cases h : n.taskId = id ∧ (n.eventType = "added" ∨ n.eventType = "updated")
  · cases hn : n.taskInfo <;> simp [List.filterMap_cons, h, hn]
  · simp [List.filterMap_cons, h]

theorem updateTaskStatus_statusHistory (st : TaskStatus) (u : Updates) :
    (m.updateTaskStatus x st u).statusHistory id =
      if x = id ∧ (m.tasks.get x).isSome then m.statusHistory id ++ [st]
      else m.statusHistory id := by
  unfold updateTaskStatus
  cases h : m.tasks.get x with
  | none => simp
  | some t =>
    simp only [notifyListeners_statusHistory]
    by_cases hx : x = id
    · simp [hx, statusHistory, Updates.assign]
    · simp [hx, statusHistory]

theorem executeTask_statusHistory :
    (m._executeTask x).statusHistory id =
      if m.startable x = true ∧ x = id then m.statusHistory id ++ [.UPLOADING]
      else m.statusHistory id := by
  cases h : m.tasks.get x with
  | none => simp [_executeTask, startable, h, statusHistory]
  | some t =>
    by_cases hc : t.status = .CANCELLED
    · simp [_executeTask, startable, h, hc, statusHistory]
    · have h1 : (_executeTask m x).statusHistory id =
          (updateTaskStatus { m with activeCount := m.activeCount + 1 } x .UPLOADING
            {}).statusHistory id := by
        simp [_executeTask, h, hc, statusHistory]
      rw [h1, updateTaskStatus_statusHistory]
      by_cases hx : x = id
      · subst hx
        simp [startable, h, hc, statusHistory]
      · simp [hx, statusHistory]

theorem processQueueLoop_statusHistory (q : List TaskId) (hq : id ∉ q) :
    ∀ m : UploadManager, (processQueueLoop q m).statusHistory id = m.statusHistory id := by
  induction q with
  | nil => intro m; rfl
  | cons hd tl ih =>
    intro m
    simp only [List.mem_cons, not_or] at hq
    simp only [processQueueLoop]
    split
    · rw [ih hq.2, executeTask_statusHistory]
      have : ¬ hd = id := fun h => hq.1 h.symm
      simp [this, statusHistory]
    · rfl

theorem onRetry_statusHistory (n : Nat) :
    (m.onRetry x n).statusHistory id = m.statusHistory id := by
  unfold onRetry
  split
  · rw [notifyListeners_statusHistory]
    simp
  · rfl

theorem onRetry_fold_statusHistory (l : List (Nat × AttemptError × ℚ)) :
    ∀ m : UploadManager,
      (l.foldl (fun acc call => acc.onRetry x call.1) m).statusHistory id =
        m.statusHistory id := by
  induction l with
  | nil => intro m; rfl
  | cons hd tl ih => intro m; rw [List.foldl_cons, ih, onRetry_statusHistory]

theorem onRetry_fold_fields (l : List (Nat × AttemptError × ℚ)) :
    ∀ m : UploadManager,
      (l.foldl (fun acc call => acc.onRetry x call.1) m).tasks = m.tasks ∧
      (l.foldl (fun acc call => acc.onRetry x call.1) m).running = m.running ∧
      (l.foldl (fun acc call => acc.onRetry x call.1) m).queue = m.queue ∧
      (l.foldl (fun acc call => acc.onRetry x call.1) m).settled = m.settled := by
  induction l with
  | nil => intro m; exact ⟨rfl, rfl, rfl, rfl⟩
  | cons hd tl ih =>
    intro m
    rw [List.foldl_cons]
    obtain ⟨h1, h2, h3, h4⟩ := ih (m.onRetry x hd.1)
    exact ⟨by rw [h1]; simp, by rw [h2]; simp, by rw [h3]; simp, by rw [h4]; simp⟩

/-- A running task that is not also waiting, carried to its end: the final
status is announced, the outcome is stored and the promise of `addTask`
settles with it. -/
theorem executeTaskResume_end (t : UploadTaskInfo) (outcome : Settled UploadOutcome)
    (hrun : id ∈ m.running) (hq : id ∉ m.queue) (hget : m.tasks.get id = some t) :
    (m._executeTaskResume id outcome).statusHistory id = m.statusHistory id ++
      [match outcome with
        | .resolved _ => TaskStatus.COMPLETED
        | .rejected _ => TaskStatus.FAILED] ∧
    (m._executeTaskResume id outcome).tasks.get id = some
      (match outcome with
        | .resolved v => { t with status := .COMPLETED, result := some v }
        | .rejected e => { t with status := .FAILED, error := some e }) ∧
    (m._executeTaskResume id outcome).settled.getLast? = some
      (id, match outcome with
        | .resolved v => Settled.resolved (some v)
        | .rejected e => Settled.rejected e) := by
  cases outcome with
  | resolved v =>
    refine ⟨?_, ?_, ?_⟩
    · simp only [_executeTaskResume, hrun, if_true, _scheduleCleanup, _processQueue]
      show UploadManager.statusHistory (processQueueLoop _ _) id = _
      rw [processQueueLoop_statusHistory _ _ (by simpa using hq)]
      show UploadManager.statusHistory (updateTaskStatus _ _ _ _) id = _
      rw [updateTaskStatus_statusHistory]
      simp [hget, statusHistory]
    · simp only [_executeTaskResume, hrun, if_true, _scheduleCleanup, _processQueue]
      rw [processQueueLoop_get _ _ (by simpa using hq)]
      simp [updateTaskStatus_get, hget, Updates.assign]
    · simp [_executeTaskResume, hrun, _scheduleCleanup]
  | rejected e =>
    refine ⟨?_, ?_, ?_⟩
    · simp only [_executeTaskResume, hrun, if_true, _scheduleCleanup, _processQueue]
      show UploadManager.statusHistory (processQueueLoop _ _) id = _
      rw [processQueueLoop_statusHistory _ _ (by simpa using hq)]
      show UploadManager.statusHistory (updateTaskStatus _ _ _ _) id = _
      rw [updateTaskStatus_statusHistory]
      simp [hget, statusHistory]
    · simp only [_executeTaskResume, hrun, if_true, _scheduleCleanup, _processQueue]
      rw [processQueueLoop_get _ _ (by simpa using hq)]
      simp [updateTaskStatus_get, hget, Updates.assign]
    · simp [_executeTaskResume, hrun, _scheduleCleanup]

end history

end UploadManager

/-- Every scripted operation has an attempt that ends the retry loop. -/
theorem stopping_attempt {α : Type} (fn : Nat → Settled α) (rc : AttemptError → Bool)
    (max : Nat) :
    ∃ k, k ≤ max ∧
      (∀ j, j < k → ∃ e, fn j = .rejected e ∧ rc e = true ∧ e.wasAborted = false) ∧
      ((∃ v, fn k = .resolved v) ∨
        ∃ e, fn k = .rejected e ∧ (k = max ∨ rc e = false ∨ e.wasAborted = true)) := by
  have step : ∀ n, n ≤ max →
      (∃ k, k < n ∧
        (∀ j, j < k → ∃ e, fn j = .rejected e ∧ rc e = true ∧ e.wasAborted = false) ∧
        ((∃ v, fn k = .resolved v) ∨
          ∃ e, fn k = .rejected e ∧ (rc e = false ∨ e.wasAborted = true))) ∨
      (∀ j, j < n → ∃ e, fn j = .rejected e ∧ rc e = true ∧ e.wasAborted = false) := by
    intro n
    induction n with
    | zero => intro _; exact Or.inr (fun j hj => absurd hj (Nat.not_lt_zero j))
    | succ n ih =>
      intro hn
      rcases ih (by omega) with ⟨k, hk, h1, h2⟩ | hall
      · exact Or.inl ⟨k, by omega, h1, h2⟩
      · cases hfn : fn n with
        | resolved v => exact Or.inl ⟨n, by omega, hall, Or.inl ⟨v, hfn⟩⟩
        | rejected e =>
          cases hrc : rc e with
          | false => exact Or.inl ⟨n, by omega, hall, Or.inr ⟨e, hfn, Or.inl hrc⟩⟩
          | true =>
            cases hab : e.wasAborted with
            | true => exact Or.inl ⟨n, by omega, hall, Or.inr ⟨e, hfn, Or.inr hab⟩⟩
            | false =>
              refine Or.inr (fun j hj => ?_)
              rcases Nat.lt_succ_iff_lt_or_eq.1 hj with h | h
              · exact hall j h
              · rw [h]; exact ⟨e, hfn, hrc, hab⟩
  rcases step max (Nat.le_refl _) with ⟨k, hk, h1, h2⟩ | hall
  · refine ⟨k, by omega, h1, ?_⟩
    rcases h2 with h2 | ⟨e, he, hstop⟩
    · exact Or.inl h2
    · exact Or.inr ⟨e, he, Or.inr hstop⟩
  · refine ⟨max, Nat.le_refl _, hall, ?_⟩
    cases hfn : fn max with
    | resolved v => exact Or.inl ⟨v, rfl⟩
    | rejected e => exact Or.inr ⟨e, rfl, Or.inl rfl⟩

/-- C17: `addTask` announces `PENDING`, and `UPLOADING` right after it when the
task is started at once; a task started from the queue goes from `PENDING` to
`UPLOADING`; a running task (not cancelled in between) whose awaited promise
resolves is announced `COMPLETED`, holds the result, and `addTask` returns it;
when the promise rejects the task is announced `FAILED`, holds the error, and
`addTask` throws it.  With retries on, the promise settles as the first
attempt `k` that ends the loop: it rejects exactly when that attempt fails at
index `maxRetries` or with an error that is not retried, and every upload has
such an attempt; with retries off it settles as the single upload. -/
theorem task_status_sequence (m : UploadManager) (taskId : TaskId) :
    (∀ (filePath poseId : String) (priority : Int) (skipRetry : Bool),
      (m.addTask taskId filePath poseId priority skipRetry).statusHistory taskId =
        m.statusHistory taskId ++
          (if m.activeCount ≥ m.maxConcurrent then [.PENDING] else [.PENDING, .UPLOADING]) ∧
      (m.activeCount < m.maxConcurrent →
        taskId ∈ (m.addTask taskId filePath poseId priority skipRetry).running)) ∧
    (m.statusOf taskId = some .PENDING →
      (m._executeTask taskId).statusHistory taskId = m.statusHistory taskId ++ [.UPLOADING] ∧
      taskId ∈ (m._executeTask taskId).running ∧
      (m._executeTask taskId).statusOf taskId = some .UPLOADING) ∧
    (∀ (t : UploadTaskInfo) (r : Run CancelState UploadOutcome),
      m.tasks.get taskId = some t → taskId ∈ m.running → taskId ∉ m.queue →
      (∀ v, r.result = .resolved v →
        (m.executeToEnd taskId r).statusHistory taskId =
          m.statusHistory taskId ++ [.COMPLETED] ∧
        (m.executeToEnd taskId r).tasks.get taskId =
          some { t with status := .COMPLETED, result := some v } ∧
        (m.executeToEnd taskId r).settled.getLast? = some (taskId, .resolved (some v))) ∧
      (∀ e, r.result = .rejected e →
        (m.executeToEnd taskId r).statusHistory taskId = m.statusHistory taskId ++ [.FAILED] ∧
        (m.executeToEnd taskId r).tasks.get taskId =
          some { t with status := .FAILED, error := some e } ∧
        (m.executeToEnd taskId r).settled.getLast? = some (taskId, .rejected e))) ∧
    (∀ (t : UploadTaskInfo) (uploads : Nat → Settled UploadOutcome) (rnd : Nat → ℚ),
      m.enableRetry = true → t.skipRetry = false →
      (∃ k, k ≤ m.retryOptions.maxRetries ∧
        (∀ j, j < k → ∃ e, uploads j = .rejected e ∧
          m.retryOptions.retryCondition () e = true ∧ e.wasAborted = false) ∧
        ((∃ v, uploads k = .resolved v) ∨
          ∃ e, uploads k = .rejected e ∧ (k = m.retryOptions.maxRetries ∨
            m.retryOptions.retryCondition () e = false ∨ e.wasAborted = true))) ∧
      ∀ k, k ≤ m.retryOptions.maxRetries →
        (∀ j, j < k → ∃ e, uploads j = .rejected e ∧
          m.retryOptions.retryCondition () e = true ∧ e.wasAborted = false) →
        (∀ v, uploads k = .resolved v → (m.uploadRun t uploads {} rnd).result = .resolved v) ∧
        (∀ e, uploads k = .rejected e →
          (k = m.retryOptions.maxRetries ∨ m.retryOptions.retryCondition () e = false ∨
            e.wasAborted = true) →
          (m.uploadRun t uploads {} rnd).result = .rejected e)) ∧
    (∀ (t : UploadTaskInfo) (uploads : Nat → Settled UploadOutcome) (rnd : Nat → ℚ),
      (m.enableRetry = false ∨ t.skipRetry = true) →
      (m.uploadRun t uploads {} rnd).result = uploads 0) := by
  refine ⟨?_, ?_, ?_, ?_, ?_⟩
  · intro filePath poseId priority skipRetry
    by_cases hcap : m.activeCount ≥ m.maxConcurrent
    · have hcap' : m.maxConcurrent ≤ m.activeCount := hcap
      refine ⟨?_, fun h => absurd h (by linarith)⟩
      simp [UploadManager.addTask, UploadManager.notifyListeners, hcap',
        UploadManager.statusHistory, List.filterMap_append]
    · have hcap' : ¬ m.maxConcurrent ≤ m.activeCount := hcap
      constructor
      · simp only [UploadManager.addTask, UploadManager.notifyListeners, hcap, hcap', if_false]
        rw [UploadManager.executeTask_statusHistory]
        simp [UploadManager.startable, TaskMap.get_set, UploadManager.statusHistory,
          List.filterMap_append]
      · intro _
        simp only [UploadManager.addTask, UploadManager.notifyListeners, hcap, hcap', if_false]
        rw [UploadManager.executeTask_running]
        simp [UploadManager.startable, TaskMap.get_set]
  · intro hpend
    simp only [UploadManager.statusOf] at hpend
    cases hg : m.tasks.get taskId with
    | none => simp [hg] at hpend
    | some t =>
      simp only [hg, Option.map_some', Option.some.injEq] at hpend
      have hstart : m.startable taskId = true := by
        simp [UploadManager.startable, hg, hpend]
      refine ⟨?_, ?_, ?_⟩
      · rw [UploadManager.executeTask_statusHistory]
        simp [hstart]
      · rw [UploadManager.executeTask_running]
        simp [hstart]
      · simp only [UploadManager.statusOf]
        rw [UploadManager.executeTask_get]
        simp [hstart, hg]
  · intro t r hget hrun hq
    obtain ⟨f1, f2, f3, _⟩ := UploadManager.onRetry_fold_fields taskId r.onRetryCalls m
    have hhist := UploadManager.onRetry_fold_statusHistory taskId taskId r.onRetryCalls m
    constructor
    · intro v hv
      have := UploadManager.executeTaskResume_end
        (r.onRetryCalls.foldl (fun acc call => acc.onRetry taskId call.1) m) taskId t
        (.resolved v) (by rw [f2]; exact hrun) (by rw [f3]; exact hq) (by rw [f1]; exact hget)
      rw [hhist] at this
      simpa [UploadManager.executeToEnd, hv] using this
    · intro e he
      have := UploadManager.executeTaskResume_end
        (r.onRetryCalls.foldl (fun acc call => acc.onRetry taskId call.1) m) taskId t
        (.rejected e) (by rw [f2]; exact hrun) (by rw [f3]; exact hq) (by rw [f1]; exact hget)
      rw [hhist] at this
      simpa [UploadManager.executeToEnd, he] using this
  · intro t uploads rnd hretry hskip
    refine ⟨stopping_attempt uploads (m.retryOptions.retryCondition ()) m.retryOptions.maxRetries,
      ?_⟩
    intro k hk hprev
    have hrun : ∀ out, ((∃ v, uploads k = .resolved v) ∨
        ∃ e, uploads k = .rejected e ∧ (k = m.retryOptions.maxRetries ∨
          m.retryOptions.retryCondition () e = false ∨ e.wasAborted = true)) →
        uploads k = out → (m.uploadRun t uploads {} rnd).result = out := by
      intro out hend hout
      have := (cancellable_quiet_ends_at uploads 0 m.retryOptions {} rnd (fun _ => rfl)
        (fun _ => rfl) k hk hend k 0 m.retryOptions.maxRetries {} (by omega) (by omega) rfl rfl
        (fun j _ hj => hprev j hj)).1
      rw [hout] at this
      simpa [UploadManager.uploadRun, hretry, hskip, cancellableRetry, retryWithBackoff,
        cancellableOptions, liftOptions] using this
    exact ⟨fun v hv => hrun _ (Or.inl ⟨v, hv⟩) hv,
      fun e he hstop => hrun _ (Or.inr ⟨e, he, hstop⟩) he⟩
  · intro t uploads rnd hno
    rcases hno with h | h <;> simp [UploadManager.uploadRun, h]

/-- Witness for C17: a task of a new manager is announced `PENDING`, `UPLOADING`;
its upload fails once with `UPLOAD_FAILED` and then succeeds, so the awaited
promise resolves; and when the promise rejects with `TIMEOUT` the announced
statuses are `PENDING`, `UPLOADING`, `FAILED`. -/
theorem task_status_sequence_witness :
    ((UploadManager.create 3 10000 true "UPLOAD").addTask "a" "a.jpg" "tree" 0
      false).statusHistory "a" = [.PENDING, .UPLOADING] ∧
    (((UploadManager.create 3 10000 true "UPLOAD").addTask "a" "a.jpg" "tree" 0 false).uploadRun
      { taskId := "a", filePath := "a.jpg", poseId := "tree", status := .UPLOADING,
        progress := 0, priority := 0, skipRetry := false, result := none, error := none,
        wxTask := true, cancelFn := true, seq := 0 }
      (fun n => if n < 1 then .rejected { code := some "UPLOAD_FAILED" }
        else .resolved { score := 80 })
      {} fun _ => 0).result = .resolved { score := 80 } ∧
    (((UploadManager.create 3 10000 true "UPLOAD").addTask "a" "a.jpg" "tree" 0
      false).executeToEnd "a"
        ⟨.rejected { code := some "TIMEOUT" }, [.invoked 0 (.rejected { code := some "TIMEOUT" })],
          {}⟩).statusHistory "a" = [.PENDING, .UPLOADING, .FAILED] :=
  ⟨(((task_status_sequence (UploadManager.create 3 10000 true "UPLOAD") "a").1
      "a.jpg" "tree" 0 false).1).trans (by decide),
   (((task_status_sequence
      ((UploadManager.create 3 10000 true "UPLOAD").addTask "a" "a.jpg" "tree" 0 false)
      "a").2.2.2.1
      { taskId := "a", filePath := "a.jpg", poseId := "tree", status := .UPLOADING,
        progress := 0, priority := 0, skipRetry := false, result := none, error := none,
        wxTask := true, cancelFn := true, seq := 0 }
      (fun n => if n < 1 then .rejected { code := some "UPLOAD_FAILED" }
        else .resolved { score := 80 })
      (fun _ => 0) rfl rfl).2 1 (by decide)
      (fun j hj => ⟨{ code := some "UPLOAD_FAILED" }, by
        have : j = 0 := by omega
        subst this
        exact ⟨rfl, by decide, rfl⟩⟩)).1 { score := 80 } rfl,
   ((((task_status_sequence
      ((UploadManager.create 3 10000 true "UPLOAD").addTask "a" "a.jpg" "tree" 0 false)
      "a").2.2.1
      { taskId := "a", filePath := "a.jpg", poseId := "tree", status := .UPLOADING,
        progress := 0, priority := 0, skipRetry := false, result := none, error := none,
        wxTask := true, cancelFn := true, seq := 0 }
      ⟨.rejected { code := some "TIMEOUT" }, [.invoked 0 (.rejected { code := some "TIMEOUT" })],
        {}⟩
      (by decide) (by decide) (by decide)).2 { code := some "TIMEOUT" } rfl).1).trans
      (by decide)⟩

/-! ### Frame ids -/

section parsing

theorem digitChar_digit (k : Nat) (hk : k < 10) :
    (Nat.digitChar k).isDigit = true ∧ Nat.digitChar k ≠ '_' ∧
      (Nat.digitChar k).toNat - '0'.toNat = k := by
  interval_cases k <;> decide

theorem toDigitsCore_digits (fuel : Nat) : ∀ (n : Nat) (ds : List Char),
    (∀ c ∈ ds, c.isDigit = true ∧ c ≠ '_') →
    ∀ c ∈ Nat.toDigitsCore 10 fuel n ds, c.isDigit = true ∧ c ≠ '_' := by
  induction fuel with
  | zero => intro n ds h c hc; exact h c (by simpa [Nat.toDigitsCore] using hc)
  | succ f ih =>
    intro n ds h c hc
    have hd := digitChar_digit (n % 10) (Nat.mod_lt _ (by decide))
    have hds : ∀ c ∈ Nat.digitChar (n % 10) :: ds, c.isDigit = true ∧ c ≠ '_' := by
      intro c hc
      rcases List.mem_cons.1 hc with h1 | h1
      · rw [h1]; exact ⟨hd.1, hd.2.1⟩
      · exact h c h1
    simp only [Nat.toDigitsCore] at hc
    split at hc
    · exact hds c hc
    · exact ih _ _ hds c hc

theorem toDigitsCore_value (fuel : Nat) : ∀ (n : Nat) (ds : List Char), n < fuel →
    (Nat.toDigitsCore 10 fuel n ds).foldl (fun n c => 10 * n + (c.toNat - '0'.toNat)) 0 =
      ds.foldl (fun n c => 10 * n + (c.toNat - '0'.toNat)) n := by
  induction fuel with
  | zero => intro n ds h; omega
  | succ f ih =>
    intro n ds h
    have hd := (digitChar_digit (n % 10) (Nat.mod_lt _ (by decide))).2.2
    simp only [Nat.toDigitsCore]
    split
    · rename_i h0
      have : n % 10 = n := by omega
      simp only [List.foldl_cons, Nat.mul_zero, Nat.zero_add]
      rw [hd, this]
    · rename_i h0
      rw [ih (n / 10) _ (by omega)]
      simp only [List.foldl_cons, hd]
      congr 1
      omega

/-- The index read back from the id of a frame is the index of the frame. -/
theorem frameIndex_frameId (i : Nat) : frameIndex (frameId i) = i := by
  have hdata : (frameId i).data = 'f' :: 'r' :: 'a' :: 'm' :: 'e' :: '_' :: Nat.toDigits 10 i := by
    simp [frameId, toString, Nat.repr, String.data_append, List.asString]
  have hdig : ∀ c ∈ Nat.toDigits 10 i, c.isDigit = true ∧ c ≠ '_' :=
    toDigitsCore_digits _ _ _ (fun c hc => by simp at hc)
  have h1 : (Nat.toDigits 10 i).takeWhile (fun c => decide (c ≠ '_')) = Nat.toDigits 10 i :=
    List.takeWhile_eq_self_iff.2 (fun c hc => by simpa using (hdig c hc).2)
  have h2 : (Nat.toDigits 10 i).takeWhile Char.isDigit = Nat.toDigits 10 i :=
    List.takeWhile_eq_self_iff.2 (fun c hc => (hdig c hc).1)
  unfold frameIndex parseInt
  rw [hdata]
  simp only [List.dropWhile_cons, show decide ('f' ≠ '_') = true from by decide,
    show decide ('r' ≠ '_') = true from by decide, show decide ('a' ≠ '_') = true from by decide,
    show decide ('m' ≠ '_') = true from by decide, show decide ('e' ≠ '_') = true from by decide,
    show decide ('_' ≠ '_') = false from by decide, if_true, List.drop_succ_cons, List.drop_zero]
  simp only [Bool.false_eq_true, if_false, List.drop_succ_cons, List.drop_zero]
  rw [h1, h2]
  exact toDigitsCore_value _ _ _ (Nat.lt_succ_self i)

theorem frameId_injective : Function.Injective frameId := fun a b h => by
  have := congrArg frameIndex h
  rwa [frameIndex_frameId, frameIndex_frameId] at this

end parsing

/-! ### What the listener of a batch hears -/

namespace UploadManager

section config
variable (m : UploadManager) (id : TaskId)

@[simp] theorem updateTaskStatus_retryStrategy (st : TaskStatus) (u : Updates) :
    (m.updateTaskStatus id st u).retryStrategy = m.retryStrategy := by
  unfold updateTaskStatus; split <;> simp [notifyListeners]

@[simp] theorem storeHandles_retryStrategy (wx cf : Bool) :
    (m.storeHandles id wx cf).retryStrategy = m.retryStrategy := by
  unfold storeHandles; split <;> rfl

@[simp] theorem executeTask_retryStrategy :
    (m._executeTask id).retryStrategy = m.retryStrategy := by
  unfold _executeTask
  split
  · rfl
  · split <;> simp

@[simp] theorem processQueueLoop_retryStrategy (q : List TaskId) :
    ∀ m : UploadManager, (processQueueLoop q m).retryStrategy = m.retryStrategy := by
  induction q with
  | nil => intro m; rfl
  | cons hd tl ih =>
    intro m
    simp only [processQueueLoop]
    split
    · rw [ih]; simp
    · rfl

@[simp] theorem processQueueLoop_enableRetry (q : List TaskId) :
    ∀ m : UploadManager, (processQueueLoop q m).enableRetry = m.enableRetry := by
  induction q with
  | nil => intro m; rfl
  | cons hd tl ih =>
    intro m
    simp only [processQueueLoop]
    split
    · rw [ih]; simp
    · rfl

@[simp] theorem onRetry_enableRetry (n : Nat) : (m.onRetry id n).enableRetry = m.enableRetry := by
  unfold onRetry; split <;> rfl

@[simp] theorem onRetry_retryStrategy (n : Nat) :
    (m.onRetry id n).retryStrategy = m.retryStrategy := by
  unfold onRetry; split <;> rfl

@[simp] theorem onRetry_maxConcurrent (n : Nat) :
    (m.onRetry id n).maxConcurrent = m.maxConcurrent := by
  unfold onRetry; split <;> rfl

@[simp] theorem onRetry_activeCount (n : Nat) :
    (m.onRetry id n).activeCount = m.activeCount := by
  unfold onRetry; split <;> rfl

theorem executeTaskResume_config (outcome : Settled UploadOutcome) :
    (m._executeTaskResume id outcome).enableRetry = m.enableRetry ∧
    (m._executeTaskResume id outcome).retryStrategy = m.retryStrategy ∧
    (m._executeTaskResume id outcome).maxConcurrent = m.maxConcurrent := by
  unfold _executeTaskResume
  split
  · cases outcome <;> simp [_scheduleCleanup, _processQueue, processQueueLoop_maxConcurrent]
  · exact ⟨rfl, rfl, rfl⟩

theorem addTask_config (filePath poseId : String) (priority : Int) (skipRetry : Bool) :
    (m.addTask id filePath poseId priority skipRetry).enableRetry = m.enableRetry ∧
    (m.addTask id filePath poseId priority skipRetry).retryStrategy = m.retryStrategy ∧
    (m.addTask id filePath poseId priority skipRetry).maxConcurrent = m.maxConcurrent := by
  unfold addTask
  simp only []
  split <;> simp [notifyListeners]

theorem onRetry_fold_config (l : List (Nat × AttemptError × ℚ)) :
    ∀ m : UploadManager,
      (l.foldl (fun acc call => acc.onRetry id call.1) m).enableRetry = m.enableRetry ∧
      (l.foldl (fun acc call => acc.onRetry id call.1) m).retryStrategy = m.retryStrategy ∧
      (l.foldl (fun acc call => acc.onRetry id call.1) m).maxConcurrent = m.maxConcurrent ∧
      (l.foldl (fun acc call => acc.onRetry id call.1) m).activeCount = m.activeCount := by
  induction l with
  | nil => intro m; exact ⟨rfl, rfl, rfl, rfl⟩
  | cons hd tl ih =>
    intro m
    rw [List.foldl_cons]
    obtain ⟨h1, h2, h3, h4⟩ := ih (m.onRetry id hd.1)
    exact ⟨by rw [h1]; simp, by rw [h2]; simp, by rw [h3]; simp, by rw [h4]; simp⟩

end config

section heard
variable (m : UploadManager) (id : TaskId)

theorem notifyListeners_heardBy (n : Notification) :
    heardBy (m.notifyListeners n) = batchListener (heardBy m) n := by
  simp [heardBy, notifyListeners, List.foldl_append]

theorem updateTaskStatus_heardBy (st : TaskStatus) (u : Updates) :
    heardBy (m.updateTaskStatus id st u) =
      match m.tasks.get id with
      | none => heardBy m
      | some t => batchListener (heardBy m)
          { taskId := id, taskInfo := some (u.assign { t with status := st }),
            eventType := "updated", oldStatus := some t.status } := by
  unfold updateTaskStatus
  cases h : m.tasks.get id with
  | none => rfl
  | some t =>
    simp only [notifyListeners_heardBy]
    rfl

theorem updateTaskStatus_uploading_heardBy (u : Updates) :
    heardBy (m.updateTaskStatus id .UPLOADING u) = heardBy m := by
  rw [updateTaskStatus_heardBy]
  cases h : m.tasks.get id with
  | none => rfl
  | some t => simp [batchListener, Updates.assign]

theorem executeTask_heardBy : heardBy (m._executeTask id) = heardBy m := by
  cases h : m.tasks.get id with
  | none => simp [_executeTask, h, heardBy]
  | some t =>
    by_cases hc : t.status = .CANCELLED
    · simp [_executeTask, h, hc, heardBy]
    · have h1 : heardBy (_executeTask m id) =
          heardBy (updateTaskStatus { m with activeCount := m.activeCount + 1 } id .UPLOADING
            {}) := by
        simp [_executeTask, h, hc, heardBy]
      rw [h1, updateTaskStatus_uploading_heardBy]
      rfl

theorem processQueueLoop_heardBy (q : List TaskId) :
    ∀ m : UploadManager, heardBy (processQueueLoop q m) = heardBy m := by
  induction q with
  | nil => intro m; rfl
  | cons hd tl ih =>
    intro m
    simp only [processQueueLoop]
    split
    · rw [ih, executeTask_heardBy]
      rfl
    · rfl

theorem onRetry_heardBy (n : Nat) : heardBy (m.onRetry id n) = heardBy m := by
  unfold onRetry
  split
  · rw [notifyListeners_heardBy]
    cases h : m.tasks.get id <;> simp [batchListener, h]
  · rfl

theorem onRetry_fold_heardBy (l : List (Nat × AttemptError × ℚ)) :
    ∀ m : UploadManager,
      heardBy (l.foldl (fun acc call => acc.onRetry id call.1) m) = heardBy m := by
  induction l with
  | nil => intro m; rfl
  | cons hd tl ih => intro m; rw [List.foldl_cons, ih, onRetry_heardBy]

theorem addTask_heardBy (filePath poseId : String) (priority : Int) (skipRetry : Bool) :
    heardBy (m.addTask id filePath poseId priority skipRetry) = heardBy m := by
  unfold addTask
  simp only []
  split
  · simp [heardBy, notifyListeners, List.foldl_append, batchListener]
  · rw [executeTask_heardBy, notifyListeners_heardBy]
    simp [batchListener, heardBy]

/-- What the listener of a batch hears when a running upload ends. -/
theorem executeTaskResume_heardBy (t : UploadTaskInfo) (outcome : Settled UploadOutcome)
    (hrun : id ∈ m.running) (hget : m.tasks.get id = some t) :
    heardBy (m._executeTaskResume id outcome) =
      match outcome with
      | .resolved v =>
        { heardBy m with
          completed := (heardBy m).completed + 1
          results := (heardBy m).results ++
            [{ index := frameIndex id, result := some v, framePath := t.filePath }] }
      | .rejected e =>
        { heardBy m with
          completed := (heardBy m).completed + 1
          errors := (heardBy m).errors ++
            [{ index := frameIndex id, error := some e, framePath := t.filePath }] } := by
  have key : ∀ (m1 : UploadManager) s,
      heardBy { _scheduleCleanup (_processQueue { m1 with activeCount :=
        m1.activeCount - 1 }) id with settled := s } = heardBy m1 := by
    intro m1 s
    have : heardBy { _scheduleCleanup (_processQueue { m1 with activeCount :=
        m1.activeCount - 1 }) id with settled := s } =
        heardBy (processQueueLoop m1.queue { m1 with activeCount := m1.activeCount - 1 }) := rfl
    rw [this, processQueueLoop_heardBy]
    rfl
  cases outcome with
  | resolved v =>
    simp only [_executeTaskResume, hrun, if_true]
    rw [key, updateTaskStatus_heardBy]
    simp [hget, batchListener, Updates.assign, heardBy]
  | rejected e =>
    simp only [_executeTaskResume, hrun, if_true]
    rw [key, updateTaskStatus_heardBy]
    simp [hget, batchListener, Updates.assign, heardBy]

end heard

end UploadManager

/-! ### Counting the running uploads -/

namespace UploadManager

section paths
variable (m : UploadManager) (id x : TaskId)

theorem updateTaskStatus_path (st : TaskStatus) (u : Updates) :
    ((m.updateTaskStatus id st u).tasks.get x).map (fun t => t.filePath) =
      (m.tasks.get x).map fun t => t.filePath := by
  rw [updateTaskStatus_get]
  split
  · rename_i h
    subst h
    cases m.tasks.get id <;> simp [Updates.assign]
  · rfl

theorem executeTask_path :
    ((m._executeTask id).tasks.get x).map (fun t => t.filePath) =
      (m.tasks.get x).map fun t => t.filePath := by
  rw [executeTask_get]
  split
  · rename_i h
    rw [← h.2]
    cases m.tasks.get id <;> simp
  · rfl

theorem processQueueLoop_path (q : List TaskId) : ∀ m : UploadManager,
    ((processQueueLoop q m).tasks.get x).map (fun t => t.filePath) =
      (m.tasks.get x).map fun t => t.filePath := by
  induction q with
  | nil => intro m; rfl
  | cons hd tl ih =>
    intro m
    simp only [processQueueLoop]
    split
    · rw [ih, executeTask_path]
    · rfl

theorem executeTaskResume_path (outcome : Settled UploadOutcome) :
    ((m._executeTaskResume id outcome).tasks.get x).map (fun t => t.filePath) =
      (m.tasks.get x).map fun t => t.filePath := by
  unfold _executeTaskResume
  split
  · have key : ∀ (m1 : UploadManager) s,
        ({ _scheduleCleanup (_processQueue { m1 with activeCount :=
          m1.activeCount - 1 }) id with settled := s }.tasks.get x).map
          (fun t : UploadTaskInfo => t.filePath) =
        (m1.tasks.get x).map fun t => t.filePath := by
      intro m1 s
      exact processQueueLoop_path x m1.queue { m1 with activeCount := m1.activeCount - 1 }
    cases outcome with
    | resolved v => simp only []; rw [key, updateTaskStatus_path]
    | rejected e => simp only []; rw [key, updateTaskStatus_path]
  · rfl

end paths

/-- On a manager with no id submitted twice, whose `activeCount` is the number
of running uploads, `_processQueue` moves tasks from the head of the queue to
the running uploads until the limit is reached or the queue is empty. -/
theorem Consistent.processQueueLoop_balanced {used : List TaskId} (q : List TaskId) :
    ∀ m : UploadManager, m.queue = q → Consistent m used →
      m.activeCount = m.running.length →
      Balanced (processQueueLoop q m) ∧
      ((processQueueLoop q m).running ++ (processQueueLoop q m).queue).Perm (m.running ++ q) := by
  induction q with
  | nil =>
    intro m hq _ hact
    exact ⟨⟨hact, fun hne => absurd hq hne⟩, by simp [processQueueLoop, hq]⟩
  | cons hd tl ih =>
    intro m hq h hact
    simp only [processQueueLoop]
    split
    · rename_i hcap
      have hstart := h.startable_head hq
      have h1 := h.start_head hq
      have hact1 : (_executeTask { m with queue := tl } hd).activeCount =
          ((_executeTask { m with queue := tl } hd).running.length : Int) := by
        rw [executeTask_activeCount, executeTask_running, hstart]
        simp [hact]
      obtain ⟨hb, hp⟩ := ih _ (by simp) h1 hact1
      refine ⟨hb, hp.trans ?_⟩
      rw [executeTask_running, hstart]
      simp
    · rename_i hcap
      refine ⟨⟨hact, fun _ => by linarith⟩, by rw [hq]⟩

/-- The end of a running upload on a manager in order: the counting holds
again, the task has left the running uploads, and its promise is the one that
settles. -/
theorem Consistent.executeTaskResume_balanced {m : UploadManager} {used : List TaskId}
    (h : Consistent m used) (hb : Balanced m) (id : TaskId) (outcome : Settled UploadOutcome)
    (hrun : id ∈ m.running) :
    Balanced (m._executeTaskResume id outcome) ∧
    ((m._executeTaskResume id outcome).running ++ (m._executeTaskResume id outcome).queue).Perm
      (m.running.erase id ++ m.queue) ∧
    (m._executeTaskResume id outcome).settled.map Prod.fst = m.settled.map Prod.fst ++ [id] := by
  have hxq : id ∉ m.queue := fun hq => (h.queue_waiting id hq).1 hrun
  have h0 : Consistent { m with running := m.running.erase id } used :=
    h.frame (fun _ hid => hid) (List.Sublist.refl _)
      (fun id hid => Or.inl (List.mem_of_mem_erase hid)) (fun id hid => Or.inl hid)
      (fun _ _ => rfl) h.seq_lt
  have hlen : ((m.running.erase id).length : Int) = m.running.length - 1 := by
    rw [List.length_erase_of_mem hrun]
    have : 0 < m.running.length := List.length_pos_of_mem hrun
    omega
  have key : ∀ m1 : UploadManager, Consistent m1 used → m1.queue = m.queue →
      m1.running = m.running.erase id → m1.activeCount = m.activeCount →
      m1.settled = m.settled → ∀ s,
      Balanced { _scheduleCleanup (_processQueue { m1 with activeCount :=
        m1.activeCount - 1 }) id with
        settled := (_scheduleCleanup (_processQueue { m1 with activeCount :=
          m1.activeCount - 1 }) id).settled ++ [(id, s)] } ∧
      ((_processQueue { m1 with activeCount := m1.activeCount - 1 }).running ++
        (_processQueue { m1 with activeCount := m1.activeCount - 1 }).queue).Perm
        (m.running.erase id ++ m.queue) ∧
      ((_scheduleCleanup (_processQueue { m1 with activeCount :=
          m1.activeCount - 1 }) id).settled ++ [(id, s)]).map Prod.fst =
        m.settled.map Prod.fst ++ [id] := by
    intro m1 h1 hq1 hr1 ha1 hs1 s
    have h2 : Consistent { m1 with activeCount := m1.activeCount - 1 } used :=
      h1.congr rfl rfl rfl rfl rfl
    obtain ⟨b1, p1⟩ := Consistent.processQueueLoop_balanced m1.queue
      { m1 with activeCount := m1.activeCount - 1 } rfl h2 (by
        show m1.activeCount - 1 = (m1.running.length : Int)
        rw [ha1, hr1, hlen, hb.active_running])
    have hset := Consistent.processQueueLoop_settled m1.queue
      { m1 with activeCount := m1.activeCount - 1 } rfl h2
    refine ⟨⟨b1.active_running, b1.queue_full⟩, ?_, ?_⟩
    · have e : ({ m1 with activeCount := m1.activeCount - 1 } : UploadManager).running ++
          m1.queue = m.running.erase id ++ m.queue := by
        show m1.running ++ m1.queue = _
        rw [hr1, hq1]
      rw [← e]
      exact p1
    · show ((processQueueLoop m1.queue { m1 with activeCount := m1.activeCount - 1 }).settled ++
        [(id, s)]).map Prod.fst = _
      rw [hset]
      simp [hs1]
  unfold _executeTaskResume
  rw [if_pos hrun]
  cases outcome with
  | resolved v =>
    exact key _ (h0.keeps_updateTaskStatus id _ _ hxq) (by simp) (by simp) (by simp) (by simp) _
  | rejected e =>
    exact key _ (h0.keeps_updateTaskStatus id _ _ hxq) (by simp) (by simp) (by simp) (by simp) _

end UploadManager

namespace UploadManager

theorem addTask_settled (m : UploadManager) (id : TaskId) (filePath poseId : String)
    (priority : Int) (skipRetry : Bool) :
    (m.addTask id filePath poseId priority skipRetry).settled = m.settled := by
  unfold addTask
  simp only []
  split
  · rfl
  · rw [executeTask_settled]
    simp [startable, notifyListeners, TaskMap.get_set]

theorem addTask_path (m : UploadManager) (id x : TaskId) (filePath poseId : String)
    (priority : Int) (skipRetry : Bool) :
    ((m.addTask id filePath poseId priority skipRetry).tasks.get x).map (fun t => t.filePath) =
      if id = x then some filePath else (m.tasks.get x).map fun t => t.filePath := by
  unfold addTask
  simp only []
  split
  · by_cases h : id = x <;> simp [notifyListeners, TaskMap.get_set, h]
  · rw [executeTask_path]
    by_cases h : id = x <;> simp [notifyListeners, TaskMap.get_set, h]

/-- Submitting a new id on a manager in order: the counting holds again and
the task is running or waiting. -/
theorem Balanced.after_addTask {m : UploadManager}
    (hb : Balanced m) (x : TaskId) (filePath poseId : String)
    (priority : Int) (skipRetry : Bool) :
    Balanced (m.addTask x filePath poseId priority skipRetry) ∧
    ((m.addTask x filePath poseId priority skipRetry).running ++
      (m.addTask x filePath poseId priority skipRetry).queue).Perm
      (m.running ++ m.queue ++ [x]) := by
  unfold addTask
  simp only []
  split
  · rename_i hcap
    refine ⟨⟨hb.active_running, fun _ => hcap⟩, ?_⟩
    show (m.running ++ sortQueue _ (m.queue ++ [x])).Perm _
    unfold sortQueue
    rw [List.append_assoc]
    exact (List.perm_insertionSort _ _).append_left _
  · rename_i hcap
    have hcap' : m.activeCount < m.maxConcurrent := by
      simp only [notifyListeners, ge_iff_le, not_le] at hcap
      exact hcap
    have hq : m.queue = [] := by
      by_contra hne
      have := hb.queue_full hne
      linarith
    have hstart : (notifyListeners
        { m with
          tasks := m.tasks.set x
            { taskId := x, filePath := filePath, poseId := poseId, status := .PENDING,
              progress := 0, priority := priority, skipRetry := skipRetry, result := none,
              error := none, wxTask := false, cancelFn := false, seq := m.submitted },
          submitted := m.submitted + 1 }
        { taskId := x,
          taskInfo := some
            { taskId := x, filePath := filePath, poseId := poseId, status := .PENDING,
              progress := 0, priority := priority, skipRetry := skipRetry, result := none,
              error := none, wxTask := false, cancelFn := false, seq := m.submitted },
          eventType := "added" }).startable x = true := by
      simp [startable, notifyListeners, TaskMap.get_set]
    refine ⟨⟨?_, ?_⟩, ?_⟩
    · rw [executeTask_activeCount, executeTask_running, hstart]
      simp [notifyListeners, hb.active_running]
    · intro hne
      rw [executeTask_queue] at hne
      exact absurd hq hne
    · rw [executeTask_running, executeTask_queue, hstart]
      simp [notifyListeners, hq]

theorem Consistent.keeps_onRetry_fold {used : List TaskId} (x : TaskId)
    (l : List (Nat × AttemptError × ℚ)) : ∀ m : UploadManager, Consistent m used →
    Consistent (l.foldl (fun acc call => acc.onRetry x call.1) m) used := by
  induction l with
  | nil => intro m h; exact h
  | cons hd tl ih => intro m h; exact ih _ (h.keeps_onRetry x hd.1)

/-- The awaited promise depends on the configuration and on `skipRetry` only. -/
theorem uploadRun_congr (m m' : UploadManager) (t t' : UploadTaskInfo)
    (uploads : Nat → Settled UploadOutcome) (sched : CancelSchedule) (rnd : Nat → ℚ)
    (h1 : m.enableRetry = m'.enableRetry) (h2 : m.retryStrategy = m'.retryStrategy)
    (h3 : t.skipRetry = t'.skipRetry) :
    m.uploadRun t uploads sched rnd = m'.uploadRun t' uploads sched rnd := by
  simp [uploadRun, retryOptions, h1, h2, h3]

end UploadManager

/-! ### The dedicated manager of a batch -/

section batchsteps
variable {framePaths : List String} {poseId : String} {options : BatchOptions}
  {uploads : Nat → Nat → Settled UploadOutcome} {rnd : Nat → Nat → ℚ}

theorem BatchState.create :
    BatchState framePaths poseId options uploads rnd 0 []
      (UploadManager.create options.concurrency 10000 options.enableRetry "UPLOAD") where
  consistent := UploadManager.Consistent.keeps_create _ _ _ _
  balanced := ⟨rfl, fun h => absurd rfl h⟩
  limit := rfl
  retries := rfl
  strategy := rfl
  accounted := by simp [UploadManager.create]
  heard := rfl
  settled := rfl
  present := fun i hi => absurd hi (Nat.not_lt_zero i)

/-- One more frame handed to `addTask`. -/
theorem BatchState.submit {j : Nat} {done : List Nat} {m : UploadManager}
    (h : BatchState framePaths poseId options uploads rnd j done m) (framePath : String)
    (hpath : framePaths.getD j "" = framePath) (priority : Int) (skipRetry : Bool) :
    BatchState framePaths poseId options uploads rnd (j + 1) done
      (m.addTask (frameId j) framePath poseId priority skipRetry) := by
  have hfresh : frameId j ∉ (List.range j).map frameId := by
    intro hmem
    obtain ⟨i, hi, heq⟩ := List.mem_map.1 hmem
    have := frameId_injective heq
    rw [List.mem_range] at hi
    omega
  obtain ⟨c1, c2, c3⟩ := UploadManager.addTask_config m (frameId j) framePath poseId priority
    skipRetry
  obtain ⟨b1, b2⟩ := h.balanced.after_addTask (frameId j) framePath poseId priority skipRetry
  refine ⟨?_, b1, by rw [c3, h.limit], by rw [c1, h.retries], by rw [c2, h.strategy], ?_, ?_, ?_,
    ?_⟩
  · have := h.consistent.keeps_addTask (frameId j) framePath poseId priority skipRetry hfresh
    refine this.frame ?_ (List.Sublist.refl _) (fun id hid => Or.inl hid)
      (fun id hid => Or.inl hid) (fun _ _ => rfl) this.seq_lt
    intro id hid
    rw [List.range_succ, List.map_append, List.mem_append]
    rcases List.mem_cons.1 hid with h1 | h1
    · exact Or.inr (by simp [h1])
    · exact Or.inl h1
  · rw [List.range_succ, List.map_append, List.map_singleton, List.append_assoc]
    have := h.accounted
    rw [List.append_assoc] at this
    exact ((b2.append_left (done.map frameId)).trans (by
      rw [← List.append_assoc, ← List.append_assoc, List.append_assoc (done.map frameId)]
      exact this.append_right [frameId j]))
  · rw [UploadManager.addTask_heardBy, h.heard]
  · rw [UploadManager.addTask_settled, h.settled]
  · intro i hi
    rw [UploadManager.addTask_path]
    by_cases hij : i = j
    · subst hij
      rw [if_pos rfl, hpath]
    · have : ¬ frameId j = frameId i := fun heq => hij (frameId_injective heq).symm
      simp only [this, if_false]
      exact h.present i (by omega)

end batchsteps

theorem UploadManager.Balanced.transfer {m m' : UploadManager} (hb : m.Balanced)
    (ha : m'.activeCount = m.activeCount) (hr : m'.running = m.running)
    (hq : m'.queue = m.queue) (hm : m'.maxConcurrent = m.maxConcurrent) : m'.Balanced :=
  ⟨by rw [ha, hr]; exact hb.active_running, fun hne => by
    rw [hm, ha]; exact hb.queue_full (by rw [← hq]; exact hne)⟩

section batchsteps
variable {framePaths : List String} {poseId : String} {options : BatchOptions}
  {uploads : Nat → Nat → Settled UploadOutcome} {rnd : Nat → Nat → ℚ}

/-- The upload of a running frame ends. -/
theorem BatchState.settle {n : Nat} {done : List Nat} {m : UploadManager}
    (h : BatchState framePaths poseId options uploads rnd n done m) (taskId : TaskId)
    (hrun : taskId ∈ m.running) :
    frameIndex taskId < n ∧ taskId = frameId (frameIndex taskId) ∧
    (m.uploadRun (frameTask framePaths poseId options (frameIndex taskId))
      (uploads (frameIndex taskId)) {} (rnd (frameIndex taskId))).result =
      frameOutcome framePaths poseId options uploads rnd (frameIndex taskId) ∧
    BatchState framePaths poseId options uploads rnd n (done ++ [frameIndex taskId])
      (m.executeToEnd taskId
        (m.uploadRun (frameTask framePaths poseId options (frameIndex taskId))
          (uploads (frameIndex taskId)) {} (rnd (frameIndex taskId)))) := by
  obtain ⟨i, hi, hid⟩ : ∃ i, i < n ∧ frameId i = taskId := by
    have hmem : taskId ∈ done.map frameId ++ m.running ++ m.queue :=
      List.mem_append_left _ (List.mem_append_right _ hrun)
    obtain ⟨i, hi, heq⟩ := List.mem_map.1 (h.accounted.mem_iff.1 hmem)
    exact ⟨i, List.mem_range.1 hi, heq⟩
  have hidx : frameIndex taskId = i := by rw [← hid, frameIndex_frameId]
  rw [hidx]
  have hres : (m.uploadRun (frameTask framePaths poseId options i) (uploads i) {}
      (rnd i)).result = frameOutcome framePaths poseId options uploads rnd i := by
    unfold frameOutcome
    rw [UploadManager.uploadRun_congr m
      (UploadManager.create options.concurrency 10000 options.enableRetry "UPLOAD") _ _ _ _ _
      h.retries h.strategy rfl]
  refine ⟨hi, hid.symm, hres, ?_⟩
  generalize m.uploadRun (frameTask framePaths poseId options i) (uploads i) {} (rnd i) = r
    at hres ⊢
  obtain ⟨f1, f2, f3, f4⟩ := UploadManager.onRetry_fold_fields taskId r.onRetryCalls m
  obtain ⟨g1, g2, g3, g4⟩ := UploadManager.onRetry_fold_config taskId r.onRetryCalls m
  have hheard := UploadManager.onRetry_fold_heardBy taskId r.onRetryCalls m
  have hcons := UploadManager.Consistent.keeps_onRetry_fold taskId r.onRetryCalls m h.consistent
  have hbal : (r.onRetryCalls.foldl (fun acc call => acc.onRetry taskId call.1) m).Balanced :=
    h.balanced.transfer g4 f2 f3 g3
  have hrun' : taskId ∈ (r.onRetryCalls.foldl (fun acc call => acc.onRetry taskId call.1)
      m).running := by rw [f2]; exact hrun
  obtain ⟨t, hget, hpath⟩ : ∃ t, m.tasks.get taskId = some t ∧
      t.filePath = framePaths.getD i "" := by
    have := h.present i hi
    rw [hid] at this
    cases hg : m.tasks.get taskId with
    | none => simp [hg] at this
    | some t => exact ⟨t, rfl, by simpa [hg] using this⟩
  obtain ⟨e1, e2, e3⟩ := UploadManager.executeTaskResume_config
    (r.onRetryCalls.foldl (fun acc call => acc.onRetry taskId call.1) m) taskId r.result
  obtain ⟨b1, b2, b3⟩ := hcons.executeTaskResume_balanced hbal taskId r.result hrun'
  unfold UploadManager.executeToEnd
  refine ⟨hcons.keeps_executeTaskResume taskId r.result, b1, by rw [e3, g3, h.limit],
    by rw [e1, g1, h.retries], by rw [e2, g2, h.strategy], ?_, ?_, ?_, ?_⟩
  · rw [f2, f3] at b2
    rw [List.map_append, List.map_singleton, hid, List.append_assoc, List.append_assoc]
    have h1 : (taskId :: (m.running.erase taskId ++ m.queue)).Perm (m.running ++ m.queue) := by
      rw [← List.cons_append]
      exact (List.perm_cons_erase hrun).symm.append_right _
    have h2 := h.accounted
    rw [List.append_assoc] at h2
    refine List.Perm.trans ?_ h2
    refine List.Perm.append_left _ ?_
    exact ((b2.cons taskId)).trans h1
  · rw [UploadManager.executeTaskResume_heardBy _ _ t r.result hrun' (by rw [f1]; exact hget),
      hheard, h.heard, hres, hpath, hidx]
    cases hout : frameOutcome framePaths poseId options uploads rnd i with
    | resolved v =>
      simp [List.filterMap_append, resultOfFrame, errorOfFrame, hout]
    | rejected e =>
      simp [List.filterMap_append, resultOfFrame, errorOfFrame, hout]
  · rw [b3, f4, h.settled, List.map_append, List.map_singleton, hid]
  · intro j hj
    rw [UploadManager.executeTaskResume_path, f1]
    exact h.present j hj

end batchsteps

section batchphases
variable {framePaths : List String} {poseId : String} {options : BatchOptions}
  {uploads : Nat → Nat → Settled UploadOutcome} {rnd : Nat → Nat → ℚ}

/-- After the `map` over the frames every frame has been handed to `addTask`. -/
theorem submitFrames_state (total : Nat) (rest : List String) :
    ∀ (j : Nat) (done : List Nat) (m : UploadManager),
      BatchState framePaths poseId options uploads rnd j done m → framePaths.drop j = rest →
      BatchState framePaths poseId options uploads rnd (j + rest.length) done
        (submitFrames poseId options total j rest m) := by
  induction rest with
  | nil => intro j done m h _; exact h
  | cons framePath rest ih =>
    intro j done m h hdrop
    have hpath : framePaths.getD j "" = framePath := by
      rw [List.getD_eq_getElem?_getD, ← List.head?_drop, hdrop]
      rfl
    have hrest : framePaths.drop (j + 1) = rest := by
      rw [← List.tail_drop, hdrop]
      rfl
    have := ih (j + 1) done _ (h.submit framePath hpath ((total : Int) - j)
      (!options.enableRetry)) hrest
    rw [List.length_cons, show j + (rest.length + 1) = j + 1 + rest.length from by omega]
    exact this

theorem BatchState.pending {n : Nat} {done : List Nat} {m : UploadManager}
    (h : BatchState framePaths poseId options uploads rnd n done m) :
    done.length + m.running.length + m.queue.length = n := by
  have := h.accounted.length_eq
  simp only [List.length_append, List.length_map, List.length_range] at this
  exact this

/-- The wait for the uploads: every upload that was running or waiting ends,
unless a rejection is rethrown first. -/
theorem awaitUploads_state (pick : Nat → Nat) (n : Nat) (fuel : Nat) :
    ∀ (k : Nat) (m : UploadManager) (done : List Nat),
      BatchState framePaths poseId options uploads rnd n done m →
      n ≤ fuel + done.length →
      (options.skipFailedFrames = false →
        ∀ i ∈ done, ∃ v, frameOutcome framePaths poseId options uploads rnd i = .resolved v) →
      ∃ done', BatchState framePaths poseId options uploads rnd n done'
          (awaitUploads framePaths poseId options uploads rnd pick fuel k m).1 ∧
        ((awaitUploads framePaths poseId options uploads rnd pick fuel k m).2 = none →
          (awaitUploads framePaths poseId options uploads rnd pick fuel k m).1.running = [] ∧
          (options.skipFailedFrames = false → ∀ i ∈ done',
            ∃ v, frameOutcome framePaths poseId options uploads rnd i = .resolved v)) ∧
        (∀ e, (awaitUploads framePaths poseId options uploads rnd pick fuel k m).2 = some e →
          options.skipFailedFrames = false ∧
          ∃ pre i, done' = pre ++ [i] ∧
            frameOutcome framePaths poseId options uploads rnd i = .rejected e ∧
            ∀ j ∈ pre, ∃ v, frameOutcome framePaths poseId options uploads rnd j =
              .resolved v) := by
  induction fuel with
  | zero =>
    intro k m done h hfuel hstrict
    refine ⟨done, h, fun _ => ⟨?_, hstrict⟩, fun e he => by simp [awaitUploads] at he⟩
    have := h.pending
    have hlen : m.running.length = 0 := by omega
    simpa [awaitUploads] using List.length_eq_zero.1 hlen
  | succ fuel ih =>
    intro k m done h hfuel hstrict
    cases hrun : m.running with
    | nil =>
      refine ⟨done, by simpa [awaitUploads, hrun] using h, fun _ => ⟨by simp [awaitUploads, hrun],
        hstrict⟩, fun e he => by simp [awaitUploads, hrun] at he⟩
    | cons first rest =>
      have hmem : (first :: rest).getD (pick k % (rest.length + 1)) first ∈ m.running := by
        rw [hrun, List.getD_eq_getElem _ _ (by
          show pick k % (rest.length + 1) < (first :: rest).length
          exact Nat.mod_lt _ (Nat.succ_pos _))]
        exact List.getElem_mem _
      obtain ⟨hi, hid, hres, hstate⟩ := h.settle _ hmem
      simp only [awaitUploads, hrun]
      generalize (first :: rest).getD (pick k % (rest.length + 1)) first = taskId at *
      generalize frameIndex taskId = i at *
      generalize m.uploadRun (frameTask framePaths poseId options i) (uploads i) {} (rnd i) = r
        at *
      cases hout : r.result with
      | resolved v =>
        simp only []
        exact ih (k + 1) _ (done ++ [i]) hstate (by simp; omega) (fun hs j hj => by
          rcases List.mem_append.1 hj with h1 | h1
          · exact hstrict hs j h1
          · rw [List.mem_singleton.1 h1]
            exact ⟨v, by rw [← hres, hout]⟩)
      | rejected e =>
        simp only []
        by_cases hskip : options.skipFailedFrames = true
        · rw [if_pos hskip]
          exact ih (k + 1) _ (done ++ [i]) hstate (by simp; omega) (fun hs => by
            rw [hskip] at hs; cases hs)
        · rw [if_neg hskip]
          have hskip' : options.skipFailedFrames = false := by simpa using hskip
          refine ⟨done ++ [i], hstate, ⟨fun hne => ?_, fun e' he' => ?_⟩⟩
          · simp at hne
          · have he : e = e' := by simpa using he'
            subst he
            exact ⟨hskip', done, i, rfl, by rw [← hres, hout], hstrict hskip'⟩

end batchphases

/-! ### The result of a batch -/

/-- Sorting by index a rearrangement of a list whose indices increase gives
that list back. -/
theorem sortByIndex_eq_of_perm {rs sorted : List FrameResult} (hp : rs.Perm sorted)
    (hs : sorted.Pairwise fun a b => a.index < b.index) : sortByIndex rs = sorted := by
  haveI : IsAntisymm FrameResult (fun a b => a.index < b.index) :=
    ⟨fun a b h1 h2 => absurd h1 (by omega)⟩
  haveI : IsTotal FrameResult (fun a b => a.index ≤ b.index) :=
    ⟨fun a b => Nat.le_total a.index b.index⟩
  haveI : IsTrans FrameResult (fun a b => a.index ≤ b.index) :=
    ⟨fun a b c h1 h2 => Nat.le_trans h1 h2⟩
  have hperm : (sortByIndex rs).Perm sorted := (List.perm_insertionSort _ _).trans hp
  have hle : (sortByIndex rs).Pairwise fun a b => a.index ≤ b.index :=
    List.sorted_insertionSort _ rs
  have hne : (sortByIndex rs).Pairwise fun a b => a.index ≠ b.index := by
    have h1 : (sorted.map fun a => a.index).Nodup := by
      rw [List.Nodup, List.pairwise_map]
      exact hs.imp (fun h => by omega)
    have h2 : ((sortByIndex rs).map fun a => a.index).Nodup :=
      (hperm.map _).nodup_iff.2 h1
    rw [List.Nodup, List.pairwise_map] at h2
    exact h2
  have hlt : (sortByIndex rs).Pairwise fun a b => a.index < b.index :=
    (hle.and hne).imp (fun h => by omega)
  exact List.eq_of_perm_of_sorted hperm hlt hs

section batchend
variable (framePaths : List String) (poseId : String) (options : BatchOptions)
  (uploads : Nat → Nat → Settled UploadOutcome) (rnd : Nat → Nat → ℚ)

theorem resultOfFrame_index (i : Nat) (r : FrameResult)
    (h : r ∈ resultOfFrame framePaths poseId options uploads rnd i) :
    r.index = i ∧ r.result.isSome = true := by
  unfold resultOfFrame at h
  split at h
  · simp only [Option.mem_def, Option.some.injEq] at h
    rw [← h]
    exact ⟨rfl, rfl⟩
  · cases h

/-- The results of the frames that completed, by ascending index. -/
theorem results_by_index (n : Nat) :
    ((List.range n).filterMap (resultOfFrame framePaths poseId options uploads rnd)).Pairwise
      fun a b => a.index < b.index := by
  refine List.Pairwise.filterMap _ ?_ (List.pairwise_lt_range n)
  intro a a' haa b hb b' hb'
  rw [(resultOfFrame_index framePaths poseId options uploads rnd a b hb).1,
    (resultOfFrame_index framePaths poseId options uploads rnd a' b' hb').1]
  exact haa

theorem results_all_some (l : List Nat) :
    (l.filterMap (resultOfFrame framePaths poseId options uploads rnd)).filter
      (fun r => r.result.isSome) =
    l.filterMap (resultOfFrame framePaths poseId options uploads rnd) := by
  refine List.filter_eq_self.2 (fun r hr => ?_)
  obtain ⟨i, _, hi⟩ := List.mem_filterMap.1 hr
  exact (resultOfFrame_index framePaths poseId options uploads rnd i r hi).2

/-- The state of the dedicated manager when the wait of a batch is over. -/
theorem batch_after_wait (pick : Nat → Nat) :
    ∃ done, BatchState framePaths poseId options uploads rnd framePaths.length done
        (awaitUploads framePaths poseId options uploads rnd pick framePaths.length 0
          (submitFrames poseId options framePaths.length 0 framePaths
            (UploadManager.create options.concurrency 10000 options.enableRetry "UPLOAD"))).1 ∧
      ((awaitUploads framePaths poseId options uploads rnd pick framePaths.length 0
          (submitFrames poseId options framePaths.length 0 framePaths
            (UploadManager.create options.concurrency 10000 options.enableRetry
              "UPLOAD"))).2 = none →
        (awaitUploads framePaths poseId options uploads rnd pick framePaths.length 0
          (submitFrames poseId options framePaths.length 0 framePaths
            (UploadManager.create options.concurrency 10000 options.enableRetry
              "UPLOAD"))).1.running = [] ∧
        (options.skipFailedFrames = false → ∀ i ∈ done,
          ∃ v, frameOutcome framePaths poseId options uploads rnd i = .resolved v)) ∧
      (∀ e, (awaitUploads framePaths poseId options uploads rnd pick framePaths.length 0
          (submitFrames poseId options framePaths.length 0 framePaths
            (UploadManager.create options.concurrency 10000 options.enableRetry
              "UPLOAD"))).2 = some e →
        options.skipFailedFrames = false ∧
        ∃ pre i, done = pre ++ [i] ∧
          frameOutcome framePaths poseId options uploads rnd i = .rejected e ∧
          ∀ j ∈ pre, ∃ v, frameOutcome framePaths poseId options uploads rnd j =
            .resolved v) := by
  have h0 := @submitFrames_state framePaths poseId options uploads rnd framePaths.length
    framePaths 0 [] _ BatchState.create rfl
  rw [Nat.zero_add] at h0
  exact awaitUploads_state pick framePaths.length framePaths.length 0 _ [] h0 (by simp)
    (fun _ i hi => by cases hi)

end batchend

section batchend
variable (framePaths : List String) (poseId : String) (options : BatchOptions)
  (uploads : Nat → Nat → Settled UploadOutcome) (rnd : Nat → Nat → ℚ)

theorem BatchState.done_nodup {n : Nat} {done : List Nat} {m : UploadManager}
    (h : BatchState framePaths poseId options uploads rnd n done m) :
    done.Nodup ∧ ∀ i ∈ done, i < n := by
  have hF : ((List.range n).map frameId).Nodup :=
    (List.nodup_range n).map frameId_injective
  have h1 : (done.map frameId ++ m.running ++ m.queue).Nodup := h.accounted.nodup_iff.2 hF
  rw [List.append_assoc] at h1
  refine ⟨(List.Nodup.of_append_left h1).of_map _, fun i hi => ?_⟩
  have hmem : frameId i ∈ done.map frameId ++ m.running ++ m.queue :=
    List.mem_append_left _ (List.mem_append_left _ (List.mem_map_of_mem _ hi))
  obtain ⟨j, hj, heq⟩ := List.mem_map.1 (h.accounted.mem_iff.1 hmem)
  rw [← frameId_injective heq]
  exact List.mem_range.1 hj

/-- A batch whose promise resolves: every frame has ended, and the summary is
made of what the listener collected. -/
theorem batch_resolved (pick : Nat → Nat) (s : BatchSummary)
    (hs : (batchProcessFrames framePaths poseId options uploads rnd pick).outcome =
      some (.resolved s)) :
    ∃ done : List Nat, done.Perm (List.range framePaths.length) ∧
      (batchProcessFrames framePaths poseId options uploads rnd pick).heard =
        { results := done.filterMap (resultOfFrame framePaths poseId options uploads rnd)
          errors := done.filterMap (errorOfFrame framePaths poseId options uploads rnd)
          completed := done.length } ∧
      (options.skipFailedFrames = false → ∀ i ∈ done,
        ∃ v, frameOutcome framePaths poseId options uploads rnd i = .resolved v) ∧
      s.rawResults = sortByIndex
        (batchProcessFrames framePaths poseId options uploads rnd pick).heard.results ∧
      s.errors = (batchProcessFrames framePaths poseId options uploads rnd pick).heard.errors ∧
      s.totalFrames = framePaths.length ∧
      s.processedFrames =
        (batchProcessFrames framePaths poseId options uploads rnd pick).heard.results.length ∧
      s.failedFrames =
        (batchProcessFrames framePaths poseId options uploads rnd pick).heard.errors.length ∧
      (s.averageScore, s.validFrames, s.stats, s.validScores) =
        ((processFrameScores ((sortByIndex
          ((batchProcessFrames framePaths poseId options uploads rnd pick).heard.results.filter
            fun r => r.result.isSome)).filterMap fun r => r.result)).averageScore,
         (processFrameScores ((sortByIndex
          ((batchProcessFrames framePaths poseId options uploads rnd pick).heard.results.filter
            fun r => r.result.isSome)).filterMap fun r => r.result)).validFrames,
         (processFrameScores ((sortByIndex
          ((batchProcessFrames framePaths poseId options uploads rnd pick).heard.results.filter
            fun r => r.result.isSome)).filterMap fun r => r.result)).stats,
         (processFrameScores ((sortByIndex
          ((batchProcessFrames framePaths poseId options uploads rnd pick).heard.results.filter
            fun r => r.result.isSome)).filterMap fun r => r.result)).validScores) := by
  obtain ⟨done, hstate, hnone, _⟩ := batch_after_wait framePaths poseId options uploads rnd pick
  unfold batchProcessFrames at hs ⊢
  simp only [] at hs ⊢
  generalize awaitUploads framePaths poseId options uploads rnd pick framePaths.length 0
    (submitFrames poseId options framePaths.length 0 framePaths
      (UploadManager.create options.concurrency 10000 options.enableRetry "UPLOAD")) = w
    at hs hstate hnone ⊢
  cases hw : w.2 with
  | some e => simp [hw] at hs
  | none =>
    simp only [hw] at hs ⊢
    split at hs
    · rename_i hall
      simp only [Option.some.injEq, Settled.resolved.injEq] at hs
      rw [if_pos hall]
      have hsub : ∀ i, i < framePaths.length → i ∈ done := by
        intro i hi
        have := List.all_eq_true.1 hall i (List.mem_range.2 hi)
        rw [List.any_eq_true] at this
        obtain ⟨p, hp, hpi⟩ := this
        have hmem : frameId i ∈ w.1.settled.map Prod.fst :=
          List.mem_map.2 ⟨p, hp, by simpa using hpi⟩
        rw [hstate.settled] at hmem
        obtain ⟨j, hj, heq⟩ := List.mem_map.1 hmem
        rw [← frameId_injective heq]
        exact hj
      obtain ⟨hnd, hlt⟩ := hstate.done_nodup
      have hperm : done.Perm (List.range framePaths.length) :=
        (List.perm_ext_iff_of_nodup hnd (List.nodup_range _)).2 (fun i =>
          ⟨fun hi => List.mem_range.2 (hlt i hi), fun hi => hsub i (List.mem_range.1 hi)⟩)
      refine ⟨done, hperm, hstate.heard, (hnone hw).2, ?_, ?_, ?_, ?_, ?_, ?_⟩ <;>
        rw [← hs]
    · simp at hs

end batchend

section batchend
variable (framePaths : List String) (poseId : String) (options : BatchOptions)
  (uploads : Nat → Nat → Settled UploadOutcome) (rnd : Nat → Nat → ℚ)

theorem filterMap_resolved (l : List Nat)
    (h : ∀ i ∈ l, ∃ v, frameOutcome framePaths poseId options uploads rnd i = .resolved v) :
    l.filterMap (errorOfFrame framePaths poseId options uploads rnd) = [] := by
  rw [List.filterMap_eq_nil_iff]
  intro i hi
  obtain ⟨v, hv⟩ := h i hi
  simp [errorOfFrame, hv]

/-- A batch whose promise rejects: the error is that of the first upload that
failed, `skipFailedFrames` is off, and every upload that ended before it had
succeeded. -/
theorem batch_rejected (pick : Nat → Nat) (e : AttemptError)
    (he : (batchProcessFrames framePaths poseId options uploads rnd pick).outcome =
      some (.rejected e)) :
    options.skipFailedFrames = false ∧
    ∃ (pre : List Nat) (i : Nat), i < framePaths.length ∧
      frameOutcome framePaths poseId options uploads rnd i = .rejected e ∧
      (∀ j ∈ pre, ∃ v, frameOutcome framePaths poseId options uploads rnd j = .resolved v) ∧
      (batchProcessFrames framePaths poseId options uploads rnd pick).heard.results =
        pre.filterMap (resultOfFrame framePaths poseId options uploads rnd) ∧
      (batchProcessFrames framePaths poseId options uploads rnd pick).heard.errors =
        [{ index := i, error := some e, framePath := framePaths.getD i "" }] := by
  obtain ⟨done, hstate, _, hsome⟩ := batch_after_wait framePaths poseId options uploads rnd pick
  unfold batchProcessFrames at he ⊢
  simp only [] at he ⊢
  generalize awaitUploads framePaths poseId options uploads rnd pick framePaths.length 0
    (submitFrames poseId options framePaths.length 0 framePaths
      (UploadManager.create options.concurrency 10000 options.enableRetry "UPLOAD")) = w
    at he hstate hsome ⊢
  cases hw : w.2 with
  | none =>
    simp only [hw] at he
    split at he <;> simp at he
  | some e' =>
    simp only [hw] at he ⊢
    have hee : e' = e := by simpa using he
    subst hee
    obtain ⟨hskip, pre, i, hdone, hfail, hpre⟩ := hsome e' hw
    have hi : i < framePaths.length :=
      (BatchState.done_nodup framePaths poseId options uploads rnd hstate).2 i (by
        rw [hdone]; exact List.mem_append_right _ (List.mem_singleton_self i))
    refine ⟨hskip, pre, i, hi, hfail, hpre, ?_, ?_⟩
    · rw [hstate.heard, hdone]
      simp [List.filterMap_append, resultOfFrame, hfail]
    · rw [hstate.heard, hdone]
      simp [List.filterMap_append, filterMap_resolved framePaths poseId options uploads rnd pre
        hpre, errorOfFrame, hfail]

/-- With a limit of at least one upload at a time the promise of a batch
settles. -/
theorem batch_settles (pick : Nat → Nat) (hc : 1 ≤ options.concurrency) :
    (batchProcessFrames framePaths poseId options uploads rnd pick).outcome ≠ none := by
  obtain ⟨done, hstate, hnone, _⟩ := batch_after_wait framePaths poseId options uploads rnd pick
  unfold batchProcessFrames
  simp only []
  generalize awaitUploads framePaths poseId options uploads rnd pick framePaths.length 0
    (submitFrames poseId options framePaths.length 0 framePaths
      (UploadManager.create options.concurrency 10000 options.enableRetry "UPLOAD")) = w
    at hstate hnone ⊢
  cases hw : w.2 with
  | some e => simp
  | none =>
    simp only []
    have hrun := (hnone hw).1
    have hq : w.1.queue = [] := by
      by_contra hne
      have h1 := hstate.balanced.queue_full hne
      have h2 := hstate.balanced.active_running
      rw [hrun] at h2
      rw [hstate.limit, h2] at h1
      simp at h1
      linarith
    have hall : ((List.range framePaths.length).all fun i =>
        w.1.settled.any fun p => p.1 = frameId i) = true := by
      rw [List.all_eq_true]
      intro i hi
      rw [List.any_eq_true]
      have hacc := hstate.accounted
      rw [hrun, hq, List.append_nil, List.append_nil, ← hstate.settled] at hacc
      have hmem : frameId i ∈ w.1.settled.map Prod.fst :=
        hacc.mem_iff.2 (List.mem_map_of_mem _ hi)
      obtain ⟨p, hp, hpi⟩ := List.mem_map.1 hmem
      exact ⟨p, hp, by simpa using hpi⟩
    rw [if_pos hall]
    simp

end batchend

section batchend
variable (framePaths : List String) (poseId : String) (options : BatchOptions)
  (uploads : Nat → Nat → Settled UploadOutcome) (rnd : Nat → Nat → ℚ)

/-- With a limit of at least one upload at a time and failed frames skipped,
the promise of a batch resolves. -/
theorem batch_resolves_when_skipping (pick : Nat → Nat) (hc : 1 ≤ options.concurrency)
    (hskip : options.skipFailedFrames = true) :
    ∃ s, (batchProcessFrames framePaths poseId options uploads rnd pick).outcome =
      some (.resolved s) := by
  have h1 := batch_settles framePaths poseId options uploads rnd pick hc
  cases hout : (batchProcessFrames framePaths poseId options uploads rnd pick).outcome with
  | none => exact absurd hout h1
  | some res =>
    cases res with
    | resolved s => exact ⟨s, rfl⟩
    | rejected e =>
      have := (batch_rejected framePaths poseId options uploads rnd pick e hout).1
      rw [hskip] at this
      cases this

end batchend

/-- The summary of a batch: `rawResults` is the list of the completed frames
by ascending index, and the fields taken from `processFrameScores` are those
of its call on the results of `rawResults`, in that order. -/
theorem batch_summary_scores (framePaths : List String) (poseId : String)
    (options : BatchOptions) (uploads : Nat → Nat → Settled UploadOutcome) (rnd : Nat → Nat → ℚ)
    (pick : Nat → Nat) (s : BatchSummary)
    (hs : (batchProcessFrames framePaths poseId options uploads rnd pick).outcome =
      some (.resolved s)) :
    s.rawResults = (List.range framePaths.length).filterMap
      (resultOfFrame framePaths poseId options uploads rnd) ∧
    s.totalFrames = framePaths.length ∧
    (s.averageScore, s.validFrames, s.stats, s.validScores) =
      ((processFrameScores (s.rawResults.filterMap fun r => r.result)).averageScore,
       (processFrameScores (s.rawResults.filterMap fun r => r.result)).validFrames,
       (processFrameScores (s.rawResults.filterMap fun r => r.result)).stats,
       (processFrameScores (s.rawResults.filterMap fun r => r.result)).validScores) := by
  obtain ⟨done, hperm, hheard, _, hraw, _, htot, _, _, hscores⟩ :=
    batch_resolved framePaths poseId options uploads rnd pick s hs
  have hres : (batchProcessFrames framePaths poseId options uploads rnd pick).heard.results =
      done.filterMap (resultOfFrame framePaths poseId options uploads rnd) := by
    rw [hheard]
  have hsort : sortByIndex
      (batchProcessFrames framePaths poseId options uploads rnd pick).heard.results =
      (List.range framePaths.length).filterMap
        (resultOfFrame framePaths poseId options uploads rnd) := by
    rw [hres]
    exact sortByIndex_eq_of_perm (hperm.filterMap _)
      (results_by_index framePaths poseId options uploads rnd _)
  refine ⟨by rw [hraw, hsort], htot, ?_⟩
  rw [hscores, hraw, hres, results_all_some, ← hres]

/-- C13: whenever `batchProcessFrames` returns a summary, whatever the order in
which the uploads ended, `rawResults` is the list of the results of the frames
that completed, taken by ascending frame index: its indices increase, it is
the same list for every order of completion, and the scores handed to
`processFrameScores` for the average are those of `rawResults`, in that order. -/
theorem batch_results_in_index_order (framePaths : List String) (poseId : String)
    (options : BatchOptions) (uploads : Nat → Nat → Settled UploadOutcome) (rnd : Nat → Nat → ℚ)
    (pick : Nat → Nat) (s : BatchSummary)
    (hs : (batchProcessFrames framePaths poseId options uploads rnd pick).outcome =
      some (.resolved s)) :
    s.rawResults = (List.range framePaths.length).filterMap
      (resultOfFrame framePaths poseId options uploads rnd) ∧
    s.rawResults.Pairwise (fun a b => a.index < b.index) ∧
    (∀ (pick' : Nat → Nat) (s' : BatchSummary),
      (batchProcessFrames framePaths poseId options uploads rnd pick').outcome =
        some (.resolved s') → s'.rawResults = s.rawResults) ∧
    s.averageScore =
      (processFrameScores (s.rawResults.filterMap fun r => r.result)).averageScore ∧
    s.validFrames = (processFrameScores (s.rawResults.filterMap fun r => r.result)).validFrames ∧
    s.validScores =
      (processFrameScores (s.rawResults.filterMap fun r => r.result)).validScores := by
  obtain ⟨h1, _, h2⟩ := batch_summary_scores framePaths poseId options uploads rnd pick s hs
  simp only [Prod.mk.injEq] at h2
  refine ⟨h1, ?_, ?_, h2.1, h2.2.1, h2.2.2.2⟩
  · rw [h1]
    exact results_by_index framePaths poseId options uploads rnd _
  · intro pick' s' hs'
    rw [h1, (batch_summary_scores framePaths poseId options uploads rnd pick' s' hs').1]

/-- Witness for C13: five frames, three uploads at a time, ending in an order
that is not the order of submission; the summary lists the frames 0 to 4. -/
theorem batch_results_in_index_order_witness :
    ∃ s, (batchProcessFrames ["a.jpg", "b.jpg", "c.jpg", "d.jpg", "e.jpg"] "tree" {}
        (fun i _ => if i = 2 then .resolved { score := 0, code := "NO_KEYPOINT" }
          else .resolved { score := 80 })
        (fun _ _ => 0) (fun k => 7 * k + 2)).outcome = some (.resolved s) ∧
      s.rawResults.map (fun r => r.index) = [0, 1, 2, 3, 4] :=
  (batch_resolves_when_skipping ["a.jpg", "b.jpg", "c.jpg", "d.jpg", "e.jpg"] "tree" {}
      (fun i _ => if i = 2 then .resolved { score := 0, code := "NO_KEYPOINT" }
        else .resolved { score := 80 })
      (fun _ _ => 0) (fun k => 7 * k + 2) (by decide) rfl).imp fun s hs =>
    ⟨hs, by
      rw [(batch_results_in_index_order ["a.jpg", "b.jpg", "c.jpg", "d.jpg", "e.jpg"] "tree" {}
        (fun i _ => if i = 2 then .resolved { score := 0, code := "NO_KEYPOINT" }
          else .resolved { score := 80 })
        (fun _ _ => 0) (fun k => 7 * k + 2) s hs).1]
      decide⟩

/-- C14: with a limit of at least one upload at a time.  With `skipFailedFrames` on
the batch returns a summary whatever fails: every failed frame is in `errors`
with its error, `failedFrames` is their number, every frame whose upload
succeeded is in `rawResults`, and each frame is counted as processed or as
failed.  With `skipFailedFrames` off the batch returns a summary when no upload
fails, and when one does it fails with the error of the first upload that
failed: the listener has recorded that one failure, and the uploads that ended
before it had all succeeded. -/
theorem batch_failures (framePaths : List String) (poseId : String) (options : BatchOptions)
    (uploads : Nat → Nat → Settled UploadOutcome) (rnd : Nat → Nat → ℚ) (pick : Nat → Nat)
    (hc : 1 ≤ options.concurrency) :
    (options.skipFailedFrames = true →
      ∃ s, (batchProcessFrames framePaths poseId options uploads rnd pick).outcome =
          some (.resolved s) ∧
        s.errors.Perm ((List.range framePaths.length).filterMap
          (errorOfFrame framePaths poseId options uploads rnd)) ∧
        (∀ i e, i < framePaths.length →
          frameOutcome framePaths poseId options uploads rnd i = .rejected e →
          { index := i, error := some e, framePath := framePaths.getD i "" } ∈ s.errors) ∧
        s.failedFrames = ((List.range framePaths.length).filterMap
          (errorOfFrame framePaths poseId options uploads rnd)).length ∧
        s.rawResults = (List.range framePaths.length).filterMap
          (resultOfFrame framePaths poseId options uploads rnd) ∧
        (∀ i v, i < framePaths.length →
          frameOutcome framePaths poseId options uploads rnd i = .resolved v →
          { index := i, result := some v, framePath := framePaths.getD i "" } ∈ s.rawResults) ∧
        s.processedFrames + s.failedFrames = framePaths.length ∧
        s.totalFrames = framePaths.length) ∧
    (options.skipFailedFrames = false →
      ((∀ i, i < framePaths.length →
          ∃ v, frameOutcome framePaths poseId options uploads rnd i = .resolved v) →
        ∃ s, (batchProcessFrames framePaths poseId options uploads rnd pick).outcome =
            some (.resolved s) ∧ s.errors = [] ∧ s.failedFrames = 0) ∧
      ((∃ i e, i < framePaths.length ∧
          frameOutcome framePaths poseId options uploads rnd i = .rejected e) →
        ∃ (e : AttemptError) (pre : List Nat) (i : Nat),
          (batchProcessFrames framePaths poseId options uploads rnd pick).outcome =
            some (.rejected e) ∧
          i < framePaths.length ∧
          frameOutcome framePaths poseId options uploads rnd i = .rejected e ∧
          (∀ j ∈ pre, ∃ v, frameOutcome framePaths poseId options uploads rnd j =
            .resolved v) ∧
          (batchProcessFrames framePaths poseId options uploads rnd pick).heard.results =
            pre.filterMap (resultOfFrame framePaths poseId options uploads rnd) ∧
          (batchProcessFrames framePaths poseId options uploads rnd pick).heard.errors =
            [{ index := i, error := some e, framePath := framePaths.getD i "" }])) := by
  have hsettles := batch_settles framePaths poseId options uploads rnd pick hc
  constructor
  · intro hskip
    obtain ⟨s, hs⟩ := batch_resolves_when_skipping framePaths poseId options uploads rnd pick hc
      hskip
    obtain ⟨done, hperm, hheard, _, hraw, herr, htot, hproc, hfail, _⟩ :=
      batch_resolved framePaths poseId options uploads rnd pick s hs
    have hres : (batchProcessFrames framePaths poseId options uploads rnd pick).heard.results =
        done.filterMap (resultOfFrame framePaths poseId options uploads rnd) := by
      rw [hheard]
    have herrs : (batchProcessFrames framePaths poseId options uploads rnd pick).heard.errors =
        done.filterMap (errorOfFrame framePaths poseId options uploads rnd) := by
      rw [hheard]
    have hE : s.errors.Perm ((List.range framePaths.length).filterMap
        (errorOfFrame framePaths poseId options uploads rnd)) := by
      rw [herr, herrs]
      exact hperm.filterMap _
    have hR : s.rawResults = (List.range framePaths.length).filterMap
        (resultOfFrame framePaths poseId options uploads rnd) := by
      rw [hraw, hres]
      exact sortByIndex_eq_of_perm (hperm.filterMap _)
        (results_by_index framePaths poseId options uploads rnd _)
    have hcount : ∀ l : List Nat,
        (l.filterMap (resultOfFrame framePaths poseId options uploads rnd)).length +
        (l.filterMap (errorOfFrame framePaths poseId options uploads rnd)).length = l.length := by
      intro l
      induction l with
      | nil => rfl
      | cons a tl ih =>
        cases hout : frameOutcome framePaths poseId options uploads rnd a <;>
          simp [List.filterMap_cons, resultOfFrame, errorOfFrame, hout] <;> omega
    refine ⟨s, hs, hE, ?_, ?_, hR, ?_, ?_, htot⟩
    · intro i e hi hout
      refine hE.mem_iff.2 (List.mem_filterMap.2 ⟨i, List.mem_range.2 hi, ?_⟩)
      simp [errorOfFrame, hout]
    · rw [hfail, herrs]
      exact (hperm.filterMap _).length_eq
    · intro i v hi hout
      rw [hR]
      refine List.mem_filterMap.2 ⟨i, List.mem_range.2 hi, ?_⟩
      simp [resultOfFrame, hout]
    · rw [hproc, hfail, hres, herrs, hcount, hperm.length_eq, List.length_range]
  · intro hskip
    constructor
    · intro hall
      cases hout : (batchProcessFrames framePaths poseId options uploads rnd pick).outcome with
      | none => exact absurd hout hsettles
      | some res =>
        cases res with
        | resolved s =>
          obtain ⟨done, hperm, hheard, _, _, herr, _, _, hfail, _⟩ :=
            batch_resolved framePaths poseId options uploads rnd pick s hout
          have herrs : (batchProcessFrames framePaths poseId options uploads rnd
              pick).heard.errors = [] := by
            rw [hheard]
            exact filterMap_resolved framePaths poseId options uploads rnd done (fun i hi =>
              hall i (List.mem_range.1 (hperm.mem_iff.1 hi)))
          exact ⟨s, rfl, by rw [herr, herrs], by rw [hfail, herrs]; rfl⟩
        | rejected e =>
          obtain ⟨_, pre, i, hi, hfail, _⟩ :=
            batch_rejected framePaths poseId options uploads rnd pick e hout
          obtain ⟨v, hv⟩ := hall i hi
          rw [hv] at hfail
          cases hfail
    · rintro ⟨i0, e0, hi0, hfail0⟩
      cases hout : (batchProcessFrames framePaths poseId options uploads rnd pick).outcome with
      | none => exact absurd hout hsettles
      | some res =>
        cases res with
        | resolved s =>
          obtain ⟨done, hperm, _, hstrict, _⟩ :=
            batch_resolved framePaths poseId options uploads rnd pick s hout
          obtain ⟨v, hv⟩ := hstrict hskip i0 (hperm.mem_iff.2 (List.mem_range.2 hi0))
          rw [hv] at hfail0
          cases hfail0
        | rejected e =>
          obtain ⟨_, pre, i, hi, hfail, hpre, hres, herr⟩ :=
            batch_rejected framePaths poseId options uploads rnd pick e hout
          exact ⟨e, pre, i, rfl, hi, hfail, hpre, hres, herr⟩

/-- Witness for C14: the uploads of frames 1 and 3 of five are rejected.  With the
default options the summary counts two failed frames and lists frames 0, 2
and 4; with `skipFailedFrames` off the batch fails with an error that is the
one failure the listener recorded. -/
theorem batch_failures_witness :
    (∃ s, (batchProcessFrames ["a.jpg", "b.jpg", "c.jpg", "d.jpg", "e.jpg"] "tree" {}
        (fun i _ => if i = 1 ∨ i = 3 then .rejected { code := some "TIMEOUT" }
          else .resolved { score := 80 })
        (fun _ _ => 0) (fun k => 7 * k + 2)).outcome = some (.resolved s) ∧
      s.failedFrames = 2 ∧ s.rawResults.map (fun r => r.index) = [0, 2, 4]) ∧
    ∃ (e : AttemptError) (i : Nat),
      (batchProcessFrames ["a.jpg", "b.jpg", "c.jpg", "d.jpg", "e.jpg"] "tree"
        { skipFailedFrames := false }
        (fun i _ => if i = 1 ∨ i = 3 then .rejected { code := some "TIMEOUT" }
          else .resolved { score := 80 })
        (fun _ _ => 0) (fun k => 7 * k + 2)).outcome = some (.rejected e) ∧
      (batchProcessFrames ["a.jpg", "b.jpg", "c.jpg", "d.jpg", "e.jpg"] "tree"
        { skipFailedFrames := false }
        (fun i _ => if i = 1 ∨ i = 3 then .rejected { code := some "TIMEOUT" }
          else .resolved { score := 80 })
        (fun _ _ => 0) (fun k => 7 * k + 2)).heard.errors =
        [{ index := i, error := some e,
           framePath := ["a.jpg", "b.jpg", "c.jpg", "d.jpg", "e.jpg"].getD i "" }] :=
  ⟨((batch_failures ["a.jpg", "b.jpg", "c.jpg", "d.jpg", "e.jpg"] "tree" {}
      (fun i _ => if i = 1 ∨ i = 3 then .rejected { code := some "TIMEOUT" }
        else .resolved { score := 80 })
      (fun _ _ => 0) (fun k => 7 * k + 2) (by decide)).1 rfl).imp fun s h =>
      ⟨h.1, h.2.2.2.1.trans (by decide), by rw [h.2.2.2.2.1]; decide⟩,
   match ((batch_failures ["a.jpg", "b.jpg", "c.jpg", "d.jpg", "e.jpg"] "tree"
      { skipFailedFrames := false }
      (fun i _ => if i = 1 ∨ i = 3 then .rejected { code := some "TIMEOUT" }
        else .resolved { score := 80 })
      (fun _ _ => 0) (fun k => 7 * k + 2) (by decide)).2 rfl).2
      ⟨1, { code := some "TIMEOUT" }, by decide, by decide⟩ with
   | ⟨e, _, i, h1, _, _, _, _, h6⟩ => ⟨e, i, h1, h6⟩⟩

/-! ### Frame scores -/

theorem roundHalfEven_intCast (n : ℤ) : roundHalfEven n = n := by
  simp [roundHalfEven]

theorem le_roundHalfEven (z : ℚ) (L : ℤ) (h : (L : ℚ) ≤ z) : L ≤ roundHalfEven z := by
  have : L ≤ ⌊z⌋ := Int.le_floor.mpr h
  unfold roundHalfEven
  split_ifs <;> omega

theorem roundHalfEven_le (z : ℚ) (H : ℤ) (h : z ≤ H) : roundHalfEven z ≤ H := by
  have hfl := Int.floor_le z
  have h1 : ⌊z⌋ ≤ H := by exact_mod_cast le_trans hfl h
  unfold roundHalfEven
  split_ifs with c1 c2 c3
  · exact h1
  · have h2 : (⌊z⌋ : ℚ) < H := by linarith
    have h3 : ⌊z⌋ < H := by exact_mod_cast h2
    omega
  · exact h1
  · have h2 : (⌊z⌋ : ℚ) < H := by linarith
    have h3 : ⌊z⌋ < H := by exact_mod_cast h2
    omega

theorem roundHalfEven_lt (z : ℚ) (H : ℤ) (h : z < H - 1 / 2) : roundHalfEven z < H := by
  have hfl := Int.floor_le z
  have h1 : ⌊z⌋ < H := by
    have : (⌊z⌋ : ℚ) < H := by linarith
    exact_mod_cast this
  unfold roundHalfEven
  split_ifs with c1 c2 c3
  · exact h1
  · have h2 : ((⌊z⌋ + 1 : ℤ) : ℚ) < H := by push_cast; linarith
    exact_mod_cast h2
  · exact h1
  · have h2 : ((⌊z⌋ + 1 : ℤ) : ℚ) < H := by push_cast; linarith
    exact_mod_cast h2

/-- Between 1 and `2 ^ 53` the binary64 numbers around `x` are the multiples of
`1 / 2 ^ k` for a `k <= 52` with `2 ^ 52 <= x * 2 ^ k`. -/
theorem binary64_grid (x : ℚ) (h1 : 1 ≤ x) (h2 : x < 2 ^ 53) :
    ∃ k : ℕ, k ≤ 52 ∧ (2 : ℚ) ^ 52 ≤ x * 2 ^ k ∧ (x < 2 ^ 52 → 1 ≤ k) ∧
      binary64 x = roundHalfEven (x * 2 ^ k) / 2 ^ k := by
  have hx0 : 0 < x := by linarith
  have hb : 1 < 2 := by norm_num
  have he0 : 0 ≤ Int.log 2 x := (Int.zpow_le_iff_le_log hb hx0).mp (by simpa using h1)
  have he53 : Int.log 2 x < 53 := (Int.lt_zpow_iff_log_lt hb hx0).mp (by
    have : (2 : ℚ) ^ (53 : ℤ) = 2 ^ 53 := by norm_num
    simpa [this] using h2)
  have hle : (2 : ℚ) ^ Int.log 2 x ≤ x := by
    have := Int.zpow_log_le_self hb hx0
    simpa using this
  obtain ⟨k, hk⟩ : ∃ k : ℕ, (k : ℤ) = 52 - Int.log 2 x := ⟨(52 - Int.log 2 x).toNat, by omega⟩
  have hulp : (2 : ℚ) ^ (Int.log 2 x - 52) = ((2 : ℚ) ^ k)⁻¹ := by
    rw [← zpow_natCast, ← zpow_neg, hk]
    congr 1
    omega
  have hpow : (2 : ℚ) ^ Int.log 2 x * 2 ^ k = 2 ^ 52 := by
    rw [← zpow_natCast (2 : ℚ) k, ← zpow_add₀ (by norm_num : (2 : ℚ) ≠ 0), hk]
    have : Int.log 2 x + (52 - Int.log 2 x) = (52 : ℕ) := by omega
    rw [this, zpow_natCast]
  have hkpos : (0 : ℚ) < 2 ^ k := by positivity
  refine ⟨k, by omega, ?_, ?_, ?_⟩
  · rw [← hpow]
    exact mul_le_mul_of_nonneg_right hle (le_of_lt hkpos)
  · intro hlt
    have : Int.log 2 x < 52 := (Int.lt_zpow_iff_log_lt hb hx0).mp (by
      have : (2 : ℚ) ^ (52 : ℤ) = 2 ^ 52 := by norm_num
      simpa [this] using hlt)
    omega
  · unfold binary64
    rw [if_neg (ne_of_gt hx0)]
    simp only [abs_of_pos hx0, max_eq_left (by omega : (-1022 : ℤ) ≤ Int.log 2 x)]
    rw [hulp, div_inv_eq_mul, ← div_eq_mul_inv]

/-- A whole number below `2 ^ 53` is a binary64 number. -/
theorem binary64_natCast (n : ℕ) (h : (n : ℚ) < 2 ^ 53) : binary64 n = n := by
  rcases Nat.eq_zero_or_pos n with rfl | hpos
  · simp [binary64]
  · obtain ⟨k, _, _, _, hk⟩ := binary64_grid n (by exact_mod_cast hpos) h
    rw [hk]
    have : ((n : ℚ) * 2 ^ k) = ((n * 2 ^ k : ℤ) : ℚ) := by push_cast; rfl
    rw [this, roundHalfEven_intCast]
    push_cast
    field_simp

/-- Rounding to binary64 does not cross a whole number: for `1 <= x < 2 ^ 53`
the value lies between the same whole numbers as `x`. -/
theorem binary64_between (x : ℚ) (h1 : 1 ≤ x) (h2 : x < 2 ^ 53) (a b : ℤ) (ha : (a : ℚ) ≤ x)
    (hb : x ≤ b) : (a : ℚ) ≤ binary64 x ∧ binary64 x ≤ b := by
  obtain ⟨k, _, _, _, hk⟩ := binary64_grid x h1 h2
  have hkpos : (0 : ℚ) < 2 ^ k := by positivity
  rw [hk]
  constructor
  · rw [le_div_iff₀ hkpos]
    have := le_roundHalfEven (x * 2 ^ k) (a * 2 ^ k) (by
      push_cast
      exact mul_le_mul_of_nonneg_right ha (le_of_lt hkpos))
    have h3 : ((a * 2 ^ k : ℤ) : ℚ) ≤ roundHalfEven (x * 2 ^ k) := by exact_mod_cast this
    push_cast at h3
    exact h3
  · rw [div_le_iff₀ hkpos]
    have := roundHalfEven_le (x * 2 ^ k) (b * 2 ^ k) (by
      push_cast
      exact mul_le_mul_of_nonneg_right hb (le_of_lt hkpos))
    have h3 : (roundHalfEven (x * 2 ^ k) : ℚ) ≤ ((b * 2 ^ k : ℤ) : ℚ) := by exact_mod_cast this
    push_cast at h3
    exact h3

/-- The quotient of whole numbers `n <= s < 2 ^ 52`: rounding it to binary64
does not change what `Math.round` makes of it. -/
theorem mathRound_binary64_div (s n : ℕ) (hn : 1 ≤ n) (hns : n ≤ s) (hs : (s : ℚ) < 2 ^ 52) :
    mathRound (binary64 ((s : ℚ) / n)) = mathRound ((s : ℚ) / n) := by
  have hnpos : (0 : ℚ) < n := by exact_mod_cast hn
  have hn1 : (1 : ℚ) ≤ n := by exact_mod_cast hn
  have hns' : (n : ℚ) ≤ s := by exact_mod_cast hns
  obtain ⟨X, hX⟩ : ∃ X : ℚ, X = (s : ℚ) / n := ⟨_, rfl⟩
  have hXn : X * n = s := by rw [hX]; exact div_mul_cancel₀ _ (ne_of_gt hnpos)
  rw [← hX]
  have hx1 : 1 ≤ X := by
    by_contra hlt
    have : X * n < 1 * n := mul_lt_mul_of_pos_right (not_le.mp hlt) hnpos
    linarith
  have hxs : X ≤ s := by
    have : X * 1 ≤ X * n := mul_le_mul_of_nonneg_left hn1 (by linarith)
    linarith
  have hx52 : X < 2 ^ 52 := lt_of_le_of_lt hxs hs
  obtain ⟨k, _, hgrid, hk1, hk⟩ := binary64_grid X hx1 (by linarith)
  obtain ⟨j, rfl⟩ : ∃ j, k = j + 1 := ⟨k - 1, by have := hk1 hx52; omega⟩
  have hpow : (2 : ℚ) ^ (j + 1) = 2 * 2 ^ j := by rw [pow_succ]; ring
  rw [hpow] at hgrid hk
  have hjpos : (0 : ℚ) < 2 ^ j := by positivity
  -- the integer that `Math.round` gives for the exact quotient
  have hm1 : ((mathRound X : ℤ) : ℚ) ≤ X + 1 / 2 := Int.floor_le _
  have hm2 : X + 1 / 2 < mathRound X + 1 := Int.lt_floor_add_one _
  generalize mathRound X = m at hm1 hm2
  -- the denominator is below the number of grid points in a unit
  have hnk : (n : ℚ) < 2 * 2 ^ j := by
    have h3 : (2 : ℚ) ^ 52 * n ≤ s * (2 * 2 ^ j) := by
      have := mul_le_mul_of_nonneg_right hgrid (le_of_lt hnpos)
      have e : X * (2 * 2 ^ j) * n = X * n * (2 * 2 ^ j) := by ring
      rw [e, hXn] at this
      exact this
    have h4 : (s : ℚ) * (2 * 2 ^ j) < 2 ^ 52 * (2 * 2 ^ j) :=
      mul_lt_mul_of_pos_right hs (by positivity)
    have h5 : (2 : ℚ) ^ 52 * n < 2 ^ 52 * (2 * 2 ^ j) := lt_of_le_of_lt h3 h4
    exact lt_of_mul_lt_mul_left h5 (by positivity)
  -- the gap between the quotient and the half above it
  have hgap : (2 * s + 1 : ℚ) ≤ (2 * m + 1) * n := by
    have h6 : (2 * s : ℚ) < (2 * m + 1) * n := by
      have h : X < m + 1 / 2 := by linarith
      have := mul_lt_mul_of_pos_right h hnpos
      rw [hXn] at this
      linarith
    have h7 : ((2 * s : ℤ)) < (2 * m + 1) * n := by exact_mod_cast h6
    have h8 : (2 * (s : ℤ) + 1) ≤ (2 * m + 1) * n := by omega
    exact_mod_cast h8
  have hlow := le_roundHalfEven (X * (2 * 2 ^ j)) ((2 * m - 1) * 2 ^ j) (by
    push_cast
    have h : (m : ℚ) - 1 / 2 ≤ X := by linarith
    have := mul_le_mul_of_nonneg_right h (le_of_lt (by positivity : (0 : ℚ) < 2 * 2 ^ j))
    linarith)
  have hup := roundHalfEven_lt (X * (2 * 2 ^ j)) ((2 * m + 1) * 2 ^ j) (by
    push_cast
    have g := mul_le_mul_of_nonneg_right hgap (le_of_lt hjpos)
    have e : X * (2 * 2 ^ j) * n = 2 * (X * n) * 2 ^ j := by ring
    have key : X * (2 * 2 ^ j) * n < ((2 * (m : ℚ) + 1) * 2 ^ j - 1 / 2) * n := by
      rw [e, hXn]
      linarith
    exact lt_of_mul_lt_mul_right key (le_of_lt hnpos))
  have hlow' : (((2 * m - 1) * 2 ^ j : ℤ) : ℚ) ≤ roundHalfEven (X * (2 * 2 ^ j)) := by
    exact_mod_cast hlow
  have hup' : (roundHalfEven (X * (2 * 2 ^ j)) : ℚ) ≤ (((2 * m + 1) * 2 ^ j - 1 : ℤ) : ℚ) := by
    have : roundHalfEven (X * (2 * 2 ^ j)) ≤ (2 * m + 1) * 2 ^ j - 1 := by omega
    exact_mod_cast this
  push_cast at hlow' hup'
  generalize (roundHalfEven (X * (2 * 2 ^ j)) : ℚ) = R at hk hlow' hup'
  have hkpos : (0 : ℚ) < 2 * 2 ^ j := by positivity
  unfold mathRound
  rw [Int.floor_eq_iff, hk]
  constructor
  · have : (m : ℚ) - 1 / 2 ≤ R / (2 * 2 ^ j) := by
      rw [le_div_iff₀ hkpos]
      linarith
    linarith
  · have : R / (2 * 2 ^ j) < (m : ℚ) + 1 / 2 := by
      rw [div_lt_iff₀ hkpos]
      linarith
    linarith

/-- The binary64 value of a positive `x` from its exponent and the rounded
significand. -/
theorem binary64_of_exponent (x : ℚ) (e N : ℤ) (hx : 0 < x) (h1 : (2 : ℚ) ^ e ≤ x)
    (h2 : x < 2 ^ (e + 1)) (he : -1022 ≤ e) (hN : roundHalfEven (x / 2 ^ (e - 52)) = N) :
    binary64 x = N * 2 ^ (e - 52) := by
  have hb : 1 < 2 := by norm_num
  have hlog : Int.log 2 x = e := by
    apply le_antisymm
    · have : Int.log 2 x < e + 1 := (Int.lt_zpow_iff_log_lt hb hx).mp (by simpa using h2)
      omega
    · exact (Int.zpow_le_iff_le_log hb hx).mp (by simpa using h1)
  unfold binary64
  rw [if_neg (ne_of_gt hx)]
  simp only [abs_of_pos hx, hlog, max_eq_left he, hN]

theorem roundHalfEven_down (z : ℚ) (f : ℤ) (h1 : (f : ℚ) ≤ z) (h2 : z < f + 1 / 2) :
    roundHalfEven z = f := by
  have hf : ⌊z⌋ = f := by
    rw [Int.floor_eq_iff]
    exact ⟨h1, by linarith⟩
  unfold roundHalfEven
  rw [hf, if_pos (by linarith)]

theorem roundHalfEven_tie (f : ℤ) :
    roundHalfEven (f + 1 / 2) = if f % 2 = 0 then f else f + 1 := by
  have hf : ⌊(f : ℚ) + 1 / 2⌋ = f := by
    rw [Int.floor_eq_iff]
    constructor <;> linarith
  unfold roundHalfEven
  rw [hf, if_neg (by norm_num), if_neg (by norm_num)]

/-- The sum that `reduce` computes is exact on whole-number scores as long as
it stays below `2 ^ 53`. -/
theorem foldl_binary64_sum (l : List UploadOutcome) (hwhole : ∀ r ∈ l, ∃ n : ℕ, r.score = n) :
    ∀ a : ℕ, (a : ℚ) + (l.map fun r => r.score).sum < 2 ^ 53 →
      l.foldl (fun sum result => binary64 (sum + result.score)) (a : ℚ) =
        a + (l.map fun r => r.score).sum := by
  induction l with
  | nil => intro a _; simp
  | cons r rest ih =>
    intro a h
    obtain ⟨n, hn⟩ := hwhole r (by simp)
    have hrest : 0 ≤ (rest.map fun r => r.score).sum := List.sum_nonneg (by
      intro x hx
      obtain ⟨r', hr', rfl⟩ := List.mem_map.mp hx
      obtain ⟨n', hn'⟩ := hwhole r' (by simp [hr'])
      simp only [hn']
      exact Nat.cast_nonneg _)
    simp only [List.foldl_cons, List.map_cons, List.sum_cons] at h ⊢
    rw [hn] at h ⊢
    have hstep : binary64 ((a : ℚ) + n) = ((a + n : ℕ) : ℚ) := by
      rw [← Nat.cast_add]
      exact binary64_natCast _ (by push_cast; linarith)
    rw [hstep, ih (fun r' hr' => hwhole r' (by simp [hr'])) (a + n) (by push_cast; linarith)]
    push_cast
    ring

theorem whole_sum (l : List UploadOutcome) (hwhole : ∀ r ∈ l, ∃ n : ℕ, r.score = n) :
    ∃ s : ℕ, (l.map fun r => r.score).sum = s := by
  induction l with
  | nil => exact ⟨0, by simp⟩
  | cons r rest ih =>
    obtain ⟨n, hn⟩ := hwhole r (by simp)
    obtain ⟨s, hs⟩ := ih fun r' hr' => hwhole r' (by simp [hr'])
    exact ⟨n + s, by simp [hn, hs]⟩

theorem valid_sum_ge_length (scoreResults : List UploadOutcome)
    (hwhole : ∀ r ∈ scoreResults.filter isValidScore, ∃ n : ℕ, r.score = n) :
    ((scoreResults.filter isValidScore).length : ℚ) ≤
      ((scoreResults.filter isValidScore).map fun r => r.score).sum := by
  have h := List.card_nsmul_le_sum ((scoreResults.filter isValidScore).map fun r => r.score)
    (1 : ℚ) (by
      intro x hx
      obtain ⟨r, hr, rfl⟩ := List.mem_map.mp hx
      obtain ⟨n, hn⟩ := hwhole r hr
      have hpos := (List.mem_filter.mp hr).2
      simp only [isValidScore, Bool.and_eq_true, decide_eq_true_eq] at hpos
      simp only [hn] at hpos ⊢
      have : 0 < n := by exact_mod_cast hpos.2
      exact_mod_cast this)
  simpa using h

theorem processFrameScores_of_valid (scoreResults : List UploadOutcome)
    (h : (scoreResults.filter isValidScore).length ≠ 0) :
    processFrameScores scoreResults =
      { averageScore := mathRound (binary64
          ((scoreResults.filter isValidScore).foldl
            (fun sum result => binary64 (sum + result.score)) 0 /
            (scoreResults.filter isValidScore).length))
        validFrames := (scoreResults.filter isValidScore).length
        totalFrames := scoreResults.length
        stats :=
          { total := scoreResults.length
            valid := (scoreResults.filter isValidScore).length
            failed := scoreResults.length - (scoreResults.filter isValidScore).length
            noKeypoint := (scoreResults.filter fun r => r.code = "NO_KEYPOINT").length }
        validScores := some (scoreResults.filter isValidScore) } := by
  simp only [processFrameScores, if_neg h]

/-- On whole-number valid scores whose sum is below `2 ^ 52` the average is
`Math.round` of the exact mean. -/
theorem processFrameScores_whole (scoreResults : List UploadOutcome)
    (hwhole : ∀ r ∈ scoreResults.filter isValidScore, ∃ n : ℕ, r.score = n)
    (hsum : ((scoreResults.filter isValidScore).map fun r => r.score).sum < 2 ^ 52)
    (hlen : (scoreResults.filter isValidScore).length ≠ 0) :
    (processFrameScores scoreResults).averageScore =
      mathRound (((scoreResults.filter isValidScore).map fun r => r.score).sum /
        (scoreResults.filter isValidScore).length) := by
  rw [processFrameScores_of_valid _ hlen]
  simp only
  have hfold := foldl_binary64_sum _ hwhole 0 (by
    simp only [Nat.cast_zero, zero_add]
    linarith [show (2 : ℚ) ^ 52 < 2 ^ 53 by norm_num])
  simp only [Nat.cast_zero, zero_add] at hfold
  rw [hfold]
  obtain ⟨s, hs⟩ := whole_sum _ hwhole
  have hge := valid_sum_ge_length scoreResults hwhole
  rw [hs] at hsum hge ⊢
  exact mathRound_binary64_div s _ (Nat.pos_of_ne_zero hlen) (by exact_mod_cast hge) hsum

/-- C12, counterexample: the sum and the quotient are binary64 operations.  For
two valid frames with the scores 1 and 1.9999999999999998 (that is `2 - 2 ^ -52`)
the sum `3 - 2 ^ -52` is rounded to 3 and the quotient is 1.5, so that
`averageScore` is 2, whereas the mean of the two scores is below 1.5 and rounds
to 1. -/
theorem average_not_rounded_mean :
    (processFrameScores [{ score := 1 }, { score := 2 - 1 / 2 ^ 52 }]).averageScore = 2 ∧
    mathRound ((([{ score := 1 }, { score := 2 - 1 / 2 ^ 52 }] : List UploadOutcome).map
      fun r => r.score).sum / 2) = 1 := by
  have hvalid : ([{ score := 1 }, { score := 2 - 1 / 2 ^ 52 }] : List UploadOutcome).filter
      isValidScore = [{ score := 1 }, { score := 2 - 1 / 2 ^ 52 }] := by
    have h1 : isValidScore { score := 1 } = true := by simp [isValidScore]
    have h2 : isValidScore { score := 2 - 1 / 2 ^ 52 } = true := by
      simp only [isValidScore, Bool.and_eq_true, decide_eq_true_eq]
      exact ⟨trivial, by norm_num⟩
    simp only [List.filter_cons, h1, h2, if_true, List.filter_nil]
  have hs1 : binary64 ((0 : ℚ) + 1) = 1 := by
    rw [zero_add]
    simpa using binary64_natCast 1 (by norm_num)
  have hs2 : binary64 ((1 : ℚ) + (2 - 1 / 2 ^ 52)) = 3 := by
    rw [binary64_of_exponent _ 1 6755399441055744 (by norm_num) (by norm_num) (by norm_num)
      (by norm_num) (by
        have e : ((1 : ℚ) + (2 - 1 / 2 ^ 52)) / 2 ^ ((1 : ℤ) - 52) =
            ((6755399441055743 : ℤ) : ℚ) + 1 / 2 := by norm_num
        rw [e, roundHalfEven_tie]
        norm_num)]
    norm_num
  have hq : binary64 ((3 : ℚ) / 2) = 3 / 2 := by
    rw [binary64_of_exponent _ 0 6755399441055744 (by norm_num) (by norm_num) (by norm_num)
      (by norm_num) (by
        have e : ((3 : ℚ) / 2) / 2 ^ ((0 : ℤ) - 52) = ((6755399441055744 : ℤ) : ℚ) := by norm_num
        rw [e, roundHalfEven_intCast])]
    norm_num
  constructor
  · rw [processFrameScores_of_valid _ (by rw [hvalid]; decide)]
    simp only [hvalid, List.foldl_cons, List.foldl_nil, List.length_cons, List.length_nil]
    rw [hs1, hs2]
    have hlen : (((0 + 1 + 1 : ℕ)) : ℚ) = 2 := by norm_num
    rw [hlen, hq]
    unfold mathRound
    rw [Int.floor_eq_iff]
    constructor <;> norm_num
  · unfold mathRound
    rw [Int.floor_eq_iff]
    constructor <;> norm_num

/-- C12, amended: `processFrameScores` keeps as valid exactly the entries with
code `SUCCESS` and a score above 0; `validFrames` is their number, `totalFrames`
the length of the list, and `averageScore` is 0 when none is valid and
otherwise `Math.round` of the binary64 quotient of the binary64 sum of the valid
scores.  When the valid scores are whole numbers with a sum below `2 ^ 52`,
`averageScore` is `Math.round` of their mean, an integer within one half of
that mean.  For the
scores 80, 70, 0, 90, 60 with the third entry `NO_KEYPOINT` the result is
average 75, 4 valid frames, 5 frames in all; and a batch of five frames whose
uploads resolve with these outcomes returns, whatever the order in which they
end, a summary with average 75, 4 valid frames and 5 frames. -/
theorem processFrameScores_whole_scores (scoreResults : List UploadOutcome) :
    (∀ r, r ∈ scoreResults.filter isValidScore ↔
      r ∈ scoreResults ∧ r.code = "SUCCESS" ∧ 0 < r.score) ∧
    (processFrameScores scoreResults).validFrames = (scoreResults.filter isValidScore).length ∧
    (processFrameScores scoreResults).totalFrames = scoreResults.length ∧
    ((scoreResults.filter isValidScore).length = 0 →
      (processFrameScores scoreResults).averageScore = 0) ∧
    ((scoreResults.filter isValidScore).length ≠ 0 →
      (processFrameScores scoreResults).averageScore =
        mathRound (binary64
          ((scoreResults.filter isValidScore).foldl
            (fun sum result => binary64 (sum + result.score)) 0 /
            (scoreResults.filter isValidScore).length))) ∧
    ((∀ r ∈ scoreResults.filter isValidScore, ∃ n : ℕ, r.score = n) →
      ((scoreResults.filter isValidScore).map fun r => r.score).sum < 2 ^ 52 →
      (scoreResults.filter isValidScore).length ≠ 0 →
      (processFrameScores scoreResults).averageScore =
        mathRound (((scoreResults.filter isValidScore).map fun r => r.score).sum /
          (scoreResults.filter isValidScore).length) ∧
      ((scoreResults.filter isValidScore).map fun r => r.score).sum /
          (scoreResults.filter isValidScore).length - 1 / 2 <
        (processFrameScores scoreResults).averageScore ∧
      ((processFrameScores scoreResults).averageScore : ℚ) ≤
        ((scoreResults.filter isValidScore).map fun r => r.score).sum /
          (scoreResults.filter isValidScore).length + 1 / 2) ∧
    processFrameScores
      [{ score := 80 }, { score := 70 }, { score := 0, code := "NO_KEYPOINT" }, { score := 90 },
        { score := 60 }] =
    { averageScore := 75, validFrames := 4, totalFrames := 5,
      stats := { total := 5, valid := 4, failed := 1, noKeypoint := 1 },
      validScores := some [{ score := 80 }, { score := 70 }, { score := 90 }, { score := 60 }] } ∧
    ∀ pick : Nat → Nat, ∃ s,
      (batchProcessFrames ["f0.jpg", "f1.jpg", "f2.jpg", "f3.jpg", "f4.jpg"] "tree" {}
        (fun i _ => .resolved
          { score := [80, 70, 0, 90, 60].getD i 0,
            code := if i = 2 then "NO_KEYPOINT" else "SUCCESS" })
        (fun _ _ => 0) pick).outcome = some (.resolved s) ∧
      s.averageScore = 75 ∧ s.validFrames = 4 ∧ s.totalFrames = 5 := by
  have hfilter : ([{ score := 80 }, { score := 70 }, { score := 0, code := "NO_KEYPOINT" },
      { score := 90 }, { score := 60 }] : List UploadOutcome).filter isValidScore =
      [{ score := 80 }, { score := 70 }, { score := 90 }, { score := 60 }] := by decide
  have hexample : processFrameScores
      [{ score := 80 }, { score := 70 }, { score := 0, code := "NO_KEYPOINT" }, { score := 90 },
        { score := 60 }] =
      { averageScore := 75, validFrames := 4, totalFrames := 5,
        stats := { total := 5, valid := 4, failed := 1, noKeypoint := 1 },
        validScores :=
          some [{ score := 80 }, { score := 70 }, { score := 90 }, { score := 60 }] } := by
    have havg := processFrameScores_whole
      [{ score := 80 }, { score := 70 }, { score := 0, code := "NO_KEYPOINT" }, { score := 90 },
        { score := 60 }]
      (by
        rw [hfilter]
        intro r hr
        simp only [List.mem_cons, List.mem_singleton, List.not_mem_nil, or_false] at hr
        rcases hr with rfl | rfl | rfl | rfl
        · exact ⟨80, by norm_num⟩
        · exact ⟨70, by norm_num⟩
        · exact ⟨90, by norm_num⟩
        · exact ⟨60, by norm_num⟩)
      (by rw [hfilter]; norm_num)
      (by rw [hfilter]; decide)
    have h75 : mathRound ((([{ score := 80 }, { score := 70 }, { score := 90 },
        { score := 60 }] : List UploadOutcome).map fun r => r.score).sum /
        (([{ score := 80 }, { score := 70 }, { score := 90 },
          { score := 60 }] : List UploadOutcome).length : ℕ)) = 75 := by
      unfold mathRound
      rw [Int.floor_eq_iff]
      constructor <;> norm_num
    rw [hfilter, h75] at havg
    rw [processFrameScores_of_valid _ (by rw [hfilter]; decide)] at havg ⊢
    simp only at havg
    rw [havg, hfilter]
    decide
  refine ⟨?_, ?_, ?_, ?_, ?_, ?_, hexample, ?_⟩
  · intro r
    simp [List.mem_filter, isValidScore]
  · unfold processFrameScores
    simp only []
    split
    · rename_i h; simp [h]
    · rfl
  · unfold processFrameScores
    simp only []
    split <;> rfl
  · intro h
    simp [processFrameScores, h]
  · intro h
    rw [processFrameScores_of_valid _ h]
  · intro hwhole hsum h
    rw [processFrameScores_whole scoreResults hwhole hsum h]
    exact ⟨rfl, mathRound_near _⟩
  · intro pick
    obtain ⟨s, hs⟩ := batch_resolves_when_skipping
      ["f0.jpg", "f1.jpg", "f2.jpg", "f3.jpg", "f4.jpg"] "tree" {}
      (fun i _ => .resolved
        { score := [80, 70, 0, 90, 60].getD i 0,
          code := if i = 2 then "NO_KEYPOINT" else "SUCCESS" })
      (fun _ _ => 0) pick (by decide) rfl
    obtain ⟨h1, h2, h3⟩ := batch_summary_scores _ _ _ _ _ _ s hs
    have hfed : (s.rawResults.filterMap fun r => r.result) =
        [{ score := 80 }, { score := 70 }, { score := 0, code := "NO_KEYPOINT" },
          { score := 90 }, { score := 60 }] := by
      rw [h1]
      decide
    rw [hfed, hexample] at h3
    simp only [Prod.mk.injEq] at h3
    exact ⟨s, hs, h3.1, h3.2.1, h2⟩

/-- Witness for C12: two valid frames with the scores 3 and 4 have the mean 3.5,
and `averageScore` is 4. -/
theorem processFrameScores_whole_scores_witness :
    (processFrameScores [{ score := 3 }, { score := 4 }]).averageScore = 4 := by
  have hfilter : ([{ score := 3 }, { score := 4 }] : List UploadOutcome).filter isValidScore =
      [{ score := 3 }, { score := 4 }] := by decide
  have h := ((processFrameScores_whole_scores [{ score := 3 }, { score := 4 }]).2.2.2.2.2.1
    (by
      rw [hfilter]
      intro r hr
      simp only [List.mem_cons, List.mem_singleton, List.not_mem_nil, or_false] at hr
      rcases hr with rfl | rfl
      · exact ⟨3, by norm_num⟩
      · exact ⟨4, by norm_num⟩)
    (by rw [hfilter]; norm_num)
    (by rw [hfilter]; decide)).1
  rw [h, hfilter]
  unfold mathRound
  rw [Int.floor_eq_iff]
  constructor <;> norm_num

/-! ### The average of the valid scores -/

theorem exists_extreme_scores (l : List UploadOutcome) (h : l ≠ []) :
    ∃ lo ∈ l, ∃ hi ∈ l, ∀ r ∈ l, lo.score ≤ r.score ∧ r.score ≤ hi.score := by
  have hne : l.toFinset.Nonempty := by
    obtain ⟨x, hx⟩ := List.exists_mem_of_ne_nil l h
    exact ⟨x, List.mem_toFinset.mpr hx⟩
  obtain ⟨lo, hlo, hmin⟩ := l.toFinset.exists_min_image (fun r => r.score) hne
  obtain ⟨hi, hhi, hmax⟩ := l.toFinset.exists_max_image (fun r => r.score) hne
  exact ⟨lo, List.mem_toFinset.mp hlo, hi, List.mem_toFinset.mp hhi, fun r hr =>
    ⟨hmin r (List.mem_toFinset.mpr hr), hmax r (List.mem_toFinset.mpr hr)⟩⟩

theorem mean_between (l : List ℚ) (h : l ≠ []) (a b : ℚ) (hb : ∀ x ∈ l, a ≤ x ∧ x ≤ b) :
    a ≤ l.sum / l.length ∧ l.sum / l.length ≤ b := by
  have hlen : (0 : ℚ) < l.length := by
    have : 0 < l.length := List.length_pos.mpr h
    exact_mod_cast this
  have h1 : l.length • a ≤ l.sum := List.card_nsmul_le_sum l a fun x hx => (hb x hx).1
  have h2 : l.sum ≤ l.length • b := List.sum_le_card_nsmul l b fun x hx => (hb x hx).2
  rw [nsmul_eq_mul] at h1 h2
  constructor
  · rw [le_div_iff₀ hlen]; linarith
  · rw [div_le_iff₀ hlen]; linarith

theorem mathRound_between (x : ℚ) (a b : Int) (ha : (a : ℚ) ≤ x) (hb : x ≤ b) :
    a ≤ mathRound x ∧ mathRound x ≤ b := by
  unfold mathRound
  constructor
  · rw [Int.le_floor]; linarith
  · have : ⌊x + 1 / 2⌋ < b + 1 := by
      rw [Int.floor_lt]; push_cast; linarith
    omega

theorem filter_disjoint_length (l : List UploadOutcome) (p q : UploadOutcome → Bool)
    (h : ∀ r, p r = true → q r = false) :
    (l.filter p).length + (l.filter q).length ≤ l.length := by
  induction l with
  | nil => simp
  | cons x xs ih =>
    simp only [List.filter_cons, List.length_cons]
    cases hp : p x
    · cases hq : q x <;> simp <;> omega
    · have := h x hp
      simp [this]; omega

theorem averageScore_three (a b c : UploadOutcome) (ha : isValidScore a = true)
    (hb : isValidScore b = true) (hc : isValidScore c = true) :
    (processFrameScores [a, b, c]).averageScore =
      mathRound (binary64 (binary64 (binary64 (binary64 (0 + a.score) + b.score) + c.score) /
        3)) := by
  have hvalid : [a, b, c].filter isValidScore = [a, b, c] := by
    simp only [List.filter_cons, ha, hb, hc, if_true, List.filter_nil]
  rw [processFrameScores_of_valid _ (by rw [hvalid]; simp)]
  simp only [hvalid, List.foldl_cons, List.foldl_nil, List.length_cons, List.length_nil]
  norm_num

/-- C30, counterexample: three valid frames with the integer score
9007199254740990 (that is `2 ^ 53 - 2`).  The sum of the first two is exact; the
third addition has the exact result `3 * 2 ^ 53 - 6`, half way between two
binary64 numbers, and gives `3 * 2 ^ 53 - 8`; the quotient by 3 is rounded to
9007199254740989, and that is `averageScore`: below every score of the list. -/
theorem average_below_lowest_score :
    (processFrameScores [{ score := 9007199254740990 }, { score := 9007199254740990 },
      { score := 9007199254740990 }]).averageScore = 9007199254740989 ∧
    ∀ r ∈ ([{ score := 9007199254740990 }, { score := 9007199254740990 },
      { score := 9007199254740990 }] : List UploadOutcome),
      (∃ z : Int, r.score = z) ∧ isValidScore r = true ∧
      (((processFrameScores [{ score := 9007199254740990 }, { score := 9007199254740990 },
        { score := 9007199254740990 }]).averageScore : Int) : ℚ) < r.score := by
  have hv : isValidScore { score := 9007199254740990 } = true := by
    simp [isValidScore]
  have hs1 : binary64 ((0 : ℚ) + 9007199254740990) = 9007199254740990 := by
    rw [zero_add]
    simpa using binary64_natCast 9007199254740990 (by norm_num)
  have hs2 : binary64 ((9007199254740990 : ℚ) + 9007199254740990) = 18014398509481980 := by
    rw [binary64_of_exponent _ 53 9007199254740990 (by norm_num) (by norm_num) (by norm_num)
      (by norm_num) (by
        have e : ((9007199254740990 : ℚ) + 9007199254740990) / 2 ^ ((53 : ℤ) - 52) =
            ((9007199254740990 : ℤ) : ℚ) := by norm_num
        rw [e, roundHalfEven_intCast])]
    norm_num
  have hs3 : binary64 ((18014398509481980 : ℚ) + 9007199254740990) = 27021597764222968 := by
    rw [binary64_of_exponent _ 54 6755399441055742 (by norm_num) (by norm_num) (by norm_num)
      (by norm_num) (by
        have e : ((18014398509481980 : ℚ) + 9007199254740990) / 2 ^ ((54 : ℤ) - 52) =
            ((6755399441055742 : ℤ) : ℚ) + 1 / 2 := by norm_num
        rw [e, roundHalfEven_tie]
        norm_num)]
    norm_num
  have hq : binary64 ((27021597764222968 : ℚ) / 3) = 9007199254740989 := by
    rw [binary64_of_exponent _ 52 9007199254740989 (by norm_num) (by norm_num) (by norm_num)
      (by norm_num) (roundHalfEven_down _ _ (by norm_num) (by norm_num))]
    norm_num
  have havg : (processFrameScores [{ score := 9007199254740990 }, { score := 9007199254740990 },
      { score := 9007199254740990 }]).averageScore = 9007199254740989 := by
    have hsc : ({ score := 9007199254740990 } : UploadOutcome).score = 9007199254740990 := rfl
    rw [averageScore_three _ _ _ hv hv hv, hsc, hs1, hs2, hs3, hq]
    unfold mathRound
    rw [Int.floor_eq_iff]
    constructor <;> norm_num
  refine ⟨havg, ?_⟩
  intro r hr
  simp only [List.mem_cons, List.mem_singleton, List.not_mem_nil, or_false, or_self] at hr
  subst hr
  refine ⟨⟨9007199254740990, by norm_num⟩, hv, ?_⟩
  rw [havg]
  norm_num

/-- C30, amended: on frame results with integer scores of which one at least is
valid and whose valid scores have a sum below `2 ^ 53`, `processFrameScores`
returns an `averageScore` that lies between the lowest and the highest valid
score, hence is positive; `validFrames + stats.failed` is `totalFrames`, and
`stats.noKeypoint` is at most `stats.failed`. -/
theorem processFrameScores_safe_average_bounds (scoreResults : List UploadOutcome)
    (hint : ∀ r ∈ scoreResults, ∃ z : Int, r.score = z)
    (hvalid : ∃ r ∈ scoreResults, isValidScore r = true)
    (hsum : ((scoreResults.filter isValidScore).map fun r => r.score).sum < 2 ^ 53) :
    (∃ lo ∈ scoreResults.filter isValidScore, ∃ hi ∈ scoreResults.filter isValidScore,
      (∀ r ∈ scoreResults.filter isValidScore, lo.score ≤ r.score ∧ r.score ≤ hi.score) ∧
      lo.score ≤ (processFrameScores scoreResults).averageScore ∧
      ((processFrameScores scoreResults).averageScore : ℚ) ≤ hi.score) ∧
    0 < (processFrameScores scoreResults).averageScore ∧
    (processFrameScores scoreResults).validFrames + (processFrameScores scoreResults).stats.failed
      = (processFrameScores scoreResults).totalFrames ∧
    (processFrameScores scoreResults).stats.noKeypoint ≤
      (processFrameScores scoreResults).stats.failed := by
  obtain ⟨r0, hr0, hv0⟩ := hvalid
  have hmem : r0 ∈ scoreResults.filter isValidScore := List.mem_filter.mpr ⟨hr0, hv0⟩
  have hne : scoreResults.filter isValidScore ≠ [] := List.ne_nil_of_mem hmem
  have hlen : (scoreResults.filter isValidScore).length ≠ 0 := by
    simpa [List.length_eq_zero] using hne
  have hle : (scoreResults.filter isValidScore).length ≤ scoreResults.length :=
    List.length_filter_le _ _
  have hwhole : ∀ r ∈ scoreResults.filter isValidScore, ∃ n : ℕ, r.score = n := by
    intro r hr
    obtain ⟨z, hz⟩ := hint r (List.mem_filter.mp hr).1
    have hpos := (List.mem_filter.mp hr).2
    simp only [isValidScore, Bool.and_eq_true, decide_eq_true_eq] at hpos
    have hz0 : 0 < z := by
      have := hpos.2
      rw [hz] at this
      exact_mod_cast this
    refine ⟨z.toNat, ?_⟩
    rw [hz]
    have : ((z.toNat : ℤ) : ℚ) = z := by rw [Int.toNat_of_nonneg (le_of_lt hz0)]
    exact_mod_cast this.symm
  obtain ⟨lo, hlo, hi, hhi, hext⟩ := exists_extreme_scores _ hne
  obtain ⟨zlo, hzlo⟩ := hint lo (List.mem_filter.mp hlo).1
  obtain ⟨zhi, hzhi⟩ := hint hi (List.mem_filter.mp hhi).1
  have hmean := mean_between ((scoreResults.filter isValidScore).map fun r => r.score)
    (by simpa using hne) lo.score hi.score (by
      intro x hx
      obtain ⟨r, hr, rfl⟩ := List.mem_map.mp hx
      exact hext r hr)
  rw [List.length_map] at hmean
  have hpos : 0 < lo.score := by
    have := (List.mem_filter.mp hlo).2
    simp only [isValidScore, Bool.and_eq_true, decide_eq_true_eq] at this
    exact this.2
  have hzpos : 0 < zlo := by
    rw [hzlo] at hpos
    exact_mod_cast hpos
  have hlo1 : (1 : ℚ) ≤ lo.score := by
    rw [hzlo]
    have : 1 ≤ zlo := by omega
    exact_mod_cast this
  have hlenpos : (1 : ℚ) ≤ (scoreResults.filter isValidScore).length := by
    have : 1 ≤ (scoreResults.filter isValidScore).length := Nat.pos_of_ne_zero hlen
    exact_mod_cast this
  have hsum0 : 0 ≤ ((scoreResults.filter isValidScore).map fun r => r.score).sum :=
    le_trans (Nat.cast_nonneg _) (valid_sum_ge_length scoreResults hwhole)
  have hmean53 : ((scoreResults.filter isValidScore).map fun r => r.score).sum /
      (scoreResults.filter isValidScore).length < 2 ^ 53 := by
    refine lt_of_le_of_lt ?_ hsum
    rw [div_le_iff₀ (by linarith)]
    nlinarith
  have hfold := foldl_binary64_sum _ hwhole 0 (by simpa using hsum)
  simp only [Nat.cast_zero, zero_add] at hfold
  have havg : (processFrameScores scoreResults).averageScore =
      mathRound (binary64 (((scoreResults.filter isValidScore).map fun r => r.score).sum /
        (scoreResults.filter isValidScore).length)) := by
    rw [processFrameScores_of_valid _ hlen]
    simp only
    rw [hfold]
  have hb := binary64_between _ (le_trans hlo1 hmean.1) hmean53 zlo zhi
    (hzlo ▸ hmean.1) (hzhi ▸ hmean.2)
  have hbetween := mathRound_between _ zlo zhi hb.1 hb.2
  refine ⟨⟨lo, hlo, hi, hhi, hext, ?_, ?_⟩, ?_, ?_, ?_⟩
  · rw [havg, hzlo]; exact_mod_cast hbetween.1
  · rw [havg, hzhi]; exact_mod_cast hbetween.2
  · rw [havg]; omega
  · rw [processFrameScores_of_valid _ hlen]
    simp only
    omega
  · have := filter_disjoint_length scoreResults
      (fun r => decide (r.code = "NO_KEYPOINT")) isValidScore (by
        intro r hr
        simp only [decide_eq_true_eq] at hr
        simp [isValidScore, hr])
    rw [processFrameScores_of_valid _ hlen]
    simp only
    omega

/-- Witness for C30: the five frames of the batch example, one of them without
keypoints. -/
theorem processFrameScores_safe_average_bounds_witness :
    0 < (processFrameScores
      [{ score := 80 }, { score := 70 }, { score := 0, code := "NO_KEYPOINT" }, { score := 90 },
        { score := 60 }]).averageScore ∧
    (processFrameScores
      [{ score := 80 }, { score := 70 }, { score := 0, code := "NO_KEYPOINT" }, { score := 90 },
        { score := 60 }]).stats.noKeypoint ≤
    (processFrameScores
      [{ score := 80 }, { score := 70 }, { score := 0, code := "NO_KEYPOINT" }, { score := 90 },
        { score := 60 }]).stats.failed :=
  have h := processFrameScores_safe_average_bounds
    [{ score := 80 }, { score := 70 }, { score := 0, code := "NO_KEYPOINT" }, { score := 90 },
      { score := 60 }]
    (by
      intro r hr
      simp only [List.mem_cons, List.mem_singleton, List.not_mem_nil, or_false] at hr
      rcases hr with rfl | rfl | rfl | rfl | rfl
      · exact ⟨80, by norm_num⟩
      · exact ⟨70, by norm_num⟩
      · exact ⟨0, by norm_num⟩
      · exact ⟨90, by norm_num⟩
      · exact ⟨60, by norm_num⟩)
    ⟨{ score := 80 }, by simp, by decide⟩
    (by
      have hfilter : ([{ score := 80 }, { score := 70 }, { score := 0, code := "NO_KEYPOINT" },
          { score := 90 }, { score := 60 }] : List UploadOutcome).filter isValidScore =
          [{ score := 80 }, { score := 70 }, { score := 90 }, { score := 60 }] := by decide
      rw [hfilter]
      norm_num)
  ⟨h.2.1, h.2.2.2⟩

/-! ### The longest wait -/

theorem computeDelay_upper {σ : Type} (o : RetryOptions σ) (i : Nat) (r : ℚ)
    (hr : 0 ≤ r ∧ r < 1) (hbase : 0 < o.baseDelay) (hmax : o.baseDelay ≤ o.maxDelay)
    (hfactor : 1 ≤ o.backoffFactor) :
    (o.jitter = false → computeDelay o i r ≤ o.maxDelay) ∧
    computeDelay o i r < 5 / 4 * o.maxDelay := by
  have hpow : 1 ≤ o.backoffFactor ^ i := one_le_pow₀ hfactor
  have hd : o.baseDelay ≤ min (o.baseDelay * o.backoffFactor ^ i) o.maxDelay := by
    apply le_min _ hmax
    nlinarith
  have hd' : min (o.baseDelay * o.backoffFactor ^ i) o.maxDelay ≤ o.maxDelay := min_le_right _ _
  have hmaxpos : 0 < o.maxDelay := lt_of_lt_of_le hbase hmax
  constructor
  · intro hj
    rw [computeDelay_no_jitter o hj]
    exact hd'
  · unfold computeDelay
    simp only
    generalize min (o.baseDelay * o.backoffFactor ^ i) o.maxDelay = d at hd hd'
    have hdpos : 0 < d := lt_of_lt_of_le hbase hd
    split
    · apply max_lt
      · have : (1 - r) * d > 0 := mul_pos (by linarith) hdpos
        nlinarith
      · linarith
    · linarith

/-- C26, counterexample: base delay 1000, `maxDelay` 1000, factor 2, jitter on
(the default) and a draw of 0.9: after the first failure `retryWithBackoff`
waits 1200 ms, more than `maxDelay`. -/
theorem jitter_exceeds_maxDelay :
    (retryScript (fun _ => (Settled.rejected { code := some "NETWORK_ERROR" } : Settled Unit))
      { maxRetries := 1, baseDelay := 1000, maxDelay := 1000, backoffFactor := 2 }
      fun _ => 9 / 10).sleeps = [1200] ∧
    (1000 : ℚ) < 1200 := by
  constructor
  · simp [retryScript, retryWithBackoff, retryLoop, retryBody, scriptedFn, liftOptions,
      computeDelay, Run.sleeps, RetryEvent.delay?]
    norm_num
  · norm_num

/-- C26, amended: for options with `0 < baseDelay <= maxDelay` and
`backoffFactor >= 1` and draws in [0,1), every delay `retryWithBackoff` waits is
at most `maxDelay` when `jitter` is off, and below `1.25 * maxDelay` in any
case: the jitter of up to 25% is added after the cap. -/
theorem retryWithBackoff_delay_cap {σ α : Type} (fn : σ → Settled α × σ) (o : RetryOptions σ)
    (sleep : ℚ → σ → σ) (rnd : Nat → ℚ) (w : σ)
    (hrnd : ∀ i, 0 ≤ rnd i ∧ rnd i < 1) (hbase : 0 < o.baseDelay)
    (hmax : o.baseDelay ≤ o.maxDelay) (hfactor : 1 ≤ o.backoffFactor) :
    (∀ d ∈ (retryWithBackoff fn o sleep rnd w).sleeps,
      (o.jitter = false → d ≤ o.maxDelay) ∧ d < 5 / 4 * o.maxDelay) ∧
    ∀ i : Nat, (o.jitter = false → computeDelay o i (rnd i) ≤ o.maxDelay) ∧
      computeDelay o i (rnd i) < 5 / 4 * o.maxDelay := by
  constructor
  · intro d hd
    have := retryLoop_sleeps o fn sleep rnd o.maxRetries 0 w
    unfold retryWithBackoff at hd
    rw [this] at hd
    obtain ⟨i, _, rfl⟩ := List.mem_map.mp hd
    exact computeDelay_upper o i (rnd i) (hrnd i) hbase hmax hfactor
  · intro i
    exact computeDelay_upper o i (rnd i) (hrnd i) hbase hmax hfactor

/-- Witness for C26: the `UPLOAD` preset at attempt 3, where the cap of 15000
applies, with a draw of 0.9. -/
theorem retryWithBackoff_delay_cap_witness :
    computeDelay (liftOptions (σ := Nat) RetryStrategies.UPLOAD) 3 (9 / 10) <
      5 / 4 * (liftOptions (σ := Nat) RetryStrategies.UPLOAD).maxDelay :=
  ((retryWithBackoff_delay_cap
    (scriptedFn fun _ => (Settled.rejected { code := some "UPLOAD_FAILED" } : Settled Nat))
    (liftOptions RetryStrategies.UPLOAD) (fun _ w => w) (fun _ => 9 / 10) 0
    (fun _ => by norm_num) (by norm_num [liftOptions, RetryStrategies.UPLOAD])
    (by norm_num [liftOptions, RetryStrategies.UPLOAD])
    (by norm_num [liftOptions, RetryStrategies.UPLOAD])).2 3).2

/-! ### The controller handed to the operation -/

theorem cancel_controller (depth : Nat) : ∀ s : CancelState, s.currentController = true →
    (cancel depth s).2 = false ∧ (cancel depth s).1.currentController = true := by
  induction depth with
  | zero => intro s h; exact ⟨rfl, h⟩
  | succ n ih =>
    intro s h
    simp only [cancel, h, if_true]
    exact ih _ rfl

theorem cancel_no_controller (depth : Nat) (s : CancelState) (h : s.currentController = false) :
    cancel (depth + 1) s = ({ s with cancelled := true }, true) := by
  simp [cancel, h]

/-- C25, what the code does: once an attempt of an operation that declares a
parameter (`fn.length > 0`) has started, `currentController` is the object
`{ abort: cancel }`; a call of `cancel` (or of the controller's `abort`, the same
function) then sets `cancelled` and calls itself again, and so on: whatever
the stack, the call does not return but ends when the stack is used up.  For
an operation without a parameter the call returns at once with `cancelled`
set. -/
theorem cancel_with_controller_never_returns {α : Type} (fn : Nat → Settled α)
    (fnLength : Nat) (sched : CancelSchedule) (w : CancelState)
    (hlive : w.cancelled = false) (hquiet : sched.duringAttempt w.attempts = false) :
    (0 < fnLength →
      (cancellableFn fn fnLength sched w).2.currentController = true ∧
      ∀ depth, (cancel depth (cancellableFn fn fnLength sched w).2).2 = false ∧
        (0 < depth → (cancel depth (cancellableFn fn fnLength sched w).2).1.cancelled = true)) ∧
    (fnLength = 0 → w.currentController = false →
      ∀ depth, (cancel (depth + 1) (cancellableFn fn fnLength sched w).2).2 = true ∧
        (cancel (depth + 1) (cancellableFn fn fnLength sched w).2).1.cancelled = true) := by
  constructor
  · intro hlen
    have hc : (cancellableFn fn fnLength sched w).2.currentController = true := by
      simp [cancellableFn, hlive, hquiet, hlen]
    exact ⟨hc, fun depth => ⟨(cancel_controller depth _ hc).1, (cancel_spec depth _).2.2.2⟩⟩
  · intro hlen hnone depth
    have hc : (cancellableFn fn fnLength sched w).2.currentController = false := by
      simp [cancellableFn, hlive, hquiet, hlen, hnone]
    rw [cancel_no_controller depth _ hc]
    exact ⟨rfl, rfl⟩

/-- Witness for C25: an operation with one parameter, first attempt started,
then `cancel()` with a stack of 1000 frames. -/
theorem cancel_with_controller_never_returns_witness :
    (cancel 1000 (cancellableFn (fun _ => (Settled.resolved 1 : Settled Nat)) 1 {} {}).2).2
      = false :=
  (((cancel_with_controller_never_returns (fun _ => (Settled.resolved 1 : Settled Nat)) 1 {} {}
    rfl rfl).1 (by decide)).2 1000).1

/-! ### Stepping through a sequence -/

theorem durationAt_inside (poses : List Pose) (index : Int) (h0 : 0 ≤ index)
    (h1 : index < poses.length) :
    ∃ pose, poses[index.toNat]? = some pose ∧ durationAt poses index = .returned pose.duration := by
  have hlt : index.toNat < poses.length := by omega
  refine ⟨poses[index.toNat], List.getElem?_eq_getElem hlt, ?_⟩
  simp [durationAt, elementAt, h0, List.getElem?_eq_getElem hlt]

theorem durationAt_outside (poses : List Pose) (index : Int)
    (h : index < 0 ∨ (poses.length : Int) ≤ index) :
    durationAt poses index = .thrown "TypeError" := by
  unfold durationAt elementAt
  rcases h with h | h
  · rw [if_neg (by omega)]
  · have hge : poses.length ≤ index.toNat := by omega
    rw [if_pos (by omega), List.getElem?_eq_none hge]

/-- C23, what the code does: with a missing sequence or missing `poses` both
functions return `null`.  With `poses` present, `nextPose` returns `null` from
the last index on, the step to `index + 1` with the duration of that pose for
`-1 <= index < length - 1`, and throws a `TypeError` for every index below -1;
`previousPose` returns `null` for every index up to 0, the step to `index - 1`
for `1 <= index <= length`, and throws a `TypeError` for every index above
`length`. -/
theorem pose_step_outside_range (id : String) (poses : List Pose) (index : Int) :
    nextPose none index = .returned none ∧
    previousPose none index = .returned none ∧
    nextPose (some { id := id, poses := none }) index = .returned none ∧
    previousPose (some { id := id, poses := none }) index = .returned none ∧
    ((poses.length : Int) - 1 ≤ index →
      nextPose (some { id := id, poses := some poses }) index = .returned none) ∧
    (-1 ≤ index → index < (poses.length : Int) - 1 →
      ∃ pose, poses[(index + 1).toNat]? = some pose ∧
        nextPose (some { id := id, poses := some poses }) index =
          .returned
            (some { currentPoseIndex_new := index + 1, timeRemaining_new := pose.duration })) ∧
    (index < -1 →
      nextPose (some { id := id, poses := some poses }) index = .thrown "TypeError") ∧
    (index ≤ 0 →
      previousPose (some { id := id, poses := some poses }) index = .returned none) ∧
    (1 ≤ index → index ≤ poses.length →
      ∃ pose, poses[(index - 1).toNat]? = some pose ∧
        previousPose (some { id := id, poses := some poses }) index =
          .returned
            (some { currentPoseIndex_new := index - 1, timeRemaining_new := pose.duration })) ∧
    ((poses.length : Int) < index →
      previousPose (some { id := id, poses := some poses }) index = .thrown "TypeError") := by
  refine ⟨rfl, rfl, rfl, rfl, ?_, ?_, ?_, ?_, ?_, ?_⟩
  · intro h
    simp only [nextPose]
    rw [if_neg (by omega)]
  · intro h0 h1
    obtain ⟨pose, hp, hd⟩ := durationAt_inside poses (index + 1) (by omega) (by omega)
    refine ⟨pose, hp, ?_⟩
    simp only [nextPose]
    rw [if_pos h1, hd]
  · intro h
    simp only [nextPose]
    rw [if_pos (by omega), durationAt_outside poses (index + 1) (Or.inl (by omega))]
  · intro h
    simp only [previousPose]
    rw [if_neg (by omega)]
  · intro h0 h1
    obtain ⟨pose, hp, hd⟩ := durationAt_inside poses (index - 1) (by omega) (by omega)
    refine ⟨pose, hp, ?_⟩
    simp only [previousPose]
    rw [if_pos (by omega), hd]
  · intro h
    simp only [previousPose]
    have h0 : (0 : Int) ≤ poses.length := Int.natCast_nonneg _
    rw [if_pos (by omega), durationAt_outside poses (index - 1) (Or.inr (by omega))]

/-- Witness for C23: a sequence of three poses; `nextPose` at index -2 and
`previousPose` at index 5 throw. -/
theorem pose_step_outside_range_witness :
    nextPose (some { id := "s", poses := some [{ duration := 30 }, { duration := 45 },
      { duration := 60 }] }) (-2) = .thrown "TypeError" ∧
    previousPose (some { id := "s", poses := some [{ duration := 30 }, { duration := 45 },
      { duration := 60 }] }) 5 = .thrown "TypeError" :=
  ⟨(pose_step_outside_range "s" [{ duration := 30 }, { duration := 45 }, { duration := 60 }]
      (-2)).2.2.2.2.2.2.1 (by decide),
   (pose_step_outside_range "s" [{ duration := 30 }, { duration := 45 }, { duration := 60 }]
      5).2.2.2.2.2.2.2.2.2 (by decide)⟩

/-! ### The options a batch reads -/

theorem frameTask_options (framePaths : List String) (poseId : String)
    (options options' : BatchOptions) (h : options.enableRetry = options'.enableRetry)
    (index : Nat) :
    frameTask framePaths poseId options index = frameTask framePaths poseId options' index := by
  simp [frameTask, h]

theorem submitFrames_options (poseId : String) (options options' : BatchOptions)
    (h : options.enableRetry = options'.enableRetry) (total : Nat) (rest : List String) :
    ∀ (index : Nat) (m : UploadManager),
      submitFrames poseId options total index rest m =
        submitFrames poseId options' total index rest m := by
  induction rest with
  | nil => intro index m; rfl
  | cons framePath rest ih =>
    intro index m
    simp only [submitFrames, h]
    exact ih _ _

theorem awaitUploads_options (framePaths : List String) (poseId : String)
    (options options' : BatchOptions) (uploads : Nat → Nat → Settled UploadOutcome)
    (rnd : Nat → Nat → ℚ) (pick : Nat → Nat)
    (h : options.enableRetry = options'.enableRetry)
    (hskip : options.skipFailedFrames = options'.skipFailedFrames) (fuel : Nat) :
    ∀ (k : Nat) (m : UploadManager),
      awaitUploads framePaths poseId options uploads rnd pick fuel k m =
        awaitUploads framePaths poseId options' uploads rnd pick fuel k m := by
  induction fuel with
  | zero => intro k m; rfl
  | succ fuel ih =>
    intro k m
    unfold awaitUploads
    simp only [frameTask_options framePaths poseId options options' h, hskip, ih]

theorem batchProcessFrames_options (framePaths : List String) (poseId : String)
    (options options' : BatchOptions) (uploads : Nat → Nat → Settled UploadOutcome)
    (rnd : Nat → Nat → ℚ) (pick : Nat → Nat)
    (hc : options.concurrency = options'.concurrency)
    (h : options.enableRetry = options'.enableRetry)
    (hskip : options.skipFailedFrames = options'.skipFailedFrames) :
    batchProcessFrames framePaths poseId options uploads rnd pick =
      batchProcessFrames framePaths poseId options' uploads rnd pick := by
  unfold batchProcessFrames
  simp only [hc, h, submitFrames_options poseId options options' h,
    awaitUploads_options framePaths poseId options options' uploads rnd pick h hskip]

theorem uploadRun_calls_le (m : UploadManager) (t : UploadTaskInfo)
    (uploads : Nat → Settled UploadOutcome) (sched : CancelSchedule) (rnd : Nat → ℚ) :
    (m.uploadRun t uploads sched rnd).calls ≤ m.retryOptions.maxRetries + 1 := by
  unfold UploadManager.uploadRun
  split
  · exact retryLoop_calls_le _ _ _ _ _ _ _
  · simp [Run.calls, RetryEvent.isInvoked]

/-- C28: the option `maxRetries` of `batchProcessFrames` is never read.  Two
calls whose options differ in `maxRetries` only are the same call: same
summary, same manager with the same notifications (the `retry` events
included), same results and errors collected.  The upload run of a frame is
the same too; it retries under the `UPLOAD` preset, whose `maxRetries` is 2,
so a frame is uploaded at most 3 times whatever the option says, and 3 times
under `maxRetries: 0` when every upload is rejected with `UPLOAD_FAILED`. -/
theorem batch_maxRetries_ignored (framePaths : List String) (poseId : String)
    (options : BatchOptions) (uploads : Nat → Nat → Settled UploadOutcome) (rnd : Nat → Nat → ℚ)
    (pick : Nat → Nat) (maxRetries : Nat) :
    batchProcessFrames framePaths poseId { options with maxRetries := maxRetries } uploads rnd
        pick =
      batchProcessFrames framePaths poseId options uploads rnd pick ∧
    (∀ index,
      (UploadManager.create options.concurrency 10000 options.enableRetry "UPLOAD").uploadRun
        (frameTask framePaths poseId { options with maxRetries := maxRetries } index)
        (uploads index) {} (rnd index) =
      (UploadManager.create options.concurrency 10000 options.enableRetry "UPLOAD").uploadRun
        (frameTask framePaths poseId options index) (uploads index) {} (rnd index) ∧
      ((UploadManager.create options.concurrency 10000 options.enableRetry "UPLOAD").uploadRun
        (frameTask framePaths poseId options index) (uploads index) {} (rnd index)).calls ≤ 3) ∧
    (UploadManager.create options.concurrency 10000 options.enableRetry
      "UPLOAD").retryOptions.maxRetries = 2 ∧
    ((UploadManager.create 3 10000 true "UPLOAD").uploadRun
      (frameTask ["a.jpg"] "tree" { maxRetries := 0 } 0)
      (fun _ => .rejected { code := some "UPLOAD_FAILED" }) {} (fun _ => 0)).calls = 3 := by
  refine ⟨batchProcessFrames_options _ _ _ _ _ _ _ rfl rfl rfl, fun index => ⟨?_, ?_⟩, rfl, ?_⟩
  · rw [frameTask_options framePaths poseId { options with maxRetries := maxRetries } options rfl]
  · exact uploadRun_calls_le _ _ _ _ _
  · decide

/-! ### Cleanup timers -/

namespace UploadManager

theorem executeTaskResume_timer (m : UploadManager) (id : TaskId)
    (outcome : Settled UploadOutcome) (hrun : id ∈ m.running) :
    (m._executeTaskResume id outcome).cleanupTimers = m.cleanupTimers ++ [id] := by
  simp only [_executeTaskResume, if_pos hrun, _scheduleCleanup, _processQueue,
    processQueueLoop_cleanupTimers]
  cases outcome <;> simp

theorem cleanupFired_evicts (m : UploadManager) (id : TaskId) (t : UploadTaskInfo)
    (htimer : id ∈ m.cleanupTimers) (hget : m.tasks.get id = some t)
    (hterminal : t.status.isTerminal = true) :
    (m.cleanupFired id).tasks.get id = none := by
  simp [cleanupFired, htimer, hget, hterminal, notifyListeners, TaskMap.get_delete]

end UploadManager

/-- C21, what the code does: `_scheduleCleanup` is called from the `finally`
block of `_executeTask` only.  A task whose upload ends gets its timer, and the
timer removes a task in a terminal status from the map.  A task cancelled while
it waits in the queue gets none: `cancelTask` sets no timer, the task is never
executed, and after any later operations (other than a new `addTask` of the id)
it still has no timer and is still in the map with status `CANCELLED`. -/
theorem cancelled_queued_task_never_evicted (maxConcurrent : ℚ) (autoCleanMs : ℚ)
    (enableRetry : Bool) (retryStrategy : String) (ops later : List Op) (taskId : TaskId)
    (hunique : (ops.filterMap Op.addedId).Nodup)
    (hqueued : taskId ∈
      ((UploadManager.create maxConcurrent autoCleanMs enableRetry retryStrategy).run ops).queue)
    (hlater : ∀ op ∈ later, op.addedId ≠ some taskId) :
    taskId ∉ (((UploadManager.create maxConcurrent autoCleanMs enableRetry retryStrategy).run
      ops).cancelTask taskId).1.cleanupTimers ∧
    (((UploadManager.create maxConcurrent autoCleanMs enableRetry retryStrategy).run
      ops).cancelTask taskId).1.statusOf taskId = some .CANCELLED ∧
    taskId ∉ ((((UploadManager.create maxConcurrent autoCleanMs enableRetry retryStrategy).run
      ops).cancelTask taskId).1.run later).cleanupTimers ∧
    ((((UploadManager.create maxConcurrent autoCleanMs enableRetry retryStrategy).run
      ops).cancelTask taskId).1.run later).statusOf taskId = some .CANCELLED ∧
    (∀ (m : UploadManager) (id : TaskId) (outcome : Settled UploadOutcome), id ∈ m.running →
      id ∈ (m._executeTaskResume id outcome).cleanupTimers) ∧
    (∀ (m : UploadManager) (id : TaskId) (t : UploadTaskInfo), id ∈ m.cleanupTimers →
      m.tasks.get id = some t → t.status.isTerminal = true →
      (m.cleanupFired id).tasks.get id = none) := by
  obtain ⟨used, hcons⟩ := UploadManager.reachable_consistent maxConcurrent autoCleanMs
    enableRetry retryStrategy ops hunique
  have hw := (hcons.cancel_queued hqueued).2
  have hw' := UploadManager.Withdrawn.stays_run later _ hw hlater
  refine ⟨hw.2.2.1, hw.2.2.2, hw'.2.2.1, hw'.2.2.2, ?_, ?_⟩
  · intro m id outcome hrun
    rw [UploadManager.executeTaskResume_timer m id outcome hrun]
    simp
  · intro m id t htimer hget hterminal
    exact UploadManager.cleanupFired_evicts m id t htimer hget hterminal

/-- Witness for C21: one slot, `b` cancelled while it waits; `a` ends and every
timer fires: `a` is gone from the map, `b` is still there. -/
theorem cancelled_queued_task_never_evicted_witness :
    ((((UploadManager.create 1 10000 true "UPLOAD").run
      [.addTask "a" "a.jpg" "tree" 0 false, .addTask "b" "b.jpg" "tree" 0 false]).cancelTask
        "b").1.run [.settle "a" (.resolved { score := 80 }), .cleanup "a",
          .cleanup "b"]).statusOf "b" = some .CANCELLED ∧
    ((((UploadManager.create 1 10000 true "UPLOAD").run
      [.addTask "a" "a.jpg" "tree" 0 false, .addTask "b" "b.jpg" "tree" 0 false]).cancelTask
        "b").1.run [.settle "a" (.resolved { score := 80 }), .cleanup "a",
          .cleanup "b"]).statusOf "a" = none :=
  ⟨(cancelled_queued_task_never_evicted 1 10000 true "UPLOAD"
    [.addTask "a" "a.jpg" "tree" 0 false, .addTask "b" "b.jpg" "tree" 0 false]
    [.settle "a" (.resolved { score := 80 }), .cleanup "a", .cleanup "b"] "b"
    (by decide) (by decide) (by decide)).2.2.2.1, by decide⟩

/-! ### Waiting only at the limit -/

namespace UploadManager

theorem processQueueLoop_waits (q : List TaskId) : ∀ m : UploadManager, m.queue = q →
    (processQueueLoop q m).queue ≠ [] →
    (processQueueLoop q m).maxConcurrent ≤ (processQueueLoop q m).activeCount := by
  induction q with
  | nil =>
    intro m hq hne
    exact absurd hq hne
  | cons hd tl ih =>
    intro m hq
    simp only [processQueueLoop]
    split
    · exact ih _ (by simp)
    · intro _
      linarith

theorem cleanupFired_queue (m : UploadManager) (id : TaskId) :
    (m.cleanupFired id).queue = m.queue := by
  unfold cleanupFired
  split
  · simp only
    split
    · split <;> rfl
    · rfl
  · rfl

theorem step_waits (m : UploadManager) (op : Op)
    (h : m.queue ≠ [] → m.maxConcurrent ≤ m.activeCount) :
    (m.step op).queue ≠ [] → (m.step op).maxConcurrent ≤ (m.step op).activeCount := by
  cases op with
  | addTask x filePath poseId priority skipRetry =>
    simp only [step, addTask, notifyListeners]
    split
    · rename_i hfull
      intro _
      simpa using hfull
    · rename_i hfree
      simp only [executeTask_queue]
      intro hne
      exact absurd (h hne) (by simpa using hfree)
  | progress x p =>
    simp only [step, progressUpdate]
    split
    · simpa using h
    · exact h
  | retry x attempt =>
    simp only [step, onRetry]
    split
    · simpa [notifyListeners] using h
    · exact h
  | settle x outcome =>
    simp only [step, _executeTaskResume]
    split
    · simp only [_scheduleCleanup, _processQueue]
      exact processQueueLoop_waits _ _ rfl
    · exact h
  | cancelTask x =>
    simp only [step, cancelTask_maxConcurrent, cancelTask_activeCount, cancelTask_queue]
    intro hne
    apply h
    intro hq
    apply hne
    rw [hq]
    split <;> rfl
  | cancelAllTasks =>
    intro hne
    exact absurd rfl hne
  | cleanup x =>
    simp only [step, cleanupFired_queue, cleanupFired_maxConcurrent, cleanupFired_activeCount]
    exact h

theorem run_waits (ops : List Op) : ∀ m : UploadManager,
    (m.queue ≠ [] → m.maxConcurrent ≤ m.activeCount) →
    (m.run ops).queue ≠ [] → (m.run ops).maxConcurrent ≤ (m.run ops).activeCount := by
  induction ops with
  | nil => intro m h; exact h
  | cons op tl ih =>
    intro m h
    simp only [run, List.foldl_cons]
    exact ih _ (step_waits m op h)

end UploadManager

/-- C27: in every state an `UploadManager` reaches between operations, if a task
waits in the queue then `activeCount >= maxConcurrent`.  Hence `addTask` starts
the new task only when the queue is empty, and while a task waits a new task is
queued as well: nothing starts and `activeCount` is unchanged. -/
theorem queue_waits_only_at_limit (maxConcurrent : ℚ) (autoCleanMs : ℚ) (enableRetry : Bool)
    (retryStrategy : String) (ops : List Op) :
    (((UploadManager.create maxConcurrent autoCleanMs enableRetry retryStrategy).run ops).queue
        ≠ [] →
      ((UploadManager.create maxConcurrent autoCleanMs enableRetry retryStrategy).run
        ops).maxConcurrent ≤
      ((UploadManager.create maxConcurrent autoCleanMs enableRetry retryStrategy).run
        ops).activeCount) ∧
    (((UploadManager.create maxConcurrent autoCleanMs enableRetry retryStrategy).run
        ops).activeCount <
      ((UploadManager.create maxConcurrent autoCleanMs enableRetry retryStrategy).run
        ops).maxConcurrent →
      ((UploadManager.create maxConcurrent autoCleanMs enableRetry retryStrategy).run ops).queue
        = []) ∧
    ∀ (taskId : TaskId) (filePath poseId : String) (priority : Int) (skipRetry : Bool),
      ((UploadManager.create maxConcurrent autoCleanMs enableRetry retryStrategy).run ops).queue
        ≠ [] →
      taskId ∈ (((UploadManager.create maxConcurrent autoCleanMs enableRetry retryStrategy).run
        ops).addTask taskId filePath poseId priority skipRetry).queue ∧
      (((UploadManager.create maxConcurrent autoCleanMs enableRetry retryStrategy).run
        ops).addTask taskId filePath poseId priority skipRetry).running =
        ((UploadManager.create maxConcurrent autoCleanMs enableRetry retryStrategy).run
          ops).running ∧
      (((UploadManager.create maxConcurrent autoCleanMs enableRetry retryStrategy).run
        ops).addTask taskId filePath poseId priority skipRetry).activeCount =
        ((UploadManager.create maxConcurrent autoCleanMs enableRetry retryStrategy).run
          ops).activeCount := by
  have hinv := UploadManager.run_waits ops
    (UploadManager.create maxConcurrent autoCleanMs enableRetry retryStrategy)
    (fun hne => absurd rfl hne)
  generalize (UploadManager.create maxConcurrent autoCleanMs enableRetry retryStrategy).run ops
    = m at hinv
  refine ⟨hinv, ?_, ?_⟩
  · intro hlt
    by_contra hne
    exact absurd (hinv hne) (by linarith)
  · intro taskId filePath poseId priority skipRetry hne
    have hfull := hinv hne
    simp only [UploadManager.addTask, UploadManager.notifyListeners]
    rw [if_pos (by simpa using hfull)]
    refine ⟨?_, rfl, rfl⟩
    simp only [UploadManager.sortQueue]
    exact (List.perm_insertionSort _ _).mem_iff.mpr (by simp)

/-! ### The count of active tasks -/

namespace UploadManager

theorem processQueueLoop_counts (q : List TaskId) : ∀ m : UploadManager,
    m.activeCount = m.running.length →
    (processQueueLoop q m).activeCount = (processQueueLoop q m).running.length := by
  induction q with
  | nil => intro m h; exact h
  | cons hd tl ih =>
    intro m h
    simp only [processQueueLoop]
    split
    · apply ih
      rw [executeTask_activeCount, executeTask_running]
      split
      · simp only [List.length_append, List.length_singleton]
        push_cast
        omega
      · exact h
    · exact h

theorem step_counts (m : UploadManager) (op : Op) (hop : op ≠ .cancelAllTasks)
    (h : m.activeCount = m.running.length) :
    (m.step op).activeCount = (m.step op).running.length := by
  cases op with
  | addTask x filePath poseId priority skipRetry =>
    simp only [step, addTask, notifyListeners]
    split
    · exact h
    · rw [executeTask_activeCount, executeTask_running]
      split
      · simp only [List.length_append, List.length_singleton]
        push_cast
        omega
      · exact h
  | progress x p =>
    simp only [step, progressUpdate]
    split
    · simpa using h
    · exact h
  | retry x attempt =>
    simp only [step, onRetry]
    split
    · simpa [notifyListeners] using h
    · exact h
  | settle x outcome =>
    simp only [step, _executeTaskResume]
    split
    · rename_i hrun
      simp only [_scheduleCleanup, _processQueue]
      apply processQueueLoop_counts
      have hpos : 0 < m.running.length := List.length_pos_of_mem hrun
      have hlen : (m.running.erase x).length = m.running.length - 1 :=
        List.length_erase_of_mem hrun
      cases outcome <;>
        simp only [updateTaskStatus_activeCount, updateTaskStatus_running, hlen] <;> omega
    · exact h
  | cancelTask x => simpa [step] using h
  | cancelAllTasks => exact absurd rfl hop
  | cleanup x =>
    simp only [step, cleanupFired_activeCount]
    rw [h]
    unfold cleanupFired
    split
    · simp only
      split
      · split <;> rfl
      · rfl
    · rfl

theorem run_counts (ops : List Op) : ∀ m : UploadManager, (∀ op ∈ ops, op ≠ .cancelAllTasks) →
    m.activeCount = m.running.length → (m.run ops).activeCount = (m.run ops).running.length := by
  induction ops with
  | nil => intro m _ h; exact h
  | cons op tl ih =>
    intro m hops h
    simp only [run, List.foldl_cons]
    exact ih _ (fun op' hop' => hops op' (List.mem_cons_of_mem _ hop'))
      (step_counts m op (hops op (List.mem_cons_self _ _)) h)

theorem cancelAll_fold_running (ids : List TaskId) : ∀ m : UploadManager,
    (ids.foldl (fun acc taskId => (cancelTask acc taskId).1) m).running = m.running := by
  induction ids with
  | nil => intro m; rfl
  | cons hd tl ih =>
    intro m
    simp only [List.foldl_cons]
    rw [ih, cancelTask_running]

theorem cancelAllTasks_running (m : UploadManager) : m.cancelAllTasks.running = m.running := by
  simp only [cancelAllTasks]
  exact cancelAll_fold_running _ m

theorem resume_after_cancelAll (m : UploadManager) (id : TaskId)
    (outcome : Settled UploadOutcome) (hrun : id ∈ m.running) :
    (m.cancelAllTasks._executeTaskResume id outcome).activeCount = -1 := by
  have hrun' : id ∈ m.cancelAllTasks.running := by rw [cancelAllTasks_running]; exact hrun
  have hq : m.cancelAllTasks.queue = [] := rfl
  have ha : m.cancelAllTasks.activeCount = 0 := rfl
  generalize m.cancelAllTasks = m' at hrun' hq ha
  simp only [_executeTaskResume, if_pos hrun', _scheduleCleanup, _processQueue]
  cases outcome <;>
    simp only [updateTaskStatus_queue, updateTaskStatus_activeCount, hq, ha, processQueueLoop] <;>
    rfl

end UploadManager

/-- C24, what the code does: as long as `cancelAllTasks` is not called,
`activeCount` is the number of `_executeTask` calls that have started and not
ended.  `cancelAllTasks` sets `activeCount` to 0 while those calls are still
suspended at their `await`; each of them decrements the counter when its upload
settles, so the first to end leaves `activeCount` at -1. -/
theorem cancelAllTasks_miscounts (maxConcurrent : ℚ) (autoCleanMs : ℚ) (enableRetry : Bool)
    (retryStrategy : String) (ops : List Op) (hno : ∀ op ∈ ops, op ≠ .cancelAllTasks) :
    ((UploadManager.create maxConcurrent autoCleanMs enableRetry retryStrategy).run
      ops).activeCount =
      ((UploadManager.create maxConcurrent autoCleanMs enableRetry retryStrategy).run
        ops).running.length ∧
    ∀ (taskId : TaskId) (outcome : Settled UploadOutcome),
      taskId ∈ ((UploadManager.create maxConcurrent autoCleanMs enableRetry retryStrategy).run
        ops).running →
      ((UploadManager.create maxConcurrent autoCleanMs enableRetry retryStrategy).run
        ops).cancelAllTasks.activeCount = 0 ∧
      ((UploadManager.create maxConcurrent autoCleanMs enableRetry retryStrategy).run
        ops).cancelAllTasks.running =
        ((UploadManager.create maxConcurrent autoCleanMs enableRetry retryStrategy).run
          ops).running ∧
      ((((UploadManager.create maxConcurrent autoCleanMs enableRetry retryStrategy).run
        ops).run [.cancelAllTasks, .settle taskId outcome]).activeCount = -1) := by
  refine ⟨UploadManager.run_counts ops _ hno rfl, fun taskId outcome hrun =>
    ⟨rfl, UploadManager.cancelAllTasks_running _, ?_⟩⟩
  exact UploadManager.resume_after_cancelAll _ taskId outcome hrun

/-- Witness for C24: one task submitted, `cancelAllTasks`, then the aborted
upload settles. -/
theorem cancelAllTasks_miscounts_witness :
    ((UploadManager.create 3 10000 true "UPLOAD").run
      [.addTask "a" "a.jpg" "tree" 0 false, .cancelAllTasks,
        .settle "a" (.resolved { code := "ABORTED", wasAborted := true })]).activeCount = -1 :=
  (cancelAllTasks_miscounts 3 10000 true "UPLOAD" [.addTask "a" "a.jpg" "tree" 0 false]
    (by decide)).2 "a" (.resolved { code := "ABORTED", wasAborted := true }) (by decide) |>.2.2

/-! ### Chunks of retried functions -/

theorem sliceIndex_nonneg (len : Nat) (x : ℚ) (h : 0 ≤ x) :
    sliceIndex len x = min ⌊x⌋.toNat len := by
  have h0 : 0 ≤ ⌊x⌋ := Int.floor_nonneg.mpr h
  simp only [sliceIndex, toIntegerOrInfinity, if_pos h, if_neg (not_lt.mpr h0)]
  omega

theorem sliceIndex_le (len : Nat) (x : ℚ) (h : 0 ≤ x) : sliceIndex len x ≤ len := by
  rw [sliceIndex_nonneg len x h]
  exact Nat.min_le_right _ _

theorem sliceIndex_of_le (len : Nat) (x : ℚ) (h : (len : ℚ) ≤ x) : sliceIndex len x = len := by
  have h0 : (0 : ℚ) ≤ x := le_trans (Nat.cast_nonneg len) h
  rw [sliceIndex_nonneg len x h0]
  have : (len : Int) ≤ ⌊x⌋ := Int.le_floor.mpr (by exact_mod_cast h)
  omega

theorem sliceIndex_step (len : Nat) (x c : ℚ) (h0 : 0 ≤ x) (hc : 1 ≤ c) (h : x < len) :
    sliceIndex len x < sliceIndex len (x + c) ∧
      ((sliceIndex len (x + c) - sliceIndex len x : Nat) : ℚ) < c + 1 := by
  have hxc : 0 ≤ x + c := by linarith
  rw [sliceIndex_nonneg len x h0, sliceIndex_nonneg len (x + c) hxc]
  have hf0 : 0 ≤ ⌊x⌋ := Int.floor_nonneg.mpr h0
  have hflt : ⌊x⌋ < len := Int.floor_lt.mpr (by exact_mod_cast h)
  have hup : ⌊x⌋ + 1 ≤ ⌊x + c⌋ := by
    rw [Int.le_floor]
    push_cast
    have := Int.floor_le x
    linarith
  have hsize : ((⌊x + c⌋ - ⌊x⌋ : Int) : ℚ) < c + 1 := by
    push_cast
    have h1 := Int.floor_le (x + c)
    have h2 := Int.lt_floor_add_one x
    linarith
  refine ⟨by omega, lt_of_le_of_lt ?_ hsize⟩
  have : ((min ⌊x + c⌋.toNat len - min ⌊x⌋.toNat len : Nat) : Int) ≤ ⌊x + c⌋ - ⌊x⌋ := by omega
  exact_mod_cast this

theorem slice_length {α : Type} (l : List α) (x y : ℚ) (hy : 0 ≤ y) :
    (slice l x y).length = sliceIndex l.length y - sliceIndex l.length x := by
  have := sliceIndex_le l.length y hy
  simp only [slice, List.length_take, List.length_drop]
  omega

theorem enum_take_add {α : Type} (l : List α) (n d : Nat) (hn : n ≤ l.length) :
    (l.take (n + d)).enum = (l.take n).enum ++ ((l.drop n).take d).enumFrom n := by
  rw [List.take_add, List.enum, List.enumFrom_append, List.length_take, Nat.min_eq_left hn,
    Nat.zero_add]

theorem range_append_range_from (a d : Nat) :
    List.range a ++ List.range' a d = List.range (a + d) := by
  rw [List.range_eq_range', List.range_eq_range']
  have := List.range'_append_1 0 a d
  simpa [Nat.add_comm] using this

section batchretry
variable {α : Type} (ro : RetryOptions Unit) (rnd : Nat → Nat → ℚ)

theorem batchEntry_settled (fn : Nat → Settled α) (r : Nat → ℚ) (index : ℚ) :
    (batchEntry fn ro r index).settled = (retryScript fn ro r).result := by
  unfold batchEntry
  split <;> simp [BatchEntry.settled, *]

theorem mapBatch_settled (i : ℚ) (start : Nat) (l : List (Nat → Settled α)) : ∀ index : Nat,
    (mapBatch ro rnd i start index l).map BatchEntry.settled =
      (l.enumFrom (start + index)).map fun p => (retryScript p.2 ro (rnd p.1)).result := by
  induction l with
  | nil => intro index; rfl
  | cons fn rest ih =>
    intro index
    simp only [mapBatch, List.enumFrom_cons, List.map_cons, batchEntry_settled]
    rw [ih (index + 1), Nat.add_assoc]

theorem isSuccess_success (v : α) (i : ℚ) : (BatchEntry.success v i).isSuccess = true := rfl

theorem isSuccess_failure (e : AttemptError) (i : ℚ) :
    (BatchEntry.failure e i : BatchEntry α).isSuccess = false := rfl

theorem filter_success_results (l : List (BatchEntry α)) :
    (l.filter fun r => r.isSuccess).filterMap BatchEntry.result? =
      (l.map BatchEntry.settled).filterMap Settled.value? := by
  induction l with
  | nil => rfl
  | cons x xs ih =>
    cases x <;> simp [List.filter_cons, isSuccess_success, isSuccess_failure,
      BatchEntry.result?, BatchEntry.settled, Settled.value?, ih]

theorem filter_failure_errors (l : List (BatchEntry α)) :
    (l.filter fun r => !r.isSuccess).filterMap BatchEntry.error? =
      (l.map BatchEntry.settled).filterMap Settled.error? := by
  induction l with
  | nil => rfl
  | cons x xs ih =>
    cases x <;> simp [List.filter_cons, isSuccess_success, isSuccess_failure,
      BatchEntry.error?, BatchEntry.settled, Settled.error?, ih]

theorem filter_success_count (l : List (BatchEntry α)) :
    (l.filter fun r => r.isSuccess).length =
      ((l.filter fun r => r.isSuccess).filterMap BatchEntry.result?).length := by
  induction l with
  | nil => rfl
  | cons x xs ih =>
    cases x <;> simp [List.filter_cons, isSuccess_success, isSuccess_failure,
      BatchEntry.result?, ih]

theorem filter_success_length (l : List (BatchEntry α)) :
    (l.filter fun r => r.isSuccess).length + (l.filter fun r => !r.isSuccess).length =
      l.length := by
  induction l with
  | nil => rfl
  | cons x xs ih =>
    cases x <;> simp [List.filter_cons, isSuccess_success, isSuccess_failure] <;> omega

theorem batchRetryLoop_spec (functions : List (Nat → Settled α)) (options : BatchRetryOptions)
    (endsAt : ℚ → Nat) (hc : 1 ≤ options.concurrency) (hff : options.failFast = false)
    (fuel : Nat) : ∀ (k : Nat) (s : BatchRetryState α),
    (functions.length : ℚ) ≤ ((k : ℚ) + fuel) * options.concurrency →
    s.results.map BatchEntry.settled =
      (functions.take (sliceIndex functions.length (k * options.concurrency))).enum.map
        (fun p => (retryScript p.2 options.retryOptions (rnd p.1)).result) →
    s.errors.Perm (s.results.filter fun r => !r.isSuccess) →
    s.launched = (List.range k).map (fun j : Nat =>
      List.range' (sliceIndex functions.length (j * options.concurrency))
        (sliceIndex functions.length (j * options.concurrency + options.concurrency) -
          sliceIndex functions.length (j * options.concurrency))) →
    s.launched.flatten = List.range (sliceIndex functions.length (k * options.concurrency)) →
    (∀ chunk ∈ s.launched, chunk ≠ [] ∧ (chunk.length : ℚ) < options.concurrency + 1) →
    ∃ (s' : BatchRetryState α) (k' : Nat),
      batchRetryLoop functions options rnd endsAt fuel (k * options.concurrency) s =
        some (s', none) ∧
      s'.results.map BatchEntry.settled = functions.enum.map
        (fun p => (retryScript p.2 options.retryOptions (rnd p.1)).result) ∧
      s'.errors.Perm (s'.results.filter fun r => !r.isSuccess) ∧
      s'.launched = (List.range k').map (fun j : Nat =>
        List.range' (sliceIndex functions.length (j * options.concurrency))
          (sliceIndex functions.length (j * options.concurrency + options.concurrency) -
            sliceIndex functions.length (j * options.concurrency))) ∧
      s'.launched.flatten = List.range functions.length ∧
      (∀ chunk ∈ s'.launched, chunk ≠ [] ∧ (chunk.length : ℚ) < options.concurrency + 1) := by
  have hdone : ∀ (k : Nat), ¬ (k : ℚ) * options.concurrency < functions.length →
      sliceIndex functions.length (k * options.concurrency) = functions.length :=
    fun k hge => sliceIndex_of_le _ _ (not_lt.mp hge)
  have hx0 : ∀ k : Nat, (0 : ℚ) ≤ k * options.concurrency := fun k =>
    mul_nonneg (Nat.cast_nonneg k) (by linarith)
  induction fuel with
  | zero =>
    intro k s hfuel hres herr hl hj hsz
    have hge : ¬ (k : ℚ) * options.concurrency < functions.length := by
      simp only [Nat.cast_zero, add_zero] at hfuel
      exact not_lt.mpr hfuel
    rw [hdone k hge] at hres hj
    rw [List.take_length] at hres
    exact ⟨s, k, by simp only [batchRetryLoop, if_neg hge], hres, herr, hl, hj, hsz⟩
  | succ fuel ih =>
    intro k s hfuel hres herr hl hj hsz
    by_cases hlt : (k : ℚ) * options.concurrency < functions.length
    · obtain ⟨hstep, hsize⟩ := sliceIndex_step functions.length _ _ (hx0 k) hc hlt
      have hk1 : ((k + 1 : ℕ) : ℚ) * options.concurrency =
          k * options.concurrency + options.concurrency := by
        push_cast
        ring
      have hle' := sliceIndex_le functions.length
        (k * options.concurrency + options.concurrency) (by linarith [hx0 k])
      have hblen := slice_length functions (k * options.concurrency)
        (k * options.concurrency + options.concurrency) (by linarith [hx0 k])
      have hnext := ih (k + 1)
        { results := s.results ++ mapBatch options.retryOptions rnd (k * options.concurrency)
            (sliceIndex functions.length (k * options.concurrency)) 0
            (slice functions (k * options.concurrency)
              (k * options.concurrency + options.concurrency))
          errors := s.errors ++
            ((mapBatch options.retryOptions rnd (k * options.concurrency)
              (sliceIndex functions.length (k * options.concurrency)) 0
              (slice functions (k * options.concurrency)
                (k * options.concurrency + options.concurrency))).filter
                fun r => !r.isSuccess).insertionSort fun a b => endsAt a.index ≤ endsAt b.index
          launched := s.launched ++
            [List.range' (sliceIndex functions.length (k * options.concurrency))
              (slice functions (k * options.concurrency)
                (k * options.concurrency + options.concurrency)).length] }
        (by push_cast at hfuel ⊢; linarith)
        (by
          simp only [List.map_append]
          rw [hres, mapBatch_settled, hk1, Nat.add_zero, ← List.map_append]
          congr 1
          have hsum : sliceIndex functions.length
              (k * options.concurrency + options.concurrency) =
              sliceIndex functions.length (k * options.concurrency) +
                (sliceIndex functions.length (k * options.concurrency + options.concurrency) -
                  sliceIndex functions.length (k * options.concurrency)) := by omega
          rw [hsum, enum_take_add _ _ _ (sliceIndex_le _ _ (hx0 k))]
          rfl)
        (by
          simp only [List.filter_append]
          exact herr.append (List.perm_insertionSort _ _))
        (by
          simp only
          rw [List.range_succ, List.map_append, hl, hblen]
          rfl)
        (by
          simp only [List.flatten_append, hj, List.flatten_cons, List.flatten_nil,
            List.append_nil]
          rw [hk1, hblen, range_append_range_from]
          congr 1
          omega)
        (by
          intro chunk hchunk
          simp only [List.mem_append, List.mem_singleton] at hchunk
          rcases hchunk with h | h
          · exact hsz chunk h
          · subst h
            rw [hblen]
            refine ⟨?_, by simpa using hsize⟩
            intro hnil
            have := congrArg List.length hnil
            simp only [List.length_range', List.length_nil] at this
            omega)
      obtain ⟨s', k', hrun, hrest⟩ := hnext
      refine ⟨s', k', ?_, hrest⟩
      rw [hk1] at hrun
      simp only [batchRetryLoop, if_pos hlt, hff, Bool.false_eq_true, if_false]
      split <;> exact hrun
    · rw [hdone k hlt] at hres hj
      rw [List.take_length] at hres
      exact ⟨s, k, by simp only [batchRetryLoop, if_neg hlt], hres, herr, hl, hj, hsz⟩

theorem retryScript_first_resolved (fn : Nat → Settled α) (r : Nat → ℚ) (v : α)
    (h : fn 0 = .resolved v) : (retryScript fn ro r).result = .resolved v :=
  (scripted_ends_at fn ro r 0 (.resolved v) (Nat.zero_le _) (fun j hj => absurd hj (by omega))
    (by simp [retryBody, scriptedFn, h])).1

theorem batchEntry_resolved (fn : Nat → Settled α) (r : Nat → ℚ) (index : ℚ) (v : α)
    (h : fn 0 = .resolved v) : batchEntry fn ro r index = .success v index := by
  unfold batchEntry
  rw [retryScript_first_resolved ro fn r v h]

theorem batchChunks_enough (len : Nat) (c : ℚ) (hc : 0 < c) :
    (len : ℚ) ≤ (batchChunks len c : ℚ) * c := by
  simp only [batchChunks, if_pos hc]
  have h1 : (len : ℚ) / c ≤ ⌈(len : ℚ) / c⌉ := Int.le_ceil _
  have h2 : (⌈(len : ℚ) / c⌉ : ℚ) ≤ ((⌈(len : ℚ) / c⌉.toNat : ℕ) : ℚ) := by
    exact_mod_cast Int.self_le_toNat _
  have h3 : (len : ℚ) = (len : ℚ) / c * c := by field_simp
  calc (len : ℚ) = (len : ℚ) / c * c := h3
    _ ≤ ((⌈(len : ℚ) / c⌉.toNat : ℕ) : ℚ) * c :=
        mul_le_mul_of_nonneg_right (le_trans h1 h2) (le_of_lt hc)

end batchretry

/-- C29, counterexample: `concurrency` is any number.  With `concurrency: 1.5`
the loop variable takes the values 0, 1.5 and 3, and `functions.slice(1.5, 3)`
holds the functions at positions 1 and 2: the second chunk runs two functions
side by side, more than `concurrency`. -/
theorem fractional_concurrency_chunk :
    (batchRetry [fun _ => .resolved 10, fun _ => .resolved 20,
        fun _ => (.resolved 30 : Settled Nat)]
      { concurrency := 3 / 2 } (fun _ _ => 0) (fun _ => 0)).launched = [[0], [1, 2]] ∧
    ((3 / 2 : ℚ) < ([1, 2] : List Nat).length) := by
  have hf1 : ⌊(3 / 2 : ℚ)⌋ = 1 := by
    rw [Int.floor_eq_iff]
    constructor <;> norm_num
  have hceil : ⌈(2 : ℚ)⌉ = 2 := by
    rw [Int.ceil_eq_iff]
    constructor <;> norm_num
  have h0 : sliceIndex 3 0 = 0 := by
    rw [sliceIndex_nonneg 3 0 (le_refl 0)]
    simp
  have h1 : sliceIndex 3 (3 / 2) = 1 := by
    rw [sliceIndex_nonneg 3 _ (by norm_num), hf1]
    rfl
  have h2 : sliceIndex 3 3 = 3 := sliceIndex_of_le 3 3 (by norm_num)
  have hfuel : batchChunks 3 (3 / 2) = 2 := by
    simp only [batchChunks]
    rw [if_pos (by norm_num)]
    norm_num [hceil]
    rfl
  refine ⟨?_, by norm_num⟩
  simp only [batchRetry, List.length_cons, List.length_nil, hfuel]
  norm_num [batchRetryLoop, slice, h0, h1, h2, mapBatch, batchEntry_resolved,
    isSuccess_success, List.range']

/-- C29, amended: with any number `concurrency >= 1` and `failFast` off,
`batchRetry` resolves.  Every function is run through `retryWithBackoff` once:
the chunks, in order, hold the positions `0, 1, ..` of `functions`, each chunk is
non-empty and holds fewer than `concurrency + 1` functions, at most `concurrency`
when that is a whole number.  `totalCount` is the number of functions,
`successCount + errorCount` is `totalCount`, `results` holds the values with
which the runs of `retryWithBackoff` resolved, in the order of `functions` (a
function that resolves at its first invocation gives its value), and `errors`
holds the errors of the runs that were rejected. -/
theorem batchRetry_runs_each_once {α : Type} (functions : List (Nat → Settled α))
    (options : BatchRetryOptions) (rnd : Nat → Nat → ℚ) (endsAt : ℚ → Nat)
    (hc : 1 ≤ options.concurrency) (hff : options.failFast = false) :
    ∃ r, (batchRetry functions options rnd endsAt).outcome = some (.resolved r) ∧
      r.totalCount = functions.length ∧
      r.successCount + r.errorCount = r.totalCount ∧
      r.results = functions.enum.filterMap
        (fun p => (retryScript p.2 options.retryOptions (rnd p.1)).result.value?) ∧
      r.successCount = r.results.length ∧
      (r.errors.filterMap BatchEntry.error?).Perm (functions.enum.filterMap
        (fun p => (retryScript p.2 options.retryOptions (rnd p.1)).result.error?)) ∧
      r.errorCount = r.errors.length ∧
      (∀ e ∈ r.errors, e.isSuccess = false) ∧
      (∀ (j : Nat) (fn : Nat → Settled α) (v : α), functions[j]? = some fn →
        fn 0 = .resolved v → v ∈ r.results) ∧
      (batchRetry functions options rnd endsAt).launched.flatten = List.range functions.length ∧
      (∀ chunk ∈ (batchRetry functions options rnd endsAt).launched,
        chunk ≠ [] ∧ (chunk.length : ℚ) < options.concurrency + 1) ∧
      (∀ n : Nat, options.concurrency = n →
        ∀ chunk ∈ (batchRetry functions options rnd endsAt).launched, chunk.length ≤ n) ∧
      ∃ k, (batchRetry functions options rnd endsAt).launched =
        (List.range k).map (fun j : Nat =>
          List.range' (sliceIndex functions.length (j * options.concurrency))
            (sliceIndex functions.length (j * options.concurrency + options.concurrency) -
              sliceIndex functions.length (j * options.concurrency))) := by
  obtain ⟨s', k', hrun, hres, herr, hl, hj, hsz⟩ := batchRetryLoop_spec rnd functions options
    endsAt hc hff (batchChunks functions.length options.concurrency) 0 {}
    (by
      have := batchChunks_enough functions.length options.concurrency (by linarith)
      push_cast
      linarith)
    (by simp [sliceIndex_nonneg]) (by simp) (by simp) (by simp [sliceIndex_nonneg]) (by simp)
  simp only [Nat.cast_zero, zero_mul] at hrun
  have hcount := filter_success_length s'.results
  have hvalues : (s'.results.filter fun r => r.isSuccess).filterMap BatchEntry.result? =
      functions.enum.filterMap
        (fun p => (retryScript p.2 options.retryOptions (rnd p.1)).result.value?) := by
    rw [filter_success_results, hres, List.filterMap_map]
    rfl
  have hlen : s'.results.length = functions.length := by
    have := congrArg List.length hres
    simpa using this
  refine ⟨{ results := (s'.results.filter fun r => r.isSuccess).filterMap BatchEntry.result?
            errors := s'.errors
            totalCount := functions.length
            successCount := (s'.results.filter fun r => r.isSuccess).length
            errorCount := s'.errors.length },
    by simp only [batchRetry, hrun], rfl, ?_, hvalues, filter_success_count _, ?_, rfl, ?_, ?_,
    ?_, ?_, ?_, k', ?_⟩
  · simp only
    rw [herr.length_eq]
    omega
  · simp only
    refine (herr.filterMap _).trans ?_
    rw [filter_failure_errors, hres, List.filterMap_map]
    rfl
  · intro e he
    have := (herr.mem_iff).mp he
    simpa using (List.mem_filter.mp this).2
  · intro j fn v hfn hv
    simp only
    rw [hvalues, List.mem_filterMap]
    refine ⟨(j, fn), (List.mk_mem_enum_iff_getElem?).mpr hfn, ?_⟩
    simp only
    rw [retryScript_first_resolved _ fn _ v hv]
    rfl
  · simp only [batchRetry, hrun]
    exact hj
  · simp only [batchRetry, hrun]
    exact hsz
  · simp only [batchRetry, hrun]
    intro n hn chunk hchunk
    have h := (hsz chunk hchunk).2
    rw [hn] at h
    have : chunk.length < n + 1 := by exact_mod_cast h
    omega
  · simp only [batchRetry, hrun]
    exact hl

/-- Witness for C29: five functions, the second of which always fails, in
chunks of two: the values of the other four come back in order. -/
theorem batchRetry_runs_each_once_witness :
    ∃ r, (batchRetry
        [fun _ => .resolved 10, fun _ => .rejected { code := some "TIMEOUT" },
          fun _ => .resolved 30, fun _ => .resolved 40, fun _ => (.resolved 50 : Settled Nat)]
        { concurrency := 2, retryOptions := RetryStrategies.UPLOAD } (fun _ _ => 0)
        (fun _ => 0)).outcome = some (.resolved r) ∧
      r.totalCount = 5 ∧ r.successCount + r.errorCount = r.totalCount ∧
      r.results = [10, 30, 40, 50] ∧ r.successCount = 4 :=
  match batchRetry_runs_each_once
    [fun _ => .resolved 10, fun _ => .rejected { code := some "TIMEOUT" },
      fun _ => .resolved 30, fun _ => .resolved 40, fun _ => (.resolved 50 : Settled Nat)]
    { concurrency := 2, retryOptions := RetryStrategies.UPLOAD } (fun _ _ => 0)
    (fun _ => 0) (by norm_num) rfl with
  | ⟨r, h1, h2, h3, h4, h5, _⟩ =>
    have hv : r.results = [10, 30, 40, 50] := h4.trans (by decide)
    ⟨r, h1, h2, h3, hv, by rw [h5, hv]; rfl⟩

/-! ### Frames begin in index order -/

namespace UploadManager

section starts
variable (m : UploadManager) (id x : TaskId)

theorem notifyListeners_uploadStarts (n : Notification) :
    (m.notifyListeners n).uploadStarts =
      m.uploadStarts ++ (if isStart n = true then [n.taskId] else []) := by
  simp only [uploadStarts, notifyListeners, List.filter_append, List.map_append]
  congr 1
  by_cases h : isStart n = true <;> simp [List.filter_cons, h]

theorem updateTaskStatus_uploadStarts (st : TaskStatus) (u : Updates) :
    (m.updateTaskStatus id st u).uploadStarts =
      m.uploadStarts ++
        (if st = .UPLOADING ∧ m.statusOf id = some .PENDING then [id] else []) := by
  unfold updateTaskStatus statusOf
  cases h : m.tasks.get id with
  | none => simp
  | some t =>
    simp only [notifyListeners_uploadStarts]
    have h0 : ({ m with tasks := m.tasks.set id (u.assign { t with status := st }) } :
        UploadManager).uploadStarts = m.uploadStarts := rfl
    rw [h0]
    congr 1
    by_cases h1 : st = .UPLOADING <;> by_cases h2 : t.status = .PENDING <;>
      simp [isStart, Updates.assign, h1, h2]

theorem executeTask_uploadStarts :
    (m._executeTask id).uploadStarts =
      m.uploadStarts ++ (if m.statusOf id = some .PENDING then [id] else []) := by
  cases h : m.tasks.get id with
  | none => simp [_executeTask, h, statusOf, uploadStarts]
  | some t =>
    by_cases hc : t.status = .CANCELLED
    · simp [_executeTask, h, hc, statusOf, uploadStarts]
    · have h1 : (_executeTask m id).uploadStarts =
          (updateTaskStatus { m with activeCount := m.activeCount + 1 } id .UPLOADING
            {}).uploadStarts := by
        simp [_executeTask, h, hc, uploadStarts]
      rw [h1, updateTaskStatus_uploadStarts]
      simp [statusOf, uploadStarts]

theorem onRetry_uploadStarts (n : Nat) : (m.onRetry id n).uploadStarts = m.uploadStarts := by
  unfold onRetry
  split
  · rw [notifyListeners_uploadStarts]
    simp [isStart]
  · rfl

theorem onRetry_fold_uploadStarts (l : List (Nat × AttemptError × ℚ)) :
    ∀ m : UploadManager,
      (l.foldl (fun acc call => acc.onRetry id call.1) m).uploadStarts = m.uploadStarts := by
  induction l with
  | nil => intro m; rfl
  | cons hd tl ih => intro m; rw [List.foldl_cons, ih, onRetry_uploadStarts]

theorem cancelTask_uploadStarts : (m.cancelTask id).1.uploadStarts = m.uploadStarts := by
  unfold cancelTask
  cases h : m.tasks.get id with
  | none => rfl
  | some t =>
    simp only [updateTaskStatus_uploadStarts]
    simp [uploadStarts]

theorem cancelAll_fold_uploadStarts (ids : List TaskId) : ∀ m : UploadManager,
    (ids.foldl (fun acc taskId => (cancelTask acc taskId).1) m).uploadStarts =
      m.uploadStarts := by
  induction ids with
  | nil => intro m; rfl
  | cons hd tl ih => intro m; rw [List.foldl_cons, ih, cancelTask_uploadStarts]

theorem cancelAllTasks_uploadStarts : m.cancelAllTasks.uploadStarts = m.uploadStarts := by
  have : m.cancelAllTasks.uploadStarts =
      (m.tasks.keys.foldl (fun acc taskId => (cancelTask acc taskId).1) m).uploadStarts := rfl
  rw [this, cancelAll_fold_uploadStarts]

theorem addTask_uploadStarts (filePath poseId : String) (priority : Int) (skipRetry : Bool) :
    (m.addTask id filePath poseId priority skipRetry).uploadStarts =
      if m.activeCount ≥ m.maxConcurrent then m.uploadStarts else m.uploadStarts ++ [id] := by
  unfold addTask
  simp only []
  by_cases hcap : m.activeCount ≥ m.maxConcurrent
  · rw [if_pos hcap, if_pos (by simpa [notifyListeners] using hcap)]
    simp [uploadStarts, notifyListeners, isStart, List.filter_append]
  · rw [if_neg hcap, if_neg (by simpa [notifyListeners] using hcap), executeTask_uploadStarts,
      notifyListeners_uploadStarts]
    simp [isStart, statusOf, notifyListeners, TaskMap.get_set, uploadStarts]

end starts

section priorities
variable (m : UploadManager) (id x : TaskId)

theorem updateTaskStatus_priority (st : TaskStatus) (u : Updates) :
    ((m.updateTaskStatus id st u).tasks.get x).map (fun t => t.priority) =
      (m.tasks.get x).map fun t => t.priority := by
  rw [updateTaskStatus_get]
  split
  · rename_i h
    subst h
    cases m.tasks.get id <;> simp [Updates.assign]
  · rfl

theorem executeTask_priority :
    ((m._executeTask id).tasks.get x).map (fun t => t.priority) =
      (m.tasks.get x).map fun t => t.priority := by
  rw [executeTask_get]
  split
  · rename_i h
    rw [← h.2]
    cases m.tasks.get id <;> simp
  · rfl

theorem processQueueLoop_priority (q : List TaskId) : ∀ m : UploadManager,
    ((processQueueLoop q m).tasks.get x).map (fun t => t.priority) =
      (m.tasks.get x).map fun t => t.priority := by
  induction q with
  | nil => intro m; rfl
  | cons hd tl ih =>
    intro m
    simp only [processQueueLoop]
    split
    · rw [ih, executeTask_priority]
    · rfl

theorem executeTaskResume_priority (outcome : Settled UploadOutcome) :
    ((m._executeTaskResume id outcome).tasks.get x).map (fun t => t.priority) =
      (m.tasks.get x).map fun t => t.priority := by
  unfold _executeTaskResume
  split
  · have key : ∀ (m1 : UploadManager) s,
        ({ _scheduleCleanup (_processQueue { m1 with activeCount :=
          m1.activeCount - 1 }) id with settled := s }.tasks.get x).map
          (fun t : UploadTaskInfo => t.priority) =
        (m1.tasks.get x).map fun t => t.priority := by
      intro m1 s
      exact processQueueLoop_priority x m1.queue { m1 with activeCount := m1.activeCount - 1 }
    cases outcome with
    | resolved v => simp only []; rw [key, updateTaskStatus_priority]
    | rejected e => simp only []; rw [key, updateTaskStatus_priority]
  · rfl

theorem addTask_priority (filePath poseId : String) (priority : Int) (skipRetry : Bool) :
    ((m.addTask id filePath poseId priority skipRetry).tasks.get x).map (fun t => t.priority) =
      if id = x then some priority else (m.tasks.get x).map fun t => t.priority := by
  unfold addTask
  simp only []
  split
  · by_cases h : id = x <;> simp [notifyListeners, TaskMap.get_set, h]
  · rw [executeTask_priority]
    by_cases h : id = x <;> simp [notifyListeners, TaskMap.get_set, h]

theorem cancelTask_priority :
    (((m.cancelTask id).1).tasks.get x).map (fun t => t.priority) =
      (m.tasks.get x).map fun t => t.priority := by
  rw [cancelTask_get]
  split
  · rename_i h
    subst h
    cases m.tasks.get id <;> simp
  · rfl

theorem cancelAll_fold_priority (ids : List TaskId) : ∀ m : UploadManager,
    ((ids.foldl (fun acc taskId => (cancelTask acc taskId).1) m).tasks.get x).map
      (fun t => t.priority) = (m.tasks.get x).map fun t => t.priority := by
  induction ids with
  | nil => intro m; rfl
  | cons hd tl ih => intro m; rw [List.foldl_cons, ih, cancelTask_priority]

theorem cancelAllTasks_priority :
    (m.cancelAllTasks.tasks.get x).map (fun t => t.priority) =
      (m.tasks.get x).map fun t => t.priority :=
  cancelAll_fold_priority x m.tasks.keys m

theorem priorityOf_of_map {tasks : TaskMap} {p : Int}
    (h : (tasks.get x).map (fun t => t.priority) = some p) : priorityOf tasks x = p := by
  unfold priorityOf
  cases hg : tasks.get x with
  | none => simp [hg] at h
  | some t => simpa [hg] using h

end priorities

/-- On a manager with no id submitted twice, `_processQueue` starts tasks from
the head of the queue: what has begun, followed by what waits, stays the same
list. -/
theorem Consistent.processQueueLoop_uploadStarts {used : List TaskId} (q : List TaskId) :
    ∀ m : UploadManager, m.queue = q → Consistent m used →
      (processQueueLoop q m).uploadStarts ++ (processQueueLoop q m).queue =
        m.uploadStarts ++ q := by
  induction q with
  | nil =>
    intro m hq _
    simp [processQueueLoop, hq]
  | cons hd tl ih =>
    intro m hq h
    simp only [processQueueLoop]
    split
    · have h1 := h.start_head hq
      have hpend : ({ m with queue := tl } : UploadManager).statusOf hd = some .PENDING :=
        h.queue_pending hd (by rw [hq]; exact List.mem_cons_self _ _)
      rw [ih _ (by simp) h1, executeTask_uploadStarts, if_pos hpend]
      simp [uploadStarts]
    · rw [hq]

/-- The end of a running upload leaves what has begun, followed by what waits,
the same list. -/
theorem Consistent.executeTaskResume_uploadStarts {m : UploadManager} {used : List TaskId}
    (h : Consistent m used) (id : TaskId) (outcome : Settled UploadOutcome)
    (hrun : id ∈ m.running) :
    (m._executeTaskResume id outcome).uploadStarts ++ (m._executeTaskResume id outcome).queue =
      m.uploadStarts ++ m.queue := by
  have hxq : id ∉ m.queue := fun hq => (h.queue_waiting id hq).1 hrun
  have h0 : Consistent { m with running := m.running.erase id } used :=
    h.frame (fun _ hid => hid) (List.Sublist.refl _)
      (fun id hid => Or.inl (List.mem_of_mem_erase hid)) (fun id hid => Or.inl hid)
      (fun _ _ => rfl) h.seq_lt
  have key : ∀ m1 : UploadManager, Consistent m1 used → m1.queue = m.queue →
      m1.uploadStarts = m.uploadStarts → ∀ s,
      ({ _scheduleCleanup (_processQueue { m1 with activeCount := m1.activeCount - 1 }) id with
        settled := s } : UploadManager).uploadStarts ++
      ({ _scheduleCleanup (_processQueue { m1 with activeCount := m1.activeCount - 1 }) id with
        settled := s } : UploadManager).queue = m.uploadStarts ++ m.queue := by
    intro m1 h1 hq1 hs1 s
    have h2 : Consistent { m1 with activeCount := m1.activeCount - 1 } used :=
      h1.congr rfl rfl rfl rfl rfl
    have := Consistent.processQueueLoop_uploadStarts m1.queue
      { m1 with activeCount := m1.activeCount - 1 } rfl h2
    rw [← hq1, ← hs1]
    exact this
  unfold _executeTaskResume
  rw [if_pos hrun]
  cases outcome with
  | resolved v =>
    exact key _ (h0.keeps_updateTaskStatus id _ _ hxq) (by simp)
      (by rw [updateTaskStatus_uploadStarts]; simp [uploadStarts]) _
  | rejected e =>
    exact key _ (h0.keeps_updateTaskStatus id _ _ hxq) (by simp)
      (by rw [updateTaskStatus_uploadStarts]; simp [uploadStarts]) _

end UploadManager

theorem UploadManager.addTask_queue (m : UploadManager) (id : TaskId) (filePath poseId : String)
    (priority : Int) (skipRetry : Bool) :
    (m.addTask id filePath poseId priority skipRetry).queue =
      if m.activeCount ≥ m.maxConcurrent then
        UploadManager.sortQueue (m.addTask id filePath poseId priority skipRetry).tasks
          (m.queue ++ [id])
      else m.queue := by
  unfold UploadManager.addTask
  simp only []
  by_cases hcap : m.activeCount ≥ m.maxConcurrent
  · rw [if_pos hcap, if_pos (by simpa [UploadManager.notifyListeners] using hcap)]
    rfl
  · rw [if_neg hcap, if_neg (by simpa [UploadManager.notifyListeners] using hcap),
      UploadManager.executeTask_queue]
    rfl

theorem prefix_of_range_map {β : Type} (f : Nat → β) (n : Nat) (l₁ l₂ : List β)
    (h : l₁ ++ l₂ = (List.range n).map f) :
    l₁ = (List.range l₁.length).map f ∧ l₁.length + l₂.length = n := by
  have hlen : l₁.length + l₂.length = n := by
    have := congrArg List.length h
    simpa using this
  refine ⟨?_, hlen⟩
  have h1 : l₁ = (l₁ ++ l₂).take l₁.length := (List.take_left' rfl).symm
  rw [h] at h1
  rw [← List.map_take, List.take_range, Nat.min_eq_left (by omega)] at h1
  exact h1

section batchorder
variable {framePaths : List String} {poseId : String} {options : BatchOptions}
  {uploads : Nat → Nat → Settled UploadOutcome} {rnd : Nat → Nat → ℚ}

theorem BatchOrder.initial (total : Nat) :
    BatchOrder total 0
      (UploadManager.create options.concurrency 10000 options.enableRetry "UPLOAD") :=
  ⟨rfl, fun i hi => absurd hi (Nat.not_lt_zero i)⟩

/-- One more frame handed to `addTask` with priority `total - j`: it starts at
once when nothing waits, and otherwise goes to the end of the queue. -/
theorem BatchOrder.after_submit {total j : Nat} {done : List Nat} {m : UploadManager}
    (h : BatchState framePaths poseId options uploads rnd j done m) (ho : BatchOrder total j m)
    (framePath : String) (skipRetry : Bool) :
    BatchOrder total (j + 1)
      (m.addTask (frameId j) framePath poseId ((total : Int) - j) skipRetry) := by
  have hprio : ∀ i, i < j + 1 →
      ((m.addTask (frameId j) framePath poseId ((total : Int) - j) skipRetry).tasks.get
        (frameId i)).map (fun t => t.priority) = some ((total : Int) - i) := by
    intro i hi
    rw [UploadManager.addTask_priority]
    by_cases hij : i = j
    · subst hij
      rw [if_pos rfl]
    · have : ¬ frameId j = frameId i := fun heq => hij (frameId_injective heq).symm
      rw [if_neg this]
      exact ho.priorities i (by omega)
  refine ⟨?_, hprio⟩
  rw [UploadManager.addTask_uploadStarts, UploadManager.addTask_queue]
  by_cases hcap : m.activeCount ≥ m.maxConcurrent
  · rw [if_pos hcap, if_pos hcap]
    have hsub : (m.queue ++ [frameId j]).Sublist ((List.range (j + 1)).map frameId) := by
      rw [List.range_succ, List.map_append, ← ho.starts, List.append_assoc]
      exact List.sublist_append_right _ _
    have hpw : ((List.range (j + 1)).map frameId).Pairwise fun a b =>
        UploadManager.priorityOf
          (m.addTask (frameId j) framePath poseId ((total : Int) - j) skipRetry).tasks b ≤
        UploadManager.priorityOf
          (m.addTask (frameId j) framePath poseId ((total : Int) - j) skipRetry).tasks a := by
      rw [List.pairwise_map]
      refine (List.pairwise_lt_range (j + 1)).imp_of_mem ?_
      intro a b ha hb hlt
      rw [UploadManager.priorityOf_of_map _ (hprio a (List.mem_range.1 ha)),
        UploadManager.priorityOf_of_map _ (hprio b (List.mem_range.1 hb))]
      omega
    have hsorted : UploadManager.sortQueue
        (m.addTask (frameId j) framePath poseId ((total : Int) - j) skipRetry).tasks
        (m.queue ++ [frameId j]) = m.queue ++ [frameId j] :=
      List.Sorted.insertionSort_eq (hpw.sublist hsub)
    rw [hsorted, ← List.append_assoc, ho.starts, List.range_succ, List.map_append,
      List.map_singleton]
  · rw [if_neg hcap, if_neg hcap]
    have hq : m.queue = [] := by
      by_contra hne
      exact hcap (h.balanced.queue_full hne)
    have hs := ho.starts
    rw [hq, List.append_nil] at hs ⊢
    rw [hs, List.range_succ, List.map_append, List.map_singleton]

/-- The upload of a running frame ends: the frames that begin are taken from
the head of the queue. -/
theorem BatchOrder.after_settle {total n : Nat} {done : List Nat} {m : UploadManager}
    (h : BatchState framePaths poseId options uploads rnd n done m) (ho : BatchOrder total n m)
    (taskId : TaskId) (hrun : taskId ∈ m.running) (r : Run CancelState UploadOutcome) :
    BatchOrder total n (m.executeToEnd taskId r) := by
  obtain ⟨f1, f2, f3, _⟩ := UploadManager.onRetry_fold_fields taskId r.onRetryCalls m
  have hcons := UploadManager.Consistent.keeps_onRetry_fold taskId r.onRetryCalls m h.consistent
  have hrun' : taskId ∈ (r.onRetryCalls.foldl (fun acc call => acc.onRetry taskId call.1)
      m).running := by rw [f2]; exact hrun
  unfold UploadManager.executeToEnd
  refine ⟨?_, ?_⟩
  · rw [hcons.executeTaskResume_uploadStarts taskId r.result hrun',
      UploadManager.onRetry_fold_uploadStarts, f3]
    exact ho.starts
  · intro i hi
    rw [UploadManager.executeTaskResume_priority, f1]
    exact ho.priorities i hi

theorem submitFrames_order (total : Nat) (rest : List String) :
    ∀ (j : Nat) (done : List Nat) (m : UploadManager),
      BatchState framePaths poseId options uploads rnd j done m → BatchOrder total j m →
      framePaths.drop j = rest →
      BatchOrder total (j + rest.length) (submitFrames poseId options total j rest m) := by
  induction rest with
  | nil => intro j done m _ ho _; exact ho
  | cons framePath rest ih =>
    intro j done m h ho hdrop
    have hpath : framePaths.getD j "" = framePath := by
      rw [List.getD_eq_getElem?_getD, ← List.head?_drop, hdrop]
      rfl
    have hrest : framePaths.drop (j + 1) = rest := by
      rw [← List.tail_drop, hdrop]
      rfl
    have := ih (j + 1) done _
      (h.submit framePath hpath ((total : Int) - j) (!options.enableRetry))
      (ho.after_submit h framePath (!options.enableRetry)) hrest
    rw [List.length_cons, show j + (rest.length + 1) = j + 1 + rest.length from by omega]
    exact this

theorem awaitUploads_order (pick : Nat → Nat) (total n : Nat) (fuel : Nat) :
    ∀ (k : Nat) (m : UploadManager) (done : List Nat),
      BatchState framePaths poseId options uploads rnd n done m → BatchOrder total n m →
      BatchOrder total n (awaitUploads framePaths poseId options uploads rnd pick fuel k m).1 := by
  induction fuel with
  | zero => intro k m done _ ho; exact ho
  | succ fuel ih =>
    intro k m done h ho
    cases hrun : m.running with
    | nil => simpa [awaitUploads, hrun] using ho
    | cons first rest =>
      have hmem : (first :: rest).getD (pick k % (rest.length + 1)) first ∈ m.running := by
        rw [hrun, List.getD_eq_getElem _ _ (by
          show pick k % (rest.length + 1) < (first :: rest).length
          exact Nat.mod_lt _ (Nat.succ_pos _))]
        exact List.getElem_mem _
      obtain ⟨_, _, _, hstate⟩ := h.settle _ hmem
      have horder := ho.after_settle h _ hmem
        (m.uploadRun (frameTask framePaths poseId options
          (frameIndex ((first :: rest).getD (pick k % (rest.length + 1)) first)))
          (uploads (frameIndex ((first :: rest).getD (pick k % (rest.length + 1)) first))) {}
          (rnd (frameIndex ((first :: rest).getD (pick k % (rest.length + 1)) first))))
      simp only [awaitUploads, hrun]
      generalize (first :: rest).getD (pick k % (rest.length + 1)) first = taskId at *
      generalize frameIndex taskId = i at *
      generalize m.uploadRun (frameTask framePaths poseId options i) (uploads i) {} (rnd i) = r
        at *
      cases hout : r.result with
      | resolved v =>
        simp only []
        exact ih (k + 1) _ (done ++ [i]) hstate horder
      | rejected e =>
        simp only []
        by_cases hskip : options.skipFailedFrames = true
        · rw [if_pos hskip]
          exact ih (k + 1) _ (done ++ [i]) hstate horder
        · rw [if_neg hskip]
          exact horder

end batchorder

section batchorder
variable (framePaths : List String) (poseId : String) (options : BatchOptions)
  (uploads : Nat → Nat → Settled UploadOutcome) (rnd : Nat → Nat → ℚ)

/-- The manager a batch leaves is the one the wait left, after `cancelAllTasks`
when the promise of the batch settles; a batch that resolves has waited to the
end. -/
theorem batch_manager (pick : Nat → Nat) :
    ((batchProcessFrames framePaths poseId options uploads rnd pick).manager =
        (awaitUploads framePaths poseId options uploads rnd pick framePaths.length 0
          (submitFrames poseId options framePaths.length 0 framePaths
            (UploadManager.create options.concurrency 10000 options.enableRetry
              "UPLOAD"))).1.cancelAllTasks ∨
      (batchProcessFrames framePaths poseId options uploads rnd pick).manager =
        (awaitUploads framePaths poseId options uploads rnd pick framePaths.length 0
          (submitFrames poseId options framePaths.length 0 framePaths
            (UploadManager.create options.concurrency 10000 options.enableRetry
              "UPLOAD"))).1) ∧
    ∀ s, (batchProcessFrames framePaths poseId options uploads rnd pick).outcome =
        some (.resolved s) →
      (awaitUploads framePaths poseId options uploads rnd pick framePaths.length 0
        (submitFrames poseId options framePaths.length 0 framePaths
          (UploadManager.create options.concurrency 10000 options.enableRetry
            "UPLOAD"))).2 = none := by
  unfold batchProcessFrames
  simp only []
  generalize awaitUploads framePaths poseId options uploads rnd pick framePaths.length 0
    (submitFrames poseId options framePaths.length 0 framePaths
      (UploadManager.create options.concurrency 10000 options.enableRetry "UPLOAD")) = w
  cases hw : w.2 with
  | some e => simp
  | none =>
    simp only []
    split <;> simp

/-- The order kept by the dedicated manager when the wait of a batch is over. -/
theorem batch_order_after_wait (pick : Nat → Nat) :
    BatchOrder framePaths.length framePaths.length
      (awaitUploads framePaths poseId options uploads rnd pick framePaths.length 0
        (submitFrames poseId options framePaths.length 0 framePaths
          (UploadManager.create options.concurrency 10000 options.enableRetry "UPLOAD"))).1 := by
  have h0 := @submitFrames_state framePaths poseId options uploads rnd framePaths.length
    framePaths 0 [] _ BatchState.create rfl
  have o0 := @submitFrames_order framePaths poseId options uploads rnd framePaths.length
    framePaths 0 [] _ BatchState.create (BatchOrder.initial framePaths.length) rfl
  rw [Nat.zero_add] at h0 o0
  exact awaitUploads_order pick framePaths.length framePaths.length framePaths.length 0 _ [] h0
    o0

end batchorder

/-- C22: `batchProcessFrames` gives frame `i` of `N` the priority `N - i`.  With
a limit of at least one upload at a time, whatever the order in which the
uploads end, the frames that begin to upload are the frames `0 .. k - 1` in that
order, for some `k <= N`; `k = N` when the wait runs to its end, which it does
whenever the batch resolves, and always when failed frames are skipped. -/
theorem batch_frames_start_in_index_order (framePaths : List String) (poseId : String)
    (options : BatchOptions) (uploads : Nat → Nat → Settled UploadOutcome) (rnd : Nat → Nat → ℚ)
    (pick : Nat → Nat) (hc : 1 ≤ options.concurrency) :
    (∀ i, i < framePaths.length →
      ((batchProcessFrames framePaths poseId options uploads rnd pick).manager.tasks.get
        (frameId i)).map (fun t => t.priority) = some ((framePaths.length : Int) - i)) ∧
    ∃ k, k ≤ framePaths.length ∧
      (batchProcessFrames framePaths poseId options uploads rnd pick).manager.uploadStarts =
        (List.range k).map frameId ∧
      ((∃ s, (batchProcessFrames framePaths poseId options uploads rnd pick).outcome =
        some (.resolved s)) → k = framePaths.length) ∧
      (options.skipFailedFrames = true → k = framePaths.length) := by
  obtain ⟨done, hstate, hnone, _⟩ := batch_after_wait framePaths poseId options uploads rnd pick
  have horder := batch_order_after_wait framePaths poseId options uploads rnd pick
  obtain ⟨hman, hres⟩ := batch_manager framePaths poseId options uploads rnd pick
  have hskip := batch_resolves_when_skipping framePaths poseId options uploads rnd pick hc
  generalize awaitUploads framePaths poseId options uploads rnd pick framePaths.length 0
    (submitFrames poseId options framePaths.length 0 framePaths
      (UploadManager.create options.concurrency 10000 options.enableRetry "UPLOAD")) = w
    at hstate hnone horder hman hres
  obtain ⟨hpre, hlen⟩ := prefix_of_range_map frameId framePaths.length _ _ horder.starts
  have hfull : w.2 = none → w.1.uploadStarts.length = framePaths.length := by
    intro hw
    have hrun := (hnone hw).1
    have hq : w.1.queue = [] := by
      by_contra hne
      have h1 := hstate.balanced.queue_full hne
      have h2 := hstate.balanced.active_running
      rw [hrun] at h2
      rw [hstate.limit, h2] at h1
      simp at h1
      linarith
    rw [hq] at hlen
    simpa using hlen
  have hstarts : (batchProcessFrames framePaths poseId options uploads rnd pick).manager.uploadStarts
      = w.1.uploadStarts := by
    rcases hman with h | h
    · rw [h, UploadManager.cancelAllTasks_uploadStarts]
    · rw [h]
  have hall : (∃ s, (batchProcessFrames framePaths poseId options uploads rnd pick).outcome =
      some (.resolved s)) → w.1.uploadStarts.length = framePaths.length :=
    fun ⟨s, hs⟩ => hfull (hres s hs)
  refine ⟨fun i hi => ?_, w.1.uploadStarts.length, by omega, by rw [hstarts]; exact hpre, hall,
    fun hs => hall (hskip hs)⟩
  rcases hman with h | h
  · rw [h, UploadManager.cancelAllTasks_priority]
    exact horder.priorities i hi
  · rw [h]
    exact horder.priorities i hi

/-- Witness for C22: five frames, two uploads at a time, the upload started
last ending first. -/
theorem batch_frames_start_in_index_order_witness :
    ∃ k, k ≤ 5 ∧
      (batchProcessFrames ["a.jpg", "b.jpg", "c.jpg", "d.jpg", "e.jpg"] "tree"
        { concurrency := 2 } (fun _ _ => .resolved { score := 80 }) (fun _ _ => 0)
        (fun _ => 1)).manager.uploadStarts = (List.range k).map frameId ∧
      k = 5 :=
  match (batch_frames_start_in_index_order ["a.jpg", "b.jpg", "c.jpg", "d.jpg", "e.jpg"] "tree"
    { concurrency := 2 } (fun _ _ => .resolved { score := 80 }) (fun _ _ => 0) (fun _ => 1)
    (by decide)).2 with
  | ⟨k, hk, hstarts, _, hskip⟩ => ⟨k, hk, hstarts, hskip rfl⟩

end SmartYoga
